import Mathlib

/-!
# Hybrid A* coarse trajectory generator

A shallow embedding of `HybridAStar` (hybrid_a_star.cc) and of the parts of `Node3d`
(node3d.h) it relies on, followed by the decoder of the ultrasonic sensor frame 0x508
(ultr_sensor_2_508.cc).

Conventions of the embedding.

* `double` values are elements of a linearly ordered field `α` with a floor function
  (`ℚ` for evaluation).  The transcendental functions of `<cmath>` and of
  `modules/common/math` are the fields of `MathFns`; no property of them is assumed.
* `std::vector<T>` is `List T`; `size_t` is `Nat`, reduced modulo `2 ^ 64` where the
  source subtracts sizes.
* A function whose execution can leave defined behaviour (an out-of-range element
  access, `back()` or `front()` of an empty vector, a failed `CHECK`) or run a loop
  without end returns an `Option`; `none` stands for such an execution.  A C++ `return false` is the
  Boolean component `false` of the returned value.
* Collaborators whose code is outside the sources (Reeds-Shepp generator, grid
  heuristic, clock, piecewise-jerk solver, footprint overlap test, grid index) are
  the fields of `Collab`.
* A `uint8_t` is a natural number below 256; `Byte::get_byte`, whose code is outside
  the sources, is a parameter of the decoder.
-/

namespace apollo
namespace planning

/-- The value `std::numeric_limits<size_t>::max() + 1`. -/
def sizeModulus : Nat := 2 ^ 64

/-- Upper bound of `std::vector<double>::max_size()` on a 64-bit target. -/
def vectorMaxSize : Nat := (2 ^ 63 - 1) / 8

/-- Subtraction of two `size_t` values. -/
def sizeSub (a b : Nat) : Nat := (a % sizeModulus + sizeModulus - b % sizeModulus) % sizeModulus

/-- The type `common::math::Vec2d`. -/
structure Vec2d (α : Type) where
  x_ : α
  y_ : α
deriving DecidableEq, Repr

/-- The type `common::math::LineSegment2d`, reduced to its two end points. -/
structure LineSegment2d (α : Type) where
  start_ : Vec2d α
  end_ : Vec2d α
deriving DecidableEq, Repr

/-- The vector `XYbounds` of `Plan`, in the order `[x_min, x_max, y_min, y_max]`
(entries 0 to 3). -/
structure XYbounds (α : Type) where
  b0 : α
  b1 : α
  b2 : α
  b3 : α
deriving DecidableEq, Repr

/-- The struct `HybridAStartResult`: six parallel sequences and `accumulated_s`.
A default-constructed value has every vector empty. -/
structure HybridAStartResult (α : Type) where
  x : List α := []
  y : List α := []
  phi : List α := []
  v : List α := []
  a : List α := []
  steer : List α := []
  accumulated_s : List α := []
deriving DecidableEq, Repr

/-- The struct `ReedSheppPath`, reduced to the members the planner reads. -/
structure ReedSheppPath (α : Type) where
  x : List α
  y : List α
  phi : List α
  cost : α
deriving DecidableEq, Repr

/-- The class `Node3d` (node3d.h); `pre_node_` is the shared pointer to the
predecessor, `none` for `nullptr`. -/
inductive Node3d (α : Type) where
  | mk (x_ y_ phi_ : α) (step_size_ : Nat)
      (traversed_x_ traversed_y_ traversed_phi_ : List α)
      (index_ : String) (traj_cost_ heuristic_cost_ : α)
      (pre_node_ : Option (Node3d α)) (steering_ : α) (direction_ : Bool) : Node3d α

namespace Node3d

variable {α : Type}

/-- Getter `GetX`. -/
def GetX : Node3d α → α
  | mk x _ _ _ _ _ _ _ _ _ _ _ _ => x

/-- Getter `GetY`. -/
def GetY : Node3d α → α
  | mk _ y _ _ _ _ _ _ _ _ _ _ _ => y

/-- Getter `GetPhi`. -/
def GetPhi : Node3d α → α
  | mk _ _ p _ _ _ _ _ _ _ _ _ _ => p

/-- Getter `GetStepSize`. -/
def GetStepSize : Node3d α → Nat
  | mk _ _ _ s _ _ _ _ _ _ _ _ _ => s

/-- Getter `GetXs`. -/
def GetXs : Node3d α → List α
  | mk _ _ _ _ xs _ _ _ _ _ _ _ _ => xs

/-- Getter `GetYs`. -/
def GetYs : Node3d α → List α
  | mk _ _ _ _ _ ys _ _ _ _ _ _ _ => ys

/-- Getter `GetPhis`. -/
def GetPhis : Node3d α → List α
  | mk _ _ _ _ _ _ ps _ _ _ _ _ _ => ps

/-- Getter `GetIndex`. -/
def GetIndex : Node3d α → String
  | mk _ _ _ _ _ _ _ i _ _ _ _ _ => i

/-- Getter `GetTrajCost`. -/
def GetTrajCost : Node3d α → α
  | mk _ _ _ _ _ _ _ _ g _ _ _ _ => g

/-- Getter `GetHeuCost`. -/
def GetHeuCost : Node3d α → α
  | mk _ _ _ _ _ _ _ _ _ h _ _ _ => h

/-- Getter `GetCost`: `traj_cost_ + heuristic_cost_`. -/
def GetCost [Add α] (n : Node3d α) : α := n.GetTrajCost + n.GetHeuCost

/-- Getter `GetPreNode`. -/
def GetPreNode : Node3d α → Option (Node3d α)
  | mk _ _ _ _ _ _ _ _ _ _ p _ _ => p

/-- Getter `GetSteer`. -/
def GetSteer : Node3d α → α
  | mk _ _ _ _ _ _ _ _ _ _ _ s _ => s

/-- Getter `GetDirec`. -/
def GetDirec : Node3d α → Bool
  | mk _ _ _ _ _ _ _ _ _ _ _ _ d => d

/-- Setter `SetPre`. -/
def SetPre : Node3d α → Option (Node3d α) → Node3d α
  | mk x y p s xs ys ps i g h _ st d, pre => mk x y p s xs ys ps i g h pre st d

/-- Setter `SetDirec`. -/
def SetDirec : Node3d α → Bool → Node3d α
  | mk x y p s xs ys ps i g h pre st _, d => mk x y p s xs ys ps i g h pre st d

/-- Setter `SetTrajCost`. -/
def SetTrajCost : Node3d α → α → Node3d α
  | mk x y p s xs ys ps i _ h pre st d, g => mk x y p s xs ys ps i g h pre st d

/-- Setter `SetHeuCost`. -/
def SetHeuCost : Node3d α → α → Node3d α
  | mk x y p s xs ys ps i g _ pre st d, h => mk x y p s xs ys ps i g h pre st d

/-- Setter `SetSteer`. -/
def SetSteer : Node3d α → α → Node3d α
  | mk x y p s xs ys ps i g h pre _ d, st => mk x y p s xs ys ps i g h pre st d

/-- Modelled from the spec: the constructor `Node3d(traversed_x, traversed_y,
traversed_phi, XYbounds, open_space_conf)`, whose body (node3d.cc) is not among the
sources.  The terminal pose is the last traversed pose, `step_size_` is the number of
traversed poses, the grid index is a function `gridIndex` of the terminal pose, and the
remaining members keep their in-class initialisers of node3d.h.  Taking `back()` of an
empty vector is outside defined behaviour. -/
def ofTraversed [Zero α] (gridIndex : α → α → α → String)
    (traversed_x traversed_y traversed_phi : List α) : Option (Node3d α) := do
  let x ← traversed_x.getLast?
  let y ← traversed_y.getLast?
  let phi ← traversed_phi.getLast?
  some (mk x y phi traversed_x.length traversed_x traversed_y traversed_phi
    (gridIndex x y phi) 0 0 none 0 true)

end Node3d

/-- The functions of `<cmath>` and `modules/common/math` used by the planner. -/
structure MathFns (α : Type) where
  /-- The function `std::cos`. -/
  cos : α → α
  /-- The function `std::sin`. -/
  sin : α → α
  /-- The function `std::tan`. -/
  tan : α → α
  /-- The function `std::atan`. -/
  atan : α → α
  /-- The function `std::sqrt`. -/
  sqrt : α → α
  /-- The function `common::math::NormalizeAngle`. -/
  NormalizeAngle : α → α
  /-- The method `Vec2d::Angle` of the vector with the given two components. -/
  Angle : α → α → α
  /-- The constant `M_PI_2`. -/
  pi_2 : α

/-- The data members of `HybridAStar` that the constructor reads from the
configuration, the vehicle parameters and the command-line flags. -/
structure Config (α : Type) where
  next_node_num_ : Nat
  max_steer_angle_ : α
  step_size_ : α
  xy_grid_resolution_ : α
  arc_length_ : α
  delta_t_ : α
  traj_forward_penalty_ : α
  traj_back_penalty_ : α
  traj_gear_switch_penalty_ : α
  traj_steer_penalty_ : α
  traj_steer_change_penalty_ : α
  max_forward_v_ : α
  max_reverse_v_ : α
  max_forward_acc_ : α
  max_reverse_acc_ : α
  wheel_base : α
  max_explored_num : Nat
  desired_explored_num : Nat
  FLAGS_use_s_curve_speed_smooth : Bool

/-- The collaborators of the planner whose code is outside the sources. -/
structure Collab (α : Type) where
  /-- The test `Node3d::GetBoundingBox(vehicle_param_, x, y, phi).HasOverlap(seg)`. -/
  HasOverlap : α → α → α → LineSegment2d α → Bool
  /-- The string index that the `Node3d` constructor computes from the terminal pose. -/
  gridIndex : α → α → α → String
  /-- The call `reed_shepp_generator_->ShortestRSP(current, end_node_, path)` under the
  flag `reeds_sheep_last_straight_`: `none` when it returns false. -/
  ShortestRSP : Bool → Node3d α → Node3d α → Option (ReedSheppPath α)
  /-- The value `CheckDpMap(x, y)` of the map that
  `GenerateDpMap(ex, ey, XYbounds_, obstacles_linesegments_vec_)` built. -/
  CheckDpMap : α → α → XYbounds α → List (List (LineSegment2d α)) → α → α → α
  /-- Whether `Clock::NowInSeconds() - astar_start_time` exceeds
  `astar_max_search_time` at the test of the iteration that brought
  `explored_node_num` to the given value. -/
  timeExceeded : Nat → Bool
  /-- The part of `GenerateSCurveSpeedAcceleration` after the knot-count check
  (piecewise-jerk problem, resampling along the path, steering): from the gear, the
  number of knots and the segment with its `accumulated_s`, the returned status and
  the segment as left behind. -/
  sCurveSolve : Bool → Nat → HybridAStartResult α → Option (Bool × HybridAStartResult α)

/-- The loop `for (size_t i = lo; i < lo + n; ++i) s = f(s, i)`, stopped by the first
body that leaves defined behaviour. -/
def forRange {σ : Type} (f : σ → Nat → Option σ) : Nat → Nat → σ → Option σ
  | _, 0, s => some s
  | lo, n + 1, s => (f s lo).bind (forRange f (lo + 1) n)

namespace HybridAStar

variable {α : Type} [LinearOrderedField α] [FloorRing α]

/-- The data members of `HybridAStar` that `Plan` writes.  The two
`std::unordered_set<std::string>` are lists read through membership only; `open_pq_` is
the list of the queued pairs in insertion order. -/
structure State (α : Type) where
  open_set_ : List String
  close_set_ : List String
  open_pq_ : List (Node3d α × α)
  final_node_ : Option (Node3d α)
  obstacles_linesegments_vec_ : List (List (LineSegment2d α))
  XYbounds_ : XYbounds α
  start_node_ : Option (Node3d α)
  end_node_ : Option (Node3d α)
  reeds_sheep_last_straight_ : Bool

/-- The `for` loop of `ValidityCheck` from index `i` over `n` indices: `some false`
at the first pose out of bounds or in collision, `some true` when the indices are
exhausted. -/
def ValidityCheck.scan (K : Collab α) (obstacles : List (List (LineSegment2d α)))
    (b : XYbounds α) (traversed_x traversed_y traversed_phi : List α) :
    Nat → Nat → Option Bool
  | _, 0 => some true
  | i, n + 1 => do
    let x ← traversed_x[i]?
    if x > b.b1 ∨ x < b.b0 then some false else do
    let y ← traversed_y[i]?
    if y > b.b3 ∨ y < b.b2 then some false else do
    let phi ← traversed_phi[i]?
    if obstacles.any (fun segs => segs.any (fun seg => K.HasOverlap x y phi seg)) then
      some false
    else ValidityCheck.scan K obstacles b traversed_x traversed_y traversed_phi (i + 1) n

/-- The first index that `ValidityCheck` scans. -/
def ValidityCheck.check_start_index (node_step_size : Nat) : Nat :=
  if node_step_size = 1 then 0 else 1

/-- The method `HybridAStar::ValidityCheck`.  `CHECK_GT(node->GetStepSize(), 0U)`
aborts the process on a node without poses. -/
def ValidityCheck (K : Collab α) (obstacles : List (List (LineSegment2d α)))
    (b : XYbounds α) (node : Node3d α) : Option Bool :=
  if node.GetStepSize = 0 then none
  else if obstacles.isEmpty then some true
  else
    let node_step_size := node.GetStepSize
    let check_start_index := ValidityCheck.check_start_index node_step_size
    ValidityCheck.scan K obstacles b node.GetXs node.GetYs node.GetPhis
      check_start_index (node_step_size - check_start_index)

/-- The `while` loop of `GetResult`, from `current_node` with the vectors
`hybrid_a_x`, `hybrid_a_y`, `hybrid_a_phi` built so far.  The result `none` stands for
a `return false` inside the loop; otherwise the node without predecessor that ended
the loop and the three vectors. -/
def GetResult.backtrack :
    Node3d α → List α → List α → List α → Option (Node3d α × List α × List α × List α)
  | Node3d.mk x_ y_ phi_ s xs ys ps i g h none st d, hx, hy, hphi =>
    some (Node3d.mk x_ y_ phi_ s xs ys ps i g h none st d, hx, hy, hphi)
  | Node3d.mk _ _ _ _ xs ys ps _ _ _ (some pre) _ _, hx, hy, hphi =>
    if xs.isEmpty ∨ ys.isEmpty ∨ ps.isEmpty then none
    else if xs.length ≠ ys.length ∨ xs.length ≠ ps.length then none
    else
      GetResult.backtrack pre (hx ++ xs.reverse.dropLast) (hy ++ ys.reverse.dropLast)
        (hphi ++ ps.reverse.dropLast)

/-- The path that `GetResult` writes to `result->x`, `result->y`, `result->phi`
before it calls `GetTemporalProfile`; `none` for a `return false` inside the loop. -/
def GetResult.assemble (final_node : Node3d α) : Option (List α × List α × List α) :=
  match GetResult.backtrack final_node [] [] [] with
  | none => none
  | some (current_node, hx, hy, hphi) =>
    some ((hx ++ [current_node.GetX]).reverse, (hy ++ [current_node.GetY]).reverse,
      (hphi ++ [current_node.GetPhi]).reverse)

/-- The body of the velocity loop of `GenerateSpeedAcceleration`. -/
def GenerateSpeedAcceleration.speed (cfg : Config α) (M : MathFns α)
    (r : HybridAStartResult α) (i : Nat) : Option (HybridAStartResult α) := do
  let xn ← r.x[i + 1]?
  let xi ← r.x[i]?
  let xp ← r.x[i - 1]?
  let yn ← r.y[i + 1]?
  let yi ← r.y[i]?
  let yp ← r.y[i - 1]?
  let phii ← r.phi[i]?
  let discrete_v :=
    (((xn - xi) / cfg.delta_t_) * M.cos phii + ((xi - xp) / cfg.delta_t_) * M.cos phii) / 2
    + (((yn - yi) / cfg.delta_t_) * M.sin phii + ((yi - yp) / cfg.delta_t_) * M.sin phii) / 2
  some { r with v := r.v ++ [discrete_v] }

/-- The body of the acceleration loop of `GenerateSpeedAcceleration`. -/
def GenerateSpeedAcceleration.acceleration (cfg : Config α)
    (r : HybridAStartResult α) (i : Nat) : Option (HybridAStartResult α) := do
  let vn ← r.v[i + 1]?
  let vi ← r.v[i]?
  let discrete_a := (vn - vi) / cfg.delta_t_
  some { r with a := r.a ++ [discrete_a] }

/-- The body of the steering loop of `GenerateSpeedAcceleration`. -/
def GenerateSpeedAcceleration.steering (cfg : Config α) (M : MathFns α)
    (r : HybridAStartResult α) (i : Nat) : Option (HybridAStartResult α) := do
  let phin ← r.phi[i + 1]?
  let phii ← r.phi[i]?
  let discrete_steer := (phin - phii) * cfg.wheel_base / cfg.step_size_
  let vi : α ← r.v[i]?
  some { r with steer := r.steer ++
    [if vi > 0 then M.atan discrete_steer else M.atan (-discrete_steer)] }

/-- The method `HybridAStar::GenerateSpeedAcceleration`. -/
def GenerateSpeedAcceleration (cfg : Config α) (M : MathFns α)
    (result : HybridAStartResult α) : Option (Bool × HybridAStartResult α) :=
  if result.x.length < 2 ∨ result.y.length < 2 ∨ result.phi.length < 2 then
    some (false, result)
  else do
    let x_size := result.x.length
    let r1 := { result with v := result.v ++ [0] }
    let r2 ← forRange (GenerateSpeedAcceleration.speed cfg M) 1 (x_size - 2) r1
    let r3 := { r2 with v := r2.v ++ [0] }
    let r4 ← forRange (GenerateSpeedAcceleration.acceleration cfg) 0 (x_size - 1) r3
    let r5 ← forRange (GenerateSpeedAcceleration.steering cfg M) 0 (x_size - 1) r4
    some (true, r5)

/-- The loop of `GenerateSCurveSpeedAcceleration` that accumulates the Euclidean
distances: the state is `(accumulated_s, last_x, last_y, result->accumulated_s)`. -/
def GenerateSCurveSpeedAcceleration.accumulate (M : MathFns α) (x y : List α)
    (st : α × α × α × List α) (i : Nat) : Option (α × α × α × List α) := do
  let xi ← x[i]?
  let yi ← y[i]?
  let x_diff := xi - st.2.1
  let y_diff := yi - st.2.2.1
  let accumulated_s := st.1 + M.sqrt (x_diff * x_diff + y_diff * y_diff)
  some (accumulated_s, xi, yi, st.2.2.2 ++ [accumulated_s])

/-- The initial gear of `GenerateSCurveSpeedAcceleration`. -/
def GenerateSCurveSpeedAcceleration.gear (M : MathFns α) (x0 y0 x1 y1 init_heading : α) :
    Bool :=
  decide (|M.NormalizeAngle (init_heading - M.Angle (x1 - x0) (y1 - y0))| < M.pi_2)

/-- The time horizon `total_t` of `GenerateSCurveSpeedAcceleration`. -/
def GenerateSCurveSpeedAcceleration.total_t (cfg : Config α) (gear : Bool)
    (path_length : α) : α :=
  max (if gear then
        3 / 2 * (cfg.max_forward_v_ * cfg.max_forward_v_ + path_length * cfg.max_forward_acc_)
          / (cfg.max_forward_acc_ * cfg.max_forward_v_)
      else
        3 / 2 * (cfg.max_reverse_v_ * cfg.max_reverse_v_ + path_length * cfg.max_reverse_acc_)
          / (cfg.max_reverse_acc_ * cfg.max_reverse_v_))
    10

/-- The part of `GenerateSCurveSpeedAcceleration` from the knot-count check on, the
piecewise-jerk problem and the resampling being the collaborator `sCurveSolve`. -/
def GenerateSCurveSpeedAcceleration.knots (cfg : Config α) (K : Collab α) (gear : Bool)
    (total_t : α) (result : HybridAStartResult α) : Option (Bool × HybridAStartResult α) :=
  if total_t + cfg.delta_t_ ≥ cfg.delta_t_ * ((sizeModulus - 1 : Nat) : α) then
    some (false, result)
  else
    let num_of_knots := ⌊total_t / cfg.delta_t_⌋₊ + 1
    K.sCurveSolve gear num_of_knots result

/-- The per-point arc length that `GenerateSCurveSpeedAcceleration` stores in
`result->accumulated_s`. -/
def GenerateSCurveSpeedAcceleration.arcLength (M : MathFns α) (x y : List α) :
    Option (List α) := do
  let path_points_size := x.length
  let last_x ← x.head?
  let last_y ← y.head?
  let st ← forRange (GenerateSCurveSpeedAcceleration.accumulate M x y) 0 path_points_size
    (0, last_x, last_y, [])
  some st.2.2.2

/-- The method `HybridAStar::GenerateSCurveSpeedAcceleration`. -/
def GenerateSCurveSpeedAcceleration (cfg : Config α) (M : MathFns α) (K : Collab α)
    (result : HybridAStartResult α) : Option (Bool × HybridAStartResult α) :=
  if result.x.length < 2 ∨ result.y.length < 2 ∨ result.phi.length < 2 then
    some (false, result)
  else if result.x.length ≠ result.y.length ∨ result.x.length ≠ result.phi.length then
    some (false, result)
  else do
    let init_heading ← result.phi.head?
    let x1 ← result.x[1]?
    let x0 ← result.x[0]?
    let y1 ← result.y[1]?
    let y0 ← result.y[0]?
    let gear := GenerateSCurveSpeedAcceleration.gear M x0 y0 x1 y1 init_heading
    let s ← GenerateSCurveSpeedAcceleration.arcLength M result.x result.y
    let result := { result with accumulated_s := s }
    let path_length ← result.accumulated_s.getLast?
    let total_t := GenerateSCurveSpeedAcceleration.total_t cfg gear path_length
    GenerateSCurveSpeedAcceleration.knots cfg K gear total_t result

/-- The gear test of `TrajectoryPartition` for the step from `(x0, y0)` with heading
`heading_angle` to `(x1, y1)`. -/
def TrajectoryPartition.gear (M : MathFns α) (x0 y0 x1 y1 heading_angle : α) : Bool :=
  let tracking_angle := M.Angle (x1 - x0) (y1 - y0)
  decide (|M.NormalizeAngle (tracking_angle - heading_angle)| < M.pi_2)

/-- The body of the partitioning loop of `TrajectoryPartition`: the state is the
closed segments, `*current_traj` and `current_gear`. -/
def TrajectoryPartition.step (M : MathFns α) (x y phi : List α)
    (st : List (HybridAStartResult α) × HybridAStartResult α × Bool) (i : Nat) :
    Option (List (HybridAStartResult α) × HybridAStartResult α × Bool) := do
  let heading_angle ← phi[i]?
  let xn ← x[i + 1]?
  let xi ← x[i]?
  let yn ← y[i + 1]?
  let yi ← y[i]?
  let gear := TrajectoryPartition.gear M xi yi xn yn heading_angle
  if gear ≠ st.2.2 then
    let closed : HybridAStartResult α :=
      { st.2.1 with x := st.2.1.x ++ [xi], y := st.2.1.y ++ [yi], phi := st.2.1.phi ++ [heading_angle] }
    some (st.1 ++ [closed], { x := [xi], y := [yi], phi := [heading_angle] }, gear)
  else
    some (st.1,
      { st.2.1 with x := st.2.1.x ++ [xi], y := st.2.1.y ++ [yi], phi := st.2.1.phi ++ [heading_angle] },
      st.2.2)

/-- The segments of `TrajectoryPartition` before their speed profile is computed.
The loop bound `horizon - 1` is reached only after `x[1]` was read. -/
def TrajectoryPartition.segments (M : MathFns α) (x y phi : List α) :
    Option (List (HybridAStartResult α)) := do
  let horizon := x.length
  let heading_angle ← phi.head?
  let x1 ← x[1]?
  let x0 ← x[0]?
  let y1 ← y[1]?
  let y0 ← y[0]?
  let current_gear := TrajectoryPartition.gear M x0 y0 x1 y1 heading_angle
  let st ← forRange (TrajectoryPartition.step M x y phi) 0 (horizon - 1)
    ([], {}, current_gear)
  let xb ← x.getLast?
  let yb ← y.getLast?
  let phib ← phi.getLast?
  some (st.1 ++
    [{ st.2.1 with x := st.2.1.x ++ [xb], y := st.2.1.y ++ [yb], phi := st.2.1.phi ++ [phib] }])

/-- The loop of `TrajectoryPartition` that computes the profile of every segment:
`some none` when a profile returned false. -/
def TrajectoryPartition.profiles
    (profile : HybridAStartResult α → Option (Bool × HybridAStartResult α)) :
    List (HybridAStartResult α) → Option (Option (List (HybridAStartResult α)))
  | [] => some (some [])
  | r :: rest => do
    let p ← profile r
    if p.1 = false then some none
    else do
      let ps ← TrajectoryPartition.profiles profile rest
      some (ps.map (fun l => p.2 :: l))

/-- The method `HybridAStar::TrajectoryPartition`: `some none` when it returns false,
`some (some segments)` when it returns true with `*partitioned_result`. -/
def TrajectoryPartition (cfg : Config α) (M : MathFns α) (K : Collab α)
    (result : HybridAStartResult α) : Option (Option (List (HybridAStartResult α))) :=
  if result.x.length ≠ result.y.length ∨ result.x.length ≠ result.phi.length then some none
  else do
    let segs ← TrajectoryPartition.segments M result.x result.y result.phi
    TrajectoryPartition.profiles
      (if cfg.FLAGS_use_s_curve_speed_smooth then GenerateSCurveSpeedAcceleration cfg M K
       else GenerateSpeedAcceleration cfg M) segs

/-- The body of the stitching loop of `GetTemporalProfile`; `end() - 1` of an empty
vector is outside defined behaviour. -/
def GetTemporalProfile.stitch (stitched_result : HybridAStartResult α)
    (result : HybridAStartResult α) : Option (HybridAStartResult α) :=
  if result.x.isEmpty ∨ result.y.isEmpty ∨ result.phi.isEmpty ∨ result.v.isEmpty then none
  else
    some { stitched_result with
      x := stitched_result.x ++ result.x.dropLast
      y := stitched_result.y ++ result.y.dropLast
      phi := stitched_result.phi ++ result.phi.dropLast
      v := stitched_result.v ++ result.v.dropLast
      a := stitched_result.a ++ result.a
      steer := stitched_result.steer ++ result.steer }

/-- The part of `GetTemporalProfile` after `TrajectoryPartition` returned true. -/
def GetTemporalProfile.stitchAll (partitioned_results : List (HybridAStartResult α)) :
    Option (HybridAStartResult α) := do
  let stitched_result ← partitioned_results.foldlM GetTemporalProfile.stitch {}
  let last ← partitioned_results.getLast?
  let xb ← last.x.getLast?
  let yb ← last.y.getLast?
  let phib ← last.phi.getLast?
  let vb ← last.v.getLast?
  some { stitched_result with
    x := stitched_result.x ++ [xb]
    y := stitched_result.y ++ [yb]
    phi := stitched_result.phi ++ [phib]
    v := stitched_result.v ++ [vb] }

/-- The method `HybridAStar::GetTemporalProfile`: the returned status and `*result`. -/
def GetTemporalProfile (cfg : Config α) (M : MathFns α) (K : Collab α)
    (result : HybridAStartResult α) : Option (Bool × HybridAStartResult α) :=
  match TrajectoryPartition cfg M K result with
  | none => none
  | some none => some (false, result)
  | some (some partitioned_results) =>
    (GetTemporalProfile.stitchAll partitioned_results).map (fun r => (true, r))

/-- The method `HybridAStar::GetResult` for the given `final_node_`: the returned
status and `*result`.  The log statements at the top read `back()` and `front()` of the
final node's traversed vectors. -/
def GetResult (cfg : Config α) (M : MathFns α) (K : Collab α)
    (final_node_ : Option (Node3d α)) (result : HybridAStartResult α) :
    Option (Bool × HybridAStartResult α) := do
  let current_node ← final_node_
  if current_node.GetXs.isEmpty ∨ current_node.GetYs.isEmpty then none
  else
    match GetResult.assemble current_node with
    | none => some (false, result)
    | some (hybrid_a_x, hybrid_a_y, hybrid_a_phi) => do
      let result := { result with x := hybrid_a_x, y := hybrid_a_y, phi := hybrid_a_phi }
      let p ← GetTemporalProfile cfg M K result
      if p.1 = false then some (false, p.2)
      else
        let result := p.2
        if result.x.length ≠ result.y.length ∨ result.x.length ≠ result.v.length
            ∨ result.x.length ≠ result.phi.length then
          some (false, result)
        else if result.a.length ≠ result.steer.length
            ∨ sizeSub result.x.length result.a.length ≠ 1 then
          some (false, result)
        else some (true, result)

/-- The method `HybridAStar::RSPCheck`. -/
def RSPCheck (K : Collab α) (self : State α) (reeds_shepp_to_end : ReedSheppPath α) :
    Option Bool := do
  let node ← Node3d.ofTraversed K.gridIndex reeds_shepp_to_end.x reeds_shepp_to_end.y
    reeds_shepp_to_end.phi
  ValidityCheck K self.obstacles_linesegments_vec_ self.XYbounds_ node

/-- The method `HybridAStar::LoadRSPinCS`. -/
def LoadRSPinCS (K : Collab α) (reeds_shepp_to_end : ReedSheppPath α)
    (current_node : Node3d α) : Option (Node3d α) := do
  let end_node ← Node3d.ofTraversed K.gridIndex reeds_shepp_to_end.x reeds_shepp_to_end.y
    reeds_shepp_to_end.phi
  let end_node := end_node.SetPre (some current_node)
  some (end_node.SetTrajCost (current_node.GetTrajCost + reeds_shepp_to_end.cost))

/-- The method `HybridAStar::AnalyticExpansion`: `some none` when it returns false,
`some (some n)` when it returns true with `*candidate_final_node = n`. -/
def AnalyticExpansion (K : Collab α) (self : State α) (current_node : Node3d α) :
    Option (Option (Node3d α)) := do
  let end_node ← self.end_node_
  match K.ShortestRSP self.reeds_sheep_last_straight_ current_node end_node with
  | none => some none
  | some reeds_shepp_to_check => do
    let ok ← RSPCheck K self reeds_shepp_to_check
    if ok = false then some none
    else do
      let n ← LoadRSPinCS K reeds_shepp_to_check current_node
      some (some n)

/-- The steering angle and the signed travel distance of the motion primitive with
the given index. -/
def Next_node_generator.primitive (cfg : Config α) (next_node_index : Nat) : α × α :=
  if (next_node_index : α) < (cfg.next_node_num_ : α) / 2 then
    (-cfg.max_steer_angle_
      + (2 * cfg.max_steer_angle_ / ((cfg.next_node_num_ : α) / 2 - 1)) * (next_node_index : α),
     cfg.step_size_)
  else
    let index := next_node_index - cfg.next_node_num_ / 2
    (-cfg.max_steer_angle_
      + (2 * cfg.max_steer_angle_ / ((cfg.next_node_num_ : α) / 2 - 1)) * (index : α),
     -cfg.step_size_)

/-- The body of the integration loop of `Next_node_generator`: the state is
`(last_x, last_y, last_phi)` and the three intermediate vectors. -/
def Next_node_generator.substep (cfg : Config α) (M : MathFns α)
    (steering traveled_distance : α) (st : (α × α × α) × (List α × List α × List α)) :
    (α × α × α) × (List α × List α × List α) :=
  let last_x := st.1.1
  let last_y := st.1.2.1
  let last_phi := st.1.2.2
  let next_phi := last_phi + traveled_distance / cfg.wheel_base * M.tan steering
  let next_x := last_x + traveled_distance * M.cos ((last_phi + next_phi) / 2)
  let next_y := last_y + traveled_distance * M.sin ((last_phi + next_phi) / 2)
  ((next_x, next_y, next_phi),
   (st.2.1 ++ [next_x], st.2.2.1 ++ [next_y], st.2.2.2 ++ [M.NormalizeAngle next_phi]))

/-- The number of passes of the loop `for (size_t i = 0; i < arc_length_ / step_size_;
++i)`: the least natural number that is not below the quotient.  For `step_size_ = 0`
and a positive `arc_length_` the quotient of the two doubles is `+inf`, the condition
holds for every `i` and the loop does not end: `none`. -/
def Next_node_generator.steps (cfg : Config α) : Option Nat :=
  if cfg.step_size_ = 0 ∧ 0 < cfg.arc_length_ then none
  else some ⌈cfg.arc_length_ / cfg.step_size_⌉₊

/-- The state of the integration loop of `Next_node_generator` after `k` passes from
the pose `(x, y, phi)`. -/
def Next_node_generator.integrate (cfg : Config α) (M : MathFns α)
    (steering traveled_distance : α) (k : Nat) (x y phi : α) :
    (α × α × α) × (List α × List α × List α) :=
  (Next_node_generator.substep cfg M steering traveled_distance)^[k]
    ((x, y, phi), ([x], [y], [phi]))

/-- The intermediate vectors of `Next_node_generator` after the integration loop. -/
def Next_node_generator.intermediate (cfg : Config α) (M : MathFns α)
    (current_node : Node3d α) (next_node_index : Nat) :
    Option (List α × List α × List α) := do
  let pr := Next_node_generator.primitive cfg next_node_index
  let last_x := current_node.GetX
  let last_y := current_node.GetY
  let last_phi := current_node.GetPhi
  let k ← Next_node_generator.steps cfg
  some (Next_node_generator.integrate cfg M pr.1 pr.2 k last_x last_y last_phi).2

/-- The method `HybridAStar::Next_node_generator`: `some none` for `nullptr`. -/
def Next_node_generator (cfg : Config α) (M : MathFns α) (K : Collab α) (self : State α)
    (current_node : Node3d α) (next_node_index : Nat) : Option (Option (Node3d α)) := do
  let pr := Next_node_generator.primitive cfg next_node_index
  let im ← Next_node_generator.intermediate cfg M current_node next_node_index
  let xb ← im.1.getLast?
  let yb ← im.2.1.getLast?
  if xb > self.XYbounds_.b1 ∨ xb < self.XYbounds_.b0
      ∨ yb > self.XYbounds_.b3 ∨ yb < self.XYbounds_.b2 then
    some none
  else do
    let next_node ← Node3d.ofTraversed K.gridIndex im.1 im.2.1 im.2.2
    let next_node := next_node.SetPre (some current_node)
    let next_node := next_node.SetDirec (decide (pr.2 > 0))
    some (some (next_node.SetSteer pr.1))

/-- The method `HybridAStar::TrajCost`. -/
def TrajCost (cfg : Config α) (current_node next_node : Node3d α) : α :=
  let piecewise_cost : α :=
    if next_node.GetDirec then
      0 + ((sizeSub next_node.GetStepSize 1 : Nat) : α) * cfg.step_size_
        * cfg.traj_forward_penalty_
    else
      0 + ((sizeSub next_node.GetStepSize 1 : Nat) : α) * cfg.step_size_
        * cfg.traj_back_penalty_
  let piecewise_cost :=
    if current_node.GetDirec ≠ next_node.GetDirec then
      piecewise_cost + cfg.traj_gear_switch_penalty_
    else piecewise_cost
  let piecewise_cost := piecewise_cost + cfg.traj_steer_penalty_ * |next_node.GetSteer|
  piecewise_cost
    + cfg.traj_steer_change_penalty_ * |next_node.GetSteer - current_node.GetSteer|

/-- The method `HybridAStar::HoloObstacleHeuristic`, for the map generated at the end
position `(ex, ey)`. -/
def HoloObstacleHeuristic (K : Collab α) (self : State α) (ex ey : α)
    (next_node : Node3d α) : α :=
  K.CheckDpMap ex ey self.XYbounds_ self.obstacles_linesegments_vec_
    next_node.GetX next_node.GetY

/-- The method `HybridAStar::CalculateNodeCost`: the node `next_node` after the call. -/
def CalculateNodeCost (cfg : Config α) (K : Collab α) (self : State α) (ex ey : α)
    (current_node next_node : Node3d α) : Node3d α :=
  let next_node :=
    next_node.SetTrajCost (current_node.GetTrajCost + TrajCost cfg current_node next_node)
  let optimal_path_cost : α := 0 + HoloObstacleHeuristic K self ex ey next_node
  next_node.SetHeuCost optimal_path_cost

/-- The operations `open_pq_.top()` and `open_pq_.pop()`: a pair of least cost (the
first inserted among equal costs) and the queue without it; `none` on an empty
queue. -/
def pqPop : List (Node3d α × α) → Option ((Node3d α × α) × List (Node3d α × α))
  | [] => none
  | p :: rest =>
    match pqPop rest with
    | none => some (p, [])
    | some (m, rest') => if p.2 ≤ m.2 then some (p, rest) else some (m, p :: rest')

/-- The line segments that `Plan` builds for one obstacle: the loop bound is the
`size_t` value `vertices_num - 1`. -/
def Plan.linesegments (obstacle_vertices : List (Vec2d α)) :
    Option (List (LineSegment2d α)) :=
  let vertices_num := obstacle_vertices.length
  forRange (fun (obstacle_linesegments : List (LineSegment2d α)) i => do
      let p ← obstacle_vertices[i]?
      let q ← obstacle_vertices[i + 1]?
      some (obstacle_linesegments ++ [LineSegment2d.mk p q]))
    0 (sizeSub vertices_num 1) []

/-- The local variables of the search loop of `Plan` together with the object. -/
structure Plan.Loop (α : Type) where
  self : State α
  explored_node_num : Nat
  available_result_num : Nat

/-- The body of the child loop of `Plan` for child index `i`: the state is `open_pq_`
and `temp_set`. -/
def Plan.child (cfg : Config α) (M : MathFns α) (K : Collab α) (self : State α)
    (ex ey : α) (current_node : Node3d α)
    (st : List (Node3d α × α) × List String) (i : Nat) :
    Option (List (Node3d α × α) × List String) := do
  let next ← Next_node_generator cfg M K self current_node i
  match next with
  | none => some st
  | some next_node =>
    if next_node.GetIndex ∈ self.close_set_ then some st
    else do
      let ok ← ValidityCheck K self.obstacles_linesegments_vec_ self.XYbounds_ next_node
      if ok = false then some st
      else if next_node.GetIndex ∉ self.open_set_ then
        let next_node := CalculateNodeCost cfg K self ex ey current_node next_node
        some (st.1 ++ [(next_node, next_node.GetCost)], st.2 ++ [next_node.GetIndex])
      else some st

/-- The condition of the search loop of `Plan`. -/
def Plan.continues (cfg : Config α) (l : Plan.Loop α) : Bool :=
  decide (¬ l.self.open_pq_.isEmpty ∧ l.self.open_pq_.length < 200000
    ∧ l.available_result_num < min cfg.desired_explored_num cfg.max_explored_num
    ∧ l.explored_node_num < cfg.max_explored_num)

/-- The update of `final_node_` after `AnalyticExpansion` in the search loop of
`Plan`: a candidate replaces the retained node when there is none or when its
trajectory cost is strictly smaller. -/
def Plan.retain (final_node_ candidate : Option (Node3d α)) : Option (Node3d α) :=
  match candidate with
  | none => final_node_
  | some final_node =>
    match final_node_ with
    | none => some final_node
    | some best =>
      if best.GetTrajCost > final_node.GetTrajCost then some final_node else some best

/-- One pass of the search loop of `Plan`: the state after the pass and whether the
pass ended in `break`. -/
def Plan.iteration (cfg : Config α) (M : MathFns α) (K : Collab α) (ex ey : α)
    (l : Plan.Loop α) : Option (Plan.Loop α × Bool) := do
  let top ← pqPop l.self.open_pq_
  let current_node : Node3d α := top.1.1
  let self : State α := { l.self with open_pq_ := top.2 }
  let candidate ← AnalyticExpansion K self current_node
  let available_result_num : Nat :=
    if candidate.isSome then l.available_result_num + 1 else l.available_result_num
  let explored_node_num : Nat := l.explored_node_num + 1
  let self : State α := { self with
    final_node_ := Plan.retain self.final_node_ candidate
    close_set_ := self.close_set_ ++ [current_node.GetIndex] }
  if K.timeExceeded explored_node_num = true ∧ 0 < available_result_num then
    some (Plan.Loop.mk self explored_node_num available_result_num, true)
  else do
    let st ← forRange (Plan.child cfg M K self ex ey current_node) 0 cfg.next_node_num_
      (self.open_pq_, [])
    let self : State α := { self with open_pq_ := st.1, open_set_ := self.open_set_ ++ st.2 }
    some (Plan.Loop.mk self explored_node_num available_result_num, false)

/-- The search loop of `Plan`.  Every pass increases `explored_node_num`, which starts
at 0 and is tested against `max_explored_num`, so `max_explored_num` passes of fuel are
never used up while the loop condition holds. -/
def Plan.search (cfg : Config α) (M : MathFns α) (K : Collab α) (ex ey : α) :
    Nat → Plan.Loop α → Option (Plan.Loop α)
  | 0, l => some l
  | fuel + 1, l =>
    if Plan.continues cfg l then
      match Plan.iteration cfg M K ex ey l with
      | none => none
      | some (l, true) => some l
      | some (l, false) => Plan.search cfg M K ex ey fuel l
    else some l

/-- The obstacle line segments of `Plan`. -/
def Plan.obstacles (obstacles_vertices_vec : List (List (Vec2d α))) :
    Option (List (List (LineSegment2d α))) :=
  obstacles_vertices_vec.mapM Plan.linesegments

/-- The method `HybridAStar::Plan` on the object `self`: the returned status,
`*result` and the object after the call.  The curves collected for the log are left
out. -/
def Plan (cfg : Config α) (M : MathFns α) (K : Collab α) (self : State α)
    (sx sy sphi ex ey ephi : α) (XYbounds : XYbounds α)
    (obstacles_vertices_vec : List (List (Vec2d α))) (result : HybridAStartResult α)
    (_soft_boundary_vertices_vec : List (List (Vec2d α)))
    (reeds_sheep_last_straight : Bool) :
    Option (Bool × HybridAStartResult α × State α) := do
  let self := { self with
    reeds_sheep_last_straight_ := reeds_sheep_last_straight
    open_set_ := []
    close_set_ := []
    open_pq_ := []
    final_node_ := none }
  let obstacles_linesegments_vec ← Plan.obstacles obstacles_vertices_vec
  let self := { self with obstacles_linesegments_vec_ := obstacles_linesegments_vec }
  let self := { self with XYbounds_ := XYbounds }
  let start_node ← Node3d.ofTraversed K.gridIndex [sx] [sy] [sphi]
  let end_node ← Node3d.ofTraversed K.gridIndex [ex] [ey] [ephi]
  let self := { self with start_node_ := some start_node, end_node_ := some end_node }
  let ok ← ValidityCheck K self.obstacles_linesegments_vec_ self.XYbounds_ start_node
  if ok = false then some (false, result, self)
  else do
    let ok ← ValidityCheck K self.obstacles_linesegments_vec_ self.XYbounds_ end_node
    if ok = false then some (false, result, self)
    else do
      let self := { self with
        open_set_ := self.open_set_ ++ [start_node.GetIndex]
        open_pq_ := self.open_pq_ ++ [(start_node, start_node.GetCost)] }
      let l ← Plan.search cfg M K ex ey cfg.max_explored_num
        { self := self, explored_node_num := 0, available_result_num := 0 }
      let self := l.self
      match self.final_node_ with
      | none => some (false, result, self)
      | some _ => do
        let r ← GetResult cfg M K self.final_node_ result
        some (r.1, r.2, self)

/-- The start node that `Plan` builds from `{sx}`, `{sy}`, `{sphi}`. -/
def Plan.startNode (K : Collab α) (sx sy sphi : α) : Node3d α :=
  Node3d.mk sx sy sphi 1 [sx] [sy] [sphi] (K.gridIndex sx sy sphi) 0 0 none 0 true

/-- The end node that `Plan` builds from `{ex}`, `{ey}`, `{ephi}`. -/
def Plan.endNode (K : Collab α) (ex ey ephi : α) : Node3d α :=
  Node3d.mk ex ey ephi 1 [ex] [ey] [ephi] (K.gridIndex ex ey ephi) 0 0 none 0 true

end HybridAStar

/-! ## Notions used in the statements and proofs -/

namespace Node3d

variable {α : Type}

/-- The predecessor chain of a node in start-to-goal order: the node without
predecessor first, the node itself last. -/
def chain : Node3d α → List (Node3d α)
  | mk x y p s xs ys ps i g h none st d => [mk x y p s xs ys ps i g h none st d]
  | mk x y p s xs ys ps i g h (some pre) st d =>
    chain pre ++ [mk x y p s xs ys ps i g h (some pre) st d]

/-- The nodes that descend from `start` through predecessor links, every node on the
way (and `start`) satisfying `OK`. -/
inductive Reaches (OK : Node3d α → Prop) (start : Node3d α) : Node3d α → Prop
  | root : OK start → Reaches OK start start
  | step (n p : Node3d α) : n.GetPreNode = some p → Reaches OK start p → OK n →
      Reaches OK start n

end Node3d

/-- The sequence that the stitching of `GetTemporalProfile` builds from the vectors
`ls` of one member of the segments: every vector without its last element, then the
last element of the last vector. -/
def glue {β : Type} (ls : List (List β)) : List β :=
  (ls.map List.dropLast).flatten ++ (ls.getLast?.bind List.getLast?).toList

namespace HybridAStar

variable {α : Type} [LinearOrderedField α] [FloorRing α]

/-- A segment as `TrajectoryPartition` hands it to the speed profile: equal sizes, at
least two poses, no profile yet. -/
def FreshSegment (s : HybridAStartResult α) : Prop :=
  2 ≤ s.x.length ∧ s.x.length = s.y.length ∧ s.x.length = s.phi.length ∧ s.v = [] ∧ s.a = []
    ∧ s.steer = [] ∧ s.accumulated_s = []

/-- A segment as `GenerateSpeedAcceleration` leaves it. -/
def Profiled (r : HybridAStartResult α) : Prop :=
  2 ≤ r.x.length ∧ r.y.length = r.x.length ∧ r.phi.length = r.x.length
    ∧ r.v.length = r.x.length ∧ r.v.head? = some 0 ∧ r.v.getLast? = some 0
    ∧ r.a.length = r.x.length - 1 ∧ r.steer.length = r.x.length - 1

/-- A node that `ValidityCheck` accepts and whose `step_size_` is the number of its
traversed poses. -/
def NodeOK (K : Collab α) (obstacles : List (List (LineSegment2d α))) (b : XYbounds α)
    (n : Node3d α) : Prop :=
  ValidityCheck K obstacles b n = some true ∧ n.GetStepSize = n.GetXs.length

/-- The invariant of the search loop of `Plan`: the obstacles and bounds are those of
the call, and every queued node and the retained final node descend from the start
node through nodes that `ValidityCheck` accepted. -/
def SearchInv (K : Collab α) (obs : List (List (LineSegment2d α))) (b : XYbounds α)
    (start : Node3d α) (self : State α) : Prop :=
  self.obstacles_linesegments_vec_ = obs ∧ self.XYbounds_ = b
    ∧ (∀ p ∈ self.open_pq_, Node3d.Reaches (NodeOK K obs b) start p.1)
    ∧ (∀ f, self.final_node_ = some f → Node3d.Reaches (NodeOK K obs b) start f)

/-- The pose `(x, y, phi)` is inside the bounds `b` and its footprint overlaps no
segment of `obs`. -/
def PoseOK (K : Collab α) (obs : List (List (LineSegment2d α))) (b : XYbounds α)
    (x y phi : α) : Prop :=
  (b.b0 ≤ x ∧ x ≤ b.b1 ∧ b.b2 ≤ y ∧ y ≤ b.b3)
    ∧ ∀ segs ∈ obs, ∀ seg ∈ segs, K.HasOverlap x y phi seg = false

/-- Sample math functions over `ℚ`: a vector pointing in negative `x` direction has
angle 3, any other angle 0, and `M_PI_2` is `3 / 2`. -/
def sampleMath : MathFns ℚ :=
  { cos := fun _ => 1
    sin := fun _ => 0
    tan := fun _ => 0
    atan := fun t => t
    sqrt := fun t => t
    NormalizeAngle := fun t => t
    Angle := fun dx _ => if dx < 0 then 3 else 0
    pi_2 := 3 / 2 }

/-- A sample configuration in finite-difference mode. -/
def sampleConfig : Config ℚ :=
  { next_node_num_ := 4
    max_steer_angle_ := 1 / 2
    step_size_ := 1 / 2
    xy_grid_resolution_ := 3 / 10
    arc_length_ := 1
    delta_t_ := 1 / 2
    traj_forward_penalty_ := 1
    traj_back_penalty_ := 1
    traj_gear_switch_penalty_ := 1
    traj_steer_penalty_ := 1
    traj_steer_change_penalty_ := 1
    max_forward_v_ := 1
    max_reverse_v_ := 1
    max_forward_acc_ := 1
    max_reverse_acc_ := 1
    wheel_base := 3
    max_explored_num := 3
    desired_explored_num := 1
    FLAGS_use_s_curve_speed_smooth := false }

/-- Sample collaborators: a footprint that overlaps a segment exactly when the pose
sits on the start point of the segment, a Reeds-Shepp generator that answers with
the straight three-point path to the goal, a Manhattan-distance heuristic, a clock
that never runs out and a piecewise-jerk solver that fails. -/
def sampleCollab : Collab ℚ :=
  { HasOverlap := fun x y _ seg => decide (x = seg.start_.x_ ∧ y = seg.start_.y_)
    gridIndex := fun x _ _ => if x < 1 then "a" else "b"
    ShortestRSP := fun _ cur e =>
      some ⟨[cur.GetX, (cur.GetX + e.GetX) / 2, e.GetX], [cur.GetY, (cur.GetY + e.GetY) / 2, e.GetY],
        [cur.GetPhi, cur.GetPhi, e.GetPhi], |e.GetX - cur.GetX| + |e.GetY - cur.GetY|⟩
    CheckDpMap := fun ex ey _ _ x y => |ex - x| + |ey - y|
    timeExceeded := fun _ => false
    sCurveSolve := fun _ _ r => some (false, r) }

/-- The members of a planner object before its first call of `Plan`. -/
def sampleState : State ℚ :=
  { open_set_ := []
    close_set_ := []
    open_pq_ := []
    final_node_ := none
    obstacles_linesegments_vec_ := []
    XYbounds_ := ⟨0, 0, 0, 0⟩
    start_node_ := none
    end_node_ := none
    reeds_sheep_last_straight_ := false }

/-- A sample path with two gear changes. -/
def samplePath : HybridAStartResult ℚ :=
  { x := [0, 1, 2, 1, 0, 1], y := [0, 0, 0, 0, 0, 0], phi := [0, 0, 0, 0, 0, 0] }

/-- A sample workspace. -/
def sampleBounds : XYbounds ℚ := ⟨-1, 5, -1, 1⟩

/-- A sample obstacle away from the straight line between `(0, 0)` and `(3, 0)`. -/
def sampleObstacles : List (List (Vec2d ℚ)) := [[⟨4, 1⟩, ⟨4, -1⟩]]

/-- A sample obstacle whose first segment starts at `(0, 0)`. -/
def sampleBlockingObstacles : List (List (Vec2d ℚ)) := [[⟨0, 0⟩, ⟨4, -1⟩]]

/-- The sample collaborators with a Reeds-Shepp generator that finds no path and a
constant heuristic. -/
def sampleCollabBlind : Collab ℚ :=
  { sampleCollab with
    ShortestRSP := fun _ _ _ => none
    CheckDpMap := fun _ _ _ _ _ _ => 0 }

/-- A sample predecessor chain of three nodes. -/
def sampleChain : Node3d ℚ :=
  Node3d.mk 3 1 0 2 [2, 3] [0, 1] [0, 0] "c" 2 0
    (some (Node3d.mk 2 0 0 3 [0, 1, 2] [0, 0, 0] [0, 0, 0] "b" 1 0
      (some (Node3d.mk 0 0 0 1 [0] [0] [0] "a" 0 0 none 0 true)) 0 true)) 0 true

/-- The result of the sample call of `Plan` from `(0, 0, 0)` to `(3, 0, 0)`. -/
def sampleResult : HybridAStartResult ℚ :=
  { x := [0, 3 / 2, 3], y := [0, 0, 0], phi := [0, 0, 0], v := [0, 3, 0], a := [6, -6],
    steer := [0, 0] }

/-- The result of the sample call of `Plan` from `(10, 0, 0)`, outside the sample
workspace, to `(3, 0, 0)` without obstacles. -/
def sampleResultOutside : HybridAStartResult ℚ :=
  { x := [10, 13 / 2, 3], y := [0, 0, 0], phi := [0, 0, 0], v := [0, -7, 0], a := [-14, 14],
    steer := [0, 0] }

/-- The sample configuration with a `step_size_` that does not divide `arc_length_`. -/
def sampleConfigFine : Config ℚ :=
  { sampleConfig with step_size_ := 2 / 5 }

/-- The members of a planner object whose bounds are the sample workspace. -/
def sampleStateBounded : State ℚ :=
  { sampleState with XYbounds_ := sampleBounds }

/-- The sample configuration with a search that goes on until four candidates or six
closed nodes. -/
def sampleConfigThorough : Config ℚ :=
  { sampleConfig with max_explored_num := 6, desired_explored_num := 4 }

/-- A sample child: two poses, moving backward with steering `1 / 2`. -/
def sampleChild : Node3d ℚ :=
  Node3d.mk 1 0 0 3 [2, 3 / 2, 1] [0, 0, 0] [0, 0, 0] "b" 0 0
    (some (Node3d.mk 2 0 0 1 [2] [0] [0] "b" 5 0 none (-1 / 2) true)) (1 / 2) false

/-- The state of the integration loop in the call of `Next_node_generator` for the
parent `cur` and the child index `i`, after `k` passes. -/
def Next_node_generator.loopState (cfg : Config α) (M : MathFns α) (cur : Node3d α)
    (i k : Nat) : (α × α × α) × (List α × List α × List α) :=
  Next_node_generator.integrate cfg M (Next_node_generator.primitive cfg i).1
    (Next_node_generator.primitive cfg i).2 k cur.GetX cur.GetY cur.GetPhi

/-- The test of `Next_node_generator` on the last pose: `x` or `y` is outside the
bounds. -/
def Next_node_generator.outside (b : XYbounds α) (x y : α) : Prop :=
  x > b.b1 ∨ x < b.b0 ∨ y > b.b3 ∨ y < b.b2

/-- The Reeds-Shepp generator answers with non-empty `x`, `y`, `phi` arrays of equal
length. -/
def RSWellFormed (K : Collab α) : Prop :=
  ∀ (flag : Bool) (cur e : Node3d α) (p : ReedSheppPath α),
    K.ShortestRSP flag cur e = some p →
    p.x ≠ [] ∧ p.x.length = p.y.length ∧ p.x.length = p.phi.length

/-- The state of `Plan` at the entry of the search loop, after both endpoints passed
`ValidityCheck`. -/
def Plan.seed (K : Collab α) (self : State α) (sx sy sphi ex ey ephi : α) (b : XYbounds α)
    (obs : List (List (LineSegment2d α))) (flag : Bool) : Plan.Loop α :=
  { self :=
      { self with
        reeds_sheep_last_straight_ := flag
        open_set_ := [(Plan.startNode K sx sy sphi).GetIndex]
        close_set_ := []
        open_pq_ := [(Plan.startNode K sx sy sphi, (Plan.startNode K sx sy sphi).GetCost)]
        final_node_ := none
        obstacles_linesegments_vec_ := obs
        XYbounds_ := b
        start_node_ := some (Plan.startNode K sx sy sphi)
        end_node_ := some (Plan.endNode K ex ey ephi) }
    explored_node_num := 0
    available_result_num := 0 }

/-- The candidate final node that the pass of the search loop starting in `l`
produces, if any. -/
def Plan.candidate (K : Collab α) (l : Plan.Loop α) : Option (Node3d α) :=
  match pqPop l.self.open_pq_ with
  | none => none
  | some top => (AnalyticExpansion K { l.self with open_pq_ := top.2 } top.1.1).join

/-- The candidate final nodes that the search loop produces from the state `l`, in
the order of their production. -/
def Plan.candidates (cfg : Config α) (M : MathFns α) (K : Collab α) (ex ey : α) :
    Nat → Plan.Loop α → List (Node3d α)
  | 0, _ => []
  | fuel + 1, l =>
    if Plan.continues cfg l then
      match Plan.iteration cfg M K ex ey l with
      | none => []
      | some (_, true) => (Plan.candidate K l).toList
      | some (l', false) => (Plan.candidate K l).toList ++ Plan.candidates cfg M K ex ey fuel l'
    else []

end HybridAStar

end planning

/-! ## Ultrasonic sensor frame 0x508 (ultr_sensor_2_508.cc) -/

namespace canbus
namespace demo

/-- The message `Ultr_sensor_2_508` of the chassis detail, reduced to the four fields
that `Ultrsensor2508::Parse` sets. -/
structure Ultr_sensor_2_508 (α : Type) where
  uiuss9_tof_indirect : α
  uiuss8_tof_indirect : α
  uiuss11_tof_indirect : α
  uiuss10_tof_indirect : α
deriving DecidableEq, Repr

variable {α : Type} [LinearOrderedField α]

/-- The method `Ultrsensor2508::uiuss9_tof_indirect`.  The list `bytes` holds the
`uint8_t` values from the address `bytes` on, and reading past them is outside defined
behaviour.  The class `Byte` (modules/drivers/canbus/common/byte.h) is outside the
sources: `get_byte v pos length` stands for `Byte(&v).get_byte(pos, length)`, whose
result is a `uint8_t`.  The `int32_t` value `x` stays below `2 ^ 16`, so `x <<= 8` does
not overflow. -/
def Ultrsensor2508.uiuss9_tof_indirect (get_byte : Nat → Nat → Nat → Nat)
    (bytes : List Nat) (_length : Int) : Option α := do
  let t0 ← bytes[2]?
  let x : Nat := get_byte t0 0 8 % 256
  let t1 ← bytes[3]?
  let t : Nat := get_byte t1 0 8 % 256
  let x := x <<< 8
  let x := x ||| t
  let ret : α := (x : α) * (17240 / 1000000)
  some ret

/-- The method `Ultrsensor2508::uiuss8_tof_indirect`. -/
def Ultrsensor2508.uiuss8_tof_indirect (get_byte : Nat → Nat → Nat → Nat)
    (bytes : List Nat) (_length : Int) : Option α := do
  let t0 ← bytes[0]?
  let x : Nat := get_byte t0 0 8 % 256
  let t1 ← bytes[1]?
  let t : Nat := get_byte t1 0 8 % 256
  let x := x <<< 8
  let x := x ||| t
  let ret : α := (x : α) * (17240 / 1000000)
  some ret

/-- The method `Ultrsensor2508::uiuss11_tof_indirect`. -/
def Ultrsensor2508.uiuss11_tof_indirect (get_byte : Nat → Nat → Nat → Nat)
    (bytes : List Nat) (_length : Int) : Option α := do
  let t0 ← bytes[6]?
  let x : Nat := get_byte t0 0 8 % 256
  let t1 ← bytes[7]?
  let t : Nat := get_byte t1 0 8 % 256
  let x := x <<< 8
  let x := x ||| t
  let ret : α := (x : α) * (17240 / 1000000)
  some ret

/-- The method `Ultrsensor2508::uiuss10_tof_indirect`. -/
def Ultrsensor2508.uiuss10_tof_indirect (get_byte : Nat → Nat → Nat → Nat)
    (bytes : List Nat) (_length : Int) : Option α := do
  let t0 ← bytes[4]?
  let x : Nat := get_byte t0 0 8 % 256
  let t1 ← bytes[5]?
  let t : Nat := get_byte t1 0 8 % 256
  let x := x <<< 8
  let x := x ||| t
  let ret : α := (x : α) * (17240 / 1000000)
  some ret

/-- The method `Ultrsensor2508::Parse`: the four fields it sets in
`chassis->mutable_ultr_sensor_2_508()`. -/
def Ultrsensor2508.Parse (get_byte : Nat → Nat → Nat → Nat) (bytes : List Nat)
    (length : Int) : Option (Ultr_sensor_2_508 α) := do
  let s9 ← Ultrsensor2508.uiuss9_tof_indirect get_byte bytes length
  let s8 ← Ultrsensor2508.uiuss8_tof_indirect get_byte bytes length
  let s11 ← Ultrsensor2508.uiuss11_tof_indirect get_byte bytes length
  let s10 ← Ultrsensor2508.uiuss10_tof_indirect get_byte bytes length
  some ⟨s9, s8, s11, s10⟩

/-- A sample of `Byte::get_byte`: the `length` bits of the byte from bit `pos` on. -/
def sampleGetByte (v pos length : Nat) : Nat := (v >>> pos) % 2 ^ length

/-- A sample frame of eight bytes. -/
def sampleFrame : List Nat := [1, 2, 0, 255, 255, 255, 16, 0]

end demo
end canbus

namespace planning
namespace HybridAStar

variable {α : Type} [LinearOrderedField α] [FloorRing α]

/-- A sample obstacle of three vertices. -/
def sampleTriangle : List (List (Vec2d ℚ)) := [[⟨4, 1⟩, ⟨4, -1⟩, ⟨5, 0⟩]]

/-- The status that `AnalyticExpansion` returns and the node that
`*candidate_final_node` holds after the call, `candidate_final_node` being what it held
before: the only assignment to it is the one before `return true`. -/
def AnalyticExpansion.call (K : Collab α) (self : State α) (current_node : Node3d α)
    (candidate_final_node : Option (Node3d α)) : Option (Bool × Option (Node3d α)) :=
  (AnalyticExpansion K self current_node).map fun o =>
    match o with
    | none => (false, candidate_final_node)
    | some n => (true, some n)

/-- The length of the polyline through the points `(x[i], y[i])`: the sum of the
distances between consecutive points, with the square root of `M`. -/
def polylineLength (M : MathFns α) : List α → List α → α
  | x0 :: x1 :: xs, y0 :: y1 :: ys =>
    M.sqrt ((x1 - x0) * (x1 - x0) + (y1 - y0) * (y1 - y0))
      + polylineLength M (x1 :: xs) (y1 :: ys)
  | _, _ => 0

/-- The first pose of a segment. -/
def firstPose (s : HybridAStartResult α) : Option (α × α × α) := do
  let x ← s.x.head?
  let y ← s.y.head?
  let phi ← s.phi.head?
  some (x, y, phi)

/-- The last pose of a segment. -/
def lastPose (s : HybridAStartResult α) : Option (α × α × α) := do
  let x ← s.x.getLast?
  let y ← s.y.getLast?
  let phi ← s.phi.getLast?
  some (x, y, phi)

/-- The gear of the step from pose `j` to pose `j + 1` of a segment, by the test of
`TrajectoryPartition`: the angle of the step against the heading at pose `j`. -/
def stepGear (M : MathFns α) (s : HybridAStartResult α) (j : Nat) : Option Bool := do
  let heading_angle ← s.phi[j]?
  let xn ← s.x[j + 1]?
  let xi ← s.x[j]?
  let yn ← s.y[j + 1]?
  let yi ← s.y[j]?
  some (TrajectoryPartition.gear M xi yi xn yn heading_angle)

/-- The last pose of the segment `s` is the first pose of the segment `t`. -/
def SharesPose (s t : HybridAStartResult α) : Prop :=
  ∃ p, lastPose s = some p ∧ firstPose t = some p

/-- The first steps of the segments `s` and `t` have opposite gears. -/
def OppositeGear (M : MathFns α) (s t : HybridAStartResult α) : Prop :=
  ∃ g, stepGear M s 0 = some g ∧ stepGear M t 0 = some (!g)

/-- Every step of the segment `s` has the gear `g`, and its three vectors have the
same length. -/
def UniformGear (M : MathFns α) (s : HybridAStartResult α) (g : Bool) : Prop :=
  s.x.length = s.y.length ∧ s.x.length = s.phi.length
    ∧ ∀ j, j + 1 < s.x.length → stepGear M s j = some g

/-- The invariant of the partitioning loop of `TrajectoryPartition` before the pass
with index `i`, for the path `P`, the closed segments, the current segment and the
current gear. -/
def PartitionInv (M : MathFns α) (P : HybridAStartResult α) (i : Nat)
    (st : List (HybridAStartResult α) × HybridAStartResult α × Bool) : Prop :=
  (i = 0 ∧ st.1 = [] ∧ st.2.1 = {} ∧ stepGear M P 0 = some st.2.2)
  ∨ (1 ≤ i
    ∧ UniformGear M st.2.1 st.2.2 ∧ 1 ≤ st.2.1.x.length
    ∧ st.2.1.x.getLast? = P.x[i - 1]? ∧ st.2.1.y.getLast? = P.y[i - 1]?
    ∧ st.2.1.phi.getLast? = P.phi[i - 1]?
    ∧ stepGear M P (i - 1) = some st.2.2
    ∧ (∀ s ∈ st.1, 2 ≤ s.x.length ∧ ∃ h, UniformGear M s h)
    ∧ List.Chain' (fun s t => SharesPose s t ∧ OppositeGear M s t) st.1
    ∧ (∀ s ∈ st.1.getLast?, SharesPose s st.2.1 ∧ stepGear M s 0 = some (!st.2.2))
    ∧ (∀ s ∈ (st.1 ++ [st.2.1]).head?, firstPose s = firstPose P))

/-- The sample configuration with `max_steer_angle_ = 0`: every primitive steers
straight, so the children of one direction coincide. -/
def sampleConfigStraight : Config ℚ :=
  { sampleConfig with max_steer_angle_ := 0 }

/-- A sample segment of three poses with a changing heading and no profile yet. -/
def sampleSegment : HybridAStartResult ℚ :=
  { x := [0, 1, 2], y := [0, 0, 0], phi := [0, 1 / 2, 1] }

/-- A sample node of three poses that leaves the sample workspace in `x`. -/
def sampleNodeBeyond : Node3d ℚ :=
  Node3d.mk 10 0 0 3 [8, 9, 10] [0, 0, 0] [0, 0, 0] "b" 0 0 none 0 true

end HybridAStar

/-! ## Auxiliary lemmas -/

theorem forRange_inv {σ : Type} (f : σ → Nat → Option σ) (P : Nat → σ → Prop) :
    ∀ (n lo : Nat) (s : σ), P lo s →
      (∀ i t, lo ≤ i → i < lo + n → P i t → ∃ t', f t i = some t' ∧ P (i + 1) t') →
      ∃ s', forRange f lo n s = some s' ∧ P (lo + n) s' := by
  intro n
  induction n with
  | zero => intro lo s h0 _; exact ⟨s, rfl, by simpa using h0⟩
  | succ n ih =>
    intro lo s h0 hstep
    obtain ⟨t, ht, hP⟩ := hstep lo s (le_refl _) (by omega) h0
    obtain ⟨s', hs', hP'⟩ := ih (lo + 1) t hP (fun i u h1 h2 hu => hstep i u (by omega) (by omega) hu)
    refine ⟨s', ?_, ?_⟩
    · simp [forRange, ht, hs']
    · have : lo + (n + 1) = lo + 1 + n := by omega
      rw [this]; exact hP'

theorem forRange_preserves {σ : Type} (f : σ → Nat → Option σ) (P : σ → Prop)
    (hstep : ∀ i t t', P t → f t i = some t' → P t') :
    ∀ (n lo : Nat) (s s' : σ), P s → forRange f lo n s = some s' → P s' := by
  intro n
  induction n with
  | zero => intro lo s s' h0 h; simp [forRange] at h; rw [← h]; exact h0
  | succ n ih =>
    intro lo s s' h0 h
    simp only [forRange, Option.bind_eq_some] at h
    obtain ⟨t, ht, h⟩ := h
    exact ih (lo + 1) t s' (hstep lo s t h0 ht) h

namespace Node3d

variable {α : Type}

@[simp] theorem GetStepSize_SetPre (n : Node3d α) (p : Option (Node3d α)) :
    (n.SetPre p).GetStepSize = n.GetStepSize := by cases n; rfl
@[simp] theorem GetXs_SetPre (n : Node3d α) (p : Option (Node3d α)) :
    (n.SetPre p).GetXs = n.GetXs := by cases n; rfl
@[simp] theorem GetYs_SetPre (n : Node3d α) (p : Option (Node3d α)) :
    (n.SetPre p).GetYs = n.GetYs := by cases n; rfl
@[simp] theorem GetPhis_SetPre (n : Node3d α) (p : Option (Node3d α)) :
    (n.SetPre p).GetPhis = n.GetPhis := by cases n; rfl
@[simp] theorem GetPreNode_SetPre (n : Node3d α) (p : Option (Node3d α)) :
    (n.SetPre p).GetPreNode = p := by cases n; rfl

@[simp] theorem GetStepSize_SetDirec (n : Node3d α) (d : Bool) :
    (n.SetDirec d).GetStepSize = n.GetStepSize := by cases n; rfl
@[simp] theorem GetXs_SetDirec (n : Node3d α) (d : Bool) :
    (n.SetDirec d).GetXs = n.GetXs := by cases n; rfl
@[simp] theorem GetYs_SetDirec (n : Node3d α) (d : Bool) :
    (n.SetDirec d).GetYs = n.GetYs := by cases n; rfl
@[simp] theorem GetPhis_SetDirec (n : Node3d α) (d : Bool) :
    (n.SetDirec d).GetPhis = n.GetPhis := by cases n; rfl
@[simp] theorem GetPreNode_SetDirec (n : Node3d α) (d : Bool) :
    (n.SetDirec d).GetPreNode = n.GetPreNode := by cases n; rfl

@[simp] theorem GetStepSize_SetSteer (n : Node3d α) (d : α) :
    (n.SetSteer d).GetStepSize = n.GetStepSize := by cases n; rfl
@[simp] theorem GetXs_SetSteer (n : Node3d α) (d : α) :
    (n.SetSteer d).GetXs = n.GetXs := by cases n; rfl
@[simp] theorem GetYs_SetSteer (n : Node3d α) (d : α) :
    (n.SetSteer d).GetYs = n.GetYs := by cases n; rfl
@[simp] theorem GetPhis_SetSteer (n : Node3d α) (d : α) :
    (n.SetSteer d).GetPhis = n.GetPhis := by cases n; rfl
@[simp] theorem GetPreNode_SetSteer (n : Node3d α) (d : α) :
    (n.SetSteer d).GetPreNode = n.GetPreNode := by cases n; rfl

@[simp] theorem GetStepSize_SetTrajCost (n : Node3d α) (d : α) :
    (n.SetTrajCost d).GetStepSize = n.GetStepSize := by cases n; rfl
@[simp] theorem GetXs_SetTrajCost (n : Node3d α) (d : α) :
    (n.SetTrajCost d).GetXs = n.GetXs := by cases n; rfl
@[simp] theorem GetYs_SetTrajCost (n : Node3d α) (d : α) :
    (n.SetTrajCost d).GetYs = n.GetYs := by cases n; rfl
@[simp] theorem GetPhis_SetTrajCost (n : Node3d α) (d : α) :
    (n.SetTrajCost d).GetPhis = n.GetPhis := by cases n; rfl
@[simp] theorem GetPreNode_SetTrajCost (n : Node3d α) (d : α) :
    (n.SetTrajCost d).GetPreNode = n.GetPreNode := by cases n; rfl

@[simp] theorem GetStepSize_SetHeuCost (n : Node3d α) (d : α) :
    (n.SetHeuCost d).GetStepSize = n.GetStepSize := by cases n; rfl
@[simp] theorem GetXs_SetHeuCost (n : Node3d α) (d : α) :
    (n.SetHeuCost d).GetXs = n.GetXs := by cases n; rfl
@[simp] theorem GetYs_SetHeuCost (n : Node3d α) (d : α) :
    (n.SetHeuCost d).GetYs = n.GetYs := by cases n; rfl
@[simp] theorem GetPhis_SetHeuCost (n : Node3d α) (d : α) :
    (n.SetHeuCost d).GetPhis = n.GetPhis := by cases n; rfl
@[simp] theorem GetPreNode_SetHeuCost (n : Node3d α) (d : α) :
    (n.SetHeuCost d).GetPreNode = n.GetPreNode := by cases n; rfl

theorem ofTraversed_some [Zero α] (gi : α → α → α → String) (xs ys ps : List α)
    (n : Node3d α) (h : ofTraversed gi xs ys ps = some n) :
    n.GetStepSize = xs.length ∧ n.GetXs = xs ∧ n.GetYs = ys ∧ n.GetPhis = ps
      ∧ n.GetPreNode = none ∧ xs.getLast? = some n.GetX ∧ ys.getLast? = some n.GetY
      ∧ ps.getLast? = some n.GetPhi := by
  simp only [ofTraversed, Option.bind_eq_bind, Option.bind_eq_some] at h
  obtain ⟨x, hx, y, hy, p, hp, h⟩ := h
  simp only [Option.some.injEq] at h
  subst h
  exact ⟨rfl, rfl, rfl, rfl, rfl, hx, hy, hp⟩

theorem chain_of_pre_none (n : Node3d α) (h : n.GetPreNode = none) : chain n = [n] := by
  cases n with
  | mk _ _ _ _ _ _ _ _ _ _ pp _ _ =>
    simp only [GetPreNode] at h
    subst h
    rfl

theorem chain_of_pre_some (n p : Node3d α) (h : n.GetPreNode = some p) :
    chain n = chain p ++ [n] := by
  cases n with
  | mk _ _ _ _ _ _ _ _ _ _ pp _ _ =>
    simp only [GetPreNode] at h
    subst h
    rfl

theorem chain_ne_nil (n : Node3d α) : chain n ≠ [] := by
  cases n with
  | mk _ _ _ _ _ _ _ _ _ _ pp _ _ => cases pp <;> simp [chain]

theorem Reaches.chain_ok {OK : Node3d α → Prop} {start n : Node3d α}
    (h : Reaches OK start n) (hs : start.GetPreNode = none) :
    (chain n).head? = some start ∧ ∀ m ∈ chain n, OK m := by
  induction h with
  | root h0 =>
    rw [chain_of_pre_none _ hs]
    exact ⟨rfl, by intro m hm; rw [List.mem_singleton] at hm; rw [hm]; exact h0⟩
  | step n p hp _ hok ih =>
    rw [chain_of_pre_some n p hp]
    refine ⟨?_, ?_⟩
    · rw [List.head?_append_of_ne_nil _ (chain_ne_nil p)]; exact ih.1
    · intro m hm
      rcases List.mem_append.1 hm with hm | hm
      · exact ih.2 m hm
      · rw [List.mem_singleton] at hm; rw [hm]; exact hok

end Node3d

theorem glue_concat {β : Type} (ls : List (List β)) (l : List β) (b : β) :
    glue (ls ++ [l ++ [b]]) = (ls.map List.dropLast).flatten ++ (l ++ [b]) := by
  simp [glue, List.dropLast_concat]

theorem glue_length {β : Type} (ls : List (List β)) (hne : ls ≠ [])
    (hpos : ∀ l ∈ ls, l ≠ []) :
    (glue ls).length = (ls.map (fun l => l.length - 1)).sum + 1 := by
  obtain ⟨l, hl⟩ : ∃ l, ls.getLast? = some l := by
    cases h : ls.getLast? with
    | none => exact absurd (List.getLast?_eq_none_iff.1 h) hne
    | some l => exact ⟨l, rfl⟩
  have hmem : l ∈ ls := List.mem_of_getLast?_eq_some hl
  obtain ⟨b, hb⟩ : ∃ b, l.getLast? = some b := by
    cases h : l.getLast? with
    | none => exact absurd (List.getLast?_eq_none_iff.1 h) (hpos l hmem)
    | some b => exact ⟨b, rfl⟩
  simp only [glue, hl, Option.some_bind, hb, Option.toList, List.length_append, List.length_flatten,
    List.map_map, List.length_singleton]
  congr 2
  apply List.map_congr_left
  intro a _
  simp

theorem getLast?_some_of_ne_nil {β : Type} (l : List β) (h : l ≠ []) :
    ∃ b, l.getLast? = some b := by
  cases hl : l.getLast? with
  | none => exact absurd (List.getLast?_eq_none_iff.1 hl) h
  | some b => exact ⟨b, rfl⟩

theorem sum_pred_lengths_eq {β : Type} (F G : β → Nat) :
    ∀ rs : List β, (∀ r ∈ rs, F r = G r) → (rs.map F).sum = (rs.map G).sum := by
  intro rs h
  rw [List.map_congr_left h]

theorem exists_state_of_map {R S : Type} (o : Option (Bool × R × S)) (b : Bool) (r : R)
    (h : o.map (fun p => (p.1, p.2.1)) = some (b, r)) : ∃ s, o = some (b, r, s) := by
  cases o with
  | none => simp at h
  | some p =>
    obtain ⟨b', r', s⟩ := p
    simp only [Option.map_some', Option.some.injEq, Prod.mk.injEq] at h
    obtain ⟨rfl, rfl⟩ := h
    exact ⟨s, rfl⟩

theorem flatten_getElem?_aligned {γ β : Type} (F G H : γ → List β) :
    ∀ (ms : List γ), (∀ m ∈ ms, (F m).length = (G m).length ∧ (F m).length = (H m).length) →
    ∀ (i : Nat) (a b c : β), (ms.map F).flatten[i]? = some a → (ms.map G).flatten[i]? = some b →
      (ms.map H).flatten[i]? = some c →
      ∃ m ∈ ms, ∃ j : Nat, (F m)[j]? = some a ∧ (G m)[j]? = some b ∧ (H m)[j]? = some c := by
  intro ms
  induction ms with
  | nil => intro _ i a b c ha; simp at ha
  | cons m ms ih =>
    intro hlen i a b c ha hb hc
    obtain ⟨h1, h2⟩ := hlen m (List.mem_cons_self _ _)
    simp only [List.map_cons, List.flatten_cons] at ha hb hc
    by_cases hi : i < (F m).length
    · rw [List.getElem?_append_left hi] at ha
      rw [List.getElem?_append_left (by omega)] at hb hc
      exact ⟨m, List.mem_cons_self _ _, i, ha, hb, hc⟩
    · rw [List.getElem?_append_right (by omega)] at ha hb hc
      rw [← h1] at hb
      rw [← h2] at hc
      obtain ⟨m', hm', j, hj⟩ := ih (fun t ht => hlen t (List.mem_cons_of_mem _ ht)) _ a b c ha hb hc
      exact ⟨m', List.mem_cons_of_mem _ hm', j, hj⟩

namespace HybridAStar

variable {α : Type} [LinearOrderedField α] [FloorRing α]

theorem GenerateSpeedAcceleration_fresh (cfg : Config α) (M : MathFns α)
    (s : HybridAStartResult α) (hs : FreshSegment s) :
    ∃ r, GenerateSpeedAcceleration cfg M s = some (true, r) ∧ r.x = s.x ∧ r.y = s.y
      ∧ r.phi = s.phi ∧ r.v.length = s.x.length ∧ r.v.head? = some 0 ∧ r.v.getLast? = some 0
      ∧ r.a.length = s.x.length - 1 ∧ r.steer.length = s.x.length - 1
      ∧ r.accumulated_s = [] := by
  obtain ⟨h2, hy, hphi, hv, ha, hst, hacc⟩ := hs
  -- speed loop
  obtain ⟨r2, hr2, hx2, hy2, hphi2, hv2, hh2, ha2, hst2, hacc2⟩ :=
    forRange_inv (GenerateSpeedAcceleration.speed cfg M)
      (fun i r => r.x = s.x ∧ r.y = s.y ∧ r.phi = s.phi ∧ r.v.length = i ∧ r.v.head? = some 0
        ∧ r.a = [] ∧ r.steer = [] ∧ r.accumulated_s = [])
      (s.x.length - 2) 1 { s with v := s.v ++ [0] }
      (by simp [hv, ha, hst, hacc])
      (by
        rintro i t h1 h2' ⟨tx, ty, tphi, tv, th, ta, tst, tacc⟩
        have b1 : i + 1 < t.x.length := by rw [tx]; omega
        have b2 : i + 1 < t.y.length := by rw [ty, ← hy]; omega
        have b3 : i < t.phi.length := by rw [tphi, ← hphi]; omega
        simp only [GenerateSpeedAcceleration.speed]
        rw [List.getElem?_eq_getElem b1, List.getElem?_eq_getElem (by omega : i < t.x.length),
          List.getElem?_eq_getElem (by omega : i - 1 < t.x.length),
          List.getElem?_eq_getElem b2, List.getElem?_eq_getElem (by omega : i < t.y.length),
          List.getElem?_eq_getElem (by omega : i - 1 < t.y.length),
          List.getElem?_eq_getElem b3]
        refine ⟨_, rfl, tx, ty, tphi, ?_, ?_, ta, tst, tacc⟩
        · simp [tv]
        · have hne : t.v ≠ [] := by intro h; rw [h] at tv; simp at tv; omega
          show (t.v ++ [_]).head? = some (0 : α)
          rw [List.head?_append_of_ne_nil _ hne]; exact th)
  have hlen1 : 1 + (s.x.length - 2) = s.x.length - 1 := by omega
  rw [hlen1] at hv2
  -- acceleration loop
  obtain ⟨r4, hr4, hx4, hy4, hphi4, hv4, ha4, hst4, hacc4⟩ :=
    forRange_inv (GenerateSpeedAcceleration.acceleration cfg)
      (fun i r => r.x = s.x ∧ r.y = s.y ∧ r.phi = s.phi ∧ r.v = r2.v ++ [0]
        ∧ r.a.length = i ∧ r.steer = [] ∧ r.accumulated_s = [])
      (s.x.length - 1) 0 { r2 with v := r2.v ++ [0] }
      (by simp [hx2, hy2, hphi2, ha2, hst2, hacc2])
      (by
        rintro i t - h2' ⟨tx, ty, tphi, tv, ta, tst, tacc⟩
        have b1 : i + 1 < t.v.length := by rw [tv]; simp [hv2]; omega
        simp only [GenerateSpeedAcceleration.acceleration]
        rw [List.getElem?_eq_getElem b1, List.getElem?_eq_getElem (by omega : i < t.v.length)]
        exact ⟨_, rfl, tx, ty, tphi, tv, by simp [ta], tst, tacc⟩)
  -- steering loop
  obtain ⟨r5, hr5, hx5, hy5, hphi5, hv5, ha5, hst5, hacc5⟩ :=
    forRange_inv (GenerateSpeedAcceleration.steering cfg M)
      (fun i r => r.x = s.x ∧ r.y = s.y ∧ r.phi = s.phi ∧ r.v = r2.v ++ [0]
        ∧ r.a = r4.a ∧ r.steer.length = i ∧ r.accumulated_s = [])
      (s.x.length - 1) 0 r4
      (by simp [hx4, hy4, hphi4, hv4, hst4, hacc4])
      (by
        rintro i t - h2' ⟨tx, ty, tphi, tv, ta, tst, tacc⟩
        have b1 : i + 1 < t.phi.length := by rw [tphi, ← hphi]; omega
        have b2 : i < t.v.length := by rw [tv]; simp [hv2]; omega
        simp only [GenerateSpeedAcceleration.steering]
        rw [List.getElem?_eq_getElem b1, List.getElem?_eq_getElem (by omega : i < t.phi.length),
          List.getElem?_eq_getElem b2]
        exact ⟨_, rfl, tx, ty, tphi, tv, ta, by simp [tst], tacc⟩)
  refine ⟨r5, ?_, hx5, hy5, hphi5, ?_, ?_, ?_, ?_, ?_, hacc5⟩
  · have hc : ¬ (s.x.length < 2 ∨ s.y.length < 2 ∨ s.phi.length < 2) := by omega
    simp only [GenerateSpeedAcceleration, hc, if_false]
    simp [hr2, hr4, hr5]
  · rw [hv5]; simp [hv2]; omega
  · rw [hv5]
    have hne : r2.v ≠ [] := by intro h; rw [h] at hh2; simp at hh2
    rw [List.head?_append_of_ne_nil _ hne]; exact hh2
  · rw [hv5]; simp
  · rw [ha5]; simpa using ha4
  · simpa using hst5

theorem profiles_fresh (cfg : Config α) (M : MathFns α) :
    ∀ segs : List (HybridAStartResult α), (∀ s ∈ segs, FreshSegment s) →
      ∃ rs, TrajectoryPartition.profiles (GenerateSpeedAcceleration cfg M) segs = some (some rs)
        ∧ rs.map (fun r => r.x) = segs.map (fun r => r.x)
        ∧ rs.map (fun r => r.y) = segs.map (fun r => r.y)
        ∧ rs.map (fun r => r.phi) = segs.map (fun r => r.phi)
        ∧ ∀ r ∈ rs, Profiled r := by
  intro segs
  induction segs with
  | nil => intro _; exact ⟨[], rfl, rfl, rfl, rfl, by simp⟩
  | cons s rest ih =>
    intro h
    obtain ⟨r, hr, hx, hy, hphi, hv, hh, hl, ha, hst, -⟩ :=
      GenerateSpeedAcceleration_fresh cfg M s (h s (List.mem_cons_self _ _))
    obtain ⟨rs, hrs, hxs, hys, hphis, hall⟩ := ih (fun t ht => h t (List.mem_cons_of_mem _ ht))
    have hs := h s (List.mem_cons_self _ _)
    refine ⟨r :: rs, ?_, ?_, ?_, ?_, ?_⟩
    · simp [TrajectoryPartition.profiles, hr, hrs]
    · simp [hx, hxs]
    · simp [hy, hys]
    · simp [hphi, hphis]
    · intro t ht
      rcases List.mem_cons.1 ht with rfl | ht
      · refine ⟨?_, ?_, ?_, ?_, hh, hl, ?_, ?_⟩
        · rw [hx]; exact hs.1
        · rw [hx, hy]; exact hs.2.1.symm
        · rw [hx, hphi]; exact hs.2.2.1.symm
        · rw [hx]; exact hv
        · rw [hx]; exact ha
        · rw [hx]; exact hst
      · exact hall t ht

theorem segments_fresh (M : MathFns α) (x y phi : List α) (h2 : 2 ≤ x.length)
    (hy : x.length = y.length) (hphi : x.length = phi.length) :
    ∃ segs, TrajectoryPartition.segments M x y phi = some segs ∧ segs ≠ []
      ∧ (∀ s ∈ segs, FreshSegment s)
      ∧ glue (segs.map (fun r => r.x)) = x
      ∧ glue (segs.map (fun r => r.y)) = y
      ∧ glue (segs.map (fun r => r.phi)) = phi := by
  obtain ⟨x0, hx0⟩ : ∃ a, x[0]? = some a := ⟨x[0], List.getElem?_eq_getElem (by omega)⟩
  obtain ⟨x1, hx1⟩ : ∃ a, x[1]? = some a := ⟨x[1], List.getElem?_eq_getElem (by omega)⟩
  obtain ⟨y0, hy0⟩ : ∃ a, y[0]? = some a := ⟨y[0], List.getElem?_eq_getElem (by omega)⟩
  obtain ⟨y1, hy1⟩ : ∃ a, y[1]? = some a := ⟨y[1], List.getElem?_eq_getElem (by omega)⟩
  obtain ⟨p0, hp0⟩ : ∃ a, phi[0]? = some a := ⟨phi[0], List.getElem?_eq_getElem (by omega)⟩
  obtain ⟨st, hst, hcl, hcur, hgx, hgy, hgphi, hlen, -⟩ :=
    forRange_inv (TrajectoryPartition.step M x y phi)
      (fun i (st : List (HybridAStartResult α) × HybridAStartResult α × Bool) =>
        (∀ s ∈ st.1, FreshSegment s)
        ∧ (st.2.1.x.length = st.2.1.y.length ∧ st.2.1.x.length = st.2.1.phi.length
            ∧ st.2.1.v = [] ∧ st.2.1.a = [] ∧ st.2.1.steer = [] ∧ st.2.1.accumulated_s = [])
        ∧ ((st.1.map (fun r => r.x)).map List.dropLast).flatten ++ st.2.1.x = x.take i
        ∧ ((st.1.map (fun r => r.y)).map List.dropLast).flatten ++ st.2.1.y = y.take i
        ∧ ((st.1.map (fun r => r.phi)).map List.dropLast).flatten ++ st.2.1.phi = phi.take i
        ∧ (1 ≤ i → 1 ≤ st.2.1.x.length)
        ∧ (i = 0 → st.2.2 = TrajectoryPartition.gear M x0 y0 x1 y1 p0))
      (x.length - 1) 0 ([], {}, TrajectoryPartition.gear M x0 y0 x1 y1 p0)
      (by simp)
      (by
        rintro i ⟨closed, cur, g⟩ - hi ⟨hcl, hcur, hgx, hgy, hgphi, hlen, hg0⟩
        have bx : i + 1 < x.length := by omega
        have by_ : i + 1 < y.length := by omega
        have bp : i < phi.length := by omega
        simp only [TrajectoryPartition.step]
        rw [List.getElem?_eq_getElem bp, List.getElem?_eq_getElem bx,
          List.getElem?_eq_getElem (by omega : i < x.length), List.getElem?_eq_getElem by_,
          List.getElem?_eq_getElem (by omega : i < y.length)]
        simp only [Option.bind_eq_bind, Option.some_bind]
        have tx : x.take (i + 1) = x.take i ++ [x[i]] := by
          rw [List.take_succ, List.getElem?_eq_getElem (by omega : i < x.length)]; rfl
        have ty : y.take (i + 1) = y.take i ++ [y[i]] := by
          rw [List.take_succ, List.getElem?_eq_getElem (by omega : i < y.length)]; rfl
        have tp : phi.take (i + 1) = phi.take i ++ [phi[i]] := by
          rw [List.take_succ, List.getElem?_eq_getElem (by omega : i < phi.length)]; rfl
        simp only at hcl hcur hgx hgy hgphi hlen hg0
        by_cases hgear : TrajectoryPartition.gear M x[i] y[i] x[i + 1] y[i + 1] phi[i] = g
        · rw [if_neg (by simpa using hgear)]
          refine ⟨_, rfl, hcl, ?_, ?_, ?_, ?_, ?_, ?_⟩
          · simp only [List.length_append, List.length_singleton]
            exact ⟨by omega, by omega, hcur.2.2.1, hcur.2.2.2.1, hcur.2.2.2.2.1, hcur.2.2.2.2.2⟩
          · simp only [← List.append_assoc, hgx, tx]
          · simp only [← List.append_assoc, hgy, ty]
          · simp only [← List.append_assoc, hgphi, tp]
          · intro _; simp
          · intro h; omega
        · have hi0 : i ≠ 0 := by
            rintro rfl
            apply hgear
            rw [hg0 rfl]
            simp only [List.getElem?_eq_getElem (by omega : 0 < x.length),
              List.getElem?_eq_getElem (by omega : 1 < x.length),
              List.getElem?_eq_getElem (by omega : 0 < y.length),
              List.getElem?_eq_getElem (by omega : 1 < y.length),
              List.getElem?_eq_getElem (by omega : 0 < phi.length), Option.some.injEq] at hx0 hx1 hy0 hy1 hp0
            simp only [hx0, hx1, hy0, hy1, hp0, zero_add]
          rw [if_pos (by simpa using hgear)]
          refine ⟨_, rfl, ?_, ?_, ?_, ?_, ?_, ?_, ?_⟩
          · intro s hs
            rcases List.mem_append.1 hs with hs | hs
            · exact hcl s hs
            · rw [List.mem_singleton] at hs
              subst hs
              have := hlen (by omega)
              refine ⟨?_, ?_, ?_, hcur.2.2.1, hcur.2.2.2.1, hcur.2.2.2.2.1, hcur.2.2.2.2.2⟩
              · simp; omega
              · simp; exact hcur.1
              · simp; exact hcur.2.1
          · simp
          · simp only [List.map_append, List.map_cons, List.map_nil, List.flatten_append,
              List.flatten_cons, List.flatten_nil, List.append_nil, List.dropLast_concat, hgx, tx]
          · simp only [List.map_append, List.map_cons, List.map_nil, List.flatten_append,
              List.flatten_cons, List.flatten_nil, List.append_nil, List.dropLast_concat, hgy, ty]
          · simp only [List.map_append, List.map_cons, List.map_nil, List.flatten_append,
              List.flatten_cons, List.flatten_nil, List.append_nil, List.dropLast_concat, hgphi, tp]
          · intro _; simp
          · intro h; omega)
  obtain ⟨closed, cur, g⟩ := st
  simp only [zero_add] at hgx hgy hgphi hlen
  simp only at hcl hcur
  have hlast : ∀ l : List α, 2 ≤ l.length → ∃ b, l.getLast? = some b
      ∧ l.take (l.length - 1) ++ [b] = l := by
    intro l hl
    cases h : l.getLast? with
    | none => rw [List.getLast?_eq_none_iff] at h; subst h; simp at hl
    | some b =>
      refine ⟨b, rfl, ?_⟩
      rw [← List.dropLast_eq_take]
      exact List.dropLast_append_getLast? b h
  obtain ⟨xb, hxb, hxt⟩ := hlast x h2
  obtain ⟨yb, hyb, hyt⟩ := hlast y (by omega)
  obtain ⟨pb, hpb, hpt⟩ := hlast phi (by omega)
  have hhead : phi.head? = some p0 := by rw [← hp0]; cases phi <;> simp
  refine ⟨closed ++ [{ cur with x := cur.x ++ [xb], y := cur.y ++ [yb], phi := cur.phi ++ [pb] }],
    ?_, by simp, ?_, ?_, ?_, ?_⟩
  · simp [TrajectoryPartition.segments, hhead, hx0, hx1, hy0, hy1, hst, hxb, hyb, hpb]
  · intro s hs
    rcases List.mem_append.1 hs with hs | hs
    · exact hcl s hs
    · rw [List.mem_singleton] at hs
      subst hs
      have := hlen (by omega)
      refine ⟨?_, ?_, ?_, hcur.2.2.1, hcur.2.2.2.1, hcur.2.2.2.2.1, hcur.2.2.2.2.2⟩
      · simp; omega
      · simp; exact hcur.1
      · simp; exact hcur.2.1
  · rw [List.map_append, List.map_singleton, glue_concat, ← List.append_assoc, hgx, hxt]
  · rw [List.map_append, List.map_singleton, glue_concat, ← List.append_assoc, hgy, hy, hyt]
  · rw [List.map_append, List.map_singleton, glue_concat, ← List.append_assoc, hgphi, hphi, hpt]

theorem stitch_foldlM :
    ∀ (rs : List (HybridAStartResult α)) (init : HybridAStartResult α),
      (∀ r ∈ rs, r.x ≠ [] ∧ r.y ≠ [] ∧ r.phi ≠ [] ∧ r.v ≠ []) →
      rs.foldlM GetTemporalProfile.stitch init = some
        { x := init.x ++ ((rs.map (fun r => r.x)).map List.dropLast).flatten
          y := init.y ++ ((rs.map (fun r => r.y)).map List.dropLast).flatten
          phi := init.phi ++ ((rs.map (fun r => r.phi)).map List.dropLast).flatten
          v := init.v ++ ((rs.map (fun r => r.v)).map List.dropLast).flatten
          a := init.a ++ (rs.map (fun r => r.a)).flatten
          steer := init.steer ++ (rs.map (fun r => r.steer)).flatten
          accumulated_s := init.accumulated_s } := by
  intro rs
  induction rs with
  | nil => intro init _; simp
  | cons r rs ih =>
    intro init h
    obtain ⟨h1, h2, h3, h4⟩ := h r (List.mem_cons_self _ _)
    have hc : ¬ (r.x.isEmpty = true ∨ r.y.isEmpty = true ∨ r.phi.isEmpty = true
        ∨ r.v.isEmpty = true) := by
      simp [List.isEmpty_iff, h1, h2, h3, h4]
    rw [List.foldlM_cons]
    simp only [GetTemporalProfile.stitch, if_neg hc, Option.bind_eq_bind, Option.some_bind]
    rw [ih _ (fun t ht => h t (List.mem_cons_of_mem _ ht))]
    simp

theorem stitch_foldlM_accumulated_s :
    ∀ (rs : List (HybridAStartResult α)) (init r : HybridAStartResult α),
      rs.foldlM GetTemporalProfile.stitch init = some r →
      r.accumulated_s = init.accumulated_s := by
  intro rs
  induction rs with
  | nil => intro init r h; simp at h; rw [← h]
  | cons t rs ih =>
    intro init r h
    rw [List.foldlM_cons] at h
    simp only [GetTemporalProfile.stitch] at h
    split_ifs at h with hc
    · simp at h
    · simp only [Option.bind_eq_bind, Option.some_bind] at h
      rw [ih _ _ h]

theorem stitchAll_accumulated_s (rs : List (HybridAStartResult α)) (r : HybridAStartResult α)
    (h : GetTemporalProfile.stitchAll rs = some r) : r.accumulated_s = [] := by
  simp only [GetTemporalProfile.stitchAll, Option.bind_eq_bind, Option.bind_eq_some] at h
  obtain ⟨st, hst, last, -, xb, -, yb, -, pb, -, vb, -, hr⟩ := h
  have := stitch_foldlM_accumulated_s rs _ st hst
  simp only [Option.some.injEq] at hr
  rw [← hr]
  exact this

theorem stitchAll_eq (rs : List (HybridAStartResult α)) (hne : rs ≠ [])
    (h : ∀ r ∈ rs, r.x ≠ [] ∧ r.y ≠ [] ∧ r.phi ≠ [] ∧ r.v ≠ []) :
    GetTemporalProfile.stitchAll rs = some
      { x := glue (rs.map (fun r => r.x))
        y := glue (rs.map (fun r => r.y))
        phi := glue (rs.map (fun r => r.phi))
        v := glue (rs.map (fun r => r.v))
        a := (rs.map (fun r => r.a)).flatten
        steer := (rs.map (fun r => r.steer)).flatten
        accumulated_s := [] } := by
  obtain ⟨last, hlast⟩ := getLast?_some_of_ne_nil rs hne
  obtain ⟨h1, h2, h3, h4⟩ := h last (List.mem_of_getLast?_eq_some hlast)
  obtain ⟨xb, hxb⟩ := getLast?_some_of_ne_nil _ h1
  obtain ⟨yb, hyb⟩ := getLast?_some_of_ne_nil _ h2
  obtain ⟨pb, hpb⟩ := getLast?_some_of_ne_nil _ h3
  obtain ⟨vb, hvb⟩ := getLast?_some_of_ne_nil _ h4
  simp only [GetTemporalProfile.stitchAll, stitch_foldlM rs {} h, hlast, hxb, hyb, hpb, hvb,
    Option.bind_eq_bind, Option.some_bind, glue, List.getLast?_map, Option.map_some',
    Option.toList, List.nil_append]

theorem GetTemporalProfile_finite_difference (cfg : Config α) (M : MathFns α) (K : Collab α)
    (result : HybridAStartResult α) (hmode : cfg.FLAGS_use_s_curve_speed_smooth = false)
    (h2 : 2 ≤ result.x.length) (hy : result.x.length = result.y.length)
    (hphi : result.x.length = result.phi.length) :
    ∃ r, GetTemporalProfile cfg M K result = some (true, r) ∧ r.x = result.x ∧ r.y = result.y
      ∧ r.phi = result.phi ∧ r.v.length = result.x.length ∧ r.v[0]? = some 0
      ∧ r.v[result.x.length - 1]? = some 0 ∧ r.a.length = result.x.length - 1
      ∧ r.steer.length = result.x.length - 1 ∧ r.accumulated_s = [] := by
  obtain ⟨segs, hsegs, hne, hfresh, hgx, hgy, hgphi⟩ :=
    segments_fresh M result.x result.y result.phi h2 hy hphi
  obtain ⟨rs, hrs, hxs, hys, hphis, hprof⟩ := profiles_fresh cfg M segs hfresh
  have hrne : rs ≠ [] := by
    intro h; rw [h] at hxs; simp at hxs; exact hne hxs
  have hnonempty : ∀ r ∈ rs, r.x ≠ [] ∧ r.y ≠ [] ∧ r.phi ≠ [] ∧ r.v ≠ [] := by
    intro r hr
    obtain ⟨p1, p2, p3, p4, -⟩ := hprof r hr
    refine ⟨?_, ?_, ?_, ?_⟩
    · intro h; rw [h] at p1; simp at p1
    · intro h; rw [h] at p2; simp at p2; omega
    · intro h; rw [h] at p3; simp at p3; omega
    · intro h; rw [h] at p4; simp at p4; omega
  have hxlen : (glue (rs.map (fun r => r.x))).length = result.x.length := by
    rw [hxs, hgx]
  have hsum : (rs.map (fun r => r.x.length - 1)).sum + 1 = result.x.length := by
    rw [← hxlen, glue_length _ (by simpa using hrne) (by
      intro l hl
      obtain ⟨r, hr, rfl⟩ := List.mem_map.1 hl
      exact (hnonempty r hr).1), List.map_map]
    rfl
  have hvlen : (glue (rs.map (fun r => r.v))).length = result.x.length := by
    rw [glue_length _ (by simpa using hrne) (by
      intro l hl
      obtain ⟨r, hr, rfl⟩ := List.mem_map.1 hl
      exact (hnonempty r hr).2.2.2), List.map_map, ← hsum]
    congr 1
    apply sum_pred_lengths_eq
    intro r hr
    simp [(hprof r hr).2.2.2.1]
  have hvlast : (glue (rs.map (fun r => r.v))).getLast? = some 0 := by
    obtain ⟨last, hlast⟩ := getLast?_some_of_ne_nil rs hrne
    have := (hprof last (List.mem_of_getLast?_eq_some hlast)).2.2.2.2.2.1
    simp [glue, List.getLast?_map, hlast, this, Option.toList]
  refine ⟨HybridAStartResult.mk (glue (rs.map (fun r => r.x))) (glue (rs.map (fun r => r.y)))
    (glue (rs.map (fun r => r.phi))) (glue (rs.map (fun r => r.v)))
    (rs.map (fun r => r.a)).flatten (rs.map (fun r => r.steer)).flatten [],
    ?_, ?_, ?_, ?_, hvlen, ?_, ?_, ?_, ?_, rfl⟩
  · have hc : ¬ (result.x.length ≠ result.y.length ∨ result.x.length ≠ result.phi.length) := by
      simp [hy, ← hphi]
    simp only [GetTemporalProfile, TrajectoryPartition, if_neg hc, hsegs, hmode,
      Option.bind_eq_bind, Option.some_bind, hrs, stitchAll_eq rs hrne hnonempty,
      Option.map_some', Bool.false_eq_true, if_false]
  · show glue (rs.map (fun r => r.x)) = result.x
    rw [hxs, hgx]
  · show glue (rs.map (fun r => r.y)) = result.y
    rw [hys, hgy]
  · show glue (rs.map (fun r => r.phi)) = result.phi
    rw [hphis, hgphi]
  · show (glue (rs.map (fun r => r.v)))[0]? = some 0
    cases hrs' : rs with
    | nil => exact absurd hrs' hrne
    | cons r rest =>
      obtain ⟨p1, p2, p3, p4, p5, -⟩ := hprof r (by rw [hrs']; exact List.mem_cons_self _ _)
      have hd : r.v.dropLast ≠ [] := by
        intro h
        have := congrArg List.length h
        simp at this; omega
      have hh : (r.v.dropLast)[0]? = some 0 := by
        rw [← List.head?_eq_getElem?, List.dropLast_eq_take, List.head?_take, if_neg (by omega)]
        exact p5
      simp only [glue, List.map_cons, List.flatten_cons, List.append_assoc]
      rw [List.getElem?_append_left (by
        rcases Nat.eq_zero_or_pos r.v.dropLast.length with h | h
        · exact absurd (List.length_eq_zero.1 h) hd
        · exact h)]
      exact hh
  · show (glue (rs.map (fun r => r.v)))[result.x.length - 1]? = some 0
    rw [← hvlen, ← List.getLast?_eq_getElem?]
    exact hvlast
  · show ((rs.map (fun r => r.a)).flatten).length = result.x.length - 1
    rw [List.length_flatten, List.map_map, ← hsum]
    simp only [Nat.add_sub_cancel]
    apply sum_pred_lengths_eq
    intro r hr
    simp [(hprof r hr).2.2.2.2.2.2.1]
  · show ((rs.map (fun r => r.steer)).flatten).length = result.x.length - 1
    rw [List.length_flatten, List.map_map, ← hsum]
    simp only [Nat.add_sub_cancel]
    apply sum_pred_lengths_eq
    intro r hr
    simp [(hprof r hr).2.2.2.2.2.2.2]

theorem backtrack_chain : ∀ (n : Node3d α) (hx hy hphi : List α),
    (∀ m ∈ (Node3d.chain n).tail, m.GetXs ≠ [] ∧ m.GetXs.length = m.GetYs.length
      ∧ m.GetXs.length = m.GetPhis.length) →
    ∃ n0, (Node3d.chain n).head? = some n0 ∧ n0.GetPreNode = none ∧
      GetResult.backtrack n hx hy hphi = some (n0,
        hx ++ (((Node3d.chain n).tail.map (fun m => m.GetXs.tail)).flatten).reverse,
        hy ++ (((Node3d.chain n).tail.map (fun m => m.GetYs.tail)).flatten).reverse,
        hphi ++ (((Node3d.chain n).tail.map (fun m => m.GetPhis.tail)).flatten).reverse)
  | Node3d.mk x y p s xs ys ps i g h none st d, hx, hy, hphi, _ => by
    refine ⟨_, rfl, rfl, ?_⟩
    simp [GetResult.backtrack, Node3d.chain]
  | Node3d.mk x y p s xs ys ps i g h (some pre) st d, hx, hy, hphi, hwf => by
    have hne : Node3d.chain pre ≠ [] := by
      cases pre with
      | mk _ _ _ _ _ _ _ _ _ _ pp _ _ => cases pp <;> simp [Node3d.chain]
    have htail : (Node3d.chain (Node3d.mk x y p s xs ys ps i g h (some pre) st d)).tail
        = (Node3d.chain pre).tail ++ [Node3d.mk x y p s xs ys ps i g h (some pre) st d] := by
      simp only [Node3d.chain]
      exact List.tail_append_of_ne_nil hne
    have hself := hwf (Node3d.mk x y p s xs ys ps i g h (some pre) st d)
      (by rw [htail]; simp)
    simp only [Node3d.GetXs, Node3d.GetYs, Node3d.GetPhis] at hself
    obtain ⟨hxne, hylen, hplen⟩ := hself
    obtain ⟨n0, hhead, hroot, hbt⟩ := backtrack_chain pre (hx ++ xs.reverse.dropLast)
      (hy ++ ys.reverse.dropLast) (hphi ++ ps.reverse.dropLast)
      (fun m hm => hwf m (by rw [htail]; exact List.mem_append_left _ hm))
    refine ⟨n0, ?_, hroot, ?_⟩
    · simp only [Node3d.chain]
      rw [List.head?_append_of_ne_nil _ hne]; exact hhead
    · have hyne : ys ≠ [] := by
        intro h0; rw [h0] at hylen; simp at hylen; exact hxne hylen
      have hpne : ps ≠ [] := by
        intro h0; rw [h0] at hplen; simp at hplen; exact hxne hplen
      have hc1 : ¬ (xs.isEmpty = true ∨ ys.isEmpty = true ∨ ps.isEmpty = true) := by
        simp [List.isEmpty_iff, hxne, hyne, hpne]
      have hc2 : ¬ (xs.length ≠ ys.length ∨ xs.length ≠ ps.length) := by
        simp [hylen, ← hplen]
      rw [GetResult.backtrack, if_neg hc1, if_neg hc2, hbt, htail]
      simp [List.dropLast_reverse, Node3d.GetXs, Node3d.GetYs, Node3d.GetPhis]

theorem assemble_chain (n : Node3d α)
    (hwf : ∀ m ∈ (Node3d.chain n).tail, m.GetXs ≠ [] ∧ m.GetXs.length = m.GetYs.length
      ∧ m.GetXs.length = m.GetPhis.length) :
    ∃ n0, (Node3d.chain n).head? = some n0 ∧ n0.GetPreNode = none ∧
      GetResult.assemble n = some
        (n0.GetX :: ((Node3d.chain n).tail.map (fun m => m.GetXs.tail)).flatten,
         n0.GetY :: ((Node3d.chain n).tail.map (fun m => m.GetYs.tail)).flatten,
         n0.GetPhi :: ((Node3d.chain n).tail.map (fun m => m.GetPhis.tail)).flatten) := by
  obtain ⟨n0, h1, h2, h3⟩ := backtrack_chain n [] [] [] hwf
  refine ⟨n0, h1, h2, ?_⟩
  simp [GetResult.assemble, h3]

theorem backtrack_some : ∀ (n : Node3d α) (hx hy hphi : List α)
    (res : Node3d α × List α × List α × List α),
    GetResult.backtrack n hx hy hphi = some res →
    ∀ m ∈ (Node3d.chain n).tail, m.GetXs ≠ [] ∧ m.GetXs.length = m.GetYs.length
      ∧ m.GetXs.length = m.GetPhis.length
  | Node3d.mk x y p s xs ys ps i g h none st d, hx, hy, hphi, res, _ => by
    simp [Node3d.chain]
  | Node3d.mk x y p s xs ys ps i g h (some pre) st d, hx, hy, hphi, res, hbt => by
    have htail : (Node3d.chain (Node3d.mk x y p s xs ys ps i g h (some pre) st d)).tail
        = (Node3d.chain pre).tail ++ [Node3d.mk x y p s xs ys ps i g h (some pre) st d] := by
      simp only [Node3d.chain]
      exact List.tail_append_of_ne_nil (Node3d.chain_ne_nil pre)
    rw [GetResult.backtrack] at hbt
    by_cases hc1 : xs.isEmpty = true ∨ ys.isEmpty = true ∨ ps.isEmpty = true
    · rw [if_pos hc1] at hbt; simp at hbt
    · rw [if_neg hc1] at hbt
      by_cases hc2 : xs.length ≠ ys.length ∨ xs.length ≠ ps.length
      · rw [if_pos hc2] at hbt; simp at hbt
      · rw [if_neg hc2] at hbt
        have ih := backtrack_some pre _ _ _ res hbt
        intro m hm
        rw [htail] at hm
        rcases List.mem_append.1 hm with hm | hm
        · exact ih m hm
        · rw [List.mem_singleton] at hm
          subst hm
          simp only [Node3d.GetXs, Node3d.GetYs, Node3d.GetPhis]
          push_neg at hc1 hc2
          refine ⟨?_, hc2.1, hc2.2⟩
          intro h0
          rw [h0] at hc1
          simp at hc1

theorem assemble_some (n : Node3d α) (res : List α × List α × List α)
    (h : GetResult.assemble n = some res) :
    ∀ m ∈ (Node3d.chain n).tail, m.GetXs ≠ [] ∧ m.GetXs.length = m.GetYs.length
      ∧ m.GetXs.length = m.GetPhis.length := by
  simp only [GetResult.assemble] at h
  cases hb : GetResult.backtrack n [] [] [] with
  | none => rw [hb] at h; simp at h
  | some res' => exact backtrack_some n _ _ _ res' hb

theorem GetTemporalProfile_true_length (cfg : Config α) (M : MathFns α) (K : Collab α)
    (result r : HybridAStartResult α)
    (h : GetTemporalProfile cfg M K result = some (true, r)) :
    2 ≤ result.x.length ∧ result.x.length = result.y.length
      ∧ result.x.length = result.phi.length := by
  simp only [GetTemporalProfile] at h
  cases htp : TrajectoryPartition cfg M K result with
  | none => rw [htp] at h; simp at h
  | some o =>
    cases o with
    | none => rw [htp] at h; simp at h
    | some parts =>
      simp only [TrajectoryPartition] at htp
      by_cases hc : result.x.length ≠ result.y.length ∨ result.x.length ≠ result.phi.length
      · rw [if_pos hc] at htp; simp at htp
      · rw [if_neg hc] at htp
        push_neg at hc
        refine ⟨?_, hc.1, hc.2⟩
        simp only [Option.bind_eq_bind, Option.bind_eq_some] at htp
        obtain ⟨segs, hsegs, -⟩ := htp
        simp only [TrajectoryPartition.segments, Option.bind_eq_bind, Option.bind_eq_some] at hsegs
        obtain ⟨_, -, x1, hx1, -⟩ := hsegs
        have := List.getElem?_eq_some_iff.1 hx1
        obtain ⟨hlt, -⟩ := this
        omega

theorem GetTemporalProfile_accumulated_s (cfg : Config α) (M : MathFns α) (K : Collab α)
    (result r : HybridAStartResult α)
    (h : GetTemporalProfile cfg M K result = some (true, r)) : r.accumulated_s = [] := by
  simp only [GetTemporalProfile] at h
  cases htp : TrajectoryPartition cfg M K result with
  | none => rw [htp] at h; simp at h
  | some o =>
    cases o with
    | none => rw [htp] at h; simp at h
    | some parts =>
      rw [htp] at h
      simp only [Option.map_eq_some', Prod.mk.injEq, true_and] at h
      obtain ⟨a, ha, rfl⟩ := h
      exact stitchAll_accumulated_s parts a ha

theorem ValidityCheck_congr (K : Collab α) (obs : List (List (LineSegment2d α)))
    (b : XYbounds α) (n m : Node3d α) (h1 : n.GetStepSize = m.GetStepSize)
    (h2 : n.GetXs = m.GetXs) (h3 : n.GetYs = m.GetYs) (h4 : n.GetPhis = m.GetPhis) :
    ValidityCheck K obs b n = ValidityCheck K obs b m := by
  simp only [ValidityCheck, h1, h2, h3, h4]

theorem NodeOK_congr (K : Collab α) (obs : List (List (LineSegment2d α)))
    (b : XYbounds α) (n m : Node3d α) (h1 : n.GetStepSize = m.GetStepSize)
    (h2 : n.GetXs = m.GetXs) (h3 : n.GetYs = m.GetYs) (h4 : n.GetPhis = m.GetPhis)
    (h : NodeOK K obs b m) : NodeOK K obs b n := by
  unfold NodeOK at *
  rw [ValidityCheck_congr K obs b n m h1 h2 h3 h4, h1, h2]
  exact h

theorem pqPop_mem : ∀ (pq : List (Node3d α × α)) (top : Node3d α × α)
    (rest : List (Node3d α × α)), pqPop pq = some (top, rest) →
    top ∈ pq ∧ ∀ p ∈ rest, p ∈ pq := by
  intro pq
  induction pq with
  | nil => intro top rest h; simp [pqPop] at h
  | cons p q ih =>
    intro top rest h
    simp only [pqPop] at h
    cases hq : pqPop q with
    | none =>
      rw [hq] at h
      simp only [Option.some.injEq, Prod.mk.injEq] at h
      obtain ⟨rfl, rfl⟩ := h
      simp
    | some mr =>
      obtain ⟨m, r⟩ := mr
      rw [hq] at h
      obtain ⟨hm, hr⟩ := ih m r hq
      simp only at h
      split_ifs at h with hc
      · simp only [Option.some.injEq, Prod.mk.injEq] at h
        obtain ⟨rfl, rfl⟩ := h
        exact ⟨List.mem_cons_self _ _, fun t ht => List.mem_cons_of_mem _ ht⟩
      · simp only [Option.some.injEq, Prod.mk.injEq] at h
        obtain ⟨rfl, rfl⟩ := h
        refine ⟨List.mem_cons_of_mem _ hm, ?_⟩
        intro t ht
        rcases List.mem_cons.1 ht with rfl | ht
        · exact List.mem_cons_self _ _
        · exact List.mem_cons_of_mem _ (hr t ht)

theorem AnalyticExpansion_some (K : Collab α) (self : State α) (cur n : Node3d α)
    (h : AnalyticExpansion K self cur = some (some n)) :
    n.GetPreNode = some cur
      ∧ NodeOK K self.obstacles_linesegments_vec_ self.XYbounds_ n := by
  simp only [AnalyticExpansion, Option.bind_eq_bind, Option.bind_eq_some] at h
  obtain ⟨e, -, h⟩ := h
  cases hrs : K.ShortestRSP self.reeds_sheep_last_straight_ cur e with
  | none => rw [hrs] at h; simp at h
  | some rsp =>
    rw [hrs] at h
    simp only [Option.bind_eq_bind, Option.bind_eq_some] at h
    obtain ⟨ok, hok, h⟩ := h
    cases ok with
    | false => simp at h
    | true =>
      simp only [Bool.true_eq_false, if_false, Option.bind_eq_some, Option.some.injEq] at h
      obtain ⟨m, hm, rfl⟩ := h
      simp only [LoadRSPinCS, Option.bind_eq_bind, Option.bind_eq_some, Option.some.injEq] at hm
      obtain ⟨e', he', rfl⟩ := hm
      simp only [RSPCheck, Option.bind_eq_bind, Option.bind_eq_some] at hok
      obtain ⟨e'', he'', hv⟩ := hok
      rw [he'] at he''
      simp only [Option.some.injEq] at he''
      subst he''
      refine ⟨by simp, ?_⟩
      apply NodeOK_congr K _ _ _ e' (by simp) (by simp) (by simp) (by simp)
      obtain ⟨h1, h2, -⟩ := Node3d.ofTraversed_some _ _ _ _ _ he'
      exact ⟨hv, by rw [h1, h2]⟩

theorem Next_node_generator_some (cfg : Config α) (M : MathFns α) (K : Collab α)
    (self : State α) (cur n : Node3d α) (i : Nat)
    (h : Next_node_generator cfg M K self cur i = some (some n)) :
    n.GetPreNode = some cur ∧ n.GetStepSize = n.GetXs.length := by
  simp only [Next_node_generator, Option.bind_eq_bind, Option.bind_eq_some] at h
  obtain ⟨im, -, xb, -, yb, -, h⟩ := h
  split_ifs at h with hc
  · simp at h
  · simp only [Option.bind_eq_some, Option.some.injEq] at h
    obtain ⟨m, hm, rfl⟩ := h
    obtain ⟨h1, h2, -⟩ := Node3d.ofTraversed_some _ _ _ _ _ hm
    refine ⟨by simp, ?_⟩
    simp [h1, h2]

theorem child_inv (cfg : Config α) (M : MathFns α) (K : Collab α) (self : State α)
    (ex ey : α) (cur : Node3d α) (start : Node3d α)
    (hcur : Node3d.Reaches (NodeOK K self.obstacles_linesegments_vec_ self.XYbounds_) start cur)
    (i : Nat) (st st' : List (Node3d α × α) × List String)
    (hst : ∀ p ∈ st.1,
      Node3d.Reaches (NodeOK K self.obstacles_linesegments_vec_ self.XYbounds_) start p.1)
    (h : Plan.child cfg M K self ex ey cur st i = some st') :
    ∀ p ∈ st'.1,
      Node3d.Reaches (NodeOK K self.obstacles_linesegments_vec_ self.XYbounds_) start p.1 := by
  simp only [Plan.child, Option.bind_eq_bind, Option.bind_eq_some] at h
  obtain ⟨next, hnext, h⟩ := h
  cases next with
  | none => simp only [Option.some.injEq] at h; rw [← h]; exact hst
  | some n =>
    simp only at h
    by_cases hc : n.GetIndex ∈ self.close_set_
    · rw [if_pos hc] at h
      simp only [Option.some.injEq] at h; rw [← h]; exact hst
    · rw [if_neg hc] at h
      simp only [Option.bind_eq_some] at h
      obtain ⟨ok, hok, h⟩ := h
      cases ok with
      | false => simp only [if_true, Option.some.injEq] at h; rw [← h]; exact hst
      | true =>
        simp only [Bool.true_eq_false, if_false] at h
        by_cases hc2 : n.GetIndex ∉ self.open_set_
        · rw [if_pos hc2] at h
          simp only [Option.some.injEq] at h
          rw [← h]
          intro p hp
          rcases List.mem_append.1 hp with hp | hp
          · exact hst p hp
          · rw [List.mem_singleton] at hp
            subst hp
            obtain ⟨hpre, hlen⟩ := Next_node_generator_some cfg M K self cur n i hnext
            refine Node3d.Reaches.step _ cur ?_ hcur ?_
            · simp [CalculateNodeCost, hpre]
            · apply NodeOK_congr K _ _ _ n (by simp [CalculateNodeCost])
                (by simp [CalculateNodeCost]) (by simp [CalculateNodeCost])
                (by simp [CalculateNodeCost])
              exact ⟨hok, hlen⟩
        · rw [if_neg hc2] at h
          simp only [Option.some.injEq] at h; rw [← h]; exact hst

theorem iteration_inv (cfg : Config α) (M : MathFns α) (K : Collab α) (ex ey : α)
    (obs : List (List (LineSegment2d α))) (b : XYbounds α) (start : Node3d α)
    (l l' : Plan.Loop α) (brk : Bool) (hinv : SearchInv K obs b start l.self)
    (h : Plan.iteration cfg M K ex ey l = some (l', brk)) :
    SearchInv K obs b start l'.self := by
  obtain ⟨hobs, hb, hpq, hfin⟩ := hinv
  simp only [Plan.iteration, Option.bind_eq_bind, Option.bind_eq_some] at h
  obtain ⟨top, htop, cand, hcand, h⟩ := h
  obtain ⟨htopmem, hrest⟩ := pqPop_mem _ _ _ htop
  have hcur := hpq _ htopmem
  have hfin' : ∀ f, Plan.retain l.self.final_node_ cand = some f →
      Node3d.Reaches (NodeOK K obs b) start f := by
    intro f hf
    cases cand with
    | none => exact hfin f hf
    | some c =>
      obtain ⟨hpre, hok⟩ := AnalyticExpansion_some K _ _ _ hcand
      simp only [hobs, hb] at hok
      have hc : Node3d.Reaches (NodeOK K obs b) start c :=
        Node3d.Reaches.step _ _ hpre hcur hok
      cases hfn : l.self.final_node_ with
      | none =>
        rw [hfn] at hf
        simp only [Plan.retain, Option.some.injEq] at hf
        rw [← hf]; exact hc
      | some best =>
        rw [hfn] at hf
        simp only [Plan.retain] at hf
        split_ifs at hf
        · simp only [Option.some.injEq] at hf; rw [← hf]; exact hc
        · simp only [Option.some.injEq] at hf; rw [← hf]; exact hfin _ hfn
  by_cases hc : K.timeExceeded (l.explored_node_num + 1) = true
      ∧ 0 < (if cand.isSome = true then l.available_result_num + 1 else l.available_result_num)
  · rw [if_pos hc] at h
    simp only [Option.some.injEq, Prod.mk.injEq] at h
    obtain ⟨rfl, -⟩ := h
    exact ⟨hobs, hb, fun p hp => hpq p (hrest p hp), hfin'⟩
  · rw [if_neg hc] at h
    simp only [Option.bind_eq_some, Option.some.injEq, Prod.mk.injEq] at h
    obtain ⟨st, hst, rfl, -⟩ := h
    refine ⟨hobs, hb, ?_, hfin'⟩
    have := forRange_preserves
      (Plan.child cfg M K
        { l.self with
          open_pq_ := top.2
          final_node_ := Plan.retain l.self.final_node_ cand
          close_set_ := l.self.close_set_ ++ [top.1.1.GetIndex] } ex ey top.1.1)
      (fun st => ∀ p ∈ st.1, Node3d.Reaches (NodeOK K obs b) start p.1)
      (by
        intro i t t' ht hstep
        have := child_inv cfg M K _ ex ey top.1.1 start (by simpa [hobs, hb] using hcur) i t t'
          (by simpa [hobs, hb] using ht) hstep
        simpa [hobs, hb] using this)
      cfg.next_node_num_ 0 _ st (fun p hp => hpq p (hrest p hp)) hst
    exact this

theorem search_inv (cfg : Config α) (M : MathFns α) (K : Collab α) (ex ey : α)
    (obs : List (List (LineSegment2d α))) (b : XYbounds α) (start : Node3d α) :
    ∀ (fuel : Nat) (l l' : Plan.Loop α), SearchInv K obs b start l.self →
      Plan.search cfg M K ex ey fuel l = some l' → SearchInv K obs b start l'.self := by
  intro fuel
  induction fuel with
  | zero => intro l l' hinv h; simp only [Plan.search, Option.some.injEq] at h; rw [← h]; exact hinv
  | succ fuel ih =>
    intro l l' hinv h
    simp only [Plan.search] at h
    by_cases hc : Plan.continues cfg l = true
    · rw [if_pos hc] at h
      cases hit : Plan.iteration cfg M K ex ey l with
      | none => rw [hit] at h; simp at h
      | some lb =>
        obtain ⟨l1, brk⟩ := lb
        rw [hit] at h
        have hinv1 := iteration_inv cfg M K ex ey obs b start l l1 brk hinv hit
        cases brk with
        | true => simp only [Option.some.injEq] at h; rw [← h]; exact hinv1
        | false => exact ih l1 l' hinv1 h
    · rw [if_neg hc] at h
      simp only [Option.some.injEq] at h; rw [← h]; exact hinv

theorem ofTraversed_singleton (K : Collab α) (sx sy sphi : α) :
    Node3d.ofTraversed K.gridIndex [sx] [sy] [sphi] = some (Plan.startNode K sx sy sphi) := rfl

theorem Plan_true (cfg : Config α) (M : MathFns α) (K : Collab α) (self : State α)
    (sx sy sphi ex ey ephi : α) (b : XYbounds α) (v : List (List (Vec2d α)))
    (result : HybridAStartResult α) (soft : List (List (Vec2d α))) (flag : Bool)
    (r : HybridAStartResult α) (s' : State α)
    (h : Plan cfg M K self sx sy sphi ex ey ephi b v result soft flag = some (true, r, s')) :
    ∃ obs f, Plan.obstacles v = some obs ∧ s'.final_node_ = some f
      ∧ Node3d.Reaches (NodeOK K obs b) (Plan.startNode K sx sy sphi) f
      ∧ GetResult cfg M K (some f) result = some (true, r)
      ∧ s'.obstacles_linesegments_vec_ = obs ∧ s'.XYbounds_ = b := by
  simp only [Plan, ofTraversed_singleton, Option.bind_eq_bind, Option.bind_eq_some,
    Option.some_bind] at h
  obtain ⟨obs, hobs, ok1, hok1, h⟩ := h
  refine ⟨obs, ?_⟩
  cases ok1 with
  | false => simp at h
  | true =>
    simp only [Bool.true_eq_false, if_false, Option.bind_eq_some] at h
    obtain ⟨ok2, hok2, h⟩ := h
    cases ok2 with
    | false => simp at h
    | true =>
      simp only [Bool.true_eq_false, if_false, Option.bind_eq_some] at h
      obtain ⟨l, hl, h⟩ := h
      have hinv := search_inv cfg M K ex ey obs b (Plan.startNode K sx sy sphi)
        cfg.max_explored_num _ l
        (by
          refine ⟨rfl, rfl, ?_, ?_⟩
          · intro p hp
            simp only [List.nil_append, List.mem_singleton] at hp
            subst hp
            exact Node3d.Reaches.root ⟨hok1, rfl⟩
          · intro f hf; simp at hf) hl
      obtain ⟨i1, i2, -, i4⟩ := hinv
      cases hf : l.self.final_node_ with
      | none => rw [hf] at h; simp at h
      | some f =>
        rw [hf] at h
        simp only [Option.bind_eq_some, Option.some.injEq, Prod.mk.injEq] at h
        obtain ⟨p, hp, h1, h2, h3⟩ := h
        subst h3
        refine ⟨f, hobs, hf, i4 f hf, ?_, i1, i2⟩
        rw [hp, ← h1, ← h2]


theorem scan_true (K : Collab α) (obs : List (List (LineSegment2d α))) (b : XYbounds α)
    (xs ys ps : List α) :
    ∀ (n i : Nat), ValidityCheck.scan K obs b xs ys ps i n = some true →
      ∀ j, i ≤ j → j < i + n →
        ∃ x y p, xs[j]? = some x ∧ ys[j]? = some y ∧ ps[j]? = some p ∧ PoseOK K obs b x y p := by
  intro n
  induction n with
  | zero => intro i _ j h1 h2; omega
  | succ n ih =>
    intro i h j h1 h2
    simp only [ValidityCheck.scan, Option.bind_eq_bind, Option.bind_eq_some] at h
    obtain ⟨x, hx, h⟩ := h
    by_cases c1 : x > b.b1 ∨ x < b.b0
    · rw [if_pos c1] at h; simp at h
    · rw [if_neg c1] at h
      simp only [Option.bind_eq_some] at h
      obtain ⟨y, hy, h⟩ := h
      by_cases c2 : y > b.b3 ∨ y < b.b2
      · rw [if_pos c2] at h; simp at h
      · rw [if_neg c2] at h
        simp only [Option.bind_eq_some] at h
        obtain ⟨p, hp, h⟩ := h
        by_cases c3 : (obs.any fun segs => segs.any fun seg => K.HasOverlap x y p seg) = true
        · rw [if_pos c3] at h; simp at h
        · rw [if_neg c3] at h
          rcases Nat.eq_or_lt_of_le h1 with rfl | hlt
          · refine ⟨x, y, p, hx, hy, hp, ?_, ?_⟩
            · push_neg at c1 c2
              exact ⟨c1.2, c1.1, c2.2, c2.1⟩
            · intro segs hsegs seg hseg
              by_contra hov
              apply c3
              simp only [List.any_eq_true]
              exact ⟨segs, hsegs, seg, hseg, by simpa using hov⟩
          · exact ih (i + 1) h j (by omega) (by omega)

theorem NodeOK_pose (K : Collab α) (obs : List (List (LineSegment2d α))) (b : XYbounds α)
    (m : Node3d α) (hok : NodeOK K obs b m) (hobs : obs ≠ []) (j : Nat)
    (hj : 1 ≤ j ∨ m.GetStepSize = 1) (hlt : j < m.GetXs.length) :
    ∃ x y p, m.GetXs[j]? = some x ∧ m.GetYs[j]? = some y ∧ m.GetPhis[j]? = some p
      ∧ PoseOK K obs b x y p := by
  obtain ⟨hv, hlen⟩ := hok
  simp only [ValidityCheck] at hv
  by_cases h0 : m.GetStepSize = 0
  · rw [if_pos h0] at hv; simp at hv
  · rw [if_neg h0] at hv
    have he : obs.isEmpty = false := by
      cases obs with
      | nil => exact absurd rfl hobs
      | cons _ _ => rfl
    rw [he] at hv
    simp only [Bool.false_eq_true, if_false] at hv
    apply scan_true K obs b _ _ _ _ _ hv j
    · simp only [ValidityCheck.check_start_index]
      split_ifs with h1
      · omega
      · rcases hj with hj | hj
        · exact hj
        · exact absurd hj h1
    · simp only [ValidityCheck.check_start_index]
      split_ifs with h1 <;> omega

theorem GetResult_true (cfg : Config α) (M : MathFns α) (K : Collab α) (f : Node3d α)
    (result r : HybridAStartResult α)
    (h : GetResult cfg M K (some f) result = some (true, r)) :
    ∃ hx hy hphi, GetResult.assemble f = some (hx, hy, hphi)
      ∧ GetTemporalProfile cfg M K { result with x := hx, y := hy, phi := hphi } = some (true, r)
      ∧ r.x.length = r.y.length ∧ r.x.length = r.v.length ∧ r.x.length = r.phi.length
      ∧ r.a.length = r.steer.length ∧ sizeSub r.x.length r.a.length = 1 := by
  simp only [GetResult, Option.bind_eq_bind, Option.some_bind] at h
  by_cases c0 : f.GetXs.isEmpty = true ∨ f.GetYs.isEmpty = true
  · rw [if_pos c0] at h; simp at h
  · rw [if_neg c0] at h
    cases ha : GetResult.assemble f with
    | none => rw [ha] at h; simp at h
    | some res =>
      obtain ⟨hx, hy, hphi⟩ := res
      rw [ha] at h
      simp only [Option.bind_eq_some] at h
      obtain ⟨p, hp, h⟩ := h
      obtain ⟨ok, r'⟩ := p
      cases ok with
      | false => simp at h
      | true =>
        simp only [Bool.true_eq_false, if_false] at h
        by_cases c1 : r'.x.length ≠ r'.y.length ∨ r'.x.length ≠ r'.v.length
            ∨ r'.x.length ≠ r'.phi.length
        · rw [if_pos c1] at h; simp at h
        · rw [if_neg c1] at h
          by_cases c2 : r'.a.length ≠ r'.steer.length ∨ sizeSub r'.x.length r'.a.length ≠ 1
          · rw [if_pos c2] at h; simp at h
          · rw [if_neg c2] at h
            simp only [Option.some.injEq, Prod.mk.injEq, true_and] at h
            subst h
            push_neg at c1 c2
            exact ⟨hx, hy, hphi, rfl, hp, c1.1, c1.2.1, c1.2.2, c2.1, c2.2⟩


theorem startNode_pre (K : Collab α) (sx sy sphi : α) :
    (Plan.startNode K sx sy sphi).GetPreNode = none := rfl

theorem Plan_true_pose_origin (cfg : Config α) (M : MathFns α) (K : Collab α) (self : State α)
    (sx sy sphi ex ey ephi : α) (b : XYbounds α) (v : List (List (Vec2d α)))
    (result : HybridAStartResult α) (soft : List (List (Vec2d α))) (flag : Bool)
    (r : HybridAStartResult α) (s' : State α)
    (hmode : cfg.FLAGS_use_s_curve_speed_smooth = false)
    (h : Plan cfg M K self sx sy sphi ex ey ephi b v result soft flag = some (true, r, s')) :
    ∃ obs f, Plan.obstacles v = some obs ∧ s'.final_node_ = some f
      ∧ NodeOK K obs b (Plan.startNode K sx sy sphi)
      ∧ ∀ (i : Nat) (xi yi pi : α), r.x[i]? = some xi → r.y[i]? = some yi →
          r.phi[i]? = some pi →
          (xi = sx ∧ yi = sy ∧ pi = sphi)
          ∨ ∃ m ∈ (Node3d.chain f).tail, ∃ j : Nat, 1 ≤ j ∧ m.GetXs[j]? = some xi
              ∧ m.GetYs[j]? = some yi ∧ m.GetPhis[j]? = some pi ∧ NodeOK K obs b m := by
  obtain ⟨obs, f, hobs, hf, hreach, hres, -, -⟩ :=
    Plan_true cfg M K self sx sy sphi ex ey ephi b v result soft flag r s' h
  obtain ⟨hhead, hall⟩ := hreach.chain_ok (startNode_pre K sx sy sphi)
  obtain ⟨hx, hy, hphi, hasm, hgtp, -⟩ := GetResult_true cfg M K f result r hres
  have hwf := assemble_some f _ hasm
  obtain ⟨n0, hn0, -, hasm'⟩ := assemble_chain f hwf
  rw [hhead] at hn0
  simp only [Option.some.injEq] at hn0
  subst hn0
  rw [hasm] at hasm'
  simp only [Option.some.injEq, Prod.mk.injEq] at hasm'
  obtain ⟨ex1, ex2, ex3⟩ := hasm'
  obtain ⟨l2, ly, lp⟩ := GetTemporalProfile_true_length cfg M K _ r hgtp
  obtain ⟨r', hr', rx, ry, rp, -⟩ :=
    GetTemporalProfile_finite_difference cfg M K _ hmode l2 ly lp
  rw [hgtp] at hr'
  simp only [Option.some.injEq, Prod.mk.injEq, true_and] at hr'
  subst hr'
  simp only at rx ry rp
  have hstart : NodeOK K obs b (Plan.startNode K sx sy sphi) :=
    hall _ (List.mem_of_mem_head? hhead)
  refine ⟨obs, f, hobs, hf, hstart, ?_⟩
  intro i xi yi pi hxi hyi hpi
  rw [rx, ex1] at hxi
  rw [ry, ex2] at hyi
  rw [rp, ex3] at hpi
  cases i with
  | zero =>
    left
    simp only [List.getElem?_cons_zero, Option.some.injEq] at hxi hyi hpi
    exact ⟨hxi.symm, hyi.symm, hpi.symm⟩
  | succ i =>
    right
    simp only [List.getElem?_cons_succ] at hxi hyi hpi
    obtain ⟨m, hm, j, h1, h2, h3⟩ :=
      flatten_getElem?_aligned (fun m : Node3d α => m.GetXs.tail) (fun m => m.GetYs.tail)
        (fun m => m.GetPhis.tail) (Node3d.chain f).tail
        (by
          intro m hm
          obtain ⟨-, e1, e2⟩ := hwf m hm
          simp only [List.length_tail]
          omega)
        i xi yi pi hxi hyi hpi
    simp only [List.getElem?_tail] at h1 h2 h3
    exact ⟨m, hm, j + 1, by omega, h1, h2, h3, hall m (List.mem_of_mem_tail hm)⟩

theorem pose_origin_ok (K : Collab α) (obs : List (List (LineSegment2d α))) (b : XYbounds α)
    (sx sy sphi : α) (f : Node3d α) (hobs : obs ≠ [])
    (hstart : NodeOK K obs b (Plan.startNode K sx sy sphi)) (xi yi pi : α)
    (h : (xi = sx ∧ yi = sy ∧ pi = sphi)
      ∨ ∃ m ∈ (Node3d.chain f).tail, ∃ j : Nat, 1 ≤ j ∧ m.GetXs[j]? = some xi
          ∧ m.GetYs[j]? = some yi ∧ m.GetPhis[j]? = some pi ∧ NodeOK K obs b m) :
    PoseOK K obs b xi yi pi := by
  rcases h with ⟨rfl, rfl, rfl⟩ | ⟨m, -, j, hj, h1, h2, h3, hok⟩
  · obtain ⟨x, y, p, e1, e2, e3, hp⟩ :=
      NodeOK_pose K obs b _ hstart hobs 0 (Or.inr rfl) (by simp [Plan.startNode, Node3d.GetXs])
    simp only [Plan.startNode, Node3d.GetXs, Node3d.GetYs, Node3d.GetPhis,
      List.getElem?_cons_zero, Option.some.injEq] at e1 e2 e3
    rw [e1, e2, e3]; exact hp
  · have hlt : j < m.GetXs.length := (List.getElem?_eq_some_iff.1 h1).1
    obtain ⟨x, y, p, e1, e2, e3, hp⟩ := NodeOK_pose K obs b m hok hobs j (Or.inl hj) hlt
    rw [h1] at e1; rw [h2] at e2; rw [h3] at e3
    simp only [Option.some.injEq] at e1 e2 e3
    rw [e1, e2, e3]; exact hp

theorem obstacles_eq_nil (v : List (List (Vec2d α))) (obs : List (List (LineSegment2d α)))
    (h : Plan.obstacles v = some obs) : obs = [] ↔ v = [] := by
  cases v with
  | nil =>
    simp only [Plan.obstacles, List.mapM_nil] at h
    simp only [pure, Option.some.injEq] at h
    simp [← h]
  | cons a l =>
    simp only [Plan.obstacles, List.mapM_cons, Option.bind_eq_bind, Option.bind_eq_some] at h
    obtain ⟨s, _, t, _, h⟩ := h
    simp only [pure, Option.some.injEq] at h
    simp [← h]

set_option maxRecDepth 100000 in
theorem samplePlan_eval :
    (Plan sampleConfig sampleMath sampleCollab sampleState 0 0 0 3 0 0 sampleBounds
      sampleObstacles {} [] false).map (fun p => (p.1, p.2.1)) = some (true, sampleResult) := by
  decide!

theorem ValidityCheck_scan_collab (K K' : Collab α) (hO : K'.HasOverlap = K.HasOverlap)
    (obs : List (List (LineSegment2d α))) (b : XYbounds α) (xs ys ps : List α) :
    ∀ (n i : Nat), ValidityCheck.scan K' obs b xs ys ps i n
      = ValidityCheck.scan K obs b xs ys ps i n := by
  intro n
  induction n with
  | zero => intro i; rfl
  | succ n ih =>
    intro i
    simp only [ValidityCheck.scan, hO, ih]

theorem ValidityCheck_collab (K K' : Collab α) (hO : K'.HasOverlap = K.HasOverlap)
    (obs : List (List (LineSegment2d α))) (b : XYbounds α) (n : Node3d α) :
    ValidityCheck K' obs b n = ValidityCheck K obs b n := by
  simp only [ValidityCheck, ValidityCheck_scan_collab K K' hO]

theorem ValidityCheck_single (K : Collab α) (obs : List (List (LineSegment2d α)))
    (b : XYbounds α) (x y phi : α) (idx : String) :
    ∃ ok, ValidityCheck K obs b (Node3d.mk x y phi 1 [x] [y] [phi] idx 0 0 none 0 true)
      = some ok := by
  simp only [ValidityCheck, Node3d.GetStepSize, Node3d.GetXs, Node3d.GetYs, Node3d.GetPhis,
    ValidityCheck.check_start_index, ValidityCheck.scan]
  simp only [one_ne_zero, if_false, if_true, Nat.sub_zero, List.getElem?_cons_zero,
    Option.bind_eq_bind, Option.some_bind]
  split_ifs <;> exact ⟨_, rfl⟩

theorem Plan_rejected (cfg : Config α) (M : MathFns α) (K : Collab α)
    (self : State α) (sx sy sphi ex ey ephi : α) (b : XYbounds α)
    (v : List (List (Vec2d α))) (obs : List (List (LineSegment2d α)))
    (result : HybridAStartResult α) (soft : List (List (Vec2d α))) (flag : Bool)
    (hobs : Plan.obstacles v = some obs)
    (hrej : ValidityCheck K obs b (Plan.startNode K sx sy sphi) = some false
      ∨ ValidityCheck K obs b (Plan.endNode K ex ey ephi) = some false) :
    Plan cfg M K self sx sy sphi ex ey ephi b v result soft flag
      = some (false, result, State.mk [] [] [] none obs b (some (Plan.startNode K sx sy sphi))
          (some (Plan.endNode K ex ey ephi)) flag) := by
  have hoe : Node3d.ofTraversed K.gridIndex [ex] [ey] [ephi]
      = some (Plan.endNode K ex ey ephi) := rfl
  obtain ⟨ok1, hok1⟩ := ValidityCheck_single K obs b sx sy sphi (K.gridIndex sx sy sphi)
  have hok1' : ValidityCheck K obs b (Plan.startNode K sx sy sphi) = some ok1 := hok1
  cases ok1 with
  | false =>
    simp only [Plan, ofTraversed_singleton, hoe, hobs, Option.bind_eq_bind,
      Option.some_bind, hok1', if_true]
  | true =>
    have hend : ValidityCheck K obs b (Plan.endNode K ex ey ephi) = some false := by
      rcases hrej with h | h
      · rw [hok1'] at h; simp at h
      · exact h
    simp only [Plan, ofTraversed_singleton, hoe, hobs, Option.bind_eq_bind,
      Option.some_bind, hok1', hend, Bool.true_eq_false, if_false, if_true]

theorem scan_out_of_bounds (K : Collab α) (obs : List (List (LineSegment2d α)))
    (b : XYbounds α) (xs ys ps : List α) (j : Nat) (x y : α)
    (hx : xs[j]? = some x) (hy : ys[j]? = some y)
    (hout : x > b.b1 ∨ x < b.b0 ∨ y > b.b3 ∨ y < b.b2) :
    ∀ (n i : Nat), i ≤ j → j < i + n → i + n ≤ xs.length → i + n ≤ ys.length →
      i + n ≤ ps.length → ValidityCheck.scan K obs b xs ys ps i n = some false := by
  intro n
  induction n with
  | zero => intro i h1 h2; omega
  | succ n ih =>
    intro i h1 h2 lx ly lp
    simp only [ValidityCheck.scan]
    rw [List.getElem?_eq_getElem (by omega : i < xs.length)]
    simp only [Option.bind_eq_bind, Option.some_bind]
    by_cases c1 : xs[i] > b.b1 ∨ xs[i] < b.b0
    · rw [if_pos c1]
    · rw [if_neg c1, List.getElem?_eq_getElem (by omega : i < ys.length)]
      simp only [Option.some_bind]
      by_cases c2 : ys[i] > b.b3 ∨ ys[i] < b.b2
      · rw [if_pos c2]
      · rw [if_neg c2, List.getElem?_eq_getElem (by omega : i < ps.length)]
        simp only [Option.some_bind]
        by_cases c3 : (obs.any fun segs => segs.any fun seg =>
            K.HasOverlap xs[i] ys[i] ps[i] seg) = true
        · rw [if_pos c3]
        · rw [if_neg c3]
          have hne : i ≠ j := by
            rintro rfl
            rw [List.getElem?_eq_getElem (by omega : i < xs.length)] at hx
            rw [List.getElem?_eq_getElem (by omega : i < ys.length)] at hy
            simp only [Option.some.injEq] at hx hy
            rw [hx] at c1
            rw [hy] at c2
            rcases hout with h | h | h | h
            · exact c1 (Or.inl h)
            · exact c1 (Or.inr h)
            · exact c2 (Or.inl h)
            · exact c2 (Or.inr h)
          exact ih (i + 1) (by omega) (by omega) (by omega) (by omega) (by omega)

theorem sizeSub_one (n : Nat) (h1 : 1 ≤ n) (h2 : n < sizeModulus) : sizeSub n 1 = n - 1 := by
  simp only [sizeSub, sizeModulus] at *
  omega

theorem integrate_succ (cfg : Config α) (M : MathFns α) (st tr : α) (k : Nat) (x y phi : α) :
    Next_node_generator.integrate cfg M st tr (k + 1) x y phi
      = Next_node_generator.substep cfg M st tr
          (Next_node_generator.integrate cfg M st tr k x y phi) := by
  simp only [Next_node_generator.integrate, Function.iterate_succ_apply']

theorem integrate_vectors (cfg : Config α) (M : MathFns α) (st tr : α) (x y phi : α) :
    ∀ k : Nat,
      (Next_node_generator.integrate cfg M st tr k x y phi).2.1.length = k + 1
      ∧ (Next_node_generator.integrate cfg M st tr k x y phi).2.2.1.length = k + 1
      ∧ (Next_node_generator.integrate cfg M st tr k x y phi).2.2.2.length = k + 1
      ∧ (Next_node_generator.integrate cfg M st tr k x y phi).2.1.getLast?
          = some (Next_node_generator.integrate cfg M st tr k x y phi).1.1
      ∧ (Next_node_generator.integrate cfg M st tr k x y phi).2.2.1.getLast?
          = some (Next_node_generator.integrate cfg M st tr k x y phi).1.2.1
      ∧ (Next_node_generator.integrate cfg M st tr k x y phi).2.1.head? = some x
      ∧ (Next_node_generator.integrate cfg M st tr k x y phi).2.2.1.head? = some y
      ∧ (Next_node_generator.integrate cfg M st tr k x y phi).2.2.2.head? = some phi := by
  intro k
  induction k with
  | zero => simp [Next_node_generator.integrate]
  | succ k ih =>
    obtain ⟨h1, h2, h3, h4, h5, h6, h7, h8⟩ := ih
    rw [integrate_succ]
    have ne : ∀ l : List α, l.length = k + 1 → l ≠ [] := by
      intro l hl h0; rw [h0] at hl; simp at hl
    refine ⟨?_, ?_, ?_, ?_, ?_, ?_, ?_, ?_⟩
    · simp [Next_node_generator.substep, h1]
    · simp [Next_node_generator.substep, h2]
    · simp [Next_node_generator.substep, h3]
    · simp [Next_node_generator.substep]
    · simp [Next_node_generator.substep]
    · simp only [Next_node_generator.substep]
      rw [List.head?_append_of_ne_nil _ (ne _ h1)]; exact h6
    · simp only [Next_node_generator.substep]
      rw [List.head?_append_of_ne_nil _ (ne _ h2)]; exact h7
    · simp only [Next_node_generator.substep]
      rw [List.head?_append_of_ne_nil _ (ne _ h3)]; exact h8

theorem steps_some (cfg : Config α) (h : cfg.step_size_ ≠ 0 ∨ cfg.arc_length_ ≤ 0) :
    Next_node_generator.steps cfg = some ⌈cfg.arc_length_ / cfg.step_size_⌉₊ := by
  have hc : ¬ (cfg.step_size_ = 0 ∧ 0 < cfg.arc_length_) := by
    rintro ⟨h1, h2⟩
    rcases h with h | h
    · exact h h1
    · exact absurd h2 (not_lt.2 h)
  simp only [Next_node_generator.steps, if_neg hc]

theorem Next_node_generator_spec (cfg : Config α) (M : MathFns α) (K : Collab α)
    (self : State α) (cur : Node3d α) (i k : Nat)
    (hk : Next_node_generator.steps cfg = some k) :
    (Next_node_generator.outside self.XYbounds_
        (Next_node_generator.loopState cfg M cur i k).1.1
        (Next_node_generator.loopState cfg M cur i k).1.2.1 →
      Next_node_generator cfg M K self cur i = some none)
    ∧ (¬ Next_node_generator.outside self.XYbounds_
        (Next_node_generator.loopState cfg M cur i k).1.1
        (Next_node_generator.loopState cfg M cur i k).1.2.1 →
      ∃ n, Next_node_generator cfg M K self cur i = some (some n)
        ∧ n.GetPreNode = some cur
        ∧ n.GetXs = (Next_node_generator.loopState cfg M cur i k).2.1
        ∧ n.GetYs = (Next_node_generator.loopState cfg M cur i k).2.2.1
        ∧ n.GetPhis = (Next_node_generator.loopState cfg M cur i k).2.2.2
        ∧ n.GetStepSize = k + 1
        ∧ n.GetDirec = decide ((Next_node_generator.primitive cfg i).2 > 0)
        ∧ n.GetSteer = (Next_node_generator.primitive cfg i).1
        ∧ n.GetX = (Next_node_generator.loopState cfg M cur i k).1.1
        ∧ n.GetY = (Next_node_generator.loopState cfg M cur i k).1.2.1) := by
  obtain ⟨h1, h2, h3, h4, h5, -⟩ := integrate_vectors cfg M (Next_node_generator.primitive cfg i).1
    (Next_node_generator.primitive cfg i).2 cur.GetX cur.GetY cur.GetPhi k
  obtain ⟨pb, hpb⟩ := getLast?_some_of_ne_nil
    (Next_node_generator.integrate cfg M (Next_node_generator.primitive cfg i).1
      (Next_node_generator.primitive cfg i).2 k cur.GetX cur.GetY cur.GetPhi).2.2.2
    (by intro h0; rw [h0] at h3; simp at h3)
  refine ⟨?_, ?_⟩
  · intro hout
    simp only [Next_node_generator.outside, Next_node_generator.loopState] at hout
    simp only [Next_node_generator, Next_node_generator.intermediate, hk, Option.bind_eq_bind,
      Option.some_bind, h4, h5]
    rw [if_pos hout]
  · intro hin
    simp only [Next_node_generator.outside, Next_node_generator.loopState] at hin
    simp only [Next_node_generator, Next_node_generator.intermediate, hk, Option.bind_eq_bind,
      Option.some_bind, h4, h5, Node3d.ofTraversed, hpb]
    rw [if_neg hin]
    exact ⟨_, rfl, rfl, rfl, rfl, rfl, h1, rfl, rfl, rfl, rfl⟩

theorem primitive_forward_iff (cfg : Config α) (i : Nat) (heven : cfg.next_node_num_ % 2 = 0) :
    (i : α) < (cfg.next_node_num_ : α) / 2 ↔ i < cfg.next_node_num_ / 2 := by
  have h2 : (cfg.next_node_num_ : α) / 2 = ((cfg.next_node_num_ / 2 : Nat) : α) := by
    have : cfg.next_node_num_ = 2 * (cfg.next_node_num_ / 2) := by omega
    conv_lhs => rw [this]
    push_cast
    ring
  rw [h2, Nat.cast_lt]

theorem primitive_eq (cfg : Config α) (i : Nat) (heven : cfg.next_node_num_ % 2 = 0)
    (hi : i < cfg.next_node_num_) :
    Next_node_generator.primitive cfg i
      = (-cfg.max_steer_angle_
          + ((i % (cfg.next_node_num_ / 2) : Nat) : α) * 2 * cfg.max_steer_angle_
            / (((cfg.next_node_num_ / 2 : Nat) : α) - 1),
         if i < cfg.next_node_num_ / 2 then cfg.step_size_ else -cfg.step_size_) := by
  have h2 : (cfg.next_node_num_ : α) / 2 = ((cfg.next_node_num_ / 2 : Nat) : α) := by
    have : cfg.next_node_num_ = 2 * (cfg.next_node_num_ / 2) := by omega
    conv_lhs => rw [this]
    push_cast
    ring
  simp only [Next_node_generator.primitive, primitive_forward_iff cfg i heven]
  by_cases hc : i < cfg.next_node_num_ / 2
  · rw [if_pos hc, if_pos hc, Nat.mod_eq_of_lt hc, h2]
    congr 1
    ring
  · rw [if_neg hc, if_neg hc, h2]
    have hm : i % (cfg.next_node_num_ / 2) = i - cfg.next_node_num_ / 2 := by
      have h1 : cfg.next_node_num_ / 2 ≤ i := by omega
      rw [Nat.mod_eq_sub_mod h1, Nat.mod_eq_of_lt (by omega)]
    rw [hm]
    congr 1
    ring

theorem substep_pose (cfg : Config α) (M : MathFns α) (st tr : α)
    (s t : (α × α × α) × (List α × List α × List α)) (h : s.1 = t.1) :
    (Next_node_generator.substep cfg M st tr s).1
      = (Next_node_generator.substep cfg M st tr t).1 := by
  simp only [Next_node_generator.substep, h]

theorem iterate_pose (cfg : Config α) (M : MathFns α) (st tr : α) :
    ∀ (k : Nat) (s t : (α × α × α) × (List α × List α × List α)), s.1 = t.1 →
      ((Next_node_generator.substep cfg M st tr)^[k] s).1
        = ((Next_node_generator.substep cfg M st tr)^[k] t).1 := by
  intro k
  induction k with
  | zero => intro s t h; exact h
  | succ k ih =>
    intro s t h
    rw [Function.iterate_succ_apply', Function.iterate_succ_apply']
    exact substep_pose cfg M st tr _ _ (ih s t h)

theorem substep_inverse (cfg : Config α) (M : MathFns α) (T : α)
    (hcos : ∀ (θ : α) (n : ℤ), M.cos (θ + n * T) = M.cos θ)
    (hsin : ∀ (θ : α) (n : ℤ), M.sin (θ + n * T) = M.sin θ)
    (st : α) (s t : (α × α × α) × (List α × List α × List α)) (n : ℤ)
    (hx : t.1.1 = (Next_node_generator.substep cfg M st cfg.step_size_ s).1.1)
    (hy : t.1.2.1 = (Next_node_generator.substep cfg M st cfg.step_size_ s).1.2.1)
    (hphi : t.1.2.2 = (Next_node_generator.substep cfg M st cfg.step_size_ s).1.2.2 + n * T) :
    (Next_node_generator.substep cfg M st (-cfg.step_size_) t).1
      = (s.1.1, s.1.2.1, s.1.2.2 + n * T) := by
  simp only [Next_node_generator.substep] at hx hy hphi ⊢
  rw [hx, hy, hphi]
  have e1 : s.1.2.2 + cfg.step_size_ / cfg.wheel_base * M.tan st + (n : α) * T
      + -cfg.step_size_ / cfg.wheel_base * M.tan st = s.1.2.2 + n * T := by ring
  have e2 : (s.1.2.2 + cfg.step_size_ / cfg.wheel_base * M.tan st + (n : α) * T
      + (s.1.2.2 + n * T)) / 2
      = (s.1.2.2 + (s.1.2.2 + cfg.step_size_ / cfg.wheel_base * M.tan st)) / 2 + n * T := by
    ring
  rw [e1, e2, hcos, hsin]
  refine Prod.ext ?_ (Prod.ext ?_ rfl)
  · simp only; ring
  · simp only; ring

theorem integrate_inverse (cfg : Config α) (M : MathFns α) (T : α)
    (hcos : ∀ (θ : α) (n : ℤ), M.cos (θ + n * T) = M.cos θ)
    (hsin : ∀ (θ : α) (n : ℤ), M.sin (θ + n * T) = M.sin θ) (st : α) (n : ℤ) :
    ∀ (k : Nat) (x y phi : α),
      (Next_node_generator.integrate cfg M st (-cfg.step_size_) k
        (Next_node_generator.integrate cfg M st cfg.step_size_ k x y phi).1.1
        (Next_node_generator.integrate cfg M st cfg.step_size_ k x y phi).1.2.1
        ((Next_node_generator.integrate cfg M st cfg.step_size_ k x y phi).1.2.2 + n * T)).1
      = (x, y, phi + n * T) := by
  intro k
  induction k with
  | zero => intro x y phi; rfl
  | succ k ih =>
    intro x y phi
    rw [integrate_succ cfg M st (-cfg.step_size_)]
    -- the forward run of `k + 1` passes is a run of `k` passes from the pose after one pass
    have hf : (Next_node_generator.integrate cfg M st cfg.step_size_ (k + 1) x y phi).1
        = (Next_node_generator.integrate cfg M st cfg.step_size_ k
            (Next_node_generator.substep cfg M st cfg.step_size_
              ((x, y, phi), ([x], [y], [phi]))).1.1
            (Next_node_generator.substep cfg M st cfg.step_size_
              ((x, y, phi), ([x], [y], [phi]))).1.2.1
            (Next_node_generator.substep cfg M st cfg.step_size_
              ((x, y, phi), ([x], [y], [phi]))).1.2.2).1 := by
      simp only [Next_node_generator.integrate, Function.iterate_succ_apply]
      exact iterate_pose cfg M st cfg.step_size_ k _ _ rfl
    rw [hf]
    have := ih (Next_node_generator.substep cfg M st cfg.step_size_
        ((x, y, phi), ([x], [y], [phi]))).1.1
      (Next_node_generator.substep cfg M st cfg.step_size_
        ((x, y, phi), ([x], [y], [phi]))).1.2.1
      (Next_node_generator.substep cfg M st cfg.step_size_
        ((x, y, phi), ([x], [y], [phi]))).1.2.2
    exact substep_inverse cfg M T hcos hsin st ((x, y, phi), ([x], [y], [phi])) _ n
      (by rw [this]) (by rw [this]) (by rw [this])

theorem integrate_heading (cfg : Config α) (M : MathFns α) (T : α)
    (hnorm : ∀ θ : α, ∃ n : ℤ, M.NormalizeAngle θ = θ + n * T) (st tr : α) (x y phi : α) :
    ∀ k : Nat, ∃ (ψ : α) (m : ℤ),
      (Next_node_generator.integrate cfg M st tr k x y phi).2.2.2.getLast? = some ψ
      ∧ ψ = (Next_node_generator.integrate cfg M st tr k x y phi).1.2.2 + m * T := by
  intro k
  cases k with
  | zero => exact ⟨phi, 0, rfl, by simp [Next_node_generator.integrate]⟩
  | succ k =>
    rw [integrate_succ]
    obtain ⟨m, hm⟩ := hnorm (Next_node_generator.substep cfg M st tr
      (Next_node_generator.integrate cfg M st tr k x y phi)).1.2.2
    refine ⟨_, m, ?_, hm⟩
    simp [Next_node_generator.substep]

theorem forRange_defined {σ : Type} (f : σ → Nat → Option σ)
    (h : ∀ s i, ∃ s', f s i = some s') (n lo : Nat) (s : σ) :
    ∃ s', forRange f lo n s = some s' := by
  obtain ⟨s', hs', -⟩ := forRange_inv f (fun _ _ => True) n lo s trivial
    (fun i t _ _ _ => by obtain ⟨t', ht'⟩ := h t i; exact ⟨t', ht', trivial⟩)
  exact ⟨s', hs'⟩

theorem scan_defined (K : Collab α) (obs : List (List (LineSegment2d α))) (b : XYbounds α)
    (xs ys ps : List α) :
    ∀ (n i : Nat), i + n ≤ xs.length → i + n ≤ ys.length → i + n ≤ ps.length →
      ∃ ok, ValidityCheck.scan K obs b xs ys ps i n = some ok := by
  intro n
  induction n with
  | zero => intro i _ _ _; exact ⟨true, rfl⟩
  | succ n ih =>
    intro i lx ly lp
    simp only [ValidityCheck.scan]
    rw [List.getElem?_eq_getElem (by omega : i < xs.length),
      List.getElem?_eq_getElem (by omega : i < ys.length),
      List.getElem?_eq_getElem (by omega : i < ps.length)]
    simp only [Option.bind_eq_bind, Option.some_bind]
    split_ifs
    · exact ⟨_, rfl⟩
    · exact ⟨_, rfl⟩
    · exact ⟨_, rfl⟩
    · exact ih (i + 1) (by omega) (by omega) (by omega)

theorem ValidityCheck_defined (K : Collab α) (obs : List (List (LineSegment2d α)))
    (b : XYbounds α) (n : Node3d α) (h0 : 0 < n.GetStepSize)
    (hx : n.GetStepSize = n.GetXs.length) (hy : n.GetXs.length = n.GetYs.length)
    (hp : n.GetXs.length = n.GetPhis.length) :
    ∃ ok, ValidityCheck K obs b n = some ok := by
  simp only [ValidityCheck, if_neg (by omega : ¬ n.GetStepSize = 0)]
  split_ifs
  · exact ⟨_, rfl⟩
  · have : ValidityCheck.check_start_index n.GetStepSize ≤ n.GetStepSize := by
      simp only [ValidityCheck.check_start_index]; split_ifs <;> omega
    exact scan_defined K obs b _ _ _ _ _ (by omega) (by omega) (by omega)

theorem AnalyticExpansion_defined (K : Collab α) (hRS : RSWellFormed K) (self : State α)
    (cur e : Node3d α) (he : self.end_node_ = some e) :
    ∃ o, AnalyticExpansion K self cur = some o := by
  simp only [AnalyticExpansion, he, Option.bind_eq_bind, Option.some_bind]
  cases hrs : K.ShortestRSP self.reeds_sheep_last_straight_ cur e with
  | none => exact ⟨_, rfl⟩
  | some p =>
    obtain ⟨h1, h2, h3⟩ := hRS _ _ _ _ hrs
    obtain ⟨xb, hxb⟩ := getLast?_some_of_ne_nil p.x h1
    obtain ⟨yb, hyb⟩ := getLast?_some_of_ne_nil p.y
      (by intro h; rw [h] at h2; simp at h2; exact h1 h2)
    obtain ⟨pb, hpb⟩ := getLast?_some_of_ne_nil p.phi
      (by intro h; rw [h] at h3; simp at h3; exact h1 h3)
    have hof : Node3d.ofTraversed K.gridIndex p.x p.y p.phi
        = some (Node3d.mk xb yb pb p.x.length p.x p.y p.phi (K.gridIndex xb yb pb) 0 0 none 0
            true) := by
      simp [Node3d.ofTraversed, hxb, hyb, hpb]
    obtain ⟨ok, hok⟩ := ValidityCheck_defined K self.obstacles_linesegments_vec_ self.XYbounds_
      (Node3d.mk xb yb pb p.x.length p.x p.y p.phi (K.gridIndex xb yb pb) 0 0 none 0 true)
      (by
        show 0 < p.x.length
        rcases Nat.eq_zero_or_pos p.x.length with h | h
        · exact absurd (List.length_eq_zero.1 h) h1
        · exact h)
      rfl h2 h3
    simp only [RSPCheck, LoadRSPinCS, hof, Option.bind_eq_bind, Option.some_bind, hok]
    cases ok <;> exact ⟨_, rfl⟩

theorem child_defined (cfg : Config α) (M : MathFns α) (K : Collab α) (self : State α)
    (ex ey : α) (cur : Node3d α) (hsteps : cfg.step_size_ ≠ 0 ∨ cfg.arc_length_ ≤ 0)
    (st : List (Node3d α × α) × List String) (i : Nat) :
    ∃ st', Plan.child cfg M K self ex ey cur st i = some st' := by
  have hk := steps_some cfg hsteps
  obtain ⟨hout, hin⟩ := Next_node_generator_spec cfg M K self cur i _ hk
  obtain ⟨l1, l2, l3, -⟩ := integrate_vectors cfg M (Next_node_generator.primitive cfg i).1
    (Next_node_generator.primitive cfg i).2 cur.GetX cur.GetY cur.GetPhi
    ⌈cfg.arc_length_ / cfg.step_size_⌉₊
  by_cases hc : Next_node_generator.outside self.XYbounds_
      (Next_node_generator.loopState cfg M cur i ⌈cfg.arc_length_ / cfg.step_size_⌉₊).1.1
      (Next_node_generator.loopState cfg M cur i ⌈cfg.arc_length_ / cfg.step_size_⌉₊).1.2.1
  · simp only [Plan.child, hout hc, Option.bind_eq_bind, Option.some_bind]
    exact ⟨_, rfl⟩
  · obtain ⟨n, hn, -, e1, e2, e3, e4, -⟩ := hin hc
    simp only [Next_node_generator.loopState] at e1 e2 e3
    obtain ⟨ok, hok⟩ := ValidityCheck_defined K self.obstacles_linesegments_vec_
      self.XYbounds_ n (by omega) (by rw [e4, e1, l1]) (by rw [e1, e2, l1, l2])
      (by rw [e1, e3, l1, l3])
    simp only [Plan.child, hn, Option.bind_eq_bind, Option.some_bind, hok]
    split_ifs <;> exact ⟨_, rfl⟩

theorem pqPop_some : ∀ (pq : List (Node3d α × α)), pq ≠ [] → ∃ t, pqPop pq = some t := by
  intro pq h
  cases pq with
  | nil => exact absurd rfl h
  | cons p q =>
    simp only [pqPop]
    cases pqPop q with
    | none => exact ⟨_, rfl⟩
    | some mr =>
      simp only
      split_ifs <;> exact ⟨_, rfl⟩

theorem iteration_facts (cfg : Config α) (M : MathFns α) (K : Collab α) (ex ey : α)
    (l l' : Plan.Loop α) (brk : Bool)
    (h : Plan.iteration cfg M K ex ey l = some (l', brk)) :
    ∃ top cand, pqPop l.self.open_pq_ = some top
      ∧ AnalyticExpansion K { l.self with open_pq_ := top.2 } top.1.1 = some cand
      ∧ l'.explored_node_num = l.explored_node_num + 1
      ∧ l'.available_result_num
          = (if cand.isSome then l.available_result_num + 1 else l.available_result_num)
      ∧ l'.self.final_node_ = Plan.retain l.self.final_node_ cand
      ∧ l'.self.close_set_ = l.self.close_set_ ++ [top.1.1.GetIndex]
      ∧ l'.self.end_node_ = l.self.end_node_ := by
  simp only [Plan.iteration, Option.bind_eq_bind, Option.bind_eq_some] at h
  obtain ⟨top, htop, cand, hcand, h⟩ := h
  refine ⟨top, cand, htop, hcand, ?_⟩
  by_cases hc : K.timeExceeded (l.explored_node_num + 1) = true
      ∧ 0 < (if cand.isSome = true then l.available_result_num + 1 else l.available_result_num)
  · rw [if_pos hc] at h
    simp only [Option.some.injEq, Prod.mk.injEq] at h
    obtain ⟨rfl, -⟩ := h
    exact ⟨rfl, rfl, rfl, rfl, rfl⟩
  · rw [if_neg hc] at h
    simp only [Option.bind_eq_some, Option.some.injEq, Prod.mk.injEq] at h
    obtain ⟨st, -, rfl, -⟩ := h
    exact ⟨rfl, rfl, rfl, rfl, rfl⟩

theorem iteration_defined (cfg : Config α) (M : MathFns α) (K : Collab α) (ex ey : α)
    (hRS : RSWellFormed K) (hsteps : cfg.step_size_ ≠ 0 ∨ cfg.arc_length_ ≤ 0)
    (l : Plan.Loop α) (e : Node3d α) (he : l.self.end_node_ = some e)
    (hc : Plan.continues cfg l = true) :
    ∃ r, Plan.iteration cfg M K ex ey l = some r := by
  simp only [Plan.continues, decide_eq_true_eq] at hc
  have hne : l.self.open_pq_ ≠ [] := by
    intro h0; rw [h0] at hc; simp at hc
  obtain ⟨top, htop⟩ := pqPop_some _ hne
  obtain ⟨cand, hcand⟩ := AnalyticExpansion_defined K hRS { l.self with open_pq_ := top.2 }
    top.1.1 e he
  simp only [Plan.iteration, htop, hcand, Option.bind_eq_bind, Option.some_bind]
  by_cases hb : K.timeExceeded (l.explored_node_num + 1) = true
      ∧ 0 < (if cand.isSome = true then l.available_result_num + 1 else l.available_result_num)
  · rw [if_pos hb]; exact ⟨_, rfl⟩
  · rw [if_neg hb]
    obtain ⟨st, hst⟩ := forRange_defined
      (Plan.child cfg M K
        { l.self with
          open_pq_ := top.2
          final_node_ := Plan.retain l.self.final_node_ cand
          close_set_ := l.self.close_set_ ++ [top.1.1.GetIndex] } ex ey top.1.1)
      (fun s i => child_defined cfg M K _ ex ey top.1.1 hsteps s i) cfg.next_node_num_ 0
      (top.2, [])
    rw [hst]
    exact ⟨_, rfl⟩

theorem search_defined (cfg : Config α) (M : MathFns α) (K : Collab α) (ex ey : α)
    (hRS : RSWellFormed K) (hsteps : cfg.step_size_ ≠ 0 ∨ cfg.arc_length_ ≤ 0)
    (e : Node3d α) :
    ∀ (fuel : Nat) (l : Plan.Loop α), l.self.end_node_ = some e →
      ∃ l', Plan.search cfg M K ex ey fuel l = some l' := by
  intro fuel
  induction fuel with
  | zero => intro l _; exact ⟨l, rfl⟩
  | succ fuel ih =>
    intro l he
    simp only [Plan.search]
    by_cases hc : Plan.continues cfg l = true
    · rw [if_pos hc]
      obtain ⟨r, hr⟩ := iteration_defined cfg M K ex ey hRS hsteps l e he hc
      obtain ⟨l1, brk⟩ := r
      rw [hr]
      cases brk with
      | true => exact ⟨_, rfl⟩
      | false =>
        obtain ⟨_, _, -, -, -, -, -, -, he'⟩ := iteration_facts cfg M K ex ey l l1 false hr
        exact ih l1 (by rw [he', he])
    · rw [if_neg hc]; exact ⟨_, rfl⟩

theorem search_fuel (cfg : Config α) (M : MathFns α) (K : Collab α) (ex ey : α) :
    ∀ (fuel extra : Nat) (l : Plan.Loop α),
      cfg.max_explored_num ≤ l.explored_node_num + fuel →
      Plan.search cfg M K ex ey (fuel + extra) l = Plan.search cfg M K ex ey fuel l := by
  intro fuel
  induction fuel with
  | zero =>
    intro extra l h
    have hc : ¬ Plan.continues cfg l = true := by
      simp only [Plan.continues, decide_eq_true_eq]
      omega
    cases extra with
    | zero => rfl
    | succ extra =>
      rw [Nat.zero_add]
      simp only [Plan.search, if_neg hc]
  | succ fuel ih =>
    intro extra l h
    have e1 : fuel + 1 + extra = (fuel + extra) + 1 := by omega
    rw [e1]
    simp only [Plan.search]
    by_cases hc : Plan.continues cfg l = true
    · rw [if_pos hc, if_pos hc]
      cases hit : Plan.iteration cfg M K ex ey l with
      | none => rfl
      | some r =>
        obtain ⟨l1, brk⟩ := r
        cases brk with
        | true => rfl
        | false =>
          obtain ⟨_, _, -, -, e, -⟩ := iteration_facts cfg M K ex ey l l1 false hit
          exact ih extra l1 (by omega)
    · rw [if_neg hc, if_neg hc]

theorem retain_toList (fin cand : Option (Node3d α)) :
    Plan.retain fin cand
      = cand.toList.foldl (fun acc c => Plan.retain acc (some c)) fin := by
  cases cand <;> rfl

theorem search_facts (cfg : Config α) (M : MathFns α) (K : Collab α) (ex ey : α) :
    ∀ (fuel : Nat) (l l' : Plan.Loop α), Plan.search cfg M K ex ey fuel l = some l' →
      l'.self.final_node_
          = (Plan.candidates cfg M K ex ey fuel l).foldl
              (fun acc c => Plan.retain acc (some c)) l.self.final_node_
      ∧ l'.available_result_num
          = l.available_result_num + (Plan.candidates cfg M K ex ey fuel l).length
      ∧ l.explored_node_num ≤ l'.explored_node_num
      ∧ (l.explored_node_num ≤ cfg.max_explored_num →
          l'.explored_node_num ≤ cfg.max_explored_num)
      ∧ l'.self.close_set_.length + l.explored_node_num
          = l.self.close_set_.length + l'.explored_node_num := by
  intro fuel
  induction fuel with
  | zero =>
    intro l l' h
    simp only [Plan.search, Option.some.injEq] at h
    subst h
    simp [Plan.candidates]
  | succ fuel ih =>
    intro l l' h
    simp only [Plan.search] at h
    simp only [Plan.candidates]
    by_cases hc : Plan.continues cfg l = true
    · rw [if_pos hc] at h
      rw [if_pos hc]
      have hlt : l.explored_node_num < cfg.max_explored_num := by
        simp only [Plan.continues, decide_eq_true_eq] at hc
        exact hc.2.2.2
      cases hit : Plan.iteration cfg M K ex ey l with
      | none => rw [hit] at h; simp at h
      | some r =>
        obtain ⟨l1, brk⟩ := r
        rw [hit] at h
        obtain ⟨top, cand, htop, hcand, f1, f2, f3, f4, -⟩ :=
          iteration_facts cfg M K ex ey l l1 brk hit
        have hcd : Plan.candidate K l = cand := by
          simp only [Plan.candidate, htop, hcand, Option.join]
          rfl
        cases brk with
        | true =>
          simp only [Option.some.injEq] at h
          subst h
          simp only [hcd]
          refine ⟨?_, ?_, by omega, fun _ => by omega, ?_⟩
          · rw [f3, retain_toList]
          · rw [f2]; cases cand <;> simp
          · rw [f4, f1]; simp; omega
        | false =>
          simp only at h
          obtain ⟨g1, g2, g3, g4, g5⟩ := ih l1 l' h
          simp only [hcd]
          refine ⟨?_, ?_, by omega, fun _ => g4 (by omega), ?_⟩
          · rw [List.foldl_append, ← retain_toList, ← f3, g1]
          · rw [g2, f2, List.length_append]; cases cand <;> simp <;> omega
          · rw [f4, f1] at g5; simp at g5; omega
    · rw [if_neg hc] at h
      rw [if_neg hc]
      simp only [Option.some.injEq] at h
      subst h
      simp

theorem retain_foldl_some : ∀ (cs : List (Node3d α)) (a : Node3d α),
    ∃ f, cs.foldl (fun acc c => Plan.retain acc (some c)) (some a) = some f
      ∧ ((f = a ∧ ∀ c ∈ cs, a.GetTrajCost ≤ c.GetTrajCost)
        ∨ ∃ pre post, cs = pre ++ f :: post ∧ f.GetTrajCost < a.GetTrajCost
            ∧ (∀ c ∈ pre, f.GetTrajCost < c.GetTrajCost)
            ∧ ∀ c ∈ post, f.GetTrajCost ≤ c.GetTrajCost) := by
  intro cs
  induction cs with
  | nil => intro a; exact ⟨a, rfl, Or.inl ⟨rfl, by simp⟩⟩
  | cons c rest ih =>
    intro a
    simp only [List.foldl_cons, Plan.retain]
    by_cases hgt : a.GetTrajCost > c.GetTrajCost
    · rw [if_pos hgt]
      obtain ⟨f, hf, h⟩ := ih c
      refine ⟨f, hf, Or.inr ?_⟩
      rcases h with ⟨rfl, hall⟩ | ⟨pre, post, hcs, hlt, hpre, hpost⟩
      · exact ⟨[], rest, rfl, hgt, by simp, hall⟩
      · refine ⟨c :: pre, post, by rw [hcs]; rfl, lt_trans hlt hgt, ?_, hpost⟩
        intro x hx
        rcases List.mem_cons.1 hx with rfl | hx
        · exact hlt
        · exact hpre x hx
    · rw [if_neg hgt]
      obtain ⟨f, hf, h⟩ := ih a
      refine ⟨f, hf, ?_⟩
      rcases h with ⟨rfl, hall⟩ | ⟨pre, post, hcs, hlt, hpre, hpost⟩
      · left
        refine ⟨rfl, ?_⟩
        intro x hx
        rcases List.mem_cons.1 hx with rfl | hx
        · exact not_lt.1 hgt
        · exact hall x hx
      · right
        refine ⟨c :: pre, post, by rw [hcs]; rfl, hlt, ?_, hpost⟩
        intro x hx
        rcases List.mem_cons.1 hx with rfl | hx
        · exact lt_of_lt_of_le hlt (not_lt.1 hgt)
        · exact hpre x hx

theorem retain_foldl_none : ∀ (cs : List (Node3d α)), cs ≠ [] →
    ∃ f pre post, cs.foldl (fun acc c => Plan.retain acc (some c)) none = some f
      ∧ cs = pre ++ f :: post ∧ (∀ c ∈ pre, f.GetTrajCost < c.GetTrajCost)
      ∧ ∀ c ∈ post, f.GetTrajCost ≤ c.GetTrajCost := by
  intro cs hne
  cases cs with
  | nil => exact absurd rfl hne
  | cons c rest =>
    simp only [List.foldl_cons, Plan.retain]
    obtain ⟨f, hf, h⟩ := retain_foldl_some rest c
    rcases h with ⟨rfl, hall⟩ | ⟨pre, post, hcs, hlt, hpre, hpost⟩
    · exact ⟨f, [], rest, hf, rfl, by simp, hall⟩
    · refine ⟨f, c :: pre, post, hf, by rw [hcs]; rfl, ?_, hpost⟩
      intro x hx
      rcases List.mem_cons.1 hx with rfl | hx
      · exact hlt
      · exact hpre x hx

theorem Plan_searched (cfg : Config α) (M : MathFns α) (K : Collab α) (self : State α)
    (sx sy sphi ex ey ephi : α) (b : XYbounds α) (v : List (List (Vec2d α)))
    (obs : List (List (LineSegment2d α))) (result : HybridAStartResult α)
    (soft : List (List (Vec2d α))) (flag : Bool) (hobs : Plan.obstacles v = some obs)
    (hs : ValidityCheck K obs b (Plan.startNode K sx sy sphi) = some true)
    (he : ValidityCheck K obs b (Plan.endNode K ex ey ephi) = some true) :
    Plan cfg M K self sx sy sphi ex ey ephi b v result soft flag
      = (Plan.search cfg M K ex ey cfg.max_explored_num
          (Plan.seed K self sx sy sphi ex ey ephi b obs flag)).bind
        (fun l =>
          match l.self.final_node_ with
          | none => some (false, result, l.self)
          | some _ =>
            (GetResult cfg M K l.self.final_node_ result).bind
              (fun r => some (r.1, r.2, l.self))) := by
  have he' : ValidityCheck K obs b (Plan.startNode K ex ey ephi) = some true := he
  simp only [Plan, ofTraversed_singleton, hobs, Option.bind_eq_bind, Option.some_bind, hs, he',
    Bool.true_eq_false, if_false]
  rfl

theorem seed_end_node (K : Collab α) (self : State α) (sx sy sphi ex ey ephi : α)
    (b : XYbounds α) (obs : List (List (LineSegment2d α))) (flag : Bool) :
    (Plan.seed K self sx sy sphi ex ey ephi b obs flag).self.end_node_
      = some (Plan.endNode K ex ey ephi) := rfl

theorem sampleCollab_wellFormed : RSWellFormed sampleCollab := by
  intro flag cur e p h
  simp only [sampleCollab, Option.some.injEq] at h
  subst h
  simp

theorem sampleCollabBlind_wellFormed : RSWellFormed sampleCollabBlind := by
  intro flag cur e p h
  simp [sampleCollabBlind] at h

set_option maxRecDepth 100000 in
theorem sampleSearchBlind_eval :
    (Plan.search sampleConfig sampleMath sampleCollabBlind 3 0 sampleConfig.max_explored_num
      (Plan.seed sampleCollabBlind sampleState 0 0 0 3 0 0 sampleBounds
        [[LineSegment2d.mk ⟨4, 1⟩ ⟨4, -1⟩]] false)).map
      (fun l => (l.explored_node_num, l.available_result_num, l.self.open_pq_.length))
      = some (3, 0, 0) := by
  decide!

set_option maxRecDepth 100000 in
theorem sampleSearch_eval :
    (Plan.search sampleConfigThorough sampleMath sampleCollab 3 0
      sampleConfigThorough.max_explored_num
      (Plan.seed sampleCollab sampleState 0 0 0 3 0 0 sampleBounds
        [[LineSegment2d.mk ⟨4, 1⟩ ⟨4, -1⟩]] false)).map
      (fun l => (l.explored_node_num, l.available_result_num))
      = some (3, 3) := by
  decide!

theorem scan_of_poses (K : Collab α) (obs : List (List (LineSegment2d α))) (b : XYbounds α)
    (xs ys ps : List α) :
    ∀ (n i : Nat),
      (∀ j, i ≤ j → j < i + n →
        ∃ x y p, xs[j]? = some x ∧ ys[j]? = some y ∧ ps[j]? = some p ∧ PoseOK K obs b x y p) →
      ValidityCheck.scan K obs b xs ys ps i n = some true := by
  intro n
  induction n with
  | zero => intro i _; rfl
  | succ n ih =>
    intro i h
    obtain ⟨x, y, p, hx, hy, hp, hb, hov⟩ := h i (le_refl _) (by omega)
    have c1 : ¬ (x > b.b1 ∨ x < b.b0) := by
      intro hc; rcases hc with hc | hc
      · exact absurd hb.2.1 (not_le.2 hc)
      · exact absurd hb.1 (not_le.2 hc)
    have c2 : ¬ (y > b.b3 ∨ y < b.b2) := by
      intro hc; rcases hc with hc | hc
      · exact absurd hb.2.2.2 (not_le.2 hc)
      · exact absurd hb.2.2.1 (not_le.2 hc)
    have c3 : ¬ (obs.any fun segs => segs.any fun seg => K.HasOverlap x y p seg) = true := by
      intro hc
      simp only [List.any_eq_true] at hc
      obtain ⟨segs, hsegs, seg, hseg, ho⟩ := hc
      rw [hov segs hsegs seg hseg] at ho
      exact Bool.false_ne_true ho
    simp only [ValidityCheck.scan, hx, hy, hp, Option.bind_eq_bind, Option.some_bind, if_neg c1,
      if_neg c2, if_neg c3]
    exact ih (i + 1) (fun j h1 h2 => h j (by omega) (by omega))

theorem scan_congr (K : Collab α) (obs : List (List (LineSegment2d α))) (b : XYbounds α)
    (xs ys ps xs' ys' ps' : List α) :
    ∀ (n i : Nat), (∀ j, i ≤ j → xs'[j]? = xs[j]?) → (∀ j, i ≤ j → ys'[j]? = ys[j]?) →
      (∀ j, i ≤ j → ps'[j]? = ps[j]?) →
      ValidityCheck.scan K obs b xs' ys' ps' i n = ValidityCheck.scan K obs b xs ys ps i n := by
  intro n
  induction n with
  | zero => intro i _ _ _; rfl
  | succ n ih =>
    intro i hx hy hp
    simp only [ValidityCheck.scan, hx i (le_refl _), hy i (le_refl _), hp i (le_refl _)]
    rw [ih (i + 1) (fun j hj => hx j (by omega)) (fun j hj => hy j (by omega))
      (fun j hj => hp j (by omega))]

theorem getElem?_of_tail_eq {β : Type} (l l' : List β) (h : l'.tail = l.tail) (j : Nat)
    (hj : 1 ≤ j) : l'[j]? = l[j]? := by
  obtain ⟨k, rfl⟩ : ∃ k, j = k + 1 := ⟨j - 1, by omega⟩
  have e : ∀ m : List β, m[k + 1]? = m.tail[k]? := by
    intro m
    cases m with
    | nil => simp
    | cons a t => simp
  rw [e l', e l, h]

theorem ValidityCheck_true_iff (K : Collab α) (obs : List (List (LineSegment2d α)))
    (b : XYbounds α) (node : Node3d α) (hobs : obs ≠ []) (h1 : 1 ≤ node.GetStepSize) :
    ValidityCheck K obs b node = some true
      ↔ ∀ j, ValidityCheck.check_start_index node.GetStepSize ≤ j → j < node.GetStepSize →
          ∃ x y p, node.GetXs[j]? = some x ∧ node.GetYs[j]? = some y
            ∧ node.GetPhis[j]? = some p ∧ PoseOK K obs b x y p := by
  have h0 : ¬ node.GetStepSize = 0 := by omega
  have he : obs.isEmpty = false := by
    cases obs with
    | nil => exact absurd rfl hobs
    | cons _ _ => rfl
  have hc : ValidityCheck.check_start_index node.GetStepSize ≤ node.GetStepSize := by
    simp only [ValidityCheck.check_start_index]; split_ifs <;> omega
  simp only [ValidityCheck, if_neg h0, he, Bool.false_eq_true, if_false]
  constructor
  · intro h j hj1 hj2
    exact scan_true K obs b _ _ _ _ _ h j hj1 (by omega)
  · intro h
    exact scan_of_poses K obs b _ _ _ _ _ (fun j hj1 hj2 => h j hj1 (by omega))

theorem linesegments_eq (vs : List (Vec2d α)) (h1 : 1 ≤ vs.length)
    (h2 : vs.length < sizeModulus) :
    Plan.linesegments vs = some (List.zipWith LineSegment2d.mk vs vs.tail) := by
  have hlen : (List.zipWith LineSegment2d.mk vs vs.tail).length = vs.length - 1 := by
    simp only [List.length_zipWith, List.length_tail]
    omega
  obtain ⟨s', hs', hP⟩ := forRange_inv
    (fun (obstacle_linesegments : List (LineSegment2d α)) i => do
      let p ← vs[i]?
      let q ← vs[i + 1]?
      some (obstacle_linesegments ++ [LineSegment2d.mk p q]))
    (fun i acc => acc = (List.zipWith LineSegment2d.mk vs vs.tail).take i)
    (vs.length - 1) 0 [] (by simp)
    (by
      intro i t _ hi ht
      have hi1 : i < vs.length := by omega
      have hi2 : i + 1 < vs.length := by omega
      refine ⟨t ++ [LineSegment2d.mk vs[i] vs[i + 1]], ?_, ?_⟩
      · simp only [List.getElem?_eq_getElem hi1, List.getElem?_eq_getElem hi2,
          Option.bind_eq_bind, Option.some_bind]
      · have hz : (List.zipWith LineSegment2d.mk vs vs.tail)[i]?
            = some (LineSegment2d.mk vs[i] vs[i + 1]) := by
          rw [List.getElem?_zipWith]
          have e1 : vs[i]? = some vs[i] := List.getElem?_eq_getElem hi1
          have e2 : vs.tail[i]? = some vs[i + 1] := by
            cases vs with
            | nil => simp at hi1
            | cons a l => simp
          rw [e1, e2]
        show _ = List.take (i + 1) _
        rw [ht, List.take_succ, hz]
        rfl)
  simp only [Plan.linesegments, sizeSub_one _ h1 h2]
  rw [hs']
  simp only [Nat.zero_add] at hP
  rw [hP, List.take_of_length_le (by omega)]

theorem linesegments_nil : Plan.linesegments ([] : List (Vec2d α)) = none := by
  have e : sizeSub 0 1 = (sizeModulus - 2) + 1 := by decide
  simp only [Plan.linesegments, List.length_nil]
  rw [e, forRange]
  rfl

theorem obstacles_map (v : List (List (Vec2d α)))
    (hv : ∀ vs ∈ v, 1 ≤ vs.length ∧ vs.length < sizeModulus) :
    Plan.obstacles v = some (v.map fun vs => List.zipWith LineSegment2d.mk vs vs.tail) := by
  induction v with
  | nil => rfl
  | cons a l ih =>
    have ha := hv a (List.mem_cons_self _ _)
    have hl := ih (fun vs h => hv vs (List.mem_cons_of_mem _ h))
    simp only [Plan.obstacles] at hl ⊢
    simp only [List.mapM_cons, linesegments_eq a ha.1 ha.2, hl, Option.bind_eq_bind,
      Option.some_bind, List.map_cons]
    rfl

theorem obstacles_empty_polygon (pre post : List (List (Vec2d α))) :
    Plan.obstacles (pre ++ [] :: post) = none := by
  induction pre with
  | nil =>
    simp only [Plan.obstacles, List.nil_append, List.mapM_cons, linesegments_nil]
    rfl
  | cons a l ih =>
    simp only [Plan.obstacles] at ih ⊢
    simp only [List.cons_append, List.mapM_cons, ih, Option.bind_eq_bind]
    cases Plan.linesegments a <;> rfl

theorem Plan_state (cfg : Config α) (M : MathFns α) (K : Collab α) (self : State α)
    (sx sy sphi ex ey ephi : α) (b : XYbounds α) (v : List (List (Vec2d α)))
    (result : HybridAStartResult α) (soft : List (List (Vec2d α))) (flag : Bool)
    (ok : Bool) (r : HybridAStartResult α) (s' : State α)
    (h : Plan cfg M K self sx sy sphi ex ey ephi b v result soft flag = some (ok, r, s')) :
    ∃ obs, Plan.obstacles v = some obs ∧ s'.obstacles_linesegments_vec_ = obs
      ∧ s'.XYbounds_ = b := by
  cases hobs : Plan.obstacles v with
  | none => simp [Plan, hobs] at h
  | some obs =>
    refine ⟨obs, rfl, ?_⟩
    obtain ⟨ok1, hok1⟩ := ValidityCheck_single K obs b sx sy sphi (K.gridIndex sx sy sphi)
    obtain ⟨ok2, hok2⟩ := ValidityCheck_single K obs b ex ey ephi (K.gridIndex ex ey ephi)
    have rej : ∀ hrej : ValidityCheck K obs b (Plan.startNode K sx sy sphi) = some false
        ∨ ValidityCheck K obs b (Plan.endNode K ex ey ephi) = some false,
        s'.obstacles_linesegments_vec_ = obs ∧ s'.XYbounds_ = b := by
      intro hrej
      rw [Plan_rejected cfg M K self sx sy sphi ex ey ephi b v obs result soft flag hobs hrej]
        at h
      simp only [Option.some.injEq, Prod.mk.injEq] at h
      obtain ⟨-, -, rfl⟩ := h
      exact ⟨rfl, rfl⟩
    cases ok1 with
    | false => exact rej (Or.inl hok1)
    | true =>
      cases ok2 with
      | false => exact rej (Or.inr hok2)
      | true =>
        rw [Plan_searched cfg M K self sx sy sphi ex ey ephi b v obs result soft flag hobs hok1
          hok2] at h
        simp only [Option.bind_eq_some] at h
        obtain ⟨l, hl, h⟩ := h
        have hinv := search_inv cfg M K ex ey obs b (Plan.startNode K sx sy sphi)
          cfg.max_explored_num _ l
          (by
            refine ⟨rfl, rfl, ?_, ?_⟩
            · intro p hp
              simp only [Plan.seed, List.mem_singleton] at hp
              subst hp
              exact Node3d.Reaches.root ⟨hok1, rfl⟩
            · intro f hf; simp [Plan.seed] at hf) hl
        obtain ⟨i1, i2, -, -⟩ := hinv
        cases hf : l.self.final_node_ with
        | none =>
          rw [hf] at h
          simp only [Option.some.injEq, Prod.mk.injEq] at h
          obtain ⟨-, -, rfl⟩ := h
          exact ⟨i1, i2⟩
        | some f =>
          rw [hf] at h
          simp only [Option.bind_eq_some, Option.some.injEq, Prod.mk.injEq] at h
          obtain ⟨p, -, -, -, rfl⟩ := h
          exact ⟨i1, i2⟩

end HybridAStar
end planning

namespace canbus
namespace demo

variable {α : Type} [LinearOrderedField α]

theorem shift_or_eq (a t : Nat) (ht : t < 256) : (a <<< 8) ||| t = 256 * a + t := by
  rw [Nat.shiftLeft_eq, Nat.mul_comm]
  exact (Nat.mul_add_lt_is_or (by simpa using ht) a).symm

theorem decode_eq (get_byte : Nat → Nat → Nat → Nat)
    (hgb : ∀ v, v < 256 → get_byte v 0 8 = v) (a t : Nat) (ha : a < 256) (ht : t < 256) :
    ((((get_byte a 0 8 % 256) <<< 8 ||| (get_byte t 0 8 % 256) : Nat) : α)
        * (17240 / 1000000))
      = ((256 * a + t : Nat) : α) * (1724 / 100000) := by
  rw [hgb a ha, hgb t ht, Nat.mod_eq_of_lt ha, Nat.mod_eq_of_lt ht, shift_or_eq a t ht]
  norm_num

theorem scaled_range (a t : Nat) (ha : a < 256) (ht : t < 256) :
    (0 : α) ≤ ((256 * a + t : Nat) : α) * (1724 / 100000)
    ∧ ((256 * a + t : Nat) : α) * (1724 / 100000) ≤ 65535 * (1724 / 100000) := by
  have h : ((256 * a + t : Nat) : α) ≤ ((65535 : Nat) : α) := Nat.cast_le.2 (by omega)
  have h0 : (0 : α) ≤ ((256 * a + t : Nat) : α) := Nat.cast_nonneg _
  constructor
  · positivity
  · have : ((65535 : Nat) : α) = 65535 := by norm_num
    rw [this] at h
    exact mul_le_mul_of_nonneg_right h (by norm_num)

end demo
end canbus

namespace planning
namespace HybridAStar

variable {α : Type} [LinearOrderedField α] [FloorRing α]

theorem TrajectoryPartition_congr (cfg : Config α) (M : MathFns α) (K : Collab α)
    (r r' : HybridAStartResult α) (hx : r'.x = r.x) (hy : r'.y = r.y) (hp : r'.phi = r.phi) :
    TrajectoryPartition cfg M K r' = TrajectoryPartition cfg M K r := by
  simp only [TrajectoryPartition, hx, hy, hp]

theorem GetTemporalProfile_congr (cfg : Config α) (M : MathFns α) (K : Collab α)
    (r r' : HybridAStartResult α) (hx : r'.x = r.x) (hy : r'.y = r.y) (hp : r'.phi = r.phi) :
    (GetTemporalProfile cfg M K r').map Prod.fst = (GetTemporalProfile cfg M K r).map Prod.fst
    ∧ ∀ out, GetTemporalProfile cfg M K r = some (true, out) →
        GetTemporalProfile cfg M K r' = some (true, out) := by
  simp only [GetTemporalProfile, TrajectoryPartition_congr cfg M K r r' hx hy hp]
  cases TrajectoryPartition cfg M K r with
  | none => simp
  | some o =>
    cases o with
    | none => simp
    | some segs => simp

theorem GetResult_congr (cfg : Config α) (M : MathFns α) (K : Collab α)
    (fin : Option (Node3d α)) (r r' : HybridAStartResult α) :
    (GetResult cfg M K fin r').map Prod.fst = (GetResult cfg M K fin r).map Prod.fst
    ∧ ∀ out, GetResult cfg M K fin r = some (true, out) →
        GetResult cfg M K fin r' = some (true, out) := by
  cases fin with
  | none => simp [GetResult]
  | some f =>
    simp only [GetResult, Option.bind_eq_bind, Option.some_bind]
    by_cases hE : f.GetXs.isEmpty = true ∨ f.GetYs.isEmpty = true
    · simp only [if_pos hE]
      simp
    · simp only [if_neg hE]
      cases GetResult.assemble f with
      | none => simp
      | some t =>
        obtain ⟨hx, hy, hphi⟩ := t
        obtain ⟨g1, g2⟩ := GetTemporalProfile_congr cfg M K
          { r with x := hx, y := hy, phi := hphi } { r' with x := hx, y := hy, phi := hphi }
          rfl rfl rfl
        simp only []
        cases h1 : GetTemporalProfile cfg M K { r with x := hx, y := hy, phi := hphi } with
        | none =>
          rw [h1] at g1
          simp only [Option.map_none', Option.map_eq_none'] at g1
          rw [g1]
          simp
        | some p =>
          obtain ⟨st, out⟩ := p
          cases st with
          | true =>
            rw [g2 out h1]
            simp
          | false =>
            rw [h1] at g1
            simp only [Option.map_some', Option.map_eq_some'] at g1
            obtain ⟨q, hq, hq1⟩ := g1
            obtain ⟨st', out'⟩ := q
            simp only at hq1
            subst hq1
            rw [hq]
            simp

theorem Plan_state_irrelevant (cfg : Config α) (M : MathFns α) (K : Collab α)
    (self self' : State α) (sx sy sphi ex ey ephi : α) (b : XYbounds α)
    (v : List (List (Vec2d α))) (result : HybridAStartResult α)
    (soft : List (List (Vec2d α))) (flag : Bool) :
    Plan cfg M K self' sx sy sphi ex ey ephi b v result soft flag
      = Plan cfg M K self sx sy sphi ex ey ephi b v result soft flag := rfl

theorem polylineLength_take_succ (M : MathFns α) :
    ∀ (i : Nat) (x y : List α) (xi xj yi yj : α), x[i]? = some xi → x[i + 1]? = some xj →
      y[i]? = some yi → y[i + 1]? = some yj →
      polylineLength M (x.take (i + 2)) (y.take (i + 2))
        = polylineLength M (x.take (i + 1)) (y.take (i + 1))
          + M.sqrt ((xj - xi) * (xj - xi) + (yj - yi) * (yj - yi)) := by
  intro i
  induction i with
  | zero =>
    intro x y xi xj yi yj h1 h2 h3 h4
    match x, y, h1, h2, h3, h4 with
    | x0 :: x1 :: xs, y0 :: y1 :: ys, h1, h2, h3, h4 =>
      simp only [List.getElem?_cons_zero, List.getElem?_cons_succ, Option.some.injEq] at h1 h2 h3 h4
      subst h1 h2 h3 h4
      simp [polylineLength]
    | [], _, h1, _, _, _ => simp at h1
    | [_], _, _, h2, _, _ => simp at h2
    | _ :: _ :: _, [], _, _, h3, _ => simp at h3
    | _ :: _ :: _, [_], _, _, _, h4 => simp at h4
  | succ i ih =>
    intro x y xi xj yi yj h1 h2 h3 h4
    match x, y, h1, h2, h3, h4 with
    | x0 :: x1 :: xs, y0 :: y1 :: ys, h1, h2, h3, h4 =>
      rw [List.getElem?_cons_succ] at h1 h2 h3 h4
      have e := ih (x1 :: xs) (y1 :: ys) xi xj yi yj h1 h2 h3 h4
      simp only [List.take_succ_cons] at e ⊢
      simp only [polylineLength]
      rw [e]
      ring
    | [], _, h1, _, _, _ => simp at h1
    | [_], _, h1, _, _, _ => simp at h1
    | _ :: _ :: _, [], _, _, h3, _ => simp at h3
    | _ :: _ :: _, [_], _, _, h3, _ => simp at h3

theorem polylineLength_take_one (M : MathFns α) (x y : List α) :
    polylineLength M (x.take 1) (y.take 1) = 0 := by
  cases x with
  | nil => simp [polylineLength]
  | cons a l =>
    cases y with
    | nil => simp [polylineLength]
    | cons b m => simp [polylineLength]

theorem arcLength_closed_form (M : MathFns α) (x y : List α) (h1 : 1 ≤ x.length)
    (hy : x.length = y.length) (h0 : M.sqrt 0 = 0) :
    ∃ s, GenerateSCurveSpeedAcceleration.arcLength M x y = some s ∧ s.length = x.length
      ∧ ∀ k, k < x.length →
          s[k]? = some (polylineLength M (x.take (k + 1)) (y.take (k + 1))) := by
  obtain ⟨x0, hx0⟩ : ∃ x0, x.head? = some x0 := by
    cases x with
    | nil => simp at h1
    | cons a l => exact ⟨a, rfl⟩
  obtain ⟨y0, hy0⟩ : ∃ y0, y.head? = some y0 := by
    cases y with
    | nil => rw [List.length_nil] at hy; omega
    | cons a l => exact ⟨a, rfl⟩
  have hx0' : x[0]? = some x0 := by rw [← List.head?_eq_getElem?]; exact hx0
  have hy0' : y[0]? = some y0 := by rw [← List.head?_eq_getElem?]; exact hy0
  obtain ⟨st, hst, hP⟩ := forRange_inv (GenerateSCurveSpeedAcceleration.accumulate M x y)
    (fun i st => st.2.2.2.length = i
      ∧ st.1 = polylineLength M (x.take i) (y.take i)
      ∧ x[i - 1]? = some st.2.1 ∧ y[i - 1]? = some st.2.2.1
      ∧ ∀ k, k < i →
          st.2.2.2[k]? = some (polylineLength M (x.take (k + 1)) (y.take (k + 1))))
    x.length 0 (0, x0, y0, [])
    ⟨rfl, by simp [polylineLength], hx0', hy0', fun k hk => absurd hk (Nat.not_lt_zero k)⟩
    (by
      intro i st _ hi hinv
      obtain ⟨i1, i2, i3, i4, i5⟩ := hinv
      have hxi : i < x.length := by omega
      have hyi : i < y.length := by omega
      have ex : x[i]? = some x[i] := List.getElem?_eq_getElem hxi
      have ey : y[i]? = some y[i] := List.getElem?_eq_getElem hyi
      have hacc : st.1 + M.sqrt ((x[i] - st.2.1) * (x[i] - st.2.1)
            + (y[i] - st.2.2.1) * (y[i] - st.2.2.1))
          = polylineLength M (x.take (i + 1)) (y.take (i + 1)) := by
        rcases Nat.eq_zero_or_pos i with hz | hpos
        · subst hz
          simp only [Nat.zero_sub] at i3 i4
          rw [ex] at i3
          rw [ey] at i4
          simp only [Option.some.injEq] at i3 i4
          rw [i2, ← i3, ← i4, polylineLength_take_one]
          simp [polylineLength, h0]
        · obtain ⟨j, rfl⟩ : ∃ j, i = j + 1 := ⟨i - 1, by omega⟩
          simp only [Nat.add_sub_cancel] at i3 i4
          rw [polylineLength_take_succ M j x y st.2.1 x[j + 1] st.2.2.1 y[j + 1] i3 ex i4 ey,
            i2]
      refine ⟨(polylineLength M (x.take (i + 1)) (y.take (i + 1)), x[i], y[i],
        st.2.2.2 ++ [polylineLength M (x.take (i + 1)) (y.take (i + 1))]), ?_, ?_, rfl, ?_, ?_,
        ?_⟩
      · simp only [GenerateSCurveSpeedAcceleration.accumulate, ex, ey, Option.bind_eq_bind,
          Option.some_bind, hacc]
      · simp only [List.length_append, List.length_singleton, i1]
      · simp
      · simp
      · intro k hk
        rcases Nat.lt_succ_iff_lt_or_eq.1 hk with hk' | rfl
        · rw [List.getElem?_append_left (by omega)]
          exact i5 k hk'
        · rw [List.getElem?_append_right (by omega)]
          simp [i1])
  simp only [Nat.zero_add] at hP
  obtain ⟨p1, -, -, -, p5⟩ := hP
  refine ⟨st.2.2.2, ?_, p1, p5⟩
  simp only [GenerateSCurveSpeedAcceleration.arcLength, hx0, hy0, hst, Option.bind_eq_bind,
    Option.some_bind]

theorem polylineLength_take_mono (M : MathFns α) (hnn : ∀ t, 0 ≤ t → 0 ≤ M.sqrt t)
    (x y : List α) (hy : x.length = y.length) :
    ∀ (j i : Nat), i ≤ j → j < x.length →
      polylineLength M (x.take (i + 1)) (y.take (i + 1))
        ≤ polylineLength M (x.take (j + 1)) (y.take (j + 1)) := by
  intro j
  induction j with
  | zero =>
    intro i hi _
    obtain rfl : i = 0 := by omega
    exact le_refl _
  | succ j ih =>
    intro i hi hj
    rcases Nat.eq_or_lt_of_le hi with rfl | hlt
    · exact le_refl _
    · have h1 := ih i (by omega) (by omega)
      have b1 : j < x.length := by omega
      have b2 : j < y.length := by omega
      have b3 : j + 1 < y.length := by omega
      have e := polylineLength_take_succ M j x y x[j] x[j + 1] y[j] y[j + 1]
        (List.getElem?_eq_getElem _) (List.getElem?_eq_getElem _)
        (List.getElem?_eq_getElem _) (List.getElem?_eq_getElem _)
      rw [e]
      have := hnn _ (add_nonneg (mul_self_nonneg (x[j + 1] - x[j]))
        (mul_self_nonneg (y[j + 1] - y[j])))
      linarith

theorem getElem?_append_singleton_last {β : Type} (l : List β) (a : β) :
    (l ++ [a])[l.length]? = some a := by
  rw [List.getElem?_append_right (le_refl _)]
  simp

theorem getElem?_append_singleton_lt {β : Type} (l : List β) (a : β) (j : Nat)
    (hj : j < l.length) : (l ++ [a])[j]? = l[j]? :=
  List.getElem?_append_left hj

theorem head?_append_singleton {β : Type} (l : List β) (a : β) (hl : l ≠ []) :
    (l ++ [a]).head? = l.head? := by
  cases l with
  | nil => exact absurd rfl hl
  | cons b t => rfl

theorem getLast?_eq_getElem?_pred {β : Type} (l : List β) :
    l.getLast? = l[l.length - 1]? := List.getLast?_eq_getElem? l

/-- Appending a pose to a segment whose steps have gear `g`, the step from its last
pose to the new one having gear `g` as well. -/
theorem UniformGear_push (M : MathFns α) (s : HybridAStartResult α) (g : Bool)
    (a b c la lb lc : α) (hs : UniformGear M s g) (_h1 : 1 ≤ s.x.length)
    (hla : s.x.getLast? = some la) (hlb : s.y.getLast? = some lb)
    (hlc : s.phi.getLast? = some lc)
    (hg : TrajectoryPartition.gear M la lb a b lc = g) :
    UniformGear M { s with x := s.x ++ [a], y := s.y ++ [b], phi := s.phi ++ [c] } g := by
  obtain ⟨e1, e2, e3⟩ := hs
  refine ⟨by simp [e1], by simp [e2], ?_⟩
  intro j hj
  simp only [List.length_append, List.length_singleton] at hj
  rcases Nat.lt_or_ge (j + 1) s.x.length with hlt | hge
  · have := e3 j hlt
    simp only [stepGear] at this ⊢
    rw [getElem?_append_singleton_lt _ _ _ (by omega : j < s.phi.length),
      getElem?_append_singleton_lt _ _ _ (by omega : j + 1 < s.x.length),
      getElem?_append_singleton_lt _ _ _ (by omega : j < s.x.length),
      getElem?_append_singleton_lt _ _ _ (by omega : j + 1 < s.y.length),
      getElem?_append_singleton_lt _ _ _ (by omega : j < s.y.length)]
    exact this
  · have hj' : j = s.x.length - 1 := by omega
    have k1 : j + 1 = s.x.length := by omega
    have k2 : j + 1 = s.y.length := by omega
    rw [getLast?_eq_getElem?_pred, ← hj'] at hla
    rw [getLast?_eq_getElem?_pred, ← e1, ← hj'] at hlb
    rw [getLast?_eq_getElem?_pred, ← e2, ← hj'] at hlc
    have hxa : (s.x ++ [a])[j + 1]? = some a := by
      rw [k1]; exact getElem?_append_singleton_last _ _
    have hyb : (s.y ++ [b])[j + 1]? = some b := by
      rw [k2]; exact getElem?_append_singleton_last _ _
    simp only [stepGear]
    rw [getElem?_append_singleton_lt _ _ _ (by omega : j < s.phi.length),
      getElem?_append_singleton_lt _ _ _ (by omega : j < s.x.length),
      getElem?_append_singleton_lt _ _ _ (by omega : j < s.y.length), hla, hlb, hlc, hxa, hyb]
    simp only [Option.bind_eq_bind, Option.some_bind, hg]

theorem lastPose_push (s : HybridAStartResult α) (a b c : α) :
    lastPose { s with x := s.x ++ [a], y := s.y ++ [b], phi := s.phi ++ [c] }
      = some (a, b, c) := by
  simp [lastPose]

theorem firstPose_push (s : HybridAStartResult α) (a b c : α) (hx : s.x ≠ [])
    (hy : s.y ≠ []) (hp : s.phi ≠ []) :
    firstPose { s with x := s.x ++ [a], y := s.y ++ [b], phi := s.phi ++ [c] }
      = firstPose s := by
  simp only [firstPose, head?_append_singleton _ _ hx, head?_append_singleton _ _ hy,
    head?_append_singleton _ _ hp]

theorem stepGear_zero_of_uniform (M : MathFns α) (s : HybridAStartResult α) (g : Bool)
    (hs : UniformGear M s g) (h2 : 2 ≤ s.x.length) : stepGear M s 0 = some g :=
  hs.2.2 0 (by omega)

theorem stepGear_eq (M : MathFns α) (P : HybridAStartResult α) (j : Nat)
    (a b a' b' c : α) (h1 : P.x[j]? = some a) (h2 : P.y[j]? = some b)
    (h3 : P.x[j + 1]? = some a') (h4 : P.y[j + 1]? = some b') (h5 : P.phi[j]? = some c) :
    stepGear M P j = some (TrajectoryPartition.gear M a b a' b' c) := by
  simp only [stepGear, h1, h2, h3, h4, h5, Option.bind_eq_bind, Option.some_bind]

theorem ne_nil_of_one_le_length {β : Type} (l : List β) (h : 1 ≤ l.length) : l ≠ [] := by
  intro e
  rw [e] at h
  exact absurd h (by simp)

/-- Closing the current segment with the pose of index `i`. -/
theorem partition_close (M : MathFns α) (P : HybridAStartResult α) (i : Nat)
    (closed : List (HybridAStartResult α)) (cur : HybridAStartResult α) (g : Bool)
    (a b c : α) (hi : 1 ≤ i) (hy : P.x.length = P.y.length) (hp : P.x.length = P.phi.length)
    (ha : P.x[i]? = some a) (hb : P.y[i]? = some b) (_hc : P.phi[i]? = some c)
    (hU : UniformGear M cur g) (h1 : 1 ≤ cur.x.length)
    (hlx : cur.x.getLast? = P.x[i - 1]?) (hly : cur.y.getLast? = P.y[i - 1]?)
    (hlp : cur.phi.getLast? = P.phi[i - 1]?) (hpend : stepGear M P (i - 1) = some g)
    (hclosed : ∀ s ∈ closed, 2 ≤ s.x.length ∧ ∃ h, UniformGear M s h)
    (hchain : List.Chain' (fun s t => SharesPose s t ∧ OppositeGear M s t) closed)
    (hlink : ∀ s ∈ closed.getLast?, SharesPose s cur ∧ stepGear M s 0 = some (!g))
    (hhead : ∀ s ∈ (closed ++ [cur]).head?, firstPose s = firstPose P) :
    2 ≤ (cur.x ++ [a]).length
    ∧ UniformGear M { cur with x := cur.x ++ [a], y := cur.y ++ [b], phi := cur.phi ++ [c] } g
    ∧ (∀ s ∈ closed ++
          [{ cur with x := cur.x ++ [a], y := cur.y ++ [b], phi := cur.phi ++ [c] }],
        2 ≤ s.x.length ∧ ∃ h, UniformGear M s h)
    ∧ List.Chain' (fun s t => SharesPose s t ∧ OppositeGear M s t)
        (closed ++ [{ cur with x := cur.x ++ [a], y := cur.y ++ [b], phi := cur.phi ++ [c] }])
    ∧ (∀ s ∈ (closed ++
          [{ cur with x := cur.x ++ [a], y := cur.y ++ [b], phi := cur.phi ++ [c] }]).head?,
        firstPose s = firstPose P)
    ∧ stepGear M { cur with x := cur.x ++ [a], y := cur.y ++ [b], phi := cur.phi ++ [c] } 0
        = some g := by
  have hin : i < P.x.length := (List.getElem?_eq_some_iff.1 ha).1
  have b1 : i - 1 < P.x.length := by omega
  have b2 : i - 1 < P.y.length := by omega
  have b3 : i - 1 < P.phi.length := by omega
  have ex : P.x[i - 1]? = some P.x[i - 1] := List.getElem?_eq_getElem b1
  have ey : P.y[i - 1]? = some P.y[i - 1] := List.getElem?_eq_getElem b2
  have ep : P.phi[i - 1]? = some P.phi[i - 1] := List.getElem?_eq_getElem b3
  have hi1 : i - 1 + 1 = i := by omega
  have hgear : TrajectoryPartition.gear M P.x[i - 1] P.y[i - 1] a b P.phi[i - 1] = g := by
    have := stepGear_eq M P (i - 1) P.x[i - 1] P.y[i - 1] a b P.phi[i - 1] ex ey
      (by rw [hi1]; exact ha) (by rw [hi1]; exact hb) ep
    rw [hpend] at this
    exact (Option.some.inj this).symm
  have hxne : cur.x ≠ [] := ne_nil_of_one_le_length _ h1
  have hyne : cur.y ≠ [] := ne_nil_of_one_le_length _ (by rw [← hU.1]; exact h1)
  have hpne : cur.phi ≠ [] := ne_nil_of_one_le_length _ (by rw [← hU.2.1]; exact h1)
  have hlen : 2 ≤ (cur.x ++ [a]).length := by
    simp only [List.length_append, List.length_singleton]; omega
  have hU' := UniformGear_push M cur g a b c P.x[i - 1] P.y[i - 1] P.phi[i - 1] hU h1
    (by rw [hlx, ex]) (by rw [hly, ey]) (by rw [hlp, ep]) hgear
  have hfirst := firstPose_push cur a b c hxne hyne hpne
  have hg0 := hU'.2.2 0 (by exact hlen)
  refine ⟨hlen, hU', ?_, ?_, ?_, hg0⟩
  · intro s hs
    rcases List.mem_append.1 hs with hs | hs
    · exact hclosed s hs
    · rw [List.mem_singleton] at hs
      subst hs
      exact ⟨hlen, g, hU'⟩
  · rw [List.chain'_append]
    refine ⟨hchain, List.chain'_singleton _, ?_⟩
    intro s hs t ht
    simp only [List.head?_cons, Option.mem_def, Option.some.injEq] at ht
    subst ht
    obtain ⟨⟨p, hp1, hp2⟩, hgs⟩ := hlink s hs
    refine ⟨⟨p, hp1, by rw [hfirst]; exact hp2⟩, !g, hgs, ?_⟩
    rw [Bool.not_not]
    exact hg0
  · intro s hs
    cases closed with
    | nil =>
      simp only [List.nil_append, List.head?_cons, Option.mem_def, Option.some.injEq] at hs
      subst hs
      rw [hfirst]
      exact hhead cur (by simp)
    | cons d l =>
      simp only [List.cons_append, List.head?_cons, Option.mem_def, Option.some.injEq] at hs
      subst hs
      exact hhead d (by simp)

theorem partition_step (M : MathFns α) (x y phi : List α) (hy : x.length = y.length)
    (hp : x.length = phi.length) (i : Nat)
    (st : List (HybridAStartResult α) × HybridAStartResult α × Bool)
    (hi : i + 1 < x.length)
    (hinv : PartitionInv M { x := x, y := y, phi := phi } i st) :
    ∃ st', TrajectoryPartition.step M x y phi st i = some st'
      ∧ PartitionInv M { x := x, y := y, phi := phi } (i + 1) st' := by
  obtain ⟨closed, cur, g⟩ := st
  have b1 : i < x.length := by omega
  have b2 : i < y.length := by omega
  have b3 : i < phi.length := by omega
  have b4 : i + 1 < y.length := by omega
  have ex : x[i]? = some x[i] := List.getElem?_eq_getElem b1
  have ey : y[i]? = some y[i] := List.getElem?_eq_getElem b2
  have ep : phi[i]? = some phi[i] := List.getElem?_eq_getElem b3
  have exn : x[i + 1]? = some x[i + 1] := List.getElem?_eq_getElem hi
  have eyn : y[i + 1]? = some y[i + 1] := List.getElem?_eq_getElem b4
  have hgear : stepGear M ({ x := x, y := y, phi := phi } : HybridAStartResult α) i
      = some (TrajectoryPartition.gear M x[i] y[i] x[i + 1] y[i + 1] phi[i]) :=
    stepGear_eq M _ i _ _ _ _ _ ex ey exn eyn ep
  simp only [TrajectoryPartition.step, ex, ey, ep, exn, eyn, Option.bind_eq_bind,
    Option.some_bind]
  rcases hinv with ⟨h0, hc, hcur, hg⟩ | ⟨h1, hU, hlen, hlx, hly, hlp, hpend, hclosed, hchain,
    hlink, hhead⟩
  · -- the first pass: the gear is the initial gear
    simp only at h0 hc hcur hg
    subst h0 hc hcur
    rw [hgear] at hg
    have hgg : TrajectoryPartition.gear M x[0] y[0] x[0 + 1] y[0 + 1] phi[0] = g :=
      Option.some.inj hg
    rw [if_neg (by rw [hgg]; exact fun h => h rfl)]
    refine ⟨_, rfl, Or.inr ⟨by omega, ?_, ?_, ?_, ?_, ?_, ?_, ?_, ?_, ?_, ?_⟩⟩
    · refine ⟨rfl, rfl, ?_⟩
      intro j hj
      simp at hj
    · simp
    · simp [ex]
    · simp [ey]
    · simp [ep]
    · simp only [Nat.add_sub_cancel]
      rw [hgear, hgg]
    · intro s hs; simp at hs
    · exact List.chain'_nil
    · intro s hs; simp at hs
    · intro s hs
      simp only [List.nil_append, List.head?_cons, Option.mem_def, Option.some.injEq] at hs
      subst hs
      simp only [firstPose, List.nil_append, List.head?_cons, List.head?_eq_getElem?, ex, ey, ep,
        Option.bind_eq_bind, Option.some_bind, List.getElem?_cons_zero]
  · simp only at h1 hU hlen hlx hly hlp hpend hclosed hchain hlink hhead
    obtain ⟨c1, c2, c3, c4, c5, c6⟩ := partition_close M { x := x, y := y, phi := phi } i closed
      cur g x[i] y[i] phi[i] h1 hy hp ex ey ep hU hlen hlx hly hlp hpend hclosed hchain hlink
      hhead
    have hxne : cur.x ≠ [] := ne_nil_of_one_le_length _ hlen
    have hyne : cur.y ≠ [] := ne_nil_of_one_le_length _ (by rw [← hU.1]; exact hlen)
    have hpne : cur.phi ≠ [] := ne_nil_of_one_le_length _ (by rw [← hU.2.1]; exact hlen)
    have hfirst := firstPose_push cur x[i] y[i] phi[i] hxne hyne hpne
    by_cases hch : TrajectoryPartition.gear M x[i] y[i] x[i + 1] y[i + 1] phi[i] = g
    · rw [if_neg (by rw [hch]; exact fun h => h rfl)]
      refine ⟨_, rfl, Or.inr ⟨by omega, c2, by simp, ?_, ?_, ?_, ?_, hclosed, hchain, ?_, ?_⟩⟩
      · simp [ex]
      · simp [ey]
      · simp [ep]
      · simp only [Nat.add_sub_cancel]
        rw [hgear, hch]
      · intro s hs
        obtain ⟨⟨p, hp1, hp2⟩, hgs⟩ := hlink s hs
        exact ⟨⟨p, hp1, by rw [hfirst]; exact hp2⟩, hgs⟩
      · intro s hs
        cases closed with
        | nil =>
          simp only [List.nil_append, List.head?_cons, Option.mem_def, Option.some.injEq] at hs
          subst hs
          rw [hfirst]
          exact hhead cur (by simp)
        | cons d l =>
          simp only [List.cons_append, List.head?_cons, Option.mem_def, Option.some.injEq] at hs
          subst hs
          exact hhead d (by simp)
    · rw [if_pos hch]
      refine ⟨_, rfl, Or.inr ⟨by omega, ?_, ?_, ?_, ?_, ?_, ?_, c3, c4, ?_, ?_⟩⟩
      · refine ⟨rfl, rfl, ?_⟩
        intro j hj
        simp at hj
      · simp
      · simp [ex]
      · simp [ey]
      · simp [ep]
      · simp only [Nat.add_sub_cancel]
        rw [hgear]
      · intro s hs
        simp only [List.getLast?_concat, Option.mem_def, Option.some.injEq] at hs
        subst hs
        refine ⟨⟨(x[i], y[i], phi[i]), lastPose_push cur _ _ _, by simp [firstPose]⟩, ?_⟩
        rw [c6]
        congr 1
        cases g <;> cases hgr : TrajectoryPartition.gear M x[i] y[i] x[i + 1] y[i + 1] phi[i]
          <;> simp_all
      · intro s hs
        rw [head?_append_singleton _ _
          (List.append_ne_nil_of_right_ne_nil _ (List.cons_ne_nil _ _))] at hs
        exact c5 s hs

theorem segments_partition (M : MathFns α) (x y phi : List α) (h2 : 2 ≤ x.length)
    (hy : x.length = y.length) (hp : x.length = phi.length) :
    ∃ segs, TrajectoryPartition.segments M x y phi = some segs
      ∧ (∀ s ∈ segs, 2 ≤ s.x.length ∧ ∃ h, UniformGear M s h)
      ∧ List.Chain' (fun s t => SharesPose s t ∧ OppositeGear M s t) segs
      ∧ (∀ s ∈ segs.head?, firstPose s = firstPose { x := x, y := y, phi := phi })
      ∧ (∀ s ∈ segs.getLast?, lastPose s = lastPose { x := x, y := y, phi := phi }) := by
  have b0 : 0 < x.length := by omega
  have b1 : 1 < x.length := by omega
  have c0 : 0 < y.length := by omega
  have c1 : 1 < y.length := by omega
  have d0 : 0 < phi.length := by omega
  have n1 : x.length - 1 < x.length := by omega
  have n2 : x.length - 1 < y.length := by omega
  have n3 : x.length - 1 < phi.length := by omega
  have ex0 : x[0]? = some x[0] := List.getElem?_eq_getElem b0
  have ex1 : x[1]? = some x[1] := List.getElem?_eq_getElem b1
  have ey0 : y[0]? = some y[0] := List.getElem?_eq_getElem c0
  have ey1 : y[1]? = some y[1] := List.getElem?_eq_getElem c1
  have ep0 : phi[0]? = some phi[0] := List.getElem?_eq_getElem d0
  have eph : phi.head? = some phi[0] := by rw [List.head?_eq_getElem?]; exact ep0
  have exl : x[x.length - 1]? = some x[x.length - 1] := List.getElem?_eq_getElem n1
  have eyl : y[x.length - 1]? = some y[x.length - 1] := List.getElem?_eq_getElem n2
  have epl : phi[x.length - 1]? = some phi[x.length - 1] := List.getElem?_eq_getElem n3
  have exb : x.getLast? = some x[x.length - 1] := by rw [List.getLast?_eq_getElem?]; exact exl
  have eyb : y.getLast? = some y[x.length - 1] := by
    rw [List.getLast?_eq_getElem?, ← hy]; exact eyl
  have epb : phi.getLast? = some phi[x.length - 1] := by
    rw [List.getLast?_eq_getElem?, ← hp]; exact epl
  obtain ⟨st, hst, hinv⟩ := forRange_inv (TrajectoryPartition.step M x y phi)
    (PartitionInv M { x := x, y := y, phi := phi }) (x.length - 1) 0
    ([], {}, TrajectoryPartition.gear M x[0] y[0] x[1] y[1] phi[0])
    (Or.inl ⟨rfl, rfl, rfl, stepGear_eq M _ 0 _ _ _ _ _ ex0 ey0 ex1 ey1 ep0⟩)
    (fun i t _ hi hP => partition_step M x y phi hy hp i t (by omega) hP)
  obtain ⟨closed, cur, g⟩ := st
  simp only [Nat.zero_add] at hinv
  rcases hinv with ⟨h0, -⟩ | ⟨h1, hU, hlen, hlx, hly, hlp, hpend, hclosed, hchain, hlink,
    hhead⟩
  · omega
  · simp only at h1 hU hlen hlx hly hlp hpend hclosed hchain hlink hhead
    obtain ⟨-, -, c3, c4, c5, -⟩ := partition_close M { x := x, y := y, phi := phi }
      (x.length - 1) closed cur g x[x.length - 1] y[x.length - 1] phi[x.length - 1] h1 hy hp
      exl eyl epl hU hlen hlx hly hlp hpend hclosed hchain hlink hhead
    refine ⟨_, ?_, c3, c4, c5, ?_⟩
    · simp only [TrajectoryPartition.segments, eph, ex0, ex1, ey0, ey1, hst, exb, eyb, epb,
        Option.bind_eq_bind, Option.some_bind]
    · intro s hs
      simp only [List.getLast?_concat, Option.mem_def, Option.some.injEq] at hs
      subst hs
      rw [lastPose_push]
      simp only [lastPose, exb, eyb, epb, Option.bind_eq_bind, Option.some_bind]

theorem arcLength_defined (M : MathFns α) (x y : List α) (h1 : 1 ≤ x.length)
    (hy : x.length = y.length) :
    ∃ acc last, GenerateSCurveSpeedAcceleration.arcLength M x y = some acc
      ∧ acc.length = x.length ∧ acc.getLast? = some last := by
  obtain ⟨x0, hx0⟩ : ∃ x0, x.head? = some x0 := by
    cases x with
    | nil => simp at h1
    | cons a l => exact ⟨a, rfl⟩
  obtain ⟨y0, hy0⟩ : ∃ y0, y.head? = some y0 := by
    cases y with
    | nil => rw [List.length_nil] at hy; omega
    | cons a l => exact ⟨a, rfl⟩
  obtain ⟨st, hst, hP⟩ := forRange_inv (GenerateSCurveSpeedAcceleration.accumulate M x y)
    (fun i st => st.2.2.2.length = i) x.length 0 (0, x0, y0, []) rfl
    (by
      intro i st _ hi hinv
      have hxi : i < x.length := by omega
      have hyi : i < y.length := by omega
      simp only [GenerateSCurveSpeedAcceleration.accumulate, List.getElem?_eq_getElem hxi,
        List.getElem?_eq_getElem hyi, Option.bind_eq_bind, Option.some_bind]
      exact ⟨_, rfl, by simp [hinv]⟩)
  simp only [Nat.zero_add] at hP
  obtain ⟨last, hlast⟩ := getLast?_some_of_ne_nil st.2.2.2
    (by intro h0; rw [h0] at hP; simp at hP; omega)
  refine ⟨st.2.2.2, last, ?_, hP, hlast⟩
  simp only [GenerateSCurveSpeedAcceleration.arcLength, hx0, hy0, hst, Option.bind_eq_bind,
    Option.some_bind]

theorem getElem?_zero_append {β : Type} (l m : List β) (a : β) (h : l[0]? = some a) :
    (l ++ m)[0]? = some a := by
  cases l with
  | nil => simp at h
  | cons b t => simpa using h

theorem CalculateNodeCost_fields (cfg : Config α) (K : Collab α) (self : State α) (ex ey : α)
    (cur n : Node3d α) :
    (CalculateNodeCost cfg K self ex ey cur n).GetIndex = n.GetIndex
    ∧ (CalculateNodeCost cfg K self ex ey cur n).GetPreNode = n.GetPreNode
    ∧ (CalculateNodeCost cfg K self ex ey cur n).GetTrajCost
        = cur.GetTrajCost + TrajCost cfg cur n := by
  cases n with
  | mk _ _ _ _ _ _ _ _ _ _ _ _ _ => exact ⟨rfl, rfl, rfl⟩

/-- The two outcomes of the body of the child loop: nothing is pushed, or the child
that passed the three tests is pushed with its costs. -/
theorem child_cases (cfg : Config α) (M : MathFns α) (K : Collab α) (self : State α)
    (ex ey : α) (cur : Node3d α) (i : Nat) (st st' : List (Node3d α × α) × List String)
    (h : Plan.child cfg M K self ex ey cur st i = some st') :
    st' = st
    ∨ ∃ n, Next_node_generator cfg M K self cur i = some (some n)
        ∧ n.GetIndex ∉ self.close_set_ ∧ n.GetIndex ∉ self.open_set_
        ∧ ValidityCheck K self.obstacles_linesegments_vec_ self.XYbounds_ n = some true
        ∧ st' = (st.1 ++ [(CalculateNodeCost cfg K self ex ey cur n,
                    (CalculateNodeCost cfg K self ex ey cur n).GetCost)],
                 st.2 ++ [(CalculateNodeCost cfg K self ex ey cur n).GetIndex]) := by
  simp only [Plan.child, Option.bind_eq_bind, Option.bind_eq_some] at h
  obtain ⟨next, hnext, h⟩ := h
  cases next with
  | none => simp only [Option.some.injEq] at h; exact Or.inl h.symm
  | some n =>
    simp only at h
    by_cases hc : n.GetIndex ∈ self.close_set_
    · rw [if_pos hc] at h
      simp only [Option.some.injEq] at h; exact Or.inl h.symm
    · rw [if_neg hc] at h
      simp only [Option.bind_eq_some] at h
      obtain ⟨ok, hok, h⟩ := h
      cases ok with
      | false => simp only [if_true, Option.some.injEq] at h; exact Or.inl h.symm
      | true =>
        simp only [Bool.true_eq_false, if_false] at h
        by_cases hc2 : n.GetIndex ∉ self.open_set_
        · rw [if_pos hc2] at h
          simp only [Option.some.injEq] at h
          exact Or.inr ⟨n, hnext, hc, hc2, hok, h.symm⟩
        · rw [if_neg hc2] at h
          simp only [Option.some.injEq] at h; exact Or.inl h.symm

theorem TrajCost_nonneg (cfg : Config α) (cur next : Node3d α)
    (hf : 0 ≤ cfg.traj_forward_penalty_) (hb : 0 ≤ cfg.traj_back_penalty_)
    (hg : 0 ≤ cfg.traj_gear_switch_penalty_) (hs : 0 ≤ cfg.traj_steer_penalty_)
    (hc : 0 ≤ cfg.traj_steer_change_penalty_) (hstep : 0 ≤ cfg.step_size_) :
    0 ≤ TrajCost cfg cur next := by
  have hn : (0 : α) ≤ ((sizeSub next.GetStepSize 1 : Nat) : α) := Nat.cast_nonneg _
  have h1 : 0 ≤ ((sizeSub next.GetStepSize 1 : Nat) : α) * cfg.step_size_
      * cfg.traj_forward_penalty_ := mul_nonneg (mul_nonneg hn hstep) hf
  have h2 : 0 ≤ ((sizeSub next.GetStepSize 1 : Nat) : α) * cfg.step_size_
      * cfg.traj_back_penalty_ := mul_nonneg (mul_nonneg hn hstep) hb
  have h3 : 0 ≤ cfg.traj_steer_penalty_ * |next.GetSteer| := mul_nonneg hs (abs_nonneg _)
  have h4 : 0 ≤ cfg.traj_steer_change_penalty_ * |next.GetSteer - cur.GetSteer| :=
    mul_nonneg hc (abs_nonneg _)
  simp only [TrajCost]
  split_ifs <;> linarith

theorem children_pushed (cfg : Config α) (M : MathFns α) (K : Collab α) (self : State α)
    (ex ey : α) (cur : Node3d α) (pq0 : List (Node3d α × α)) :
    ∀ (n lo : Nat) (st : List (Node3d α × α) × List String),
      forRange (Plan.child cfg M K self ex ey cur) lo n (pq0, []) = some st →
      ∃ pushed : List (Node3d α × α), st.1 = pq0 ++ pushed
        ∧ st.2 = pushed.map (fun p => p.1.GetIndex)
        ∧ ∀ p ∈ pushed, p.1.GetIndex ∉ self.close_set_ ∧ p.1.GetIndex ∉ self.open_set_ := by
  intro n lo st h
  exact forRange_preserves (Plan.child cfg M K self ex ey cur)
    (fun st => ∃ pushed : List (Node3d α × α), st.1 = pq0 ++ pushed
      ∧ st.2 = pushed.map (fun p => p.1.GetIndex)
      ∧ ∀ p ∈ pushed, p.1.GetIndex ∉ self.close_set_ ∧ p.1.GetIndex ∉ self.open_set_)
    (by
      rintro i t t' ⟨pushed, e1, e2, e3⟩ ht
      rcases child_cases cfg M K self ex ey cur i t t' ht with rfl | ⟨c, -, c1, c2, -, rfl⟩
      · exact ⟨pushed, e1, e2, e3⟩
      · refine ⟨pushed ++ [(CalculateNodeCost cfg K self ex ey cur c,
          (CalculateNodeCost cfg K self ex ey cur c).GetCost)], ?_, ?_, ?_⟩
        · simp only [e1, List.append_assoc]
        · simp only [e2, List.map_append, List.map_cons, List.map_nil]
        · intro p hp
          rcases List.mem_append.1 hp with hp | hp
          · exact e3 p hp
          · rw [List.mem_singleton] at hp
            subst hp
            rw [(CalculateNodeCost_fields cfg K self ex ey cur c).1]
            exact ⟨c1, c2⟩)
    n lo (pq0, []) st ⟨[], by simp, rfl, by simp⟩ h

theorem polylineLength_concat (M : MathFns α) (xs ys : List α) (a b la lb : α)
    (hlen : xs.length = ys.length) (hla : xs.getLast? = some la)
    (hlb : ys.getLast? = some lb) :
    polylineLength M (xs ++ [a]) (ys ++ [b])
      = polylineLength M xs ys + M.sqrt ((a - la) * (a - la) + (b - lb) * (b - lb)) := by
  have hne : xs ≠ [] := by intro h; rw [h] at hla; simp at hla
  have h1 : 1 ≤ xs.length := by
    cases xs with
    | nil => exact absurd rfl hne
    | cons _ _ => simp
  have k : xs.length - 1 + 1 = xs.length := by omega
  have k' : xs.length - 1 + 1 = ys.length := by omega
  rw [List.getLast?_eq_getElem?] at hla hlb
  rw [← hlen] at hlb
  have e := polylineLength_take_succ M (xs.length - 1) (xs ++ [a]) (ys ++ [b]) la a lb b
    (by rw [List.getElem?_append_left (by omega)]; exact hla)
    (by rw [k]; exact getElem?_append_singleton_last _ _)
    (by rw [List.getElem?_append_left (by omega)]; exact hlb)
    (by rw [k']; exact getElem?_append_singleton_last _ _)
  have k2 : xs.length - 1 + 2 = xs.length + 1 := by omega
  rw [k, k2] at e
  have t1 : (xs ++ [a]).take (xs.length + 1) = xs ++ [a] :=
    List.take_of_length_le (by simp)
  have t2 : (ys ++ [b]).take (xs.length + 1) = ys ++ [b] :=
    List.take_of_length_le (by simp [hlen])
  have t3 : (xs ++ [a]).take xs.length = xs := by simp
  have t4 : (ys ++ [b]).take xs.length = ys := by rw [hlen]; simp
  rw [t1, t2, t3, t4] at e
  exact e

theorem substep_distance (cfg : Config α) (M : MathFns α)
    (hcs : ∀ θ : α, M.cos θ * M.cos θ + M.sin θ * M.sin θ = 1)
    (hsq : ∀ t : α, M.sqrt (t * t) = |t|) (steering d : α)
    (st : (α × α × α) × (List α × List α × List α)) :
    M.sqrt (((Next_node_generator.substep cfg M steering d st).1.1 - st.1.1)
          * ((Next_node_generator.substep cfg M steering d st).1.1 - st.1.1)
        + ((Next_node_generator.substep cfg M steering d st).1.2.1 - st.1.2.1)
          * ((Next_node_generator.substep cfg M steering d st).1.2.1 - st.1.2.1)) = |d| := by
  simp only [Next_node_generator.substep]
  rw [← hsq d]
  congr 1
  have := hcs ((st.1.2.2 + (st.1.2.2 + d / cfg.wheel_base * M.tan steering)) / 2)
  linear_combination (d * d) * this

theorem integrate_polyline (cfg : Config α) (M : MathFns α)
    (hcs : ∀ θ : α, M.cos θ * M.cos θ + M.sin θ * M.sin θ = 1)
    (hsq : ∀ t : α, M.sqrt (t * t) = |t|) (steering d x y phi : α) :
    ∀ k : Nat,
      polylineLength M (Next_node_generator.integrate cfg M steering d k x y phi).2.1
          (Next_node_generator.integrate cfg M steering d k x y phi).2.2.1
        = (k : α) * |d| := by
  intro k
  induction k with
  | zero => simp [Next_node_generator.integrate, polylineLength]
  | succ k ih =>
    obtain ⟨h1, h2, -, h4, h5, -⟩ := integrate_vectors cfg M steering d x y phi k
    rw [integrate_succ]
    have hd := substep_distance cfg M hcs hsq steering d
      (Next_node_generator.integrate cfg M steering d k x y phi)
    have e := polylineLength_concat M
      (Next_node_generator.integrate cfg M steering d k x y phi).2.1
      (Next_node_generator.integrate cfg M steering d k x y phi).2.2.1
      (Next_node_generator.substep cfg M steering d
        (Next_node_generator.integrate cfg M steering d k x y phi)).1.1
      (Next_node_generator.substep cfg M steering d
        (Next_node_generator.integrate cfg M steering d k x y phi)).1.2.1
      _ _ (by rw [h1, h2]) h4 h5
    rw [hd, ih] at e
    have hx : (Next_node_generator.substep cfg M steering d
        (Next_node_generator.integrate cfg M steering d k x y phi)).2.1
        = (Next_node_generator.integrate cfg M steering d k x y phi).2.1
          ++ [(Next_node_generator.substep cfg M steering d
            (Next_node_generator.integrate cfg M steering d k x y phi)).1.1] := rfl
    have hy : (Next_node_generator.substep cfg M steering d
        (Next_node_generator.integrate cfg M steering d k x y phi)).2.2.1
        = (Next_node_generator.integrate cfg M steering d k x y phi).2.2.1
          ++ [(Next_node_generator.substep cfg M steering d
            (Next_node_generator.integrate cfg M steering d k x y phi)).1.2.1] := rfl
    rw [hx, hy, e]
    push_cast
    ring

theorem primitive_travel_abs (cfg : Config α) (i : Nat) :
    |(Next_node_generator.primitive cfg i).2| = |cfg.step_size_| := by
  simp only [Next_node_generator.primitive]
  split_ifs
  · rfl
  · exact abs_neg _

theorem chain_getLast (n : Node3d α) : (Node3d.chain n).getLast? = some n := by
  cases n with
  | mk _ _ _ _ _ _ _ _ _ _ pp _ _ => cases pp <;> simp [Node3d.chain]

theorem chain_of_pre (n p : Node3d α) (h : n.GetPreNode = some p) :
    Node3d.chain n = Node3d.chain p ++ [n] := by
  cases n with
  | mk _ _ _ _ _ _ _ _ _ _ pp _ _ =>
    simp only [Node3d.GetPreNode] at h
    subst h
    simp [Node3d.chain]

theorem chain_cost_step (n p : Node3d α) (h : n.GetPreNode = some p)
    (hle : p.GetTrajCost ≤ n.GetTrajCost)
    (hp : List.Chain' (fun a b : Node3d α => a.GetTrajCost ≤ b.GetTrajCost) (Node3d.chain p)) :
    List.Chain' (fun a b : Node3d α => a.GetTrajCost ≤ b.GetTrajCost) (Node3d.chain n) := by
  rw [chain_of_pre n p h, List.chain'_append]
  refine ⟨hp, List.chain'_singleton _, ?_⟩
  intro x hx y hy
  rw [chain_getLast] at hx
  simp only [Option.mem_def, Option.some.injEq, List.head?_cons] at hx hy
  subst hx
  subst hy
  exact hle

theorem iteration_cost_chain (cfg : Config α) (M : MathFns α) (K : Collab α) (ex ey : α)
    (h0 : ∀ cur next : Node3d α, 0 ≤ TrajCost cfg cur next)
    (l l' : Plan.Loop α) (brk : Bool)
    (hq : ∀ p ∈ l.self.open_pq_,
      List.Chain' (fun a b : Node3d α => a.GetTrajCost ≤ b.GetTrajCost) (Node3d.chain p.1))
    (h : Plan.iteration cfg M K ex ey l = some (l', brk)) :
    ∀ p ∈ l'.self.open_pq_,
      List.Chain' (fun a b : Node3d α => a.GetTrajCost ≤ b.GetTrajCost) (Node3d.chain p.1) := by
  simp only [Plan.iteration, Option.bind_eq_bind, Option.bind_eq_some] at h
  obtain ⟨top, htop, cand, -, h⟩ := h
  obtain ⟨htopmem, hrest⟩ := pqPop_mem _ top.1 top.2 htop
  by_cases hc : K.timeExceeded (l.explored_node_num + 1) = true
      ∧ 0 < (if cand.isSome = true then l.available_result_num + 1 else l.available_result_num)
  · rw [if_pos hc] at h
    simp only [Option.some.injEq, Prod.mk.injEq] at h
    obtain ⟨rfl, -⟩ := h
    intro p hp
    exact hq p (hrest p hp)
  · rw [if_neg hc] at h
    simp only [Option.bind_eq_some, Option.some.injEq, Prod.mk.injEq] at h
    obtain ⟨st, hst, rfl, -⟩ := h
    exact forRange_preserves (Plan.child cfg M K _ ex ey top.1.1)
      (fun st => ∀ p ∈ st.1,
        List.Chain' (fun a b : Node3d α => a.GetTrajCost ≤ b.GetTrajCost) (Node3d.chain p.1))
      (by
        intro i t t' ht hi
        rcases child_cases cfg M K _ ex ey top.1.1 i t t' hi with rfl | ⟨c, hc1, -, -, -, rfl⟩
        · exact ht
        · intro p hp
          rcases List.mem_append.1 hp with hp | hp
          · exact ht p hp
          · rw [List.mem_singleton] at hp
            subst hp
            refine chain_cost_step _ top.1.1 ?_ ?_ (hq _ htopmem)
            · rw [(CalculateNodeCost_fields cfg K _ ex ey top.1.1 c).2.1]
              exact (Next_node_generator_some cfg M K _ top.1.1 c i hc1).1
            · rw [(CalculateNodeCost_fields cfg K _ ex ey top.1.1 c).2.2]
              linarith [h0 top.1.1 c])
      cfg.next_node_num_ 0 (top.2, []) st (fun p hp => hq p (hrest p hp)) hst

theorem search_cost_chain (cfg : Config α) (M : MathFns α) (K : Collab α) (ex ey : α)
    (h0 : ∀ cur next : Node3d α, 0 ≤ TrajCost cfg cur next) :
    ∀ (fuel : Nat) (l l' : Plan.Loop α),
      (∀ p ∈ l.self.open_pq_,
        List.Chain' (fun a b : Node3d α => a.GetTrajCost ≤ b.GetTrajCost) (Node3d.chain p.1)) →
      Plan.search cfg M K ex ey fuel l = some l' →
      ∀ p ∈ l'.self.open_pq_,
        List.Chain' (fun a b : Node3d α => a.GetTrajCost ≤ b.GetTrajCost) (Node3d.chain p.1) := by
  intro fuel
  induction fuel with
  | zero => intro l l' hinv h; simp only [Plan.search, Option.some.injEq] at h; rw [← h]; exact hinv
  | succ fuel ih =>
    intro l l' hinv h
    simp only [Plan.search] at h
    by_cases hc : Plan.continues cfg l = true
    · rw [if_pos hc] at h
      cases hit : Plan.iteration cfg M K ex ey l with
      | none => rw [hit] at h; simp at h
      | some lb =>
        obtain ⟨l1, brk⟩ := lb
        rw [hit] at h
        have hinv1 := iteration_cost_chain cfg M K ex ey h0 l l1 brk hinv hit
        cases brk with
        | true => simp only [Option.some.injEq] at h; rw [← h]; exact hinv1
        | false => exact ih l1 l' hinv1 h
    · rw [if_neg hc] at h
      simp only [Option.some.injEq] at h; rw [← h]; exact hinv

theorem seed_cost_chain (K : Collab α) (self : State α) (sx sy sphi ex ey ephi : α)
    (b : XYbounds α) (obs : List (List (LineSegment2d α))) (flag : Bool) :
    ∀ p ∈ (Plan.seed K self sx sy sphi ex ey ephi b obs flag).self.open_pq_,
      List.Chain' (fun a b : Node3d α => a.GetTrajCost ≤ b.GetTrajCost) (Node3d.chain p.1) := by
  intro p hp
  have e : (Plan.seed K self sx sy sphi ex ey ephi b obs flag).self.open_pq_
      = [(Plan.startNode K sx sy sphi, (Plan.startNode K sx sy sphi).GetCost)] := rfl
  rw [e, List.mem_singleton] at hp
  subst hp
  simp [Plan.startNode, Node3d.chain]

/-! ## The claims -/

/-- C1: when `Plan` returns true in finite-difference mode, the footprint at every
result pose overlaps no obstacle line segment built from the input polygons, and every
result pose is the start pose or a pose at an index of at least 1 (the indices that
`ValidityCheck` scans) of a node of the final node's predecessor chain that
`ValidityCheck` accepted. -/
theorem result_poses_collision_free (cfg : Config α) (M : MathFns α) (K : Collab α)
    (self : State α) (sx sy sphi ex ey ephi : α) (b : XYbounds α)
    (v : List (List (Vec2d α))) (result : HybridAStartResult α)
    (soft : List (List (Vec2d α))) (flag : Bool) (r : HybridAStartResult α) (s' : State α)
    (hmode : cfg.FLAGS_use_s_curve_speed_smooth = false)
    (h : Plan cfg M K self sx sy sphi ex ey ephi b v result soft flag = some (true, r, s')) :
    ∃ obs f, Plan.obstacles v = some obs ∧ s'.final_node_ = some f
      ∧ ValidityCheck K obs b (Plan.startNode K sx sy sphi) = some true
      ∧ ∀ (i : Nat) (xi yi pi : α), r.x[i]? = some xi → r.y[i]? = some yi →
          r.phi[i]? = some pi →
          (∀ segs ∈ obs, ∀ seg ∈ segs, K.HasOverlap xi yi pi seg = false)
          ∧ ((xi = sx ∧ yi = sy ∧ pi = sphi)
            ∨ ∃ m ∈ (Node3d.chain f).tail, ∃ j : Nat, 1 ≤ j ∧ m.GetXs[j]? = some xi
                ∧ m.GetYs[j]? = some yi ∧ m.GetPhis[j]? = some pi
                ∧ ValidityCheck K obs b m = some true) := by
  obtain ⟨obs, f, hobs, hf, hstart, hor⟩ :=
    Plan_true_pose_origin cfg M K self sx sy sphi ex ey ephi b v result soft flag r s' hmode h
  refine ⟨obs, f, hobs, hf, hstart.1, ?_⟩
  intro i xi yi pi hxi hyi hpi
  have ho := hor i xi yi pi hxi hyi hpi
  refine ⟨?_, ?_⟩
  · by_cases hne : obs = []
    · intro segs hsegs; rw [hne] at hsegs; simp at hsegs
    · exact (pose_origin_ok K obs b sx sy sphi f hne hstart xi yi pi ho).2
  · rcases ho with ho | ⟨m, hm, j, hj, h1, h2, h3, hok⟩
    · exact Or.inl ho
    · exact Or.inr ⟨m, hm, j, hj, h1, h2, h3, hok.1⟩

/-- Witness of C1 on the sample call of `Plan`. -/
theorem result_poses_collision_free_witness :
    sampleConfig.FLAGS_use_s_curve_speed_smooth = false
    ∧ ∃ s', Plan sampleConfig sampleMath sampleCollab sampleState 0 0 0 3 0 0 sampleBounds
        sampleObstacles {} [] false = some (true, sampleResult, s')
      ∧ ∃ obs f, Plan.obstacles sampleObstacles = some obs ∧ s'.final_node_ = some f
        ∧ ValidityCheck sampleCollab obs sampleBounds (Plan.startNode sampleCollab 0 0 0)
            = some true
        ∧ ∀ (i : Nat) (xi yi pi : ℚ), sampleResult.x[i]? = some xi →
            sampleResult.y[i]? = some yi → sampleResult.phi[i]? = some pi →
            (∀ segs ∈ obs, ∀ seg ∈ segs, sampleCollab.HasOverlap xi yi pi seg = false)
            ∧ ((xi = 0 ∧ yi = 0 ∧ pi = 0)
              ∨ ∃ m ∈ (Node3d.chain f).tail, ∃ j : Nat, 1 ≤ j ∧ m.GetXs[j]? = some xi
                  ∧ m.GetYs[j]? = some yi ∧ m.GetPhis[j]? = some pi
                  ∧ ValidityCheck sampleCollab obs sampleBounds m = some true) :=
  ⟨rfl,
    (exists_state_of_map _ _ _ samplePlan_eval).elim fun s' hs' =>
      ⟨s', hs', result_poses_collision_free sampleConfig sampleMath sampleCollab sampleState
        0 0 0 3 0 0 sampleBounds sampleObstacles {} [] false sampleResult s' rfl hs'⟩⟩

set_option maxRecDepth 100000 in
/-- Counterexample to C2: without obstacles `ValidityCheck` accepts every node without
looking at the bounds, so `Plan` returns true from a start pose with
`x = 10 > XYbounds[1] = 5` and the result begins with that pose. -/
theorem result_pose_outside_workspace :
    (Plan sampleConfig sampleMath sampleCollab sampleState 10 0 0 3 0 0 sampleBounds
        [] {} [] false).map (fun p => (p.1, p.2.1)) = some (true, sampleResultOutside)
    ∧ sampleResultOutside.x[0]? = some 10 ∧ ¬ ((10 : ℚ) ≤ sampleBounds.b1) := by
  refine ⟨by decide!, by decide!, by decide!⟩

/-- C2 (amended): when `Plan` returns true in finite-difference mode for a non-empty
list of obstacle polygons, every result pose lies within the workspace. -/
theorem result_poses_within_workspace (cfg : Config α) (M : MathFns α) (K : Collab α)
    (self : State α) (sx sy sphi ex ey ephi : α) (b : XYbounds α)
    (v : List (List (Vec2d α))) (result : HybridAStartResult α)
    (soft : List (List (Vec2d α))) (flag : Bool) (r : HybridAStartResult α) (s' : State α)
    (hmode : cfg.FLAGS_use_s_curve_speed_smooth = false) (hv : v ≠ [])
    (h : Plan cfg M K self sx sy sphi ex ey ephi b v result soft flag = some (true, r, s')) :
    r.x.length = r.y.length ∧ r.x.length = r.phi.length
    ∧ ∀ (i : Nat) (xi yi : α), r.x[i]? = some xi → r.y[i]? = some yi →
        b.b0 ≤ xi ∧ xi ≤ b.b1 ∧ b.b2 ≤ yi ∧ yi ≤ b.b3 := by
  obtain ⟨obs, f, hobs, hf, hstart, hor⟩ :=
    Plan_true_pose_origin cfg M K self sx sy sphi ex ey ephi b v result soft flag r s' hmode h
  obtain ⟨_, f', -, -, -, hres, -⟩ :=
    Plan_true cfg M K self sx sy sphi ex ey ephi b v result soft flag r s' h
  obtain ⟨_, _, _, -, -, e1, -, e3, -⟩ := GetResult_true cfg M K f' result r hres
  refine ⟨e1, e3, ?_⟩
  intro i xi yi hxi hyi
  have hlt : i < r.phi.length := by
    rw [← e3]; exact (List.getElem?_eq_some_iff.1 hxi).1
  have hne : obs ≠ [] := fun h0 => hv ((obstacles_eq_nil v obs hobs).1 h0)
  exact (pose_origin_ok K obs b sx sy sphi f hne hstart xi yi r.phi[i]
    (hor i xi yi r.phi[i] hxi hyi (List.getElem?_eq_getElem hlt))).1

/-- Witness of the amended C2 on the sample call of `Plan`. -/
theorem result_poses_within_workspace_witness :
    sampleConfig.FLAGS_use_s_curve_speed_smooth = false ∧ sampleObstacles ≠ []
    ∧ ∃ s', Plan sampleConfig sampleMath sampleCollab sampleState 0 0 0 3 0 0 sampleBounds
        sampleObstacles {} [] false = some (true, sampleResult, s')
      ∧ sampleResult.x.length = sampleResult.y.length
      ∧ sampleResult.x.length = sampleResult.phi.length
      ∧ ∀ (i : Nat) (xi yi : ℚ), sampleResult.x[i]? = some xi →
          sampleResult.y[i]? = some yi →
          sampleBounds.b0 ≤ xi ∧ xi ≤ sampleBounds.b1 ∧ sampleBounds.b2 ≤ yi
            ∧ yi ≤ sampleBounds.b3 :=
  ⟨rfl, by decide,
    (exists_state_of_map _ _ _ samplePlan_eval).elim fun s' hs' =>
      ⟨s', hs', result_poses_within_workspace sampleConfig sampleMath sampleCollab sampleState
        0 0 0 3 0 0 sampleBounds sampleObstacles {} [] false sampleResult s' rfl (by decide)
        hs'⟩⟩

/-- C3: when `GetResult`, and hence `Plan`, returns true, the result has equally many
`x`, `y`, `phi` and `v` entries and one entry less in `a` and in `steer`; the sizes are
those of `std::vector<double>`, so at most `vectorMaxSize`. -/
theorem result_sizes (cfg : Config α) (M : MathFns α) (K : Collab α) (self : State α)
    (sx sy sphi ex ey ephi : α) (b : XYbounds α) (v : List (List (Vec2d α)))
    (result : HybridAStartResult α) (soft : List (List (Vec2d α))) (flag : Bool)
    (final_node_ : Option (Node3d α)) (r : HybridAStartResult α)
    (hx : r.x.length ≤ vectorMaxSize) (ha : r.a.length ≤ vectorMaxSize)
    (h : GetResult cfg M K final_node_ result = some (true, r)
      ∨ ∃ s', Plan cfg M K self sx sy sphi ex ey ephi b v result soft flag = some (true, r, s')) :
    r.x.length = r.y.length ∧ r.x.length = r.phi.length ∧ r.x.length = r.v.length
      ∧ r.a.length = r.steer.length ∧ r.a.length + 1 = r.x.length := by
  have key : ∀ f, GetResult cfg M K (some f) result = some (true, r) →
      r.x.length = r.y.length ∧ r.x.length = r.phi.length ∧ r.x.length = r.v.length
        ∧ r.a.length = r.steer.length ∧ r.a.length + 1 = r.x.length := by
    intro f hf
    obtain ⟨_, _, _, -, -, e1, e2, e3, e4, e5⟩ := GetResult_true cfg M K f result r hf
    refine ⟨e1, e3, e2, e4, ?_⟩
    simp only [sizeSub, sizeModulus, vectorMaxSize] at e5 hx ha
    norm_num at e5 hx ha
    omega
  rcases h with h | ⟨s', h⟩
  · cases final_node_ with
    | none => simp [GetResult] at h
    | some f => exact key f h
  · obtain ⟨obs, f, -, -, -, hres, -⟩ :=
      Plan_true cfg M K self sx sy sphi ex ey ephi b v result soft flag r s' h
    exact key f hres

/-- Witness of C3: the sample call of `Plan` returns true. -/
theorem result_sizes_witness :
    sampleResult.x.length ≤ vectorMaxSize ∧ sampleResult.a.length ≤ vectorMaxSize
    ∧ (∃ s', Plan sampleConfig sampleMath sampleCollab sampleState 0 0 0 3 0 0 sampleBounds
        sampleObstacles {} [] false = some (true, sampleResult, s'))
    ∧ sampleResult.x.length = sampleResult.y.length
    ∧ sampleResult.x.length = sampleResult.phi.length
    ∧ sampleResult.x.length = sampleResult.v.length
    ∧ sampleResult.a.length = sampleResult.steer.length
    ∧ sampleResult.a.length + 1 = sampleResult.x.length :=
  ⟨by decide, by decide, exists_state_of_map _ _ _ samplePlan_eval,
    result_sizes sampleConfig sampleMath sampleCollab sampleState 0 0 0 3 0 0 sampleBounds
      sampleObstacles {} [] false none sampleResult (by decide) (by decide)
      (Or.inr (exists_state_of_map _ _ _ samplePlan_eval))⟩

/-- C4 (amended): when `Plan` returns true, `result.accumulated_s` is empty, in either
profile mode: the stitched result that replaces `*result` never receives it. -/
theorem result_accumulated_s_empty (cfg : Config α) (M : MathFns α) (K : Collab α)
    (self : State α) (sx sy sphi ex ey ephi : α) (b : XYbounds α)
    (v : List (List (Vec2d α))) (result : HybridAStartResult α)
    (soft : List (List (Vec2d α))) (flag : Bool) (r : HybridAStartResult α) (s' : State α)
    (h : Plan cfg M K self sx sy sphi ex ey ephi b v result soft flag = some (true, r, s')) :
    r.accumulated_s = [] := by
  obtain ⟨_, f, -, -, -, hres, -⟩ :=
    Plan_true cfg M K self sx sy sphi ex ey ephi b v result soft flag r s' h
  obtain ⟨_, _, _, -, hgtp, -⟩ := GetResult_true cfg M K f result r hres
  exact GetTemporalProfile_accumulated_s cfg M K _ r hgtp

/-- Witness of the amended C4 on the sample call of `Plan`. -/
theorem result_accumulated_s_empty_witness :
    ∃ s', Plan sampleConfig sampleMath sampleCollab sampleState 0 0 0 3 0 0 sampleBounds
        sampleObstacles {} [] false = some (true, sampleResult, s')
      ∧ sampleResult.accumulated_s = [] :=
  (exists_state_of_map _ _ _ samplePlan_eval).elim fun s' hs' =>
    ⟨s', hs', result_accumulated_s_empty sampleConfig sampleMath sampleCollab sampleState
      0 0 0 3 0 0 sampleBounds sampleObstacles {} [] false sampleResult s' hs'⟩

set_option maxRecDepth 100000 in
/-- Counterexample to C4: the sample call of `Plan` returns true and leaves
`accumulated_s` empty, so it has no first element. -/
theorem result_accumulated_s_not_filled :
    (Plan sampleConfig sampleMath sampleCollab sampleState 0 0 0 3 0 0 sampleBounds
        sampleObstacles {} [] false).map (fun p => (p.1, p.2.1.accumulated_s))
      = some (true, [])
    ∧ ¬ (([] : List ℚ) ≠ [] ∧ ([] : List ℚ)[0]? = some 0) := by
  refine ⟨by decide!, by simp⟩

/-- C6: in finite-difference mode, for a path with at least two poses and equally
long `x`, `y`, `phi`, `TrajectoryPartition` returns true with segments whose stitching
(every segment without its last sample, then the last sample of the last segment)
succeeds and gives back exactly the input `x`, `y` and `phi`. -/
theorem partition_stitch_reproduces_path (cfg : Config α) (M : MathFns α) (K : Collab α)
    (result : HybridAStartResult α) (hmode : cfg.FLAGS_use_s_curve_speed_smooth = false)
    (h2 : 2 ≤ result.x.length) (hy : result.x.length = result.y.length)
    (hphi : result.x.length = result.phi.length) :
    ∃ partitioned_results stitched_result,
      TrajectoryPartition cfg M K result = some (some partitioned_results)
      ∧ GetTemporalProfile.stitchAll partitioned_results = some stitched_result
      ∧ GetTemporalProfile cfg M K result = some (true, stitched_result)
      ∧ stitched_result.x = result.x ∧ stitched_result.y = result.y
      ∧ stitched_result.phi = result.phi := by
  obtain ⟨r, hr, hx, hyy, hp, -⟩ :=
    GetTemporalProfile_finite_difference cfg M K result hmode h2 hy hphi
  have hr' := hr
  simp only [GetTemporalProfile] at hr'
  cases htp : TrajectoryPartition cfg M K result with
  | none => rw [htp] at hr'; simp at hr'
  | some o =>
    cases o with
    | none => rw [htp] at hr'; simp at hr'
    | some parts =>
      rw [htp] at hr'
      simp only [Option.map_eq_some', Prod.mk.injEq, true_and] at hr'
      obtain ⟨a, ha, rfl⟩ := hr'
      exact ⟨parts, a, rfl, ha, hr, hx, hyy, hp⟩

/-- Witness of C6 on a path with two gear changes. -/
theorem partition_stitch_reproduces_path_witness :
    sampleConfig.FLAGS_use_s_curve_speed_smooth = false ∧ 2 ≤ samplePath.x.length
    ∧ samplePath.x.length = samplePath.y.length ∧ samplePath.x.length = samplePath.phi.length
    ∧ ∃ partitioned_results stitched_result,
      TrajectoryPartition sampleConfig sampleMath sampleCollab samplePath
        = some (some partitioned_results)
      ∧ GetTemporalProfile.stitchAll partitioned_results = some stitched_result
      ∧ GetTemporalProfile sampleConfig sampleMath sampleCollab samplePath
        = some (true, stitched_result)
      ∧ stitched_result.x = samplePath.x ∧ stitched_result.y = samplePath.y
      ∧ stitched_result.phi = samplePath.phi :=
  ⟨rfl, by decide, rfl, rfl,
    partition_stitch_reproduces_path sampleConfig sampleMath sampleCollab samplePath rfl
      (by decide) rfl rfl⟩

/-- C7: in finite-difference mode, for a path with `n ≥ 2` poses and equally long `x`,
`y`, `phi`, `GetTemporalProfile` returns true and the stitched result has `n` entries in
`x`, `y`, `phi`, `v` and `n - 1` entries in `a` and `steer`, whatever the gear test
answers along the path. -/
theorem temporal_profile_sizes (cfg : Config α) (M : MathFns α) (K : Collab α)
    (result : HybridAStartResult α) (hmode : cfg.FLAGS_use_s_curve_speed_smooth = false)
    (h2 : 2 ≤ result.x.length) (hy : result.x.length = result.y.length)
    (hphi : result.x.length = result.phi.length) :
    ∃ r, GetTemporalProfile cfg M K result = some (true, r)
      ∧ r.x.length = result.x.length ∧ r.y.length = result.x.length
      ∧ r.phi.length = result.x.length ∧ r.v.length = result.x.length
      ∧ r.a.length = result.x.length - 1 ∧ r.steer.length = result.x.length - 1 := by
  obtain ⟨r, hr, hx, hyy, hp, hv, -, -, ha, hs, -⟩ :=
    GetTemporalProfile_finite_difference cfg M K result hmode h2 hy hphi
  exact ⟨r, hr, by rw [hx], by rw [hyy, hy], by rw [hp, hphi], hv, ha, hs⟩

/-- Witness of C7 on a path with two gear changes. -/
theorem temporal_profile_sizes_witness :
    sampleConfig.FLAGS_use_s_curve_speed_smooth = false ∧ 2 ≤ samplePath.x.length
    ∧ samplePath.x.length = samplePath.y.length ∧ samplePath.x.length = samplePath.phi.length
    ∧ ∃ r, GetTemporalProfile sampleConfig sampleMath sampleCollab samplePath = some (true, r)
      ∧ r.x.length = samplePath.x.length ∧ r.y.length = samplePath.x.length
      ∧ r.phi.length = samplePath.x.length ∧ r.v.length = samplePath.x.length
      ∧ r.a.length = samplePath.x.length - 1 ∧ r.steer.length = samplePath.x.length - 1 :=
  ⟨rfl, by decide, rfl, rfl,
    temporal_profile_sizes sampleConfig sampleMath sampleCollab samplePath rfl (by decide) rfl rfl⟩

/-- C8: in finite-difference mode, for a path with `n ≥ 2` poses and equally long
`x`, `y`, `phi`, the stitched result of `GetTemporalProfile` has `v[0] = 0` and
`v[n - 1] = 0` exactly. -/
theorem temporal_profile_end_velocities (cfg : Config α) (M : MathFns α) (K : Collab α)
    (result : HybridAStartResult α) (hmode : cfg.FLAGS_use_s_curve_speed_smooth = false)
    (h2 : 2 ≤ result.x.length) (hy : result.x.length = result.y.length)
    (hphi : result.x.length = result.phi.length) :
    ∃ r, GetTemporalProfile cfg M K result = some (true, r)
      ∧ r.v.length = result.x.length ∧ r.v[0]? = some 0
      ∧ r.v[result.x.length - 1]? = some 0 := by
  obtain ⟨r, hr, -, -, -, hv, h0, hl, -⟩ :=
    GetTemporalProfile_finite_difference cfg M K result hmode h2 hy hphi
  exact ⟨r, hr, hv, h0, hl⟩

/-- Witness of C8 on a path with two gear changes. -/
theorem temporal_profile_end_velocities_witness :
    sampleConfig.FLAGS_use_s_curve_speed_smooth = false ∧ 2 ≤ samplePath.x.length
    ∧ samplePath.x.length = samplePath.y.length ∧ samplePath.x.length = samplePath.phi.length
    ∧ ∃ r, GetTemporalProfile sampleConfig sampleMath sampleCollab samplePath = some (true, r)
      ∧ r.v.length = samplePath.x.length ∧ r.v[0]? = some 0
      ∧ r.v[samplePath.x.length - 1]? = some 0 :=
  ⟨rfl, by decide, rfl, rfl,
    temporal_profile_end_velocities sampleConfig sampleMath sampleCollab samplePath rfl
      (by decide) rfl rfl⟩

/-- C9: for a predecessor chain whose nodes other than the first have non-empty
traversed `x`, `y`, `phi` arrays of equal length, the path that `GetResult` assembles is
the pose of the first node followed by the traversed poses of the other nodes, each
without its first pose, in start-to-goal order; its length is
`1 + sum (|xs| - 1)`. -/
theorem assembled_path_of_chain (n : Node3d α)
    (hwf : ∀ m ∈ (Node3d.chain n).tail, m.GetXs ≠ [] ∧ m.GetXs.length = m.GetYs.length
      ∧ m.GetXs.length = m.GetPhis.length) :
    ∃ n0 hx hy hphi, (Node3d.chain n).head? = some n0 ∧ n0.GetPreNode = none
      ∧ GetResult.assemble n = some (hx, hy, hphi)
      ∧ hx = n0.GetX :: ((Node3d.chain n).tail.map (fun m => m.GetXs.tail)).flatten
      ∧ hy = n0.GetY :: ((Node3d.chain n).tail.map (fun m => m.GetYs.tail)).flatten
      ∧ hphi = n0.GetPhi :: ((Node3d.chain n).tail.map (fun m => m.GetPhis.tail)).flatten
      ∧ hx.length = 1 + ((Node3d.chain n).tail.map (fun m => m.GetXs.length - 1)).sum
      ∧ hy.length = hx.length ∧ hphi.length = hx.length := by
  obtain ⟨n0, h1, h2, h3⟩ := assemble_chain n hwf
  refine ⟨n0, _, _, _, h1, h2, h3, rfl, rfl, rfl, ?_, ?_, ?_⟩
  · simp only [List.length_cons, List.length_flatten, List.map_map]
    rw [Nat.add_comm]
    congr 2
    apply List.map_congr_left
    intro m _
    simp
  · simp only [List.length_cons, List.length_flatten, List.map_map, Nat.add_right_cancel_iff]
    apply sum_pred_lengths_eq
    intro m hm
    obtain ⟨-, e1, -⟩ := hwf m hm
    simp [e1]
  · simp only [List.length_cons, List.length_flatten, List.map_map, Nat.add_right_cancel_iff]
    apply sum_pred_lengths_eq
    intro m hm
    obtain ⟨-, -, e2⟩ := hwf m hm
    simp [e2]

/-- Witness of C9 on a chain of three nodes. -/
theorem assembled_path_of_chain_witness :
    (∀ m ∈ (Node3d.chain sampleChain).tail, m.GetXs ≠ [] ∧ m.GetXs.length = m.GetYs.length
      ∧ m.GetXs.length = m.GetPhis.length)
    ∧ ∃ n0 hx hy hphi, (Node3d.chain sampleChain).head? = some n0 ∧ n0.GetPreNode = none
      ∧ GetResult.assemble sampleChain = some (hx, hy, hphi)
      ∧ hx = n0.GetX :: ((Node3d.chain sampleChain).tail.map (fun m => m.GetXs.tail)).flatten
      ∧ hy = n0.GetY :: ((Node3d.chain sampleChain).tail.map (fun m => m.GetYs.tail)).flatten
      ∧ hphi = n0.GetPhi
          :: ((Node3d.chain sampleChain).tail.map (fun m => m.GetPhis.tail)).flatten
      ∧ hx.length = 1 + ((Node3d.chain sampleChain).tail.map (fun m => m.GetXs.length - 1)).sum
      ∧ hy.length = hx.length ∧ hphi.length = hx.length :=
  ⟨by decide, assembled_path_of_chain sampleChain (by decide)⟩

/-- C10: if `ValidityCheck` rejects the start node or the end node, `Plan` returns
false with the result untouched, an empty open queue, open set and closed set and no
final node; the outcome is the same for collaborators that differ in the Reeds-Shepp
generator, the heuristic map, the clock and the solver, none of which is consulted. -/
theorem rejected_endpoint_fails_fast (cfg : Config α) (M : MathFns α) (K K' : Collab α)
    (self : State α) (sx sy sphi ex ey ephi : α) (b : XYbounds α)
    (v : List (List (Vec2d α))) (obs : List (List (LineSegment2d α)))
    (result : HybridAStartResult α) (soft : List (List (Vec2d α))) (flag : Bool)
    (hO : K'.HasOverlap = K.HasOverlap) (hG : K'.gridIndex = K.gridIndex)
    (hobs : Plan.obstacles v = some obs)
    (hrej : ValidityCheck K obs b (Plan.startNode K sx sy sphi) = some false
      ∨ ValidityCheck K obs b (Plan.endNode K ex ey ephi) = some false) :
    ∃ s', Plan cfg M K self sx sy sphi ex ey ephi b v result soft flag
        = some (false, result, s')
      ∧ Plan cfg M K' self sx sy sphi ex ey ephi b v result soft flag
        = some (false, result, s')
      ∧ s'.open_pq_ = [] ∧ s'.open_set_ = [] ∧ s'.close_set_ = []
      ∧ s'.final_node_ = none := by
  have hs' : Plan.startNode K' sx sy sphi = Plan.startNode K sx sy sphi := by
    simp only [Plan.startNode, hG]
  have he' : Plan.endNode K' ex ey ephi = Plan.endNode K ex ey ephi := by
    simp only [Plan.endNode, hG]
  have hrej' : ValidityCheck K' obs b (Plan.startNode K' sx sy sphi) = some false
      ∨ ValidityCheck K' obs b (Plan.endNode K' ex ey ephi) = some false := by
    rw [hs', he', ValidityCheck_collab K K' hO, ValidityCheck_collab K K' hO]
    exact hrej
  refine ⟨_, Plan_rejected cfg M K self sx sy sphi ex ey ephi b v obs result soft flag hobs hrej,
    ?_, rfl, rfl, rfl, rfl⟩
  rw [Plan_rejected cfg M K' self sx sy sphi ex ey ephi b v obs result soft flag hobs hrej',
    hs', he']

set_option maxRecDepth 100000 in
/-- Witness of C10: the start pose sits on the start point of an obstacle segment. -/
theorem rejected_endpoint_fails_fast_witness :
    sampleCollabBlind.HasOverlap = sampleCollab.HasOverlap
    ∧ sampleCollabBlind.gridIndex = sampleCollab.gridIndex
    ∧ Plan.obstacles sampleBlockingObstacles
        = some [[LineSegment2d.mk ⟨0, 0⟩ ⟨4, -1⟩]]
    ∧ ValidityCheck sampleCollab [[LineSegment2d.mk ⟨0, 0⟩ ⟨4, -1⟩]] sampleBounds
        (Plan.startNode sampleCollab 0 0 0) = some false
    ∧ ∃ s', Plan sampleConfig sampleMath sampleCollab sampleState 0 0 0 3 0 0 sampleBounds
          sampleBlockingObstacles {} [] false = some (false, {}, s')
        ∧ Plan sampleConfig sampleMath sampleCollabBlind sampleState 0 0 0 3 0 0 sampleBounds
          sampleBlockingObstacles {} [] false = some (false, {}, s')
        ∧ s'.open_pq_ = [] ∧ s'.open_set_ = [] ∧ s'.close_set_ = []
        ∧ s'.final_node_ = none :=
  ⟨rfl, rfl, by decide!, by decide!,
    rejected_endpoint_fails_fast sampleConfig sampleMath sampleCollab sampleCollabBlind
      sampleState 0 0 0 3 0 0 sampleBounds sampleBlockingObstacles
      [[LineSegment2d.mk ⟨0, 0⟩ ⟨4, -1⟩]] {} [] false rfl rfl (by decide!)
      (Or.inl (by decide!))⟩

/-- C11: with a well-formed Reeds-Shepp generator and an integration loop that ends,
if the search loop of `Plan` ends without having counted a successful analytic
expansion, whatever ended it, `Plan` returns false, leaves the result untouched and
retains no final node. -/
theorem no_candidate_plan_fails (cfg : Config α) (M : MathFns α) (K : Collab α)
    (self : State α) (sx sy sphi ex ey ephi : α) (b : XYbounds α)
    (v : List (List (Vec2d α))) (obs : List (List (LineSegment2d α)))
    (result : HybridAStartResult α) (soft : List (List (Vec2d α))) (flag : Bool)
    (hRS : RSWellFormed K) (hsteps : cfg.step_size_ ≠ 0 ∨ cfg.arc_length_ ≤ 0)
    (hobs : Plan.obstacles v = some obs)
    (hno : ∀ l, Plan.search cfg M K ex ey cfg.max_explored_num
        (Plan.seed K self sx sy sphi ex ey ephi b obs flag) = some l →
        l.available_result_num = 0) :
    ∃ s', Plan cfg M K self sx sy sphi ex ey ephi b v result soft flag
        = some (false, result, s')
      ∧ s'.final_node_ = none := by
  obtain ⟨ok1, hok1⟩ := ValidityCheck_single K obs b sx sy sphi (K.gridIndex sx sy sphi)
  obtain ⟨ok2, hok2⟩ := ValidityCheck_single K obs b ex ey ephi (K.gridIndex ex ey ephi)
  cases ok1 with
  | false =>
    exact ⟨_, Plan_rejected cfg M K self sx sy sphi ex ey ephi b v obs result soft flag hobs
      (Or.inl hok1), rfl⟩
  | true =>
    cases ok2 with
    | false =>
      exact ⟨_, Plan_rejected cfg M K self sx sy sphi ex ey ephi b v obs result soft flag hobs
        (Or.inr hok2), rfl⟩
    | true =>
      obtain ⟨l, hl⟩ := search_defined cfg M K ex ey hRS hsteps (Plan.endNode K ex ey ephi)
        cfg.max_explored_num (Plan.seed K self sx sy sphi ex ey ephi b obs flag)
        (seed_end_node K self sx sy sphi ex ey ephi b obs flag)
      obtain ⟨f1, f2, -⟩ := search_facts cfg M K ex ey _ _ l hl
      have hav := hno l hl
      rw [hav] at f2
      have hcs : Plan.candidates cfg M K ex ey cfg.max_explored_num
          (Plan.seed K self sx sy sphi ex ey ephi b obs flag) = [] := by
        apply List.length_eq_zero.1
        have h0 : (Plan.seed K self sx sy sphi ex ey ephi b obs flag).available_result_num = 0 :=
          rfl
        rw [h0] at f2
        omega
      rw [hcs] at f1
      have hfin : l.self.final_node_ = none := f1
      refine ⟨l.self, ?_, hfin⟩
      rw [Plan_searched cfg M K self sx sy sphi ex ey ephi b v obs result soft flag hobs hok1
        hok2, hl]
      simp only [Option.some_bind, hfin]

/-- Witness of C11: with a Reeds-Shepp generator that finds no path the sample search
closes three nodes, empties the queue and counts no candidate. -/
theorem no_candidate_plan_fails_witness :
    RSWellFormed sampleCollabBlind
    ∧ (sampleConfig.step_size_ ≠ 0 ∨ sampleConfig.arc_length_ ≤ 0)
    ∧ Plan.obstacles sampleObstacles = some [[LineSegment2d.mk ⟨4, 1⟩ ⟨4, -1⟩]]
    ∧ (∀ l, Plan.search sampleConfig sampleMath sampleCollabBlind 3 0
          sampleConfig.max_explored_num
          (Plan.seed sampleCollabBlind sampleState 0 0 0 3 0 0 sampleBounds
            [[LineSegment2d.mk ⟨4, 1⟩ ⟨4, -1⟩]] false) = some l →
        l.available_result_num = 0)
    ∧ ∃ s', Plan sampleConfig sampleMath sampleCollabBlind sampleState 0 0 0 3 0 0
          sampleBounds sampleObstacles {} [] false = some (false, {}, s')
        ∧ s'.final_node_ = none := by
  have hno : ∀ l, Plan.search sampleConfig sampleMath sampleCollabBlind 3 0
      sampleConfig.max_explored_num
      (Plan.seed sampleCollabBlind sampleState 0 0 0 3 0 0 sampleBounds
        [[LineSegment2d.mk ⟨4, 1⟩ ⟨4, -1⟩]] false) = some l →
      l.available_result_num = 0 := by
    intro l hl
    have e := sampleSearchBlind_eval
    rw [hl] at e
    simp only [Option.map_some', Option.some.injEq, Prod.mk.injEq] at e
    exact e.2.1
  have hstep : sampleConfig.step_size_ ≠ 0 ∨ sampleConfig.arc_length_ ≤ 0 :=
    Or.inl (by norm_num [sampleConfig])
  exact ⟨sampleCollabBlind_wellFormed, hstep, by decide!, hno,
    no_candidate_plan_fails sampleConfig sampleMath sampleCollabBlind sampleState 0 0 0 3 0 0
      sampleBounds sampleObstacles [[LineSegment2d.mk ⟨4, 1⟩ ⟨4, -1⟩]] {} [] false
      sampleCollabBlind_wellFormed hstep (by decide!) hno⟩

/-- C12: when the search loop of `Plan` ends, the number of successful analytic
expansions it counted is the number of candidates it produced; if there is one,
`final_node_` is one of them, the first of least trajectory cost: every earlier
candidate costs strictly more and no later one costs less. -/
theorem retained_candidate_is_first_minimum (cfg : Config α) (M : MathFns α) (K : Collab α)
    (self : State α) (sx sy sphi ex ey ephi : α) (b : XYbounds α)
    (obs : List (List (LineSegment2d α))) (flag : Bool) (l : Plan.Loop α)
    (h : Plan.search cfg M K ex ey cfg.max_explored_num
        (Plan.seed K self sx sy sphi ex ey ephi b obs flag) = some l)
    (hav : 0 < l.available_result_num) :
    l.available_result_num
      = (Plan.candidates cfg M K ex ey cfg.max_explored_num
          (Plan.seed K self sx sy sphi ex ey ephi b obs flag)).length
    ∧ ∃ f pre post, l.self.final_node_ = some f
      ∧ Plan.candidates cfg M K ex ey cfg.max_explored_num
          (Plan.seed K self sx sy sphi ex ey ephi b obs flag) = pre ++ f :: post
      ∧ (∀ c ∈ pre, f.GetTrajCost < c.GetTrajCost)
      ∧ (∀ c ∈ post, f.GetTrajCost ≤ c.GetTrajCost)
      ∧ ∀ c ∈ Plan.candidates cfg M K ex ey cfg.max_explored_num
          (Plan.seed K self sx sy sphi ex ey ephi b obs flag),
          f.GetTrajCost ≤ c.GetTrajCost := by
  obtain ⟨f1, f2, -⟩ := search_facts cfg M K ex ey _ _ l h
  have f2' : l.available_result_num
      = (Plan.candidates cfg M K ex ey cfg.max_explored_num
          (Plan.seed K self sx sy sphi ex ey ephi b obs flag)).length := by
    have h0 : (Plan.seed K self sx sy sphi ex ey ephi b obs flag).available_result_num = 0 :=
      rfl
    rw [f2, h0, Nat.zero_add]
  have hne : Plan.candidates cfg M K ex ey cfg.max_explored_num
      (Plan.seed K self sx sy sphi ex ey ephi b obs flag) ≠ [] := by
    intro h0; rw [h0] at f2'; simp at f2'; omega
  obtain ⟨f, pre, post, hf, hcs, hpre, hpost⟩ := retain_foldl_none _ hne
  refine ⟨f2', f, pre, post, ?_, hcs, hpre, hpost, ?_⟩
  · rw [f1]; exact hf
  · intro c hc
    rw [hcs] at hc
    rcases List.mem_append.1 hc with hc | hc
    · exact le_of_lt (hpre c hc)
    · rcases List.mem_cons.1 hc with rfl | hc
      · exact le_refl _
      · exact hpost c hc

/-- Witness of C12: the thorough sample search closes three nodes and produces three
candidates, of trajectory costs 3, 4 and 4. -/
theorem retained_candidate_is_first_minimum_witness :
    ∃ l, Plan.search sampleConfigThorough sampleMath sampleCollab 3 0
          sampleConfigThorough.max_explored_num
          (Plan.seed sampleCollab sampleState 0 0 0 3 0 0 sampleBounds
            [[LineSegment2d.mk ⟨4, 1⟩ ⟨4, -1⟩]] false) = some l
      ∧ 0 < l.available_result_num
      ∧ l.available_result_num
        = (Plan.candidates sampleConfigThorough sampleMath sampleCollab 3 0
            sampleConfigThorough.max_explored_num
            (Plan.seed sampleCollab sampleState 0 0 0 3 0 0 sampleBounds
              [[LineSegment2d.mk ⟨4, 1⟩ ⟨4, -1⟩]] false)).length
      ∧ ∃ f pre post, l.self.final_node_ = some f
        ∧ Plan.candidates sampleConfigThorough sampleMath sampleCollab 3 0
            sampleConfigThorough.max_explored_num
            (Plan.seed sampleCollab sampleState 0 0 0 3 0 0 sampleBounds
              [[LineSegment2d.mk ⟨4, 1⟩ ⟨4, -1⟩]] false) = pre ++ f :: post
        ∧ (∀ c ∈ pre, f.GetTrajCost < c.GetTrajCost)
        ∧ (∀ c ∈ post, f.GetTrajCost ≤ c.GetTrajCost)
        ∧ ∀ c ∈ Plan.candidates sampleConfigThorough sampleMath sampleCollab 3 0
            sampleConfigThorough.max_explored_num
            (Plan.seed sampleCollab sampleState 0 0 0 3 0 0 sampleBounds
              [[LineSegment2d.mk ⟨4, 1⟩ ⟨4, -1⟩]] false),
            f.GetTrajCost ≤ c.GetTrajCost := by
  have e := sampleSearch_eval
  cases hl : Plan.search sampleConfigThorough sampleMath sampleCollab 3 0
      sampleConfigThorough.max_explored_num
      (Plan.seed sampleCollab sampleState 0 0 0 3 0 0 sampleBounds
        [[LineSegment2d.mk ⟨4, 1⟩ ⟨4, -1⟩]] false) with
  | none => rw [hl] at e; simp at e
  | some l =>
    rw [hl] at e
    simp only [Option.map_some', Option.some.injEq, Prod.mk.injEq] at e
    have hav : 0 < l.available_result_num := by rw [e.2]; decide
    exact ⟨l, rfl, hav,
      retained_candidate_is_first_minimum sampleConfigThorough sampleMath sampleCollab sampleState
        0 0 0 3 0 0 sampleBounds [[LineSegment2d.mk ⟨4, 1⟩ ⟨4, -1⟩]] false l hl hav⟩

/-- C13: every pass of the search loop of `Plan` increases `explored_node_num` by one
and closes one node; with a well-formed Reeds-Shepp generator and an integration loop
that ends, the search loop ends after at most `max_explored_num` passes, and a larger
supply of passes does not change its outcome. -/
theorem search_loop_bounded (cfg : Config α) (M : MathFns α) (K : Collab α)
    (self : State α) (sx sy sphi ex ey ephi : α) (b : XYbounds α)
    (obs : List (List (LineSegment2d α))) (flag : Bool)
    (hRS : RSWellFormed K) (hsteps : cfg.step_size_ ≠ 0 ∨ cfg.arc_length_ ≤ 0) :
    (∀ (l l' : Plan.Loop α) (brk : Bool), Plan.iteration cfg M K ex ey l = some (l', brk) →
      l'.explored_node_num = l.explored_node_num + 1
      ∧ l'.self.close_set_.length = l.self.close_set_.length + 1)
    ∧ ∃ l, Plan.search cfg M K ex ey cfg.max_explored_num
          (Plan.seed K self sx sy sphi ex ey ephi b obs flag) = some l
        ∧ l.explored_node_num ≤ cfg.max_explored_num
        ∧ l.self.close_set_.length = l.explored_node_num
        ∧ ∀ extra : Nat, Plan.search cfg M K ex ey (cfg.max_explored_num + extra)
            (Plan.seed K self sx sy sphi ex ey ephi b obs flag) = some l := by
  refine ⟨?_, ?_⟩
  · intro l l' brk hit
    obtain ⟨_, _, -, -, e1, -, -, e4, -⟩ := iteration_facts cfg M K ex ey l l' brk hit
    exact ⟨e1, by rw [e4]; simp⟩
  · obtain ⟨l, hl⟩ := search_defined cfg M K ex ey hRS hsteps (Plan.endNode K ex ey ephi)
      cfg.max_explored_num (Plan.seed K self sx sy sphi ex ey ephi b obs flag)
      (seed_end_node K self sx sy sphi ex ey ephi b obs flag)
    obtain ⟨-, -, -, g4, g5⟩ := search_facts cfg M K ex ey _ _ l hl
    refine ⟨l, hl, g4 (Nat.zero_le _), ?_, ?_⟩
    · have h0 : (Plan.seed K self sx sy sphi ex ey ephi b obs flag).explored_node_num = 0 := rfl
      have h1 : (Plan.seed K self sx sy sphi ex ey ephi b obs flag).self.close_set_ = [] := rfl
      rw [h0, h1] at g5
      simpa using g5
    · intro extra
      rw [search_fuel cfg M K ex ey cfg.max_explored_num extra _ (by simp [Plan.seed]), hl]

/-- Witness of C13 on the sample search, which ends after one pass. -/
theorem search_loop_bounded_witness :
    RSWellFormed sampleCollab
    ∧ (sampleConfig.step_size_ ≠ 0 ∨ sampleConfig.arc_length_ ≤ 0)
    ∧ (∀ (l l' : Plan.Loop ℚ) (brk : Bool),
        Plan.iteration sampleConfig sampleMath sampleCollab 3 0 l = some (l', brk) →
        l'.explored_node_num = l.explored_node_num + 1
        ∧ l'.self.close_set_.length = l.self.close_set_.length + 1)
    ∧ ∃ l, Plan.search sampleConfig sampleMath sampleCollab 3 0 sampleConfig.max_explored_num
          (Plan.seed sampleCollab sampleState 0 0 0 3 0 0 sampleBounds
            [[LineSegment2d.mk ⟨4, 1⟩ ⟨4, -1⟩]] false) = some l
        ∧ l.explored_node_num ≤ sampleConfig.max_explored_num
        ∧ l.self.close_set_.length = l.explored_node_num
        ∧ ∀ extra : Nat, Plan.search sampleConfig sampleMath sampleCollab 3 0
            (sampleConfig.max_explored_num + extra)
            (Plan.seed sampleCollab sampleState 0 0 0 3 0 0 sampleBounds
              [[LineSegment2d.mk ⟨4, 1⟩ ⟨4, -1⟩]] false) = some l :=
  ⟨sampleCollab_wellFormed, Or.inl (by norm_num [sampleConfig]),
    search_loop_bounded sampleConfig sampleMath sampleCollab sampleState 0 0 0 3 0 0
      sampleBounds [[LineSegment2d.mk ⟨4, 1⟩ ⟨4, -1⟩]] false sampleCollab_wellFormed
      (Or.inl (by norm_num [sampleConfig]))⟩

/-- C14: for a child `next` with at least one traversed pose, `TrajCost(cur, next)` is
the forward or back penalty times `(steps - 1) * step_size`, plus the gear switch
penalty when the directions differ, plus the steer penalty times `|next.steer|`, plus
the steer change penalty times `|next.steer - cur.steer|`; `CalculateNodeCost` sets the
trajectory cost of `next` to `cur.traj_cost + TrajCost(cur, next)`. -/
theorem traj_cost_formula (cfg : Config α) (K : Collab α) (self : State α) (ex ey : α)
    (cur next : Node3d α) (h1 : 1 ≤ next.GetStepSize) (h2 : next.GetStepSize < sizeModulus) :
    TrajCost cfg cur next
      = (if next.GetDirec = true then cfg.traj_forward_penalty_ else cfg.traj_back_penalty_)
          * ((next.GetStepSize : α) - 1) * cfg.step_size_
        + (if next.GetDirec ≠ cur.GetDirec then cfg.traj_gear_switch_penalty_ else 0)
        + cfg.traj_steer_penalty_ * |next.GetSteer|
        + cfg.traj_steer_change_penalty_ * |next.GetSteer - cur.GetSteer|
    ∧ (CalculateNodeCost cfg K self ex ey cur next).GetTrajCost
      = cur.GetTrajCost + TrajCost cfg cur next := by
  refine ⟨?_, ?_⟩
  · have hc : ((sizeSub next.GetStepSize 1 : Nat) : α) = (next.GetStepSize : α) - 1 := by
      rw [sizeSub_one _ h1 h2, Nat.cast_sub h1, Nat.cast_one]
    simp only [TrajCost, hc]
    cases hd : next.GetDirec <;> cases hg : cur.GetDirec <;> simp <;> ring
  · cases next with
    | mk _ _ _ _ _ _ _ _ _ _ _ _ _ => rfl

/-- Witness of C14: a backward child of three poses under a forward parent. -/
theorem traj_cost_formula_witness :
    1 ≤ sampleChild.GetStepSize ∧ sampleChild.GetStepSize < sizeModulus
    ∧ TrajCost sampleConfig sampleChain sampleChild
      = (if sampleChild.GetDirec = true then sampleConfig.traj_forward_penalty_
          else sampleConfig.traj_back_penalty_)
          * ((sampleChild.GetStepSize : ℚ) - 1) * sampleConfig.step_size_
        + (if sampleChild.GetDirec ≠ sampleChain.GetDirec
            then sampleConfig.traj_gear_switch_penalty_ else 0)
        + sampleConfig.traj_steer_penalty_ * |sampleChild.GetSteer|
        + sampleConfig.traj_steer_change_penalty_ * |sampleChild.GetSteer - sampleChain.GetSteer|
    ∧ (CalculateNodeCost sampleConfig sampleCollab sampleState 3 0 sampleChain
          sampleChild).GetTrajCost
      = sampleChain.GetTrajCost + TrajCost sampleConfig sampleChain sampleChild :=
  ⟨by decide, by decide,
    traj_cost_formula sampleConfig sampleCollab sampleState 3 0 sampleChain sampleChild
      (by decide) (by decide)⟩

/-- C15: for an even `next_node_num_ = N ≥ 4`, a positive `step_size_` and a child index
`i < N`, `Next_node_generator` uses the steering `-max_steer + (i mod (N/2)) * 2 *
max_steer / (N/2 - 1)` and the travel `+step_size` when `i < N/2`, `-step_size`
otherwise, so the indices `i` and `i + N/2` use the same steering; the call returns, and
a produced node has that steering and the direction `travel > 0`, which is forward
exactly when `i < N/2`. -/
theorem primitive_of_child_index (cfg : Config α) (M : MathFns α) (K : Collab α)
    (self : State α) (cur : Node3d α) (i : Nat) (heven : cfg.next_node_num_ % 2 = 0)
    (_h4 : 4 ≤ cfg.next_node_num_) (hi : i < cfg.next_node_num_)
    (hpos : 0 < cfg.step_size_) :
    (Next_node_generator.primitive cfg i).1
      = -cfg.max_steer_angle_
          + ((i % (cfg.next_node_num_ / 2) : Nat) : α) * 2 * cfg.max_steer_angle_
            / (((cfg.next_node_num_ / 2 : Nat) : α) - 1)
    ∧ (Next_node_generator.primitive cfg i).2
      = (if i < cfg.next_node_num_ / 2 then cfg.step_size_ else -cfg.step_size_)
    ∧ (i < cfg.next_node_num_ / 2 →
        (Next_node_generator.primitive cfg (i + cfg.next_node_num_ / 2)).1
          = (Next_node_generator.primitive cfg i).1)
    ∧ ∃ r, Next_node_generator cfg M K self cur i = some r
      ∧ ∀ n, r = some n →
        n.GetSteer = (Next_node_generator.primitive cfg i).1
        ∧ n.GetDirec = decide ((Next_node_generator.primitive cfg i).2 > 0)
        ∧ (n.GetDirec = true ↔ i < cfg.next_node_num_ / 2) := by
  have hp := primitive_eq cfg i heven hi
  refine ⟨by rw [hp], by rw [hp], ?_, ?_⟩
  · intro hlt
    rw [primitive_eq cfg (i + cfg.next_node_num_ / 2) heven (by omega), hp]
    simp only [Nat.add_mod_right]
  · have hk := steps_some cfg (Or.inl (ne_of_gt hpos))
    obtain ⟨hout, hin⟩ := Next_node_generator_spec cfg M K self cur i _ hk
    by_cases hc : Next_node_generator.outside self.XYbounds_
        (Next_node_generator.loopState cfg M cur i ⌈cfg.arc_length_ / cfg.step_size_⌉₊).1.1
        (Next_node_generator.loopState cfg M cur i ⌈cfg.arc_length_ / cfg.step_size_⌉₊).1.2.1
    · refine ⟨none, hout hc, ?_⟩
      intro n hn
      simp at hn
    · obtain ⟨m, hm, -, -, -, -, -, e5, e6, -⟩ := hin hc
      refine ⟨some m, hm, ?_⟩
      intro n hn
      simp only [Option.some.injEq] at hn
      subst hn
      refine ⟨e6, e5, ?_⟩
      rw [e5, hp]
      simp only [decide_eq_true_eq, gt_iff_lt]
      by_cases hlt : i < cfg.next_node_num_ / 2
      · simp [hlt, hpos]
      · simp only [hlt, if_false, iff_false, not_lt]
        linarith

set_option maxRecDepth 100000 in
/-- Witness of C15 on the sample configuration: the child of index 1 of the start node
is produced with steering `1 / 2` and direction forward, the child of index 3 with the
same steering and direction backward. -/
theorem primitive_of_child_index_witness :
    sampleConfig.next_node_num_ % 2 = 0 ∧ 4 ≤ sampleConfig.next_node_num_
    ∧ 1 < sampleConfig.next_node_num_ ∧ 0 < sampleConfig.step_size_
    ∧ (Next_node_generator sampleConfig sampleMath sampleCollab sampleStateBounded
        (Plan.startNode sampleCollab 0 0 0) 1).map
          (Option.map fun n => (n.GetSteer, n.GetDirec)) = some (some (1 / 2, true))
    ∧ (Next_node_generator sampleConfig sampleMath sampleCollab sampleStateBounded
        (Plan.startNode sampleCollab 0 0 0) 3).map
          (Option.map fun n => (n.GetSteer, n.GetDirec)) = some (some (1 / 2, false))
    ∧ (Next_node_generator.primitive sampleConfig 1).1
      = -sampleConfig.max_steer_angle_
          + ((1 % (sampleConfig.next_node_num_ / 2) : Nat) : ℚ) * 2
            * sampleConfig.max_steer_angle_
            / (((sampleConfig.next_node_num_ / 2 : Nat) : ℚ) - 1)
    ∧ (Next_node_generator.primitive sampleConfig 1).2
      = (if 1 < sampleConfig.next_node_num_ / 2 then sampleConfig.step_size_
          else -sampleConfig.step_size_)
    ∧ (1 < sampleConfig.next_node_num_ / 2 →
        (Next_node_generator.primitive sampleConfig (1 + sampleConfig.next_node_num_ / 2)).1
          = (Next_node_generator.primitive sampleConfig 1).1)
    ∧ ∃ r, Next_node_generator sampleConfig sampleMath sampleCollab sampleStateBounded
          (Plan.startNode sampleCollab 0 0 0) 1 = some r
      ∧ ∀ n, r = some n →
        n.GetSteer = (Next_node_generator.primitive sampleConfig 1).1
        ∧ n.GetDirec = decide ((Next_node_generator.primitive sampleConfig 1).2 > 0)
        ∧ (n.GetDirec = true ↔ 1 < sampleConfig.next_node_num_ / 2) :=
  ⟨by decide, by decide, by decide, by norm_num [sampleConfig], by decide!, by decide!,
    primitive_of_child_index sampleConfig sampleMath sampleCollab sampleStateBounded
      (Plan.startNode sampleCollab 0 0 0) 1 (by decide) (by decide) (by decide)
      (by norm_num [sampleConfig])⟩

/-- C16 (amended): when `step_size_` is not zero, the integration loop of
`Next_node_generator` makes `⌈arc_length_ / step_size_⌉` passes, one for every natural
number below the quotient, and the three intermediate vectors hold that many poses
after the pose of the parent; a produced node has these vectors as traversed poses. -/
theorem integration_substeps (cfg : Config α) (M : MathFns α) (K : Collab α)
    (self : State α) (cur : Node3d α) (i : Nat) (hstep : cfg.step_size_ ≠ 0) :
    Next_node_generator.steps cfg = some ⌈cfg.arc_length_ / cfg.step_size_⌉₊
    ∧ (∀ j : Nat, j < ⌈cfg.arc_length_ / cfg.step_size_⌉₊
        ↔ (j : α) < cfg.arc_length_ / cfg.step_size_)
    ∧ ∃ im, Next_node_generator.intermediate cfg M cur i = some im
      ∧ im.1.length = ⌈cfg.arc_length_ / cfg.step_size_⌉₊ + 1
      ∧ im.2.1.length = ⌈cfg.arc_length_ / cfg.step_size_⌉₊ + 1
      ∧ im.2.2.length = ⌈cfg.arc_length_ / cfg.step_size_⌉₊ + 1
      ∧ im.1.head? = some cur.GetX ∧ im.2.1.head? = some cur.GetY
      ∧ im.2.2.head? = some cur.GetPhi
      ∧ ∀ n, Next_node_generator cfg M K self cur i = some (some n) →
          n.GetXs = im.1 ∧ n.GetYs = im.2.1 ∧ n.GetPhis = im.2.2
          ∧ n.GetStepSize = ⌈cfg.arc_length_ / cfg.step_size_⌉₊ + 1 := by
  have hk := steps_some cfg (Or.inl hstep)
  obtain ⟨h1, h2, h3, -, -, h6, h7, h8⟩ := integrate_vectors cfg M
    (Next_node_generator.primitive cfg i).1 (Next_node_generator.primitive cfg i).2
    cur.GetX cur.GetY cur.GetPhi ⌈cfg.arc_length_ / cfg.step_size_⌉₊
  refine ⟨hk, fun j => Nat.lt_ceil, _, ?_, h1, h2, h3, h6, h7, h8, ?_⟩
  · simp only [Next_node_generator.intermediate, hk, Option.bind_eq_bind, Option.some_bind]
  · intro n hn
    obtain ⟨hout, hin⟩ := Next_node_generator_spec cfg M K self cur i _ hk
    by_cases hc : Next_node_generator.outside self.XYbounds_
        (Next_node_generator.loopState cfg M cur i ⌈cfg.arc_length_ / cfg.step_size_⌉₊).1.1
        (Next_node_generator.loopState cfg M cur i ⌈cfg.arc_length_ / cfg.step_size_⌉₊).1.2.1
    · rw [hout hc] at hn; simp at hn
    · obtain ⟨m, hm, -, e1, e2, e3, e4, -⟩ := hin hc
      rw [hm] at hn
      simp only [Option.some.injEq] at hn
      subst hn
      exact ⟨e1, e2, e3, e4⟩

/-- Witness of C16 on the sample configuration: two passes, three poses. -/
theorem integration_substeps_witness :
    sampleConfig.step_size_ ≠ 0
    ∧ Next_node_generator.steps sampleConfig
        = some ⌈sampleConfig.arc_length_ / sampleConfig.step_size_⌉₊
    ∧ (∀ j : Nat, j < ⌈sampleConfig.arc_length_ / sampleConfig.step_size_⌉₊
        ↔ (j : ℚ) < sampleConfig.arc_length_ / sampleConfig.step_size_)
    ∧ ∃ im, Next_node_generator.intermediate sampleConfig sampleMath
          (Plan.startNode sampleCollab 0 0 0) 0 = some im
      ∧ im.1.length = ⌈sampleConfig.arc_length_ / sampleConfig.step_size_⌉₊ + 1
      ∧ im.2.1.length = ⌈sampleConfig.arc_length_ / sampleConfig.step_size_⌉₊ + 1
      ∧ im.2.2.length = ⌈sampleConfig.arc_length_ / sampleConfig.step_size_⌉₊ + 1
      ∧ im.1.head? = some (Plan.startNode sampleCollab 0 0 0).GetX
      ∧ im.2.1.head? = some (Plan.startNode sampleCollab 0 0 0).GetY
      ∧ im.2.2.head? = some (Plan.startNode sampleCollab 0 0 0).GetPhi
      ∧ ∀ n, Next_node_generator sampleConfig sampleMath sampleCollab sampleStateBounded
            (Plan.startNode sampleCollab 0 0 0) 0 = some (some n) →
          n.GetXs = im.1 ∧ n.GetYs = im.2.1 ∧ n.GetPhis = im.2.2
          ∧ n.GetStepSize = ⌈sampleConfig.arc_length_ / sampleConfig.step_size_⌉₊ + 1 :=
  ⟨by norm_num [sampleConfig],
    integration_substeps sampleConfig sampleMath sampleCollab sampleStateBounded
      (Plan.startNode sampleCollab 0 0 0) 0 (by norm_num [sampleConfig])⟩

set_option maxRecDepth 100000 in
/-- Counterexample to C16: with `arc_length_ = 1` and `step_size_ = 2 / 5` the quotient
is `5 / 2`, whose floor is 2, and the child has the four poses of three substeps. -/
theorem integration_substeps_exceed_floor :
    sampleConfigFine.arc_length_ / sampleConfigFine.step_size_ = 5 / 2
    ∧ ⌊sampleConfigFine.arc_length_ / sampleConfigFine.step_size_⌋₊ = 2
    ∧ (Next_node_generator sampleConfigFine sampleMath sampleCollab sampleStateBounded
        (Plan.startNode sampleCollab 0 0 0) 0).map
          (Option.map fun n => (n.GetXs, n.GetStepSize))
      = some (some ([0, 2 / 5, 4 / 5, 6 / 5], 4)) := by
  decide!

/-- C17: when the integration loop of `Next_node_generator` ends, after `k` passes,
the call returns no node exactly when the last integrated pose has `x` or `y` outside
the bounds, and otherwise a node whose predecessor is the parent and whose pose is the
last integrated pose. -/
theorem next_node_null_iff_outside (cfg : Config α) (M : MathFns α) (K : Collab α)
    (self : State α) (cur : Node3d α) (i k : Nat)
    (hk : Next_node_generator.steps cfg = some k) :
    (Next_node_generator cfg M K self cur i = some none
      ↔ Next_node_generator.outside self.XYbounds_
          (Next_node_generator.loopState cfg M cur i k).1.1
          (Next_node_generator.loopState cfg M cur i k).1.2.1)
    ∧ (¬ Next_node_generator.outside self.XYbounds_
          (Next_node_generator.loopState cfg M cur i k).1.1
          (Next_node_generator.loopState cfg M cur i k).1.2.1 →
        ∃ n, Next_node_generator cfg M K self cur i = some (some n)
          ∧ n.GetPreNode = some cur
          ∧ n.GetX = (Next_node_generator.loopState cfg M cur i k).1.1
          ∧ n.GetY = (Next_node_generator.loopState cfg M cur i k).1.2.1)
    ∧ (Next_node_generator.loopState cfg M cur i k).2.1.getLast?
        = some (Next_node_generator.loopState cfg M cur i k).1.1
    ∧ (Next_node_generator.loopState cfg M cur i k).2.2.1.getLast?
        = some (Next_node_generator.loopState cfg M cur i k).1.2.1 := by
  obtain ⟨hout, hin⟩ := Next_node_generator_spec cfg M K self cur i k hk
  obtain ⟨-, -, -, h4, h5, -⟩ := integrate_vectors cfg M (Next_node_generator.primitive cfg i).1
    (Next_node_generator.primitive cfg i).2 cur.GetX cur.GetY cur.GetPhi k
  refine ⟨⟨?_, hout⟩, ?_, h4, h5⟩
  · intro h
    by_contra hc
    obtain ⟨n, hn, -⟩ := hin hc
    rw [hn] at h
    simp at h
  · intro hc
    obtain ⟨n, hn, hp, -, -, -, -, -, -, hx, hy⟩ := hin hc
    exact ⟨n, hn, hp, hx, hy⟩


set_option maxRecDepth 100000 in
/-- Witness of C17 on the sample configuration: the forward child of the pose
`(9 / 2, 0, 0)` ends at `x = 11 / 2`, outside the sample workspace. -/
theorem next_node_null_iff_outside_witness :
    Next_node_generator.steps sampleConfig = some 2
    ∧ Next_node_generator sampleConfig sampleMath sampleCollab sampleStateBounded
        (Plan.startNode sampleCollab (9 / 2) 0 0) 0 = some none
    ∧ (Next_node_generator sampleConfig sampleMath sampleCollab sampleStateBounded
          (Plan.startNode sampleCollab (9 / 2) 0 0) 0 = some none
        ↔ Next_node_generator.outside sampleStateBounded.XYbounds_
            (Next_node_generator.loopState sampleConfig sampleMath
              (Plan.startNode sampleCollab (9 / 2) 0 0) 0 2).1.1
            (Next_node_generator.loopState sampleConfig sampleMath
              (Plan.startNode sampleCollab (9 / 2) 0 0) 0 2).1.2.1)
    ∧ (¬ Next_node_generator.outside sampleStateBounded.XYbounds_
            (Next_node_generator.loopState sampleConfig sampleMath
              (Plan.startNode sampleCollab (9 / 2) 0 0) 0 2).1.1
            (Next_node_generator.loopState sampleConfig sampleMath
              (Plan.startNode sampleCollab (9 / 2) 0 0) 0 2).1.2.1 →
        ∃ n, Next_node_generator sampleConfig sampleMath sampleCollab sampleStateBounded
              (Plan.startNode sampleCollab (9 / 2) 0 0) 0 = some (some n)
          ∧ n.GetPreNode = some (Plan.startNode sampleCollab (9 / 2) 0 0)
          ∧ n.GetX = (Next_node_generator.loopState sampleConfig sampleMath
              (Plan.startNode sampleCollab (9 / 2) 0 0) 0 2).1.1
          ∧ n.GetY = (Next_node_generator.loopState sampleConfig sampleMath
              (Plan.startNode sampleCollab (9 / 2) 0 0) 0 2).1.2.1)
    ∧ (Next_node_generator.loopState sampleConfig sampleMath
          (Plan.startNode sampleCollab (9 / 2) 0 0) 0 2).2.1.getLast?
        = some (Next_node_generator.loopState sampleConfig sampleMath
            (Plan.startNode sampleCollab (9 / 2) 0 0) 0 2).1.1
    ∧ (Next_node_generator.loopState sampleConfig sampleMath
          (Plan.startNode sampleCollab (9 / 2) 0 0) 0 2).2.2.1.getLast?
        = some (Next_node_generator.loopState sampleConfig sampleMath
            (Plan.startNode sampleCollab (9 / 2) 0 0) 0 2).1.2.1 :=
  ⟨by decide!,
    (next_node_null_iff_outside sampleConfig sampleMath sampleCollab sampleStateBounded
      (Plan.startNode sampleCollab (9 / 2) 0 0) 0 2 (by decide!)).1.2
      (Or.inl (by decide!)),
    next_node_null_iff_outside sampleConfig sampleMath sampleCollab sampleStateBounded
      (Plan.startNode sampleCollab (9 / 2) 0 0) 0 2 (by decide!)⟩

/-- C18: let the cosine and the sine have the period `T` and let `NormalizeAngle`
change an angle by a multiple of `T` (in real arithmetic `T = 2 * pi`).  After `k`
substeps with travel `+step_size_` from the pose `(x, y, phi)`, the traversed vectors
end with the pose reached, whose heading is the integrated heading up to a multiple
of `T`; `k` substeps with travel `-step_size_` at the same steering from that pose lead
back to `x` and `y` exactly and to `phi` up to a multiple of `T`. -/
theorem primitive_reversible (cfg : Config α) (M : MathFns α) (T : α)
    (hcos : ∀ (θ : α) (n : ℤ), M.cos (θ + n * T) = M.cos θ)
    (hsin : ∀ (θ : α) (n : ℤ), M.sin (θ + n * T) = M.sin θ)
    (hnorm : ∀ θ : α, ∃ n : ℤ, M.NormalizeAngle θ = θ + n * T)
    (steering x y phi : α) (k : Nat) :
    ∃ (xk yk ψ : α) (n : ℤ),
      (Next_node_generator.integrate cfg M steering cfg.step_size_ k x y phi).2.1.getLast?
        = some xk
      ∧ (Next_node_generator.integrate cfg M steering cfg.step_size_ k x y phi).2.2.1.getLast?
        = some yk
      ∧ (Next_node_generator.integrate cfg M steering cfg.step_size_ k x y phi).2.2.2.getLast?
        = some ψ
      ∧ (Next_node_generator.integrate cfg M steering (-cfg.step_size_) k xk yk ψ).1
        = (x, y, phi + n * T) := by
  obtain ⟨-, -, -, h4, h5, -⟩ := integrate_vectors cfg M steering cfg.step_size_ x y phi k
  obtain ⟨ψ, m, hψ, hm⟩ := integrate_heading cfg M T hnorm steering cfg.step_size_ x y phi k
  refine ⟨_, _, ψ, m, h4, h5, hψ, ?_⟩
  rw [hm]
  exact integrate_inverse cfg M T hcos hsin steering m k x y phi

/-- Witness of C18 over the real numbers, with the real cosine, sine and tangent, the
normalisation of angles into `[-pi, pi)` and the period `2 * pi`: two substeps from the
origin with steering `1 / 2`. -/
theorem primitive_reversible_witness :
    (∀ (θ : ℝ) (n : ℤ), Real.cos (θ + n * (2 * Real.pi)) = Real.cos θ)
    ∧ (∀ (θ : ℝ) (n : ℤ), Real.sin (θ + n * (2 * Real.pi)) = Real.sin θ)
    ∧ (∀ θ : ℝ, ∃ n : ℤ,
        toIcoMod Real.two_pi_pos (-Real.pi) θ = θ + n * (2 * Real.pi))
    ∧ ∃ (xk yk ψ : ℝ) (n : ℤ),
      (Next_node_generator.integrate
          (Config.mk 4 (1 / 2) (1 / 2) (3 / 10) 1 (1 / 2) 1 1 1 1 1 1 1 1 1 3 3 1 false)
          (MathFns.mk Real.cos Real.sin Real.tan Real.arctan Real.sqrt
            (toIcoMod Real.two_pi_pos (-Real.pi)) (fun x y => Complex.arg ⟨x, y⟩)
            (Real.pi / 2))
          (1 / 2) (1 / 2) 2 0 0 0).2.1.getLast? = some xk
      ∧ (Next_node_generator.integrate
          (Config.mk 4 (1 / 2) (1 / 2) (3 / 10) 1 (1 / 2) 1 1 1 1 1 1 1 1 1 3 3 1 false)
          (MathFns.mk Real.cos Real.sin Real.tan Real.arctan Real.sqrt
            (toIcoMod Real.two_pi_pos (-Real.pi)) (fun x y => Complex.arg ⟨x, y⟩)
            (Real.pi / 2))
          (1 / 2) (1 / 2) 2 0 0 0).2.2.1.getLast? = some yk
      ∧ (Next_node_generator.integrate
          (Config.mk 4 (1 / 2) (1 / 2) (3 / 10) 1 (1 / 2) 1 1 1 1 1 1 1 1 1 3 3 1 false)
          (MathFns.mk Real.cos Real.sin Real.tan Real.arctan Real.sqrt
            (toIcoMod Real.two_pi_pos (-Real.pi)) (fun x y => Complex.arg ⟨x, y⟩)
            (Real.pi / 2))
          (1 / 2) (1 / 2) 2 0 0 0).2.2.2.getLast? = some ψ
      ∧ (Next_node_generator.integrate
          (Config.mk 4 (1 / 2) (1 / 2) (3 / 10) 1 (1 / 2) 1 1 1 1 1 1 1 1 1 3 3 1 false)
          (MathFns.mk Real.cos Real.sin Real.tan Real.arctan Real.sqrt
            (toIcoMod Real.two_pi_pos (-Real.pi)) (fun x y => Complex.arg ⟨x, y⟩)
            (Real.pi / 2))
          (1 / 2) (-(1 / 2)) 2 xk yk ψ).1 = (0, 0, 0 + n * (2 * Real.pi)) :=
  have hnorm : ∀ θ : ℝ, ∃ n : ℤ,
      toIcoMod Real.two_pi_pos (-Real.pi) θ = θ + n * (2 * Real.pi) := fun θ =>
    ⟨-toIcoDiv Real.two_pi_pos (-Real.pi) θ, by
      rw [← self_sub_toIcoDiv_zsmul, zsmul_eq_mul]; push_cast; ring⟩
  ⟨Real.cos_add_int_mul_two_pi, Real.sin_add_int_mul_two_pi, hnorm,
    primitive_reversible
      (Config.mk 4 (1 / 2) (1 / 2) (3 / 10) 1 (1 / 2) 1 1 1 1 1 1 1 1 1 3 3 1 false)
      (MathFns.mk Real.cos Real.sin Real.tan Real.arctan Real.sqrt
        (toIcoMod Real.two_pi_pos (-Real.pi)) (fun x y => Complex.arg ⟨x, y⟩) (Real.pi / 2))
      (2 * Real.pi) Real.cos_add_int_mul_two_pi Real.sin_add_int_mul_two_pi hnorm
      (1 / 2) 0 0 0 2⟩

/-- C19 (amended): for a node with at least one pose, if the list of obstacles is
empty, `ValidityCheck` returns true, whatever the traversed poses and the bounds. -/
theorem validity_check_without_obstacles (K : Collab α) (b : XYbounds α) (node : Node3d α)
    (hstep : 0 < node.GetStepSize) : ValidityCheck K [] b node = some true := by
  have h0 : ¬ node.GetStepSize = 0 := by omega
  simp only [ValidityCheck, if_neg h0, List.isEmpty_nil, if_true]

/-- Witness of C19: without obstacles a start node outside the sample workspace is
accepted. -/
theorem validity_check_without_obstacles_witness :
    0 < (Plan.startNode sampleCollab 10 0 0).GetStepSize
    ∧ ValidityCheck sampleCollab [] sampleBounds (Plan.startNode sampleCollab 10 0 0)
      = some true :=
  ⟨by decide,
    validity_check_without_obstacles sampleCollab sampleBounds
      (Plan.startNode sampleCollab 10 0 0) (by decide)⟩

set_option maxRecDepth 100000 in
/-- Counterexample to C19: an obstacle of a single vertex has no line segment, yet it
makes the list of obstacles non-empty, so `ValidityCheck` scans the poses and rejects
the node at `x = 10 > XYbounds[1] = 5`. -/
theorem validity_check_segmentless_obstacle :
    Plan.obstacles [[(⟨0, 0⟩ : Vec2d ℚ)]] = some [[]]
    ∧ ([[]] : List (List (LineSegment2d ℚ))).flatten = []
    ∧ ValidityCheck sampleCollab [[]] sampleBounds (Plan.startNode sampleCollab 10 0 0)
      = some false := by
  decide!

/-- C20 (amended): for a node whose `step_size_` is the common length of its traversed
arrays, if the list of obstacles is not empty (so that poses are scanned) and the pose
at some scanned index, from `check_start_index` on, has `x` or `y` outside the bounds,
`ValidityCheck` returns false. -/
theorem validity_check_rejects_out_of_bounds (K : Collab α)
    (obs : List (List (LineSegment2d α))) (b : XYbounds α) (node : Node3d α)
    (hobs : obs ≠ []) (hlen : node.GetStepSize = node.GetXs.length)
    (hly : node.GetXs.length = node.GetYs.length)
    (hlp : node.GetXs.length = node.GetPhis.length) (j : Nat) (x y : α)
    (hj1 : ValidityCheck.check_start_index node.GetStepSize ≤ j)
    (hx : node.GetXs[j]? = some x) (hy : node.GetYs[j]? = some y)
    (hout : x > b.b1 ∨ x < b.b0 ∨ y > b.b3 ∨ y < b.b2) :
    ValidityCheck K obs b node = some false := by
  have hj2 : j < node.GetXs.length := (List.getElem?_eq_some_iff.1 hx).1
  have h0 : ¬ node.GetStepSize = 0 := by omega
  have he : obs.isEmpty = false := by
    cases obs with
    | nil => exact absurd rfl hobs
    | cons _ _ => rfl
  simp only [ValidityCheck, if_neg h0, he, Bool.false_eq_true, if_false]
  apply scan_out_of_bounds K obs b _ _ _ j x y hx hy hout _ _ hj1
  · have : ValidityCheck.check_start_index node.GetStepSize ≤ node.GetStepSize := by
      simp only [ValidityCheck.check_start_index]; split_ifs <;> omega
    omega
  · have : ValidityCheck.check_start_index node.GetStepSize ≤ node.GetStepSize := by
      simp only [ValidityCheck.check_start_index]; split_ifs <;> omega
    omega
  · have : ValidityCheck.check_start_index node.GetStepSize ≤ node.GetStepSize := by
      simp only [ValidityCheck.check_start_index]; split_ifs <;> omega
    omega
  · have : ValidityCheck.check_start_index node.GetStepSize ≤ node.GetStepSize := by
      simp only [ValidityCheck.check_start_index]; split_ifs <;> omega
    omega

/-- Witness of C20: the only pose of a start node at `x = 10` is out of the sample
bounds. -/
theorem validity_check_rejects_out_of_bounds_witness :
    [[LineSegment2d.mk (⟨4, 1⟩ : Vec2d ℚ) ⟨4, -1⟩]] ≠ []
    ∧ (Plan.startNode sampleCollab 10 0 0).GetStepSize
        = (Plan.startNode sampleCollab 10 0 0).GetXs.length
    ∧ (Plan.startNode sampleCollab 10 0 0).GetXs.length
        = (Plan.startNode sampleCollab 10 0 0).GetYs.length
    ∧ (Plan.startNode sampleCollab 10 0 0).GetXs.length
        = (Plan.startNode sampleCollab 10 0 0).GetPhis.length
    ∧ ValidityCheck.check_start_index (Plan.startNode sampleCollab 10 0 0).GetStepSize ≤ 0
    ∧ (Plan.startNode sampleCollab 10 0 0).GetXs[0]? = some 10
    ∧ (Plan.startNode sampleCollab 10 0 0).GetYs[0]? = some 0
    ∧ ((10 : ℚ) > sampleBounds.b1 ∨ (10 : ℚ) < sampleBounds.b0
        ∨ (0 : ℚ) > sampleBounds.b3 ∨ (0 : ℚ) < sampleBounds.b2)
    ∧ ValidityCheck sampleCollab [[LineSegment2d.mk ⟨4, 1⟩ ⟨4, -1⟩]] sampleBounds
        (Plan.startNode sampleCollab 10 0 0)
      = some false :=
  ⟨by simp, rfl, rfl, rfl, by decide, rfl, rfl, Or.inl (by norm_num [sampleBounds]),
    validity_check_rejects_out_of_bounds sampleCollab [[LineSegment2d.mk ⟨4, 1⟩ ⟨4, -1⟩]]
      sampleBounds
      (Plan.startNode sampleCollab 10 0 0) (by simp) rfl rfl rfl 0 10 0 (by decide) rfl rfl
      (Or.inl (by norm_num [sampleBounds]))⟩

set_option maxRecDepth 100000 in
/-- Counterexample to C20: a node of three poses whose scanned poses at the indices 1
and 2 have `x = 9` and `x = 10`, beyond the bound `x_max = 5`, is accepted when the
list of obstacles is empty, because `ValidityCheck` returns true before the scan; with
an obstacle in the list the same node is rejected. -/
theorem out_of_bounds_accepted_without_obstacles :
    sampleNodeBeyond.GetStepSize = sampleNodeBeyond.GetXs.length
    ∧ ValidityCheck.check_start_index sampleNodeBeyond.GetStepSize = 1
    ∧ sampleNodeBeyond.GetXs[1]? = some 9
    ∧ (9 : ℚ) > sampleBounds.b1
    ∧ ValidityCheck sampleCollab [] sampleBounds sampleNodeBeyond = some true
    ∧ ValidityCheck sampleCollab [[LineSegment2d.mk ⟨4, 1⟩ ⟨4, -1⟩]] sampleBounds
        sampleNodeBeyond = some false := by
  decide!

/-- C21 (amended): with a non-empty list of obstacles, `ValidityCheck` accepts a node
exactly when every pose from index `check_start_index` on, which is 0 for a node of one
pose and 1 otherwise, is within the bounds and overlaps no segment; so a single pose is
itself checked, and for a node of at least two poses (with any list of obstacles) the
outcome does not depend on the pose at index 0. -/
theorem validity_check_scan_start (K : Collab α) (obs : List (List (LineSegment2d α)))
    (b : XYbounds α) (hobs : obs ≠ []) :
    (∀ node : Node3d α, 1 ≤ node.GetStepSize →
      (ValidityCheck K obs b node = some true
        ↔ ∀ j, (if node.GetStepSize = 1 then 0 else 1) ≤ j → j < node.GetStepSize →
            ∃ x y p, node.GetXs[j]? = some x ∧ node.GetYs[j]? = some y
              ∧ node.GetPhis[j]? = some p ∧ PoseOK K obs b x y p))
    ∧ (∀ (node : Node3d α) (x y phi : α), node.GetStepSize = 1 → node.GetXs = [x] →
        node.GetYs = [y] → node.GetPhis = [phi] →
        (ValidityCheck K obs b node = some true ↔ PoseOK K obs b x y phi)
        ∧ (ValidityCheck K obs b node = some false ↔ ¬ PoseOK K obs b x y phi))
    ∧ (∀ (obs' : List (List (LineSegment2d α))) (node node' : Node3d α),
        2 ≤ node.GetStepSize → node'.GetStepSize = node.GetStepSize →
        node'.GetXs.tail = node.GetXs.tail → node'.GetYs.tail = node.GetYs.tail →
        node'.GetPhis.tail = node.GetPhis.tail →
        ValidityCheck K obs' b node' = ValidityCheck K obs' b node) := by
  refine ⟨?_, ?_, ?_⟩
  · intro node h1
    exact ValidityCheck_true_iff K obs b node hobs h1
  · intro node x y phi hs hx hy hp
    have hiff := ValidityCheck_true_iff K obs b node hobs (by omega)
    have hpose : (∀ j, ValidityCheck.check_start_index node.GetStepSize ≤ j →
        j < node.GetStepSize →
        ∃ x' y' p, node.GetXs[j]? = some x' ∧ node.GetYs[j]? = some y'
          ∧ node.GetPhis[j]? = some p ∧ PoseOK K obs b x' y' p) ↔ PoseOK K obs b x y phi := by
      rw [hs, hx, hy, hp]
      constructor
      · intro h
        obtain ⟨x', y', p, e1, e2, e3, hok⟩ := h 0 (by simp [ValidityCheck.check_start_index])
          (by omega)
        simp only [List.getElem?_cons_zero, Option.some.injEq] at e1 e2 e3
        subst e1 e2 e3
        exact hok
      · intro hok j _ hj
        obtain rfl : j = 0 := by omega
        exact ⟨x, y, phi, rfl, rfl, rfl, hok⟩
    obtain ⟨ok, hok⟩ := ValidityCheck_defined K obs b node (by omega) (by rw [hs, hx]; rfl)
      (by rw [hx, hy]; rfl) (by rw [hx, hp]; rfl)
    have ht : ValidityCheck K obs b node = some true ↔ PoseOK K obs b x y phi :=
      hiff.trans hpose
    refine ⟨ht, ?_⟩
    rw [← ht, hok]
    cases ok <;> simp
  · intro obs' node node' h2 hs hx hy hp
    have h0 : ¬ node.GetStepSize = 0 := by omega
    have h1 : ¬ node.GetStepSize = 1 := by omega
    simp only [ValidityCheck, hs, if_neg h0, ValidityCheck.check_start_index, if_neg h1]
    by_cases he : obs'.isEmpty = true
    · simp only [he, if_true]
    · simp only [he, if_false]
      exact scan_congr K obs' b _ _ _ _ _ _ _ _
        (fun j hj => getElem?_of_tail_eq _ _ hx j hj)
        (fun j hj => getElem?_of_tail_eq _ _ hy j hj)
        (fun j hj => getElem?_of_tail_eq _ _ hp j hj)

/-- Witness of C21 with the sample obstacle: the start node at the origin, a node of one
pose, is accepted because its pose is within the bounds and overlaps no segment. -/
theorem validity_check_scan_start_witness :
    [[LineSegment2d.mk (⟨4, 1⟩ : Vec2d ℚ) ⟨4, -1⟩]] ≠ []
    ∧ ((ValidityCheck sampleCollab [[LineSegment2d.mk ⟨4, 1⟩ ⟨4, -1⟩]] sampleBounds
          (Plan.startNode sampleCollab 0 0 0) = some true
        ↔ PoseOK sampleCollab [[LineSegment2d.mk ⟨4, 1⟩ ⟨4, -1⟩]] sampleBounds 0 0 0)
      ∧ (ValidityCheck sampleCollab [[LineSegment2d.mk ⟨4, 1⟩ ⟨4, -1⟩]] sampleBounds
          (Plan.startNode sampleCollab 0 0 0) = some false
        ↔ ¬ PoseOK sampleCollab [[LineSegment2d.mk ⟨4, 1⟩ ⟨4, -1⟩]] sampleBounds 0 0 0))
    ∧ ∀ (obs' : List (List (LineSegment2d ℚ))) (node node' : Node3d ℚ),
        2 ≤ node.GetStepSize → node'.GetStepSize = node.GetStepSize →
        node'.GetXs.tail = node.GetXs.tail → node'.GetYs.tail = node.GetYs.tail →
        node'.GetPhis.tail = node.GetPhis.tail →
        ValidityCheck sampleCollab obs' sampleBounds node'
          = ValidityCheck sampleCollab obs' sampleBounds node :=
  ⟨by simp,
    (validity_check_scan_start sampleCollab [[LineSegment2d.mk ⟨4, 1⟩ ⟨4, -1⟩]] sampleBounds
      (by simp)).2.1 (Plan.startNode sampleCollab 0 0 0) 0 0 0 rfl rfl rfl rfl,
    (validity_check_scan_start sampleCollab [[LineSegment2d.mk ⟨4, 1⟩ ⟨4, -1⟩]] sampleBounds
      (by simp)).2.2⟩

set_option maxRecDepth 100000 in
/-- Counterexample to C21: without obstacles `ValidityCheck` accepts the single pose
`(-3, 2, 0)`, which is outside the sample workspace, without checking it. -/
theorem single_pose_unchecked_without_obstacles :
    (Plan.startNode sampleCollab (-3) 2 0).GetStepSize = 1
    ∧ (Plan.startNode sampleCollab (-3) 2 0).GetXs = [-3]
    ∧ (Plan.startNode sampleCollab (-3) 2 0).GetYs = [2]
    ∧ (-3 : ℚ) < sampleBounds.b0 ∧ (2 : ℚ) > sampleBounds.b3
    ∧ ValidityCheck sampleCollab [] sampleBounds (Plan.startNode sampleCollab (-3) 2 0)
      = some true := by
  decide!

/-- C22: when every obstacle has at least one vertex, `Plan` builds for an obstacle of
`N` vertices the `N - 1` segments from vertex `i` to vertex `i + 1`, in this order and
without a segment from the last vertex back to the first; the lists of segments follow
the order of the obstacles and are what `obstacles_linesegments_vec_` holds after the
call. -/
theorem obstacle_line_segments (cfg : Config α) (M : MathFns α) (K : Collab α)
    (self : State α) (sx sy sphi ex ey ephi : α) (b : XYbounds α)
    (v : List (List (Vec2d α))) (result : HybridAStartResult α)
    (soft : List (List (Vec2d α))) (flag : Bool)
    (hv : ∀ vs ∈ v, 1 ≤ vs.length ∧ vs.length < sizeModulus) :
    (∀ vs ∈ v, ∃ segs, Plan.linesegments vs = some segs ∧ segs.length = vs.length - 1
      ∧ ∀ i, i + 1 < vs.length →
          ∃ p q, vs[i]? = some p ∧ vs[i + 1]? = some q
            ∧ segs[i]? = some (LineSegment2d.mk p q))
    ∧ Plan.obstacles v = some (v.map fun vs => List.zipWith LineSegment2d.mk vs vs.tail)
    ∧ Plan.obstacles v = v.mapM Plan.linesegments
    ∧ ∀ (ok : Bool) (r : HybridAStartResult α) (s' : State α),
        Plan cfg M K self sx sy sphi ex ey ephi b v result soft flag = some (ok, r, s') →
        s'.obstacles_linesegments_vec_
          = v.map fun vs => List.zipWith LineSegment2d.mk vs vs.tail := by
  refine ⟨?_, obstacles_map v hv, rfl, ?_⟩
  · intro vs hvs
    obtain ⟨h1, h2⟩ := hv vs hvs
    refine ⟨_, linesegments_eq vs h1 h2, ?_, ?_⟩
    · simp only [List.length_zipWith, List.length_tail]
      omega
    · intro i hi
      have hi1 : i < vs.length := by omega
      refine ⟨vs[i], vs[i + 1], List.getElem?_eq_getElem hi1, List.getElem?_eq_getElem hi, ?_⟩
      rw [List.getElem?_zipWith]
      have e1 : vs[i]? = some vs[i] := List.getElem?_eq_getElem hi1
      have e2 : vs.tail[i]? = some vs[i + 1] := by
        cases vs with
        | nil => simp at hi1
        | cons a l => simp
      rw [e1, e2]
  · intro ok r s' h
    obtain ⟨obs, hobs, hs, -⟩ := Plan_state cfg M K self sx sy sphi ex ey ephi b v result soft
      flag ok r s' h
    rw [obstacles_map v hv] at hobs
    rw [hs]
    exact (Option.some.inj hobs).symm

/-- Witness of C22 on a sample obstacle of three vertices: two segments. -/
theorem obstacle_line_segments_witness :
    (∀ vs ∈ sampleTriangle, 1 ≤ vs.length ∧ vs.length < sizeModulus)
    ∧ Plan.obstacles sampleTriangle
        = some [[LineSegment2d.mk ⟨4, 1⟩ ⟨4, -1⟩, LineSegment2d.mk ⟨4, -1⟩ ⟨5, 0⟩]]
    ∧ ∀ (ok : Bool) (r : HybridAStartResult ℚ) (s' : State ℚ),
        Plan sampleConfig sampleMath sampleCollab sampleState 0 0 0 3 0 0 sampleBounds
          sampleTriangle {} [] false = some (ok, r, s') →
        s'.obstacles_linesegments_vec_
          = [[LineSegment2d.mk ⟨4, 1⟩ ⟨4, -1⟩, LineSegment2d.mk ⟨4, -1⟩ ⟨5, 0⟩]] :=
  have hv : ∀ vs ∈ sampleTriangle, 1 ≤ vs.length ∧ vs.length < sizeModulus := by
    intro vs h
    simp only [sampleTriangle, List.mem_singleton] at h
    subst h
    exact ⟨by decide, by decide⟩
  ⟨hv,
    (obstacle_line_segments sampleConfig sampleMath sampleCollab sampleState 0 0 0 3 0 0
      sampleBounds sampleTriangle {} [] false hv).2.1,
    (obstacle_line_segments sampleConfig sampleMath sampleCollab sampleState 0 0 0 3 0 0
      sampleBounds sampleTriangle {} [] false hv).2.2.2⟩

/-- C23: for an obstacle without vertices the loop bound `vertices_num - 1` is the
`size_t` value `2 ^ 64 - 1`, the first pass of the loop reads `obstacle_vertices[0]` of
the empty vector, and no call of `Plan` whose obstacles include one returns false or
anything else within defined behaviour. -/
theorem empty_polygon_read_out_of_range (cfg : Config α) (M : MathFns α) (K : Collab α)
    (self : State α) (sx sy sphi ex ey ephi : α) (b : XYbounds α)
    (pre post : List (List (Vec2d α))) (result : HybridAStartResult α)
    (soft : List (List (Vec2d α))) (flag : Bool) :
    sizeSub ([] : List (Vec2d α)).length 1 = 2 ^ 64 - 1
    ∧ ([] : List (Vec2d α))[0]? = none
    ∧ Plan.linesegments ([] : List (Vec2d α)) = none
    ∧ Plan cfg M K self sx sy sphi ex ey ephi b (pre ++ [] :: post) result soft flag
        = none := by
  have e : sizeSub 0 1 = 2 ^ 64 - 1 := by decide
  refine ⟨e, rfl, linesegments_nil, ?_⟩
  simp only [Plan, obstacles_empty_polygon, Option.bind_eq_bind, Option.none_bind]

/-- C24: `AnalyticExpansion` returns true exactly when the Reeds-Shepp generator yields
a path that passes `RSPCheck`, the `ValidityCheck` of the path loaded as a node; the
candidate is then a node that `ValidityCheck` accepts, whose traversed poses are the
samples of the path, whose predecessor is the current node and whose trajectory cost is
that of the current node plus the cost of the path; when it returns false the candidate
is what it was before the call. -/
theorem analytic_expansion_candidate (K : Collab α) (self : State α) (cur e : Node3d α)
    (c0 : Option (Node3d α)) (he : self.end_node_ = some e) :
    ((∃ out, AnalyticExpansion.call K self cur c0 = some (true, out))
      ↔ ∃ p, K.ShortestRSP self.reeds_sheep_last_straight_ cur e = some p
          ∧ RSPCheck K self p = some true)
    ∧ (∀ p, RSPCheck K self p
        = (Node3d.ofTraversed K.gridIndex p.x p.y p.phi).bind
            (ValidityCheck K self.obstacles_linesegments_vec_ self.XYbounds_))
    ∧ (∀ p, K.ShortestRSP self.reeds_sheep_last_straight_ cur e = some p →
        RSPCheck K self p = some true →
        ∃ n, AnalyticExpansion.call K self cur c0 = some (true, some n)
          ∧ n.GetXs = p.x ∧ n.GetYs = p.y ∧ n.GetPhis = p.phi
          ∧ n.GetStepSize = p.x.length
          ∧ n.GetPreNode = some cur
          ∧ n.GetTrajCost = cur.GetTrajCost + p.cost
          ∧ ValidityCheck K self.obstacles_linesegments_vec_ self.XYbounds_ n = some true)
    ∧ (∀ out, AnalyticExpansion.call K self cur c0 = some (false, out) → out = c0)
    ∧ ((K.ShortestRSP self.reeds_sheep_last_straight_ cur e = none
          ∨ ∃ p, K.ShortestRSP self.reeds_sheep_last_straight_ cur e = some p
              ∧ RSPCheck K self p = some false) →
        AnalyticExpansion.call K self cur c0 = some (false, c0)) := by
  have hload : ∀ p, K.ShortestRSP self.reeds_sheep_last_straight_ cur e = some p →
      RSPCheck K self p = some true →
      ∃ n, AnalyticExpansion.call K self cur c0 = some (true, some n)
        ∧ n.GetXs = p.x ∧ n.GetYs = p.y ∧ n.GetPhis = p.phi
        ∧ n.GetStepSize = p.x.length
        ∧ n.GetPreNode = some cur
        ∧ n.GetTrajCost = cur.GetTrajCost + p.cost
        ∧ ValidityCheck K self.obstacles_linesegments_vec_ self.XYbounds_ n = some true := by
    intro p hp hc
    simp only [RSPCheck, Option.bind_eq_bind, Option.bind_eq_some] at hc
    obtain ⟨node, hnode, hv⟩ := hc
    have hnode' := hnode
    simp only [Node3d.ofTraversed, Option.bind_eq_bind, Option.bind_eq_some,
      Option.some.injEq] at hnode'
    obtain ⟨x, -, y, -, phi, -, rfl⟩ := hnode'
    refine ⟨((Node3d.mk x y phi p.x.length p.x p.y p.phi (K.gridIndex x y phi) 0 0 none 0
      true).SetPre (some cur)).SetTrajCost (cur.GetTrajCost + p.cost), ?_, rfl, rfl, rfl, rfl,
      rfl, rfl, ?_⟩
    · simp only [AnalyticExpansion.call, AnalyticExpansion, he, hp, RSPCheck, hnode, hv,
        LoadRSPinCS, Option.bind_eq_bind, Option.some_bind, Bool.true_eq_false, if_false,
        Option.map_some']
    · rw [← hv]
      exact ValidityCheck_congr K _ _ _ _ rfl rfl rfl rfl
  refine ⟨⟨?_, ?_⟩, fun p => rfl, hload, ?_, ?_⟩
  · rintro ⟨out, h⟩
    simp only [AnalyticExpansion.call, Option.map_eq_some'] at h
    obtain ⟨o, ho, h⟩ := h
    cases o with
    | none => simp at h
    | some n =>
      simp only [AnalyticExpansion, he, Option.bind_eq_bind, Option.some_bind] at ho
      cases hp : K.ShortestRSP self.reeds_sheep_last_straight_ cur e with
      | none => rw [hp] at ho; simp at ho
      | some p =>
        rw [hp] at ho
        simp only [Option.bind_eq_some] at ho
        obtain ⟨ok, hok, ho⟩ := ho
        cases ok with
        | false => simp at ho
        | true => exact ⟨p, rfl, hok⟩
  · rintro ⟨p, hp, hc⟩
    obtain ⟨n, hn, -⟩ := hload p hp hc
    exact ⟨_, hn⟩
  · intro out h
    simp only [AnalyticExpansion.call, Option.map_eq_some'] at h
    obtain ⟨o, -, h⟩ := h
    cases o with
    | none =>
      simp only [Prod.mk.injEq, true_and] at h
      exact h.symm
    | some n => simp at h
  · intro h
    rcases h with h | ⟨p, hp, hc⟩
    · simp only [AnalyticExpansion.call, AnalyticExpansion, he, h, Option.bind_eq_bind,
        Option.some_bind, Option.map_some']
    · simp only [AnalyticExpansion.call, AnalyticExpansion, he, hp, hc, Option.bind_eq_bind,
        Option.some_bind, if_true, Option.map_some']


set_option maxRecDepth 100000 in
/-- Witness of C24 at the entry of the sample search: the straight Reeds-Shepp path from
the start node to the end node passes `RSPCheck`. -/
theorem analytic_expansion_candidate_witness :
    (Plan.seed sampleCollab sampleState 0 0 0 3 0 0 sampleBounds
        [[LineSegment2d.mk ⟨4, 1⟩ ⟨4, -1⟩]] false).self.end_node_
      = some (Plan.endNode sampleCollab 3 0 0)
    ∧ sampleCollab.ShortestRSP false (Plan.startNode sampleCollab 0 0 0)
        (Plan.endNode sampleCollab 3 0 0) = some ⟨[0, 3 / 2, 3], [0, 0, 0], [0, 0, 0], 3⟩
    ∧ RSPCheck sampleCollab
        (Plan.seed sampleCollab sampleState 0 0 0 3 0 0 sampleBounds
          [[LineSegment2d.mk ⟨4, 1⟩ ⟨4, -1⟩]] false).self
        ⟨[0, 3 / 2, 3], [0, 0, 0], [0, 0, 0], 3⟩ = some true
    ∧ ∃ n, AnalyticExpansion.call sampleCollab
          (Plan.seed sampleCollab sampleState 0 0 0 3 0 0 sampleBounds
            [[LineSegment2d.mk ⟨4, 1⟩ ⟨4, -1⟩]] false).self
          (Plan.startNode sampleCollab 0 0 0) none = some (true, some n)
        ∧ n.GetXs = [0, 3 / 2, 3] ∧ n.GetYs = [0, 0, 0] ∧ n.GetPhis = [0, 0, 0]
        ∧ n.GetStepSize = 3
        ∧ n.GetPreNode = some (Plan.startNode sampleCollab 0 0 0)
        ∧ n.GetTrajCost = (Plan.startNode sampleCollab 0 0 0).GetTrajCost + 3
        ∧ ValidityCheck sampleCollab [[LineSegment2d.mk ⟨4, 1⟩ ⟨4, -1⟩]] sampleBounds n
          = some true :=
  ⟨rfl, by decide!, by decide!,
    (analytic_expansion_candidate sampleCollab
      (Plan.seed sampleCollab sampleState 0 0 0 3 0 0 sampleBounds
        [[LineSegment2d.mk ⟨4, 1⟩ ⟨4, -1⟩]] false).self
      (Plan.startNode sampleCollab 0 0 0) (Plan.endNode sampleCollab 3 0 0) none rfl).2.2.1
      ⟨[0, 3 / 2, 3], [0, 0, 0], [0, 0, 0], 3⟩ (by decide!) (by decide!)⟩

/-- C25 (amended): `Plan` does not read the members of the object that an earlier call
left behind: it returns the same outcome from any two object states.  With the same
arguments it returns the same status and leaves the same object state whatever the
result object held before the call, and when it returns true also the same result. -/
theorem plan_independent_of_earlier_calls (cfg : Config α) (M : MathFns α) (K : Collab α)
    (self self' : State α) (sx sy sphi ex ey ephi : α) (b : XYbounds α)
    (v : List (List (Vec2d α))) (result result' : HybridAStartResult α)
    (soft : List (List (Vec2d α))) (flag : Bool) :
    Plan cfg M K self' sx sy sphi ex ey ephi b v result soft flag
      = Plan cfg M K self sx sy sphi ex ey ephi b v result soft flag
    ∧ (Plan cfg M K self' sx sy sphi ex ey ephi b v result' soft flag).map
          (fun p => (p.1, p.2.2))
        = (Plan cfg M K self sx sy sphi ex ey ephi b v result soft flag).map
          (fun p => (p.1, p.2.2))
    ∧ ∀ (r : HybridAStartResult α) (s' : State α),
        Plan cfg M K self sx sy sphi ex ey ephi b v result soft flag = some (true, r, s') →
        Plan cfg M K self' sx sy sphi ex ey ephi b v result' soft flag
          = some (true, r, s') := by
  refine ⟨rfl, ?_⟩
  rw [Plan_state_irrelevant cfg M K self self' sx sy sphi ex ey ephi b v result' soft flag]
  cases hobs : Plan.obstacles v with
  | none =>
    have e : ∀ res, Plan cfg M K self sx sy sphi ex ey ephi b v res soft flag = none := by
      intro res
      simp only [Plan, hobs, Option.bind_eq_bind, Option.none_bind]
    rw [e result, e result']
    simp
  | some obs =>
    obtain ⟨ok1, hok1⟩ := ValidityCheck_single K obs b sx sy sphi (K.gridIndex sx sy sphi)
    obtain ⟨ok2, hok2⟩ := ValidityCheck_single K obs b ex ey ephi (K.gridIndex ex ey ephi)
    have rej : (ValidityCheck K obs b (Plan.startNode K sx sy sphi) = some false
        ∨ ValidityCheck K obs b (Plan.endNode K ex ey ephi) = some false) →
        (Plan cfg M K self sx sy sphi ex ey ephi b v result' soft flag).map
            (fun p => (p.1, p.2.2))
          = (Plan cfg M K self sx sy sphi ex ey ephi b v result soft flag).map
            (fun p => (p.1, p.2.2))
        ∧ ∀ (r : HybridAStartResult α) (s' : State α),
          Plan cfg M K self sx sy sphi ex ey ephi b v result soft flag = some (true, r, s') →
          Plan cfg M K self sx sy sphi ex ey ephi b v result' soft flag
            = some (true, r, s') := by
      intro hrej
      rw [Plan_rejected cfg M K self sx sy sphi ex ey ephi b v obs result soft flag hobs hrej,
        Plan_rejected cfg M K self sx sy sphi ex ey ephi b v obs result' soft flag hobs hrej]
      simp
    cases ok1 with
    | false => exact rej (Or.inl hok1)
    | true =>
      cases ok2 with
      | false => exact rej (Or.inr hok2)
      | true =>
        rw [Plan_searched cfg M K self sx sy sphi ex ey ephi b v obs result soft flag hobs hok1
          hok2,
          Plan_searched cfg M K self sx sy sphi ex ey ephi b v obs result' soft flag hobs hok1
          hok2]
        cases Plan.search cfg M K ex ey cfg.max_explored_num
            (Plan.seed K self sx sy sphi ex ey ephi b obs flag) with
        | none => simp
        | some l =>
          simp only [Option.some_bind]
          cases hf : l.self.final_node_ with
          | none => simp
          | some f =>
            simp only []
            obtain ⟨g1, g2⟩ := GetResult_congr cfg M K (some f) result result'
            cases h1 : GetResult cfg M K (some f) result with
            | none =>
              rw [h1] at g1
              simp only [Option.map_none', Option.map_eq_none'] at g1
              rw [g1]
              simp
            | some p =>
              obtain ⟨st, out⟩ := p
              cases st with
              | true =>
                rw [g2 out h1]
                simp
              | false =>
                rw [h1] at g1
                simp only [Option.map_some', Option.map_eq_some'] at g1
                obtain ⟨q, hq, hq1⟩ := g1
                obtain ⟨st', out'⟩ := q
                simp only at hq1
                subst hq1
                rw [hq]
                simp

set_option maxRecDepth 100000 in
/-- Counterexample to C25: the start pose sits on an obstacle segment, `Plan` returns
false and the result object holds after the call what it held before, empty in one call
and the result of an earlier call in the other. -/
theorem failed_plan_keeps_earlier_result :
    (Plan sampleConfig sampleMath sampleCollab sampleState 0 0 0 3 0 0 sampleBounds
        sampleBlockingObstacles {} [] false).map (fun p => (p.1, p.2.1)) = some (false, {})
    ∧ (Plan sampleConfig sampleMath sampleCollab sampleState 0 0 0 3 0 0 sampleBounds
        sampleBlockingObstacles sampleResult [] false).map (fun p => (p.1, p.2.1))
      = some (false, sampleResult)
    ∧ sampleResult ≠ {} := by
  decide!

end HybridAStar
end planning

namespace canbus
namespace demo

variable {α : Type} [LinearOrderedField α]

/-- C26: for a frame of eight bytes `b0 .. b7` and a `Byte::get_byte` that returns the
whole byte for the position 0 and the length 8, the four decoded signals are the
big-endian 16-bit values scaled by `0.01724`: `uiuss8` from `b0, b1`, `uiuss9` from
`b2, b3`, `uiuss10` from `b4, b5`, `uiuss11` from `b6, b7`, each between 0 and
`65535 * 0.01724`, and `Parse` stores these four values. -/
theorem ultr_sensor_2_decode (get_byte : Nat → Nat → Nat → Nat)
    (hgb : ∀ v, v < 256 → get_byte v 0 8 = v) (b0 b1 b2 b3 b4 b5 b6 b7 : Nat) (length : Int)
    (hb : ∀ v ∈ [b0, b1, b2, b3, b4, b5, b6, b7], v < 256) :
    (Ultrsensor2508.uiuss8_tof_indirect get_byte [b0, b1, b2, b3, b4, b5, b6, b7] length
        = some (((256 * b0 + b1 : Nat) : α) * (1724 / 100000))
      ∧ Ultrsensor2508.uiuss9_tof_indirect get_byte [b0, b1, b2, b3, b4, b5, b6, b7] length
        = some (((256 * b2 + b3 : Nat) : α) * (1724 / 100000))
      ∧ Ultrsensor2508.uiuss10_tof_indirect get_byte [b0, b1, b2, b3, b4, b5, b6, b7] length
        = some (((256 * b4 + b5 : Nat) : α) * (1724 / 100000))
      ∧ Ultrsensor2508.uiuss11_tof_indirect get_byte [b0, b1, b2, b3, b4, b5, b6, b7] length
        = some (((256 * b6 + b7 : Nat) : α) * (1724 / 100000)))
    ∧ (∀ a t : Nat, a < 256 → t < 256 →
        (0 : α) ≤ ((256 * a + t : Nat) : α) * (1724 / 100000)
        ∧ ((256 * a + t : Nat) : α) * (1724 / 100000) ≤ 65535 * (1724 / 100000))
    ∧ Ultrsensor2508.Parse get_byte [b0, b1, b2, b3, b4, b5, b6, b7] length
        = some (Ultr_sensor_2_508.mk
            (((256 * b2 + b3 : Nat) : α) * (1724 / 100000))
            (((256 * b0 + b1 : Nat) : α) * (1724 / 100000))
            (((256 * b6 + b7 : Nat) : α) * (1724 / 100000))
            (((256 * b4 + b5 : Nat) : α) * (1724 / 100000))) := by
  have h0 := hb b0 (by simp)
  have h1 := hb b1 (by simp)
  have h2 := hb b2 (by simp)
  have h3 := hb b3 (by simp)
  have h4 := hb b4 (by simp)
  have h5 := hb b5 (by simp)
  have h6 := hb b6 (by simp)
  have h7 := hb b7 (by simp)
  have e8 : Ultrsensor2508.uiuss8_tof_indirect get_byte [b0, b1, b2, b3, b4, b5, b6, b7] length
      = some (((256 * b0 + b1 : Nat) : α) * (1724 / 100000)) := by
    simp only [Ultrsensor2508.uiuss8_tof_indirect, List.getElem?_cons_zero,
      List.getElem?_cons_succ, Option.bind_eq_bind, Option.some_bind,
      decode_eq get_byte hgb b0 b1 h0 h1]
  have e9 : Ultrsensor2508.uiuss9_tof_indirect get_byte [b0, b1, b2, b3, b4, b5, b6, b7] length
      = some (((256 * b2 + b3 : Nat) : α) * (1724 / 100000)) := by
    simp only [Ultrsensor2508.uiuss9_tof_indirect, List.getElem?_cons_zero,
      List.getElem?_cons_succ, Option.bind_eq_bind, Option.some_bind,
      decode_eq get_byte hgb b2 b3 h2 h3]
  have e10 : Ultrsensor2508.uiuss10_tof_indirect get_byte [b0, b1, b2, b3, b4, b5, b6, b7]
      length = some (((256 * b4 + b5 : Nat) : α) * (1724 / 100000)) := by
    simp only [Ultrsensor2508.uiuss10_tof_indirect, List.getElem?_cons_zero,
      List.getElem?_cons_succ, Option.bind_eq_bind, Option.some_bind,
      decode_eq get_byte hgb b4 b5 h4 h5]
  have e11 : Ultrsensor2508.uiuss11_tof_indirect get_byte [b0, b1, b2, b3, b4, b5, b6, b7]
      length = some (((256 * b6 + b7 : Nat) : α) * (1724 / 100000)) := by
    simp only [Ultrsensor2508.uiuss11_tof_indirect, List.getElem?_cons_zero,
      List.getElem?_cons_succ, Option.bind_eq_bind, Option.some_bind,
      decode_eq get_byte hgb b6 b7 h6 h7]
  refine ⟨⟨e8, e9, e10, e11⟩, fun a t ha ht => scaled_range a t ha ht, ?_⟩
  simp only [Ultrsensor2508.Parse, e8, e9, e10, e11, Option.bind_eq_bind, Option.some_bind]

/-- Witness of C26 on the sample frame `01 02 00 FF FF FF 10 00`. -/
theorem ultr_sensor_2_decode_witness :
    (∀ v, v < 256 → sampleGetByte v 0 8 = v)
    ∧ (∀ v ∈ [1, 2, 0, 255, 255, 255, 16, 0], v < 256)
    ∧ Ultrsensor2508.Parse sampleGetByte [1, 2, 0, 255, 255, 255, 16, 0] 8
        = some (Ultr_sensor_2_508.mk
            (((256 * 0 + 255 : Nat) : ℚ) * (1724 / 100000))
            (((256 * 1 + 2 : Nat) : ℚ) * (1724 / 100000))
            (((256 * 16 + 0 : Nat) : ℚ) * (1724 / 100000))
            (((256 * 255 + 255 : Nat) : ℚ) * (1724 / 100000))) :=
  have hgb : ∀ v, v < 256 → sampleGetByte v 0 8 = v := by
    intro v hv
    simp only [sampleGetByte, Nat.shiftRight_zero]
    exact Nat.mod_eq_of_lt (by simpa using hv)
  have hb : ∀ v ∈ [1, 2, 0, 255, 255, 255, 16, 0], v < 256 := by decide
  ⟨hgb, hb, (ultr_sensor_2_decode sampleGetByte hgb 1 2 0 255 255 255 16 0 8 hb).2.2⟩

end demo
end canbus

namespace planning
namespace HybridAStar

variable {α : Type} [LinearOrderedField α] [FloorRing α]

/-- C28: for a path of `n ≥ 2` poses the partitioning loop of `TrajectoryPartition`
produces at least one segment; the last pose of every segment is the first pose of the
next one, the first segment starts with the first pose of the path and the last segment
ends with its last pose.  In finite-difference mode the segments that
`TrajectoryPartition` returns have these `x`, `y` and `phi`. -/
theorem partition_shares_transition_pose (cfg : Config α) (M : MathFns α) (K : Collab α)
    (result : HybridAStartResult α) (h2 : 2 ≤ result.x.length)
    (hy : result.x.length = result.y.length) (hp : result.x.length = result.phi.length) :
    ∃ segs, TrajectoryPartition.segments M result.x result.y result.phi = some segs
      ∧ segs ≠ []
      ∧ List.Chain' SharesPose segs
      ∧ segs.head?.bind firstPose = firstPose result
      ∧ segs.getLast?.bind lastPose = lastPose result
      ∧ (firstPose result).isSome = true ∧ (lastPose result).isSome = true
      ∧ (cfg.FLAGS_use_s_curve_speed_smooth = false →
          ∃ rs, TrajectoryPartition cfg M K result = some (some rs)
            ∧ rs.map (fun r => r.x) = segs.map (fun r => r.x)
            ∧ rs.map (fun r => r.y) = segs.map (fun r => r.y)
            ∧ rs.map (fun r => r.phi) = segs.map (fun r => r.phi)) := by
  obtain ⟨segs, hsegs, -, hchain, hhead, hlast⟩ :=
    segments_partition M result.x result.y result.phi h2 hy hp
  obtain ⟨segs', hsegs', hne, hfresh, -⟩ :=
    segments_fresh M result.x result.y result.phi h2 hy hp
  rw [hsegs] at hsegs'
  obtain rfl := Option.some.inj hsegs'
  have hx : result.x ≠ [] := ne_nil_of_one_le_length _ (by omega)
  have hyn : result.y ≠ [] := ne_nil_of_one_le_length _ (by omega)
  have hpn : result.phi ≠ [] := ne_nil_of_one_le_length _ (by omega)
  refine ⟨segs, hsegs, hne, hchain.imp (fun _ _ h => h.1), ?_, ?_, ?_, ?_, ?_⟩
  · cases hh : segs.head? with
    | none => exact absurd (List.head?_eq_none_iff.1 hh) hne
    | some s => exact hhead s hh
  · cases hh : segs.getLast? with
    | none => exact absurd (List.getLast?_eq_none_iff.1 hh) hne
    | some s => exact hlast s hh
  · obtain ⟨a, l, ha⟩ := List.exists_cons_of_ne_nil hx
    obtain ⟨b, m, hb⟩ := List.exists_cons_of_ne_nil hyn
    obtain ⟨c, n, hc⟩ := List.exists_cons_of_ne_nil hpn
    simp [firstPose, ha, hb, hc]
  · obtain ⟨a, ha⟩ := Option.isSome_iff_exists.1
      (by rw [List.getLast?_isSome]; exact hx : result.x.getLast?.isSome = true)
    obtain ⟨b, hb⟩ := Option.isSome_iff_exists.1
      (by rw [List.getLast?_isSome]; exact hyn : result.y.getLast?.isSome = true)
    obtain ⟨c, hc⟩ := Option.isSome_iff_exists.1
      (by rw [List.getLast?_isSome]; exact hpn : result.phi.getLast?.isSome = true)
    simp [lastPose, ha, hb, hc]
  · intro hflag
    obtain ⟨rs, hrs, e1, e2, e3, -⟩ := profiles_fresh cfg M segs hfresh
    refine ⟨rs, ?_, e1, e2, e3⟩
    have c2 : ¬ (result.x.length ≠ result.y.length ∨ result.x.length ≠ result.phi.length) := by
      omega
    simp only [TrajectoryPartition, if_neg c2, hsegs, hflag, Option.bind_eq_bind,
      Option.some_bind, Bool.false_eq_true, if_false]
    exact hrs

set_option maxRecDepth 100000 in
/-- Witness of C28 on the sample path, which has two gear changes. -/
theorem partition_shares_transition_pose_witness :
    2 ≤ samplePath.x.length ∧ samplePath.x.length = samplePath.y.length
    ∧ samplePath.x.length = samplePath.phi.length
    ∧ TrajectoryPartition.segments sampleMath samplePath.x samplePath.y samplePath.phi
      = some [{ x := [0, 1, 2], y := [0, 0, 0], phi := [0, 0, 0] },
          { x := [2, 1, 0], y := [0, 0, 0], phi := [0, 0, 0] },
          { x := [0, 1], y := [0, 0], phi := [0, 0] }]
    ∧ ∃ segs, TrajectoryPartition.segments sampleMath samplePath.x samplePath.y samplePath.phi
        = some segs
      ∧ segs ≠ []
      ∧ List.Chain' SharesPose segs
      ∧ segs.head?.bind firstPose = firstPose samplePath
      ∧ segs.getLast?.bind lastPose = lastPose samplePath
      ∧ (firstPose samplePath).isSome = true ∧ (lastPose samplePath).isSome = true
      ∧ (sampleConfig.FLAGS_use_s_curve_speed_smooth = false →
          ∃ rs, TrajectoryPartition sampleConfig sampleMath sampleCollab samplePath
              = some (some rs)
            ∧ rs.map (fun r => r.x) = segs.map (fun r => r.x)
            ∧ rs.map (fun r => r.y) = segs.map (fun r => r.y)
            ∧ rs.map (fun r => r.phi) = segs.map (fun r => r.phi)) :=
  ⟨by decide, by decide, by decide, by decide!,
    partition_shares_transition_pose sampleConfig sampleMath sampleCollab samplePath
      (by decide) (by decide) (by decide)⟩

/-- C29: for a path of `n ≥ 2` poses every segment of the partitioning loop of
`TrajectoryPartition` has at least two poses and all its steps have the same gear, the
gear of a step being forward exactly when the normalised difference of the angle of the
step and the heading at its first pose is below `M_PI_2` in absolute value; the first
steps of two consecutive segments have opposite gears. -/
theorem partition_segments_uniform_gear (M : MathFns α) (result : HybridAStartResult α)
    (h2 : 2 ≤ result.x.length) (hy : result.x.length = result.y.length)
    (hp : result.x.length = result.phi.length) :
    (∀ xi yi xn yn heading : α, TrajectoryPartition.gear M xi yi xn yn heading = true
        ↔ |M.NormalizeAngle (M.Angle (xn - xi) (yn - yi) - heading)| < M.pi_2)
    ∧ ∃ segs, TrajectoryPartition.segments M result.x result.y result.phi = some segs
      ∧ (∀ s ∈ segs, 2 ≤ s.x.length ∧ s.x.length = s.y.length ∧ s.x.length = s.phi.length
          ∧ ∃ g, ∀ j, j + 1 < s.x.length → stepGear M s j = some g)
      ∧ List.Chain' (OppositeGear M) segs := by
  refine ⟨?_, ?_⟩
  · intro xi yi xn yn heading
    simp only [TrajectoryPartition.gear, decide_eq_true_eq]
  · obtain ⟨segs, hsegs, hU, hchain, -, -⟩ :=
      segments_partition M result.x result.y result.phi h2 hy hp
    refine ⟨segs, hsegs, ?_, hchain.imp (fun _ _ h => h.2)⟩
    intro s hs
    obtain ⟨h2s, g, e1, e2, e3⟩ := hU s hs
    exact ⟨h2s, e1, e2, g, e3⟩

/-- Witness of C29 on the sample path: forward, backward, forward. -/
theorem partition_segments_uniform_gear_witness :
    2 ≤ samplePath.x.length ∧ samplePath.x.length = samplePath.y.length
    ∧ samplePath.x.length = samplePath.phi.length
    ∧ ∃ segs, TrajectoryPartition.segments sampleMath samplePath.x samplePath.y samplePath.phi
        = some segs
      ∧ (∀ s ∈ segs, 2 ≤ s.x.length ∧ s.x.length = s.y.length ∧ s.x.length = s.phi.length
          ∧ ∃ g, ∀ j, j + 1 < s.x.length → stepGear sampleMath s j = some g)
      ∧ List.Chain' (OppositeGear sampleMath) segs :=
  ⟨by decide, by decide, by decide,
    (partition_segments_uniform_gear sampleMath samplePath (by decide) (by decide)
      (by decide)).2⟩

/-- C30: for a segment of `n ≥ 2` poses, with a square root that is 0 at 0 and not
negative, the loop at the start of `GenerateSCurveSpeedAcceleration` fills
`accumulated_s` with `n` entries: the first is 0, every further entry is the previous
one plus the distance between the two poses, the entries do not decrease, and the last,
which becomes `path_length`, is the length of the polyline. -/
theorem arc_length_cumulative (cfg : Config α) (M : MathFns α) (K : Collab α)
    (r : HybridAStartResult α) (h2 : 2 ≤ r.x.length) (hy : r.x.length = r.y.length)
    (hphi : r.x.length = r.phi.length) (h0 : M.sqrt 0 = 0)
    (hnn : ∀ t, 0 ≤ t → 0 ≤ M.sqrt t) :
    ∃ s, GenerateSCurveSpeedAcceleration.arcLength M r.x r.y = some s
      ∧ s.length = r.x.length
      ∧ s[0]? = some 0
      ∧ (∀ (i : Nat) (xi xj yi yj si : α), r.x[i]? = some xi → r.x[i + 1]? = some xj →
          r.y[i]? = some yi → r.y[i + 1]? = some yj → s[i]? = some si →
          s[i + 1]? = some (si + M.sqrt ((xj - xi) * (xj - xi) + (yj - yi) * (yj - yi))))
      ∧ (∀ (i j : Nat) (si sj : α), i ≤ j → s[i]? = some si → s[j]? = some sj → si ≤ sj)
      ∧ s.getLast? = some (polylineLength M r.x r.y)
      ∧ ∃ gear, GenerateSCurveSpeedAcceleration cfg M K r
          = GenerateSCurveSpeedAcceleration.knots cfg K gear
              (GenerateSCurveSpeedAcceleration.total_t cfg gear (polylineLength M r.x r.y))
              { r with accumulated_s := s } := by
  obtain ⟨s, hs, hlen, hcf⟩ := arcLength_closed_form M r.x r.y (by omega) hy h0
  have hlast : s.getLast? = some (polylineLength M r.x r.y) := by
    rw [List.getLast?_eq_getElem?, hlen, hcf (r.x.length - 1) (by omega)]
    have e1 : r.x.length - 1 + 1 = r.x.length := by omega
    rw [e1, List.take_of_length_le (le_refl _), List.take_of_length_le (by omega)]
  refine ⟨s, hs, hlen, ?_, ?_, ?_, hlast, ?_⟩
  · rw [hcf 0 (by omega), polylineLength_take_one]
  · intro i xi xj yi yj si e1 e2 e3 e4 e5
    have hi : i + 1 < r.x.length := (List.getElem?_eq_some_iff.1 e2).1
    rw [hcf i (by omega), Option.some.injEq] at e5
    rw [hcf (i + 1) hi, polylineLength_take_succ M i r.x r.y xi xj yi yj e1 e2 e3 e4, e5]
  · intro i j si sj hij e1 e2
    have hj : j < s.length := (List.getElem?_eq_some_iff.1 e2).1
    rw [hlen] at hj
    rw [hcf i (by omega), Option.some.injEq] at e1
    rw [hcf j hj, Option.some.injEq] at e2
    rw [← e1, ← e2]
    exact polylineLength_take_mono M hnn r.x r.y hy j i hij hj
  · have c1 : ¬ (r.x.length < 2 ∨ r.y.length < 2 ∨ r.phi.length < 2) := by omega
    have c2 : ¬ (r.x.length ≠ r.y.length ∨ r.x.length ≠ r.phi.length) := by omega
    have b0 : 0 < r.phi.length := by omega
    have b1 : 1 < r.x.length := by omega
    have b2 : 0 < r.x.length := by omega
    have b3 : 1 < r.y.length := by omega
    have b4 : 0 < r.y.length := by omega
    have g0 : r.phi.head? = some r.phi[0] := by
      rw [List.head?_eq_getElem?]; exact List.getElem?_eq_getElem _
    have g1 : r.x[1]? = some r.x[1] := List.getElem?_eq_getElem _
    have g2 : r.x[0]? = some r.x[0] := List.getElem?_eq_getElem _
    have g3 : r.y[1]? = some r.y[1] := List.getElem?_eq_getElem _
    have g4 : r.y[0]? = some r.y[0] := List.getElem?_eq_getElem _
    refine ⟨GenerateSCurveSpeedAcceleration.gear M r.x[0] r.y[0] r.x[1] r.y[1] r.phi[0], ?_⟩
    simp only [GenerateSCurveSpeedAcceleration, if_neg c1, if_neg c2, g0, g1, g2, g3, g4, hs,
      hlast, Option.bind_eq_bind, Option.some_bind]

/-- Witness of C30 over the real numbers with the real square root: the polyline
through `(0, 0)`, `(3, 4)`, `(3, 5)`. -/
theorem arc_length_cumulative_witness :
    (2 ≤ ([0, 3, 3] : List ℝ).length)
    ∧ Real.sqrt 0 = 0 ∧ (∀ t : ℝ, 0 ≤ t → 0 ≤ Real.sqrt t)
    ∧ ∃ s, GenerateSCurveSpeedAcceleration.arcLength
          (MathFns.mk Real.cos Real.sin Real.tan Real.arctan Real.sqrt
            (toIcoMod Real.two_pi_pos (-Real.pi)) (fun x y => Complex.arg ⟨x, y⟩)
            (Real.pi / 2))
          [0, 3, 3] [0, 4, 5] = some s
      ∧ s.length = 3
      ∧ s[0]? = some 0
      ∧ (∀ (i j : Nat) (si sj : ℝ), i ≤ j → s[i]? = some si → s[j]? = some sj → si ≤ sj)
      ∧ s.getLast? = some (polylineLength
          (MathFns.mk Real.cos Real.sin Real.tan Real.arctan Real.sqrt
            (toIcoMod Real.two_pi_pos (-Real.pi)) (fun x y => Complex.arg ⟨x, y⟩)
            (Real.pi / 2))
          [0, 3, 3] [0, 4, 5]) :=
  ⟨by decide, Real.sqrt_zero, fun t _ => Real.sqrt_nonneg t,
    (arc_length_cumulative
      (Config.mk 4 (1 / 2) (1 / 2) (3 / 10) 1 (1 / 2) 1 1 1 1 1 1 1 1 1 3 3 1 true)
      (MathFns.mk Real.cos Real.sin Real.tan Real.arctan Real.sqrt
        (toIcoMod Real.two_pi_pos (-Real.pi)) (fun x y => Complex.arg ⟨x, y⟩) (Real.pi / 2))
      (Collab.mk (fun _ _ _ _ => false) (fun _ _ _ => "a") (fun _ _ _ => none)
        (fun _ _ _ _ _ _ => 0) (fun _ => false) (fun _ _ r => some (false, r)))
      { x := [0, 3, 3], y := [0, 4, 5], phi := [0, 0, 0] } (by decide) rfl rfl
      Real.sqrt_zero (fun t _ => Real.sqrt_nonneg t)).elim
      fun s hs => ⟨s, hs.1, hs.2.1, hs.2.2.1, hs.2.2.2.2.1, hs.2.2.2.2.2.1⟩⟩

/-- C31: for a path of `n ≥ 2` poses with `x`, `y`, `phi` of equal length, every segment
of the partitioning loop of `TrajectoryPartition` has at least two poses in each of its
three vectors, so the size check at the start of `GenerateSpeedAcceleration`, which then
returns true, and the two checks at the start of `GenerateSCurveSpeedAcceleration`,
which then goes on to the knot count, do not reject it. -/
theorem partitioned_segments_pass_size_check (cfg : Config α) (M : MathFns α)
    (K : Collab α) (result : HybridAStartResult α) (h2 : 2 ≤ result.x.length)
    (hy : result.x.length = result.y.length) (hp : result.x.length = result.phi.length) :
    ∃ segs, TrajectoryPartition.segments M result.x result.y result.phi = some segs
      ∧ segs ≠ []
      ∧ ∀ s ∈ segs, 2 ≤ s.x.length ∧ 2 ≤ s.y.length ∧ 2 ≤ s.phi.length
        ∧ ¬ (s.x.length < 2 ∨ s.y.length < 2 ∨ s.phi.length < 2)
        ∧ ¬ (s.x.length ≠ s.y.length ∨ s.x.length ≠ s.phi.length)
        ∧ (∃ r, GenerateSpeedAcceleration cfg M s = some (true, r))
        ∧ ∃ acc path_length gear,
            GenerateSCurveSpeedAcceleration.arcLength M s.x s.y = some acc
            ∧ acc.getLast? = some path_length
            ∧ GenerateSCurveSpeedAcceleration cfg M K s
              = GenerateSCurveSpeedAcceleration.knots cfg K gear
                  (GenerateSCurveSpeedAcceleration.total_t cfg gear path_length)
                  { s with accumulated_s := acc } := by
  obtain ⟨segs, hsegs, hne, hfresh, -⟩ :=
    segments_fresh M result.x result.y result.phi h2 hy hp
  refine ⟨segs, hsegs, hne, ?_⟩
  intro s hs
  have hf := hfresh s hs
  obtain ⟨r, hr, -⟩ := GenerateSpeedAcceleration_fresh cfg M s hf
  obtain ⟨f2, fy, fp, -⟩ := hf
  obtain ⟨acc, last, hacc, -, hlast⟩ := arcLength_defined M s.x s.y (by omega) fy
  have c1 : ¬ (s.x.length < 2 ∨ s.y.length < 2 ∨ s.phi.length < 2) := by omega
  have c2 : ¬ (s.x.length ≠ s.y.length ∨ s.x.length ≠ s.phi.length) := by omega
  have b0 : 0 < s.phi.length := by omega
  have b1 : 1 < s.x.length := by omega
  have b2 : 0 < s.x.length := by omega
  have b3 : 1 < s.y.length := by omega
  have b4 : 0 < s.y.length := by omega
  have g0 : s.phi.head? = some s.phi[0] := by
    rw [List.head?_eq_getElem?]; exact List.getElem?_eq_getElem _
  have g1 : s.x[1]? = some s.x[1] := List.getElem?_eq_getElem _
  have g2 : s.x[0]? = some s.x[0] := List.getElem?_eq_getElem _
  have g3 : s.y[1]? = some s.y[1] := List.getElem?_eq_getElem _
  have g4 : s.y[0]? = some s.y[0] := List.getElem?_eq_getElem _
  refine ⟨f2, by omega, by omega, c1, c2, ⟨r, hr⟩, acc, last,
    GenerateSCurveSpeedAcceleration.gear M s.x[0] s.y[0] s.x[1] s.y[1] s.phi[0], hacc, hlast, ?_⟩
  simp only [GenerateSCurveSpeedAcceleration, if_neg c1, if_neg c2, g0, g1, g2, g3, g4, hacc,
    hlast, Option.bind_eq_bind, Option.some_bind]

set_option maxRecDepth 100000 in
/-- Witness of C31 on the sample path: segments of three, three and two poses. -/
theorem partitioned_segments_pass_size_check_witness :
    2 ≤ samplePath.x.length ∧ samplePath.x.length = samplePath.y.length
    ∧ samplePath.x.length = samplePath.phi.length
    ∧ (TrajectoryPartition.segments sampleMath samplePath.x samplePath.y samplePath.phi).map
        (fun segs => segs.map fun s => s.x.length) = some [3, 3, 2]
    ∧ ∃ segs, TrajectoryPartition.segments sampleMath samplePath.x samplePath.y samplePath.phi
        = some segs
      ∧ segs ≠ []
      ∧ ∀ s ∈ segs, 2 ≤ s.x.length ∧ 2 ≤ s.y.length ∧ 2 ≤ s.phi.length
        ∧ ¬ (s.x.length < 2 ∨ s.y.length < 2 ∨ s.phi.length < 2)
        ∧ ¬ (s.x.length ≠ s.y.length ∨ s.x.length ≠ s.phi.length)
        ∧ (∃ r, GenerateSpeedAcceleration sampleConfig sampleMath s = some (true, r))
        ∧ ∃ acc path_length gear,
            GenerateSCurveSpeedAcceleration.arcLength sampleMath s.x s.y = some acc
            ∧ acc.getLast? = some path_length
            ∧ GenerateSCurveSpeedAcceleration sampleConfig sampleMath sampleCollab s
              = GenerateSCurveSpeedAcceleration.knots sampleConfig sampleCollab gear
                  (GenerateSCurveSpeedAcceleration.total_t sampleConfig gear path_length)
                  { s with accumulated_s := acc } :=
  ⟨by decide, by decide, by decide, by decide!,
    partitioned_segments_pass_size_check sampleConfig sampleMath sampleCollab samplePath
      (by decide) (by decide) (by decide)⟩

/-- C32 (amended): in a pass of the search loop of `Plan` the children that are pushed
onto the open queue have grid indices that are neither in the closed set, the index of
the expanded node included, nor in the open set as it was when the pass began; the open
set then grows by the indices of the pushed children.  If every queued node had its
index in the open set, no pushed child has the index of a node that was queued before
the pass, and every queued node has its index in the open set again. -/
theorem pushed_children_have_new_index (cfg : Config α) (M : MathFns α) (K : Collab α)
    (ex ey : α) (l l' : Plan.Loop α) (brk : Bool)
    (hq : ∀ p ∈ l.self.open_pq_, p.1.GetIndex ∈ l.self.open_set_)
    (h : Plan.iteration cfg M K ex ey l = some (l', brk)) :
    ∃ (top : (Node3d α × α) × List (Node3d α × α)) (pushed : List (Node3d α × α)),
      pqPop l.self.open_pq_ = some top
      ∧ l'.self.open_pq_ = top.2 ++ pushed
      ∧ l'.self.open_set_ = l.self.open_set_ ++ pushed.map (fun p => p.1.GetIndex)
      ∧ l'.self.close_set_ = l.self.close_set_ ++ [top.1.1.GetIndex]
      ∧ (∀ p ∈ pushed, p.1.GetIndex ∉ l.self.open_set_
          ∧ p.1.GetIndex ∉ l'.self.close_set_
          ∧ ∀ q ∈ l.self.open_pq_, q.1.GetIndex ≠ p.1.GetIndex)
      ∧ ∀ p ∈ l'.self.open_pq_, p.1.GetIndex ∈ l'.self.open_set_ := by
  simp only [Plan.iteration, Option.bind_eq_bind, Option.bind_eq_some] at h
  obtain ⟨top, htop, cand, -, h⟩ := h
  have hrest : ∀ p ∈ top.2, p ∈ l.self.open_pq_ := (pqPop_mem _ top.1 top.2 htop).2
  by_cases hc : K.timeExceeded (l.explored_node_num + 1) = true
      ∧ 0 < (if cand.isSome = true then l.available_result_num + 1 else l.available_result_num)
  · rw [if_pos hc] at h
    simp only [Option.some.injEq, Prod.mk.injEq] at h
    obtain ⟨rfl, -⟩ := h
    refine ⟨top, [], htop, by simp, by simp, rfl, by simp, ?_⟩
    intro p hp
    exact hq p (hrest p hp)
  · rw [if_neg hc] at h
    simp only [Option.bind_eq_some, Option.some.injEq, Prod.mk.injEq] at h
    obtain ⟨st, hst, rfl, -⟩ := h
    obtain ⟨pushed, e1, e2, e3⟩ := children_pushed cfg M K _ ex ey top.1.1 top.2 _ _ st hst
    refine ⟨top, pushed, htop, e1, by simp only [e2], rfl, ?_, ?_⟩
    · intro p hp
      obtain ⟨c1, c2⟩ := e3 p hp
      refine ⟨c2, c1, ?_⟩
      intro q hq' heq
      exact c2 (heq ▸ hq q hq')
    · intro p hp
      simp only [e1] at hp
      simp only [e2]
      rcases List.mem_append.1 hp with hp | hp
      · exact List.mem_append_left _ (hq p (hrest p hp))
      · exact List.mem_append_right _ (List.mem_map.2 ⟨p, hp, rfl⟩)

/-- Witness of C32 (amended): the first pass of the sample search with straight
primitives. -/
theorem pushed_children_have_new_index_witness :
    (∀ p ∈ (Plan.seed sampleCollabBlind sampleState 0 0 0 3 0 0 sampleBounds
          [[LineSegment2d.mk ⟨4, 1⟩ ⟨4, -1⟩]] false).self.open_pq_,
        p.1.GetIndex ∈ (Plan.seed sampleCollabBlind sampleState 0 0 0 3 0 0 sampleBounds
          [[LineSegment2d.mk ⟨4, 1⟩ ⟨4, -1⟩]] false).self.open_set_)
    ∧ ∃ l' brk, Plan.iteration sampleConfigStraight sampleMath sampleCollabBlind 3 0
          (Plan.seed sampleCollabBlind sampleState 0 0 0 3 0 0 sampleBounds
            [[LineSegment2d.mk ⟨4, 1⟩ ⟨4, -1⟩]] false) = some (l', brk)
      ∧ ∃ (top : (Node3d ℚ × ℚ) × List (Node3d ℚ × ℚ)) (pushed : List (Node3d ℚ × ℚ)),
        pqPop (Plan.seed sampleCollabBlind sampleState 0 0 0 3 0 0 sampleBounds
            [[LineSegment2d.mk ⟨4, 1⟩ ⟨4, -1⟩]] false).self.open_pq_ = some top
        ∧ l'.self.open_pq_ = top.2 ++ pushed
        ∧ l'.self.open_set_
          = (Plan.seed sampleCollabBlind sampleState 0 0 0 3 0 0 sampleBounds
              [[LineSegment2d.mk ⟨4, 1⟩ ⟨4, -1⟩]] false).self.open_set_
            ++ pushed.map (fun p => p.1.GetIndex)
        ∧ l'.self.close_set_
          = (Plan.seed sampleCollabBlind sampleState 0 0 0 3 0 0 sampleBounds
              [[LineSegment2d.mk ⟨4, 1⟩ ⟨4, -1⟩]] false).self.close_set_
            ++ [top.1.1.GetIndex]
        ∧ (∀ p ∈ pushed,
            p.1.GetIndex ∉ (Plan.seed sampleCollabBlind sampleState 0 0 0 3 0 0 sampleBounds
              [[LineSegment2d.mk ⟨4, 1⟩ ⟨4, -1⟩]] false).self.open_set_
            ∧ p.1.GetIndex ∉ l'.self.close_set_
            ∧ ∀ q ∈ (Plan.seed sampleCollabBlind sampleState 0 0 0 3 0 0 sampleBounds
                [[LineSegment2d.mk ⟨4, 1⟩ ⟨4, -1⟩]] false).self.open_pq_,
              q.1.GetIndex ≠ p.1.GetIndex)
        ∧ ∀ p ∈ l'.self.open_pq_, p.1.GetIndex ∈ l'.self.open_set_ := by
  have hq : ∀ p ∈ (Plan.seed sampleCollabBlind sampleState 0 0 0 3 0 0 sampleBounds
        [[LineSegment2d.mk ⟨4, 1⟩ ⟨4, -1⟩]] false).self.open_pq_,
      p.1.GetIndex ∈ (Plan.seed sampleCollabBlind sampleState 0 0 0 3 0 0 sampleBounds
        [[LineSegment2d.mk ⟨4, 1⟩ ⟨4, -1⟩]] false).self.open_set_ := by
    intro p hp
    have e : (Plan.seed sampleCollabBlind sampleState 0 0 0 3 0 0 sampleBounds
        [[LineSegment2d.mk ⟨4, 1⟩ ⟨4, -1⟩]] false).self.open_pq_
        = [(Plan.startNode sampleCollabBlind 0 0 0,
            (Plan.startNode sampleCollabBlind 0 0 0).GetCost)] := rfl
    have e' : (Plan.seed sampleCollabBlind sampleState 0 0 0 3 0 0 sampleBounds
        [[LineSegment2d.mk ⟨4, 1⟩ ⟨4, -1⟩]] false).self.open_set_
        = [(Plan.startNode sampleCollabBlind 0 0 0).GetIndex] := rfl
    rw [e, List.mem_singleton] at hp
    rw [e', hp]
    exact List.mem_singleton.2 rfl
  have hsome : (Plan.iteration sampleConfigStraight sampleMath sampleCollabBlind 3 0
      (Plan.seed sampleCollabBlind sampleState 0 0 0 3 0 0 sampleBounds
        [[LineSegment2d.mk ⟨4, 1⟩ ⟨4, -1⟩]] false)).isSome = true := by decide!
  obtain ⟨⟨l', brk⟩, h⟩ := Option.isSome_iff_exists.1 hsome
  exact ⟨hq, l', brk, h,
    pushed_children_have_new_index sampleConfigStraight sampleMath sampleCollabBlind 3 0
      (Plan.seed sampleCollabBlind sampleState 0 0 0 3 0 0 sampleBounds
        [[LineSegment2d.mk ⟨4, 1⟩ ⟨4, -1⟩]] false) l' brk hq h⟩

set_option maxRecDepth 100000 in
/-- Counterexample to C32: with `max_steer_angle_ = 0` the two forward children of the
start node are the same three poses with the same grid index "b"; in the first pass
both are pushed onto the open queue, because the open set receives the indices of
`temp_set` only after the child loop.  The second pass pops and closes the first of
them and leaves the second in the queue; the third pass pops the second one, whose
index is already closed, and expands it: the closed set is sent the index "b" twice. -/
theorem sibling_children_share_index :
    (Plan.iteration sampleConfigStraight sampleMath sampleCollabBlind 3 0
        (Plan.seed sampleCollabBlind sampleState 0 0 0 3 0 0 sampleBounds
          [[LineSegment2d.mk ⟨4, 1⟩ ⟨4, -1⟩]] false)).map
        (fun p => p.1.self.open_pq_.map (fun q => (q.1.GetIndex, q.1.GetXs, q.1.GetYs)))
      = some [("b", [0, 1 / 2, 1], [0, 0, 0]), ("b", [0, 1 / 2, 1], [0, 0, 0])]
    ∧ (Plan.iteration sampleConfigStraight sampleMath sampleCollabBlind 3 0
        (Plan.seed sampleCollabBlind sampleState 0 0 0 3 0 0 sampleBounds
          [[LineSegment2d.mk ⟨4, 1⟩ ⟨4, -1⟩]] false)).map
        (fun p => (p.1.self.open_pq_.map (fun q => q.1.GetPhis), p.2))
      = some ([[0, 0, 0], [0, 0, 0]], false)
    ∧ (Plan.search sampleConfigStraight sampleMath sampleCollabBlind 3 0 2
        (Plan.seed sampleCollabBlind sampleState 0 0 0 3 0 0 sampleBounds
          [[LineSegment2d.mk ⟨4, 1⟩ ⟨4, -1⟩]] false)).map
        (fun l => (l.explored_node_num, l.self.close_set_,
          (pqPop l.self.open_pq_).map (fun t => t.1.1.GetIndex)))
      = some (2, ["a", "b"], some "b")
    ∧ (Plan.search sampleConfigStraight sampleMath sampleCollabBlind 3 0 3
        (Plan.seed sampleCollabBlind sampleState 0 0 0 3 0 0 sampleBounds
          [[LineSegment2d.mk ⟨4, 1⟩ ⟨4, -1⟩]] false)).map
        (fun l => (l.explored_node_num, l.self.close_set_))
      = some (3, ["a", "b", "b"]) := by
  decide!

/-- C33: when `cos² + sin² = 1` and `sqrt (t²) = |t|` (exact real arithmetic) and
`step_size_` is not negative, every substep of the integration of `Next_node_generator`
moves the point `(x, y)` by exactly `step_size_` in Euclidean distance, the polyline
through the poses after `k` passes has the length `k * step_size_`, and
`Next_node_generator` returns; for a returned child the polyline length of the
traversed poses is `(steps - 1) * step_size_`, which is the distance that `TrajCost`
multiplies by the forward or the back penalty. -/
theorem substep_moves_step_size (cfg : Config α) (M : MathFns α) (K : Collab α)
    (self : State α) (cur : Node3d α) (i : Nat)
    (hcs : ∀ θ : α, M.cos θ * M.cos θ + M.sin θ * M.sin θ = 1)
    (hsq : ∀ t : α, M.sqrt (t * t) = |t|)
    (hstep : 0 ≤ cfg.step_size_)
    (hdef : cfg.step_size_ ≠ 0 ∨ cfg.arc_length_ ≤ 0) :
    (∀ st : (α × α × α) × (List α × List α × List α),
      M.sqrt (((Next_node_generator.substep cfg M (Next_node_generator.primitive cfg i).1
                (Next_node_generator.primitive cfg i).2 st).1.1 - st.1.1)
            * ((Next_node_generator.substep cfg M (Next_node_generator.primitive cfg i).1
                (Next_node_generator.primitive cfg i).2 st).1.1 - st.1.1)
          + ((Next_node_generator.substep cfg M (Next_node_generator.primitive cfg i).1
                (Next_node_generator.primitive cfg i).2 st).1.2.1 - st.1.2.1)
            * ((Next_node_generator.substep cfg M (Next_node_generator.primitive cfg i).1
                (Next_node_generator.primitive cfg i).2 st).1.2.1 - st.1.2.1))
        = cfg.step_size_)
    ∧ (∀ k : Nat,
        polylineLength M (Next_node_generator.loopState cfg M cur i k).2.1
            (Next_node_generator.loopState cfg M cur i k).2.2.1
          = (k : α) * cfg.step_size_)
    ∧ ∃ r, Next_node_generator cfg M K self cur i = some r
      ∧ ∀ n, r = some n → n.GetStepSize < sizeModulus →
          1 ≤ n.GetStepSize
          ∧ polylineLength M n.GetXs n.GetYs
              = ((sizeSub n.GetStepSize 1 : Nat) : α) * cfg.step_size_
          ∧ TrajCost cfg cur n
              = polylineLength M n.GetXs n.GetYs
                  * (if n.GetDirec = true then cfg.traj_forward_penalty_
                      else cfg.traj_back_penalty_)
                + (if cur.GetDirec ≠ n.GetDirec then cfg.traj_gear_switch_penalty_ else 0)
                + cfg.traj_steer_penalty_ * |n.GetSteer|
                + cfg.traj_steer_change_penalty_ * |n.GetSteer - cur.GetSteer| := by
  have habs : |(Next_node_generator.primitive cfg i).2| = cfg.step_size_ := by
    rw [primitive_travel_abs, abs_of_nonneg hstep]
  have hpoly : ∀ k : Nat,
      polylineLength M (Next_node_generator.loopState cfg M cur i k).2.1
          (Next_node_generator.loopState cfg M cur i k).2.2.1
        = (k : α) * cfg.step_size_ := by
    intro k
    have e := integrate_polyline cfg M hcs hsq (Next_node_generator.primitive cfg i).1
      (Next_node_generator.primitive cfg i).2 cur.GetX cur.GetY cur.GetPhi k
    rw [habs] at e
    exact e
  refine ⟨?_, hpoly, ?_⟩
  · intro st
    rw [substep_distance cfg M hcs hsq, habs]
  · have hk := steps_some cfg hdef
    obtain ⟨hout, hin⟩ := Next_node_generator_spec cfg M K self cur i _ hk
    by_cases hc : Next_node_generator.outside self.XYbounds_
        (Next_node_generator.loopState cfg M cur i ⌈cfg.arc_length_ / cfg.step_size_⌉₊).1.1
        (Next_node_generator.loopState cfg M cur i ⌈cfg.arc_length_ / cfg.step_size_⌉₊).1.2.1
    · refine ⟨none, hout hc, ?_⟩
      intro n hn
      simp at hn
    · obtain ⟨m, hm, -, e1, e2, -, e4, -⟩ := hin hc
      refine ⟨some m, hm, ?_⟩
      intro n hn hsz
      simp only [Option.some.injEq] at hn
      subst hn
      have h1 : 1 ≤ m.GetStepSize := by omega
      have hlen : polylineLength M m.GetXs m.GetYs
          = ((sizeSub m.GetStepSize 1 : Nat) : α) * cfg.step_size_ := by
        rw [sizeSub_one _ h1 hsz, e1, e2, hpoly, e4]
        simp
      refine ⟨h1, hlen, ?_⟩
      rw [hlen]
      simp only [TrajCost]
      cases hd : m.GetDirec <;> cases hg : cur.GetDirec <;> simp

/-- Witness of C33 over the reals with the functions `cos`, `sin`, `sqrt` of real
analysis: from the pose `(0, 0, 0)` the child of index 0 (steering `-1/2`, two passes
of `1/2`) is produced, has three poses and the polyline length 1. -/
theorem substep_moves_step_size_witness :
    ∃ (cfg : Config ℝ) (M : MathFns ℝ) (K : Collab ℝ) (self : State ℝ) (cur : Node3d ℝ),
      M.cos = Real.cos ∧ M.sin = Real.sin ∧ M.sqrt = Real.sqrt ∧ M.tan = Real.tan
      ∧ cfg.step_size_ = 1 / 2 ∧ cfg.arc_length_ = 1 ∧ cfg.max_steer_angle_ = 1 / 2
      ∧ (∀ θ : ℝ, M.cos θ * M.cos θ + M.sin θ * M.sin θ = 1)
      ∧ (∀ t : ℝ, M.sqrt (t * t) = |t|)
      ∧ 0 ≤ cfg.step_size_
      ∧ (cfg.step_size_ ≠ 0 ∨ cfg.arc_length_ ≤ 0)
      ∧ (∀ k : Nat,
          polylineLength M (Next_node_generator.loopState cfg M cur 0 k).2.1
              (Next_node_generator.loopState cfg M cur 0 k).2.2.1
            = (k : ℝ) * cfg.step_size_)
      ∧ ∃ n, Next_node_generator cfg M K self cur 0 = some (some n)
        ∧ n.GetStepSize = 3
        ∧ polylineLength M n.GetXs n.GetYs = 1 := by
  have hcs : ∀ θ : ℝ, Real.cos θ * Real.cos θ + Real.sin θ * Real.sin θ = 1 := by
    intro θ
    rw [← sq, ← sq]
    exact Real.cos_sq_add_sin_sq θ
  have hsq : ∀ t : ℝ, Real.sqrt (t * t) = |t| := Real.sqrt_mul_self_eq_abs
  have hceil : ⌈(1 : ℝ) / (1 / 2)⌉₊ = 2 := by
    have e : (1 : ℝ) / (1 / 2) = ((2 : Nat) : ℝ) := by norm_num
    rw [e, Nat.ceil_natCast]
  have hcfg : (1 / 2 : ℝ) ≠ 0 ∨ (1 : ℝ) ≤ 0 := Or.inl (by norm_num)
  have hsteps := steps_some (Config.mk 4 (1 / 2 : ℝ) (1 / 2) 1 1 1 1 1 1 1 1 1 1 1 1 3 3 1 false) hcfg
  refine ⟨(Config.mk 4 (1 / 2 : ℝ) (1 / 2) 1 1 1 1 1 1 1 1 1 1 1 1 3 3 1 false),
    (MathFns.mk Real.cos Real.sin Real.tan Real.arctan Real.sqrt
      (toIcoMod Real.two_pi_pos (-Real.pi)) (fun x y => Complex.arg ⟨x, y⟩) (Real.pi / 2)),
    (Collab.mk (fun _ _ _ _ => false) (fun _ _ _ => "a") (fun _ _ _ => none)
      (fun _ _ _ _ _ _ => 0) (fun _ => false) (fun _ _ _ => none)),
    (State.mk [] [] [] none [] ⟨-1, 5, -1, 1⟩ none none false),
    (Node3d.mk 0 0 0 1 [0] [0] [0] "a" 0 0 none 0 true),
    rfl, rfl, rfl, rfl, rfl, rfl, rfl, hcs, hsq, by norm_num, hcfg, ?_⟩
  obtain ⟨-, hpoly, r, hr, hall⟩ := substep_moves_step_size
    (Config.mk 4 (1 / 2 : ℝ) (1 / 2) 1 1 1 1 1 1 1 1 1 1 1 1 3 3 1 false)
    (MathFns.mk Real.cos Real.sin Real.tan Real.arctan Real.sqrt
      (toIcoMod Real.two_pi_pos (-Real.pi)) (fun x y => Complex.arg ⟨x, y⟩) (Real.pi / 2))
    (Collab.mk (fun _ _ _ _ => false) (fun _ _ _ => "a") (fun _ _ _ => none)
      (fun _ _ _ _ _ _ => 0) (fun _ => false) (fun _ _ _ => none))
    (State.mk [] [] [] none [] ⟨-1, 5, -1, 1⟩ none none false)
    (Node3d.mk 0 0 0 1 [0] [0] [0] "a" 0 0 none 0 true) 0 hcs hsq (by norm_num) hcfg
  refine ⟨hpoly, ?_⟩
  obtain ⟨-, hin⟩ := Next_node_generator_spec
    (Config.mk 4 (1 / 2 : ℝ) (1 / 2) 1 1 1 1 1 1 1 1 1 1 1 1 3 3 1 false)
    (MathFns.mk Real.cos Real.sin Real.tan Real.arctan Real.sqrt
      (toIcoMod Real.two_pi_pos (-Real.pi)) (fun x y => Complex.arg ⟨x, y⟩) (Real.pi / 2))
    (Collab.mk (fun _ _ _ _ => false) (fun _ _ _ => "a") (fun _ _ _ => none)
      (fun _ _ _ _ _ _ => 0) (fun _ => false) (fun _ _ _ => none))
    (State.mk [] [] [] none [] ⟨-1, 5, -1, 1⟩ none none false)
    (Node3d.mk 0 0 0 1 [0] [0] [0] "a" 0 0 none 0 true) 0 _ hsteps
  rw [hceil] at hin
  have hinside : ¬ Next_node_generator.outside (State.mk [] [] [] none [] ⟨-1, 5, -1, 1⟩ none none false).XYbounds_
      (Next_node_generator.loopState (Config.mk 4 (1 / 2 : ℝ) (1 / 2) 1 1 1 1 1 1 1 1 1 1 1 1 3 3 1 false)
        (MathFns.mk Real.cos Real.sin Real.tan Real.arctan Real.sqrt
      (toIcoMod Real.two_pi_pos (-Real.pi)) (fun x y => Complex.arg ⟨x, y⟩) (Real.pi / 2))
        (Node3d.mk 0 0 0 1 [0] [0] [0] "a" 0 0 none 0 true) 0 2).1.1
      (Next_node_generator.loopState (Config.mk 4 (1 / 2 : ℝ) (1 / 2) 1 1 1 1 1 1 1 1 1 1 1 1 3 3 1 false)
        (MathFns.mk Real.cos Real.sin Real.tan Real.arctan Real.sqrt
      (toIcoMod Real.two_pi_pos (-Real.pi)) (fun x y => Complex.arg ⟨x, y⟩) (Real.pi / 2))
        (Node3d.mk 0 0 0 1 [0] [0] [0] "a" 0 0 none 0 true) 0 2).1.2.1 := by
    simp only [Next_node_generator.outside, Next_node_generator.loopState,
      Next_node_generator.integrate, Function.iterate_succ, Function.iterate_zero,
      Function.comp, id, Next_node_generator.substep, Next_node_generator.primitive,
      Node3d.GetX, Node3d.GetY, Node3d.GetPhi]
    norm_num
    have c1 : ∀ a b : ℝ, 1 / 2 * Real.cos a + 1 / 2 * Real.cos b ≤ 5 := fun a b => by
      linarith [Real.cos_le_one a, Real.cos_le_one b]
    have c2 : ∀ a b : ℝ, -1 ≤ 1 / 2 * Real.cos a + 1 / 2 * Real.cos b := fun a b => by
      linarith [Real.neg_one_le_cos a, Real.neg_one_le_cos b]
    have c3 : ∀ a b : ℝ, 1 / 2 * Real.sin a + 1 / 2 * Real.sin b ≤ 1 := fun a b => by
      linarith [Real.sin_le_one a, Real.sin_le_one b]
    have c4 : ∀ a b : ℝ, -1 ≤ 1 / 2 * Real.sin a + 1 / 2 * Real.sin b := fun a b => by
      linarith [Real.neg_one_le_sin a, Real.neg_one_le_sin b]
    exact ⟨c1 _ _, c2 _ _, c3 _ _, c4 _ _⟩
  obtain ⟨n, hn, -, -, -, -, e4, -⟩ := hin hinside
  rw [hn] at hr
  have hsz : n.GetStepSize < sizeModulus := by rw [e4]; decide
  obtain ⟨-, hlen, -⟩ := hall n (Option.some.inj hr).symm hsz
  refine ⟨n, hn, e4, ?_⟩
  rw [hlen, e4]
  have e : sizeSub (2 + 1) 1 = 2 := by decide
  rw [e]
  norm_num

/-- C34: with the five trajectory penalties and `step_size_` not negative,
`TrajCost(cur, next)` is not negative for every two nodes, `CalculateNodeCost` gives
`next` a trajectory cost that is at least that of `cur`, every child that the child
loop of `Plan` pushes onto the open queue has the expanded node as predecessor and a
trajectory cost that is at least that of its predecessor, and along the predecessor
chain of every node that the search loop of `Plan` holds in the open queue the
trajectory cost does not decrease. -/
theorem traj_cost_nondecreasing (cfg : Config α) (M : MathFns α) (K : Collab α)
    (self : State α) (ex ey : α)
    (hf : 0 ≤ cfg.traj_forward_penalty_) (hb : 0 ≤ cfg.traj_back_penalty_)
    (hg : 0 ≤ cfg.traj_gear_switch_penalty_) (hs : 0 ≤ cfg.traj_steer_penalty_)
    (hc : 0 ≤ cfg.traj_steer_change_penalty_) (hstep : 0 ≤ cfg.step_size_) :
    (∀ cur next : Node3d α, 0 ≤ TrajCost cfg cur next)
    ∧ (∀ cur next : Node3d α,
        cur.GetTrajCost ≤ (CalculateNodeCost cfg K self ex ey cur next).GetTrajCost)
    ∧ (∀ (cur : Node3d α) (i : Nat) (st st' : List (Node3d α × α) × List String),
        Plan.child cfg M K self ex ey cur st i = some st' →
        st' = st
        ∨ ∃ child, st'.1 = st.1 ++ [(child, child.GetCost)]
            ∧ child.GetPreNode = some cur
            ∧ cur.GetTrajCost ≤ child.GetTrajCost)
    ∧ ∀ (self0 : State α) (sx sy sphi ephi : α) (bounds : XYbounds α)
        (obs : List (List (LineSegment2d α))) (flag : Bool) (fuel : Nat) (l : Plan.Loop α),
        Plan.search cfg M K ex ey fuel
            (Plan.seed K self0 sx sy sphi ex ey ephi bounds obs flag) = some l →
        ∀ p ∈ l.self.open_pq_,
          List.Chain' (fun m n : Node3d α => m.GetTrajCost ≤ n.GetTrajCost)
            (Node3d.chain p.1) := by
  have h0 : ∀ cur next : Node3d α, 0 ≤ TrajCost cfg cur next :=
    fun cur next => TrajCost_nonneg cfg cur next hf hb hg hs hc hstep
  refine ⟨h0, ?_, ?_, ?_⟩
  · intro cur next
    rw [(CalculateNodeCost_fields cfg K self ex ey cur next).2.2]
    linarith [h0 cur next]
  · intro cur i st st' h
    rcases child_cases cfg M K self ex ey cur i st st' h with h | ⟨n, hn, -, -, -, h⟩
    · exact Or.inl h
    · refine Or.inr ⟨CalculateNodeCost cfg K self ex ey cur n, by rw [h], ?_, ?_⟩
      · rw [(CalculateNodeCost_fields cfg K self ex ey cur n).2.1]
        exact (Next_node_generator_some cfg M K self cur n i hn).1
      · rw [(CalculateNodeCost_fields cfg K self ex ey cur n).2.2]
        linarith [h0 cur n]
  · intro self0 sx sy sphi ephi bounds obs flag fuel l h
    exact search_cost_chain cfg M K ex ey h0 fuel _ l
      (seed_cost_chain K self0 sx sy sphi ex ey ephi bounds obs flag) h

set_option maxRecDepth 100000 in
/-- Witness of C34 on the sample configuration, whose penalties are 1 and whose
`step_size_` is `1 / 2`: after the first pass of the sample search the open queue
holds two children of trajectory cost 2 under the start node of trajectory cost 0. -/
theorem traj_cost_nondecreasing_witness :
    0 ≤ sampleConfig.traj_forward_penalty_ ∧ 0 ≤ sampleConfig.traj_back_penalty_
    ∧ 0 ≤ sampleConfig.traj_gear_switch_penalty_ ∧ 0 ≤ sampleConfig.traj_steer_penalty_
    ∧ 0 ≤ sampleConfig.traj_steer_change_penalty_ ∧ 0 ≤ sampleConfig.step_size_
    ∧ (Plan.search sampleConfig sampleMath sampleCollabBlind 3 0 1
        (Plan.seed sampleCollabBlind sampleState 0 0 0 3 0 0 sampleBounds
          [[LineSegment2d.mk ⟨4, 1⟩ ⟨4, -1⟩]] false)).map
        (fun l => l.self.open_pq_.map (fun p => (Node3d.chain p.1).map Node3d.GetTrajCost))
      = some [[0, 2], [0, 2]]
    ∧ (∀ cur next : Node3d ℚ, 0 ≤ TrajCost sampleConfig cur next)
    ∧ (∀ cur next : Node3d ℚ,
        cur.GetTrajCost
          ≤ (CalculateNodeCost sampleConfig sampleCollabBlind sampleStateBounded 3 0 cur
              next).GetTrajCost)
    ∧ (∀ (cur : Node3d ℚ) (i : Nat) (st st' : List (Node3d ℚ × ℚ) × List String),
        Plan.child sampleConfig sampleMath sampleCollabBlind sampleStateBounded 3 0 cur st i
          = some st' →
        st' = st
        ∨ ∃ child, st'.1 = st.1 ++ [(child, child.GetCost)]
            ∧ child.GetPreNode = some cur
            ∧ cur.GetTrajCost ≤ child.GetTrajCost)
    ∧ ∀ (self0 : State ℚ) (sx sy sphi ephi : ℚ) (bounds : XYbounds ℚ)
        (obs : List (List (LineSegment2d ℚ))) (flag : Bool) (fuel : Nat) (l : Plan.Loop ℚ),
        Plan.search sampleConfig sampleMath sampleCollabBlind 3 0 fuel
            (Plan.seed sampleCollabBlind self0 sx sy sphi 3 0 ephi bounds obs flag) = some l →
        ∀ p ∈ l.self.open_pq_,
          List.Chain' (fun m n : Node3d ℚ => m.GetTrajCost ≤ n.GetTrajCost)
            (Node3d.chain p.1) :=
  ⟨by norm_num [sampleConfig], by norm_num [sampleConfig], by norm_num [sampleConfig],
    by norm_num [sampleConfig], by norm_num [sampleConfig], by norm_num [sampleConfig],
    by decide!,
    traj_cost_nondecreasing sampleConfig sampleMath sampleCollabBlind sampleStateBounded 3 0
      (by norm_num [sampleConfig]) (by norm_num [sampleConfig]) (by norm_num [sampleConfig])
      (by norm_num [sampleConfig]) (by norm_num [sampleConfig]) (by norm_num [sampleConfig])⟩

/-- C35: for a segment of `n ≥ 2` poses as `TrajectoryPartition` hands it over,
`GenerateSpeedAcceleration` returns true with `v[0] = 0`, so the first steering value is
computed in the branch for a speed that is not positive:
`steer[0] = atan(-((phi[1] - phi[0]) * wheel_base / step_size_))`, whatever the gear of the
segment. -/
theorem first_steer_of_segment (cfg : Config α) (M : MathFns α) (s : HybridAStartResult α)
    (hs : FreshSegment s) :
    ∃ r phi0 phi1, GenerateSpeedAcceleration cfg M s = some (true, r)
      ∧ s.phi[0]? = some phi0 ∧ s.phi[1]? = some phi1
      ∧ r.v[0]? = some 0
      ∧ r.steer[0]?
        = some (M.atan (-((phi1 - phi0) * cfg.wheel_base / cfg.step_size_))) := by
  obtain ⟨r, hr, -⟩ := GenerateSpeedAcceleration_fresh cfg M s hs
  obtain ⟨h2, hy, hphi, hv, ha, hst, hacc⟩ := hs
  have b0 : 0 < s.phi.length := by omega
  have b1 : 1 < s.phi.length := by omega
  have e0 : s.phi[0]? = some s.phi[0] := List.getElem?_eq_getElem b0
  have e1 : s.phi[1]? = some s.phi[1] := List.getElem?_eq_getElem b1
  refine ⟨r, s.phi[0], s.phi[1], hr, e0, e1, ?_⟩
  have hc : ¬ (s.x.length < 2 ∨ s.y.length < 2 ∨ s.phi.length < 2) := by omega
  simp only [GenerateSpeedAcceleration, if_neg hc, Option.bind_eq_bind, Option.bind_eq_some,
    Option.some.injEq, Prod.mk.injEq, true_and] at hr
  obtain ⟨r2, hr2, r4, hr4, r5, hr5, rfl⟩ := hr
  -- the speed and the acceleration loop keep `phi`, `steer` and `v[0]`
  have p2 : r2.phi = s.phi ∧ r2.steer = [] ∧ r2.v[0]? = some 0 :=
    forRange_preserves (GenerateSpeedAcceleration.speed cfg M)
      (fun r => r.phi = s.phi ∧ r.steer = [] ∧ r.v[0]? = some 0)
      (by
        intro i t t' ht h
        simp only [GenerateSpeedAcceleration.speed, Option.bind_eq_bind, Option.bind_eq_some,
          Option.some.injEq] at h
        obtain ⟨_, _, _, _, _, _, _, _, _, _, _, _, _, _, rfl⟩ := h
        exact ⟨ht.1, ht.2.1, getElem?_zero_append _ _ _ ht.2.2⟩)
      (s.x.length - 2) 1 { s with v := s.v ++ [0] } r2 ⟨rfl, hst, by rw [hv]; rfl⟩ hr2
  have p4 : r4.phi = s.phi ∧ r4.steer = [] ∧ r4.v[0]? = some 0 :=
    forRange_preserves (GenerateSpeedAcceleration.acceleration cfg)
      (fun r => r.phi = s.phi ∧ r.steer = [] ∧ r.v[0]? = some 0)
      (by
        intro i t t' ht h
        simp only [GenerateSpeedAcceleration.acceleration, Option.bind_eq_bind,
          Option.bind_eq_some, Option.some.injEq] at h
        obtain ⟨_, _, _, _, rfl⟩ := h
        exact ht)
      (s.x.length - 1) 0 { r2 with v := r2.v ++ [0] } r4
      ⟨p2.1, p2.2.1, getElem?_zero_append _ _ _ p2.2.2⟩ hr4
  -- the first pass of the steering loop
  obtain ⟨m, hm⟩ : ∃ m, s.x.length - 1 = m + 1 := ⟨s.x.length - 2, by omega⟩
  rw [hm, forRange] at hr5
  simp only [Option.bind_eq_some] at hr5
  obtain ⟨t1, ht1, hr5⟩ := hr5
  have q1 : t1.steer[0]?
        = some (M.atan (-((s.phi[1] - s.phi[0]) * cfg.wheel_base / cfg.step_size_)))
      ∧ t1.v[0]? = some 0 := by
    simp only [GenerateSpeedAcceleration.steering, p4.1, p4.2.1, p4.2.2, e0, e1,
      Option.bind_eq_bind, Option.some_bind, Option.some.injEq, gt_iff_lt, lt_self_iff_false,
      if_false] at ht1
    rw [← ht1]
    exact ⟨by simp, p4.2.2⟩
  exact (forRange_preserves (GenerateSpeedAcceleration.steering cfg M)
    (fun r => r.steer[0]?
        = some (M.atan (-((s.phi[1] - s.phi[0]) * cfg.wheel_base / cfg.step_size_)))
      ∧ r.v[0]? = some 0)
    (by
      intro i t t' ht h
      simp only [GenerateSpeedAcceleration.steering, Option.bind_eq_bind, Option.bind_eq_some,
        Option.some.injEq] at h
      obtain ⟨_, _, _, _, _, _, rfl⟩ := h
      exact ⟨getElem?_zero_append _ _ _ ht.1, ht.2⟩)
    m 1 t1 r5 q1 hr5).symm

set_option maxRecDepth 100000 in
/-- Witness of C35 on a sample segment driven forward with a growing heading: the
first steering value is `atan(-3)` while the second, at the positive speed `v[1] = 2`,
is `atan(3)`. -/
theorem first_steer_of_segment_witness :
    FreshSegment sampleSegment
    ∧ (GenerateSpeedAcceleration sampleConfig sampleMath sampleSegment).map
        (fun p => (p.1, p.2.v, p.2.steer)) = some (true, [0, 2, 0], [-3, 3])
    ∧ ∃ r phi0 phi1, GenerateSpeedAcceleration sampleConfig sampleMath sampleSegment
          = some (true, r)
      ∧ sampleSegment.phi[0]? = some phi0 ∧ sampleSegment.phi[1]? = some phi1
      ∧ r.v[0]? = some 0
      ∧ r.steer[0]?
        = some (sampleMath.atan
            (-((phi1 - phi0) * sampleConfig.wheel_base / sampleConfig.step_size_))) :=
  ⟨⟨by decide, rfl, rfl, rfl, rfl, rfl, rfl⟩, by decide!,
    first_steer_of_segment sampleConfig sampleMath sampleSegment
      ⟨by decide, rfl, rfl, rfl, rfl, rfl, rfl⟩⟩

end HybridAStar

end planning
end apollo
